import Mathlib

/-!
Pintos virtual memory: swap store, frame table, supplemental page table, syscall bridge

A shallow embedding of `vm/swap.c`, `vm/frame.c`, `vm/page.c` and
`userprog/syscall.c` (project 3).  Kernel code becomes functions in a small
state monad `K` over the record `Kernel`; a kernel `ASSERT`/`PANIC` and a
process exit are outcomes of their own.  Machine integers are naturals with
explicit reductions (`size_t` and `block_sector_t` are 32 bits wide,
`swap_index` in `struct spte` is 16 bits wide).
-/

namespace Pintos

/-! ## Constants -/

abbrev Byte := Nat

/-- Modelled from the spec: `threads/vaddr.h` is not among the sources; a page
is 4096 bytes (section 6.3). -/
abbrev PGBITS : Nat := 12

abbrev PGSIZE : Nat := 4096

abbrev PGMASK : Nat := 4095

/-- Modelled from the spec: `threads/vaddr.h` is not among the sources; the
user/kernel split of section 6.3 (the stack of scenario 1 ends below it). -/
abbrev PHYS_BASE : Nat := 0xC0000000

/-- Modelled from the spec: `devices/block.h` is not among the sources; a
sector is 512 bytes (section 6.2). -/
abbrev BLOCK_SECTOR_SIZE : Nat := 512

/-- `#define FRAME_SECTORS 8` in `vm/swap.c`. -/
abbrev FRAME_SECTORS : Nat := 8

/-- `#define SWAP_FREE false` in `vm/swap.c`. -/
abbrev SWAP_FREE : Bool := false

/-- Largest value of the 32-bit `size_t`. -/
abbrev SIZE_MAX : Nat := 4294967295

/-- Modelled from the spec: `lib/kernel/bitmap.h` is not among the sources;
the value a bitmap scan returns when no bit qualifies is the largest `size_t`. -/
abbrev BITMAP_ERROR : Nat := SIZE_MAX

/-- `#define NOT_IN_SWAP_PARTITION 0xFFFF` in `vm/page.c`. -/
abbrev NOT_IN_SWAP_PARTITION : Nat := 0xFFFF

/-- `#define FILENO_START 2` in `userprog/process.h`. -/
abbrev FILENO_START : Int := 2

/-- `#define ERROR -1` in `userprog/syscall.h`. -/
abbrev ERROR : Int := -1

/-- `#define MAP_FAILED ((mapid_t) -1)`. -/
abbrev MAP_FAILED : Int := -1

abbrev STDOUT_FILENO : Int := 1

/-- Conversion to `uint16_t`. -/
def to_uint16 (n : Nat) : Nat := n % 65536

/-- Conversion to the 32-bit `block_sector_t` / `size_t` / `unsigned`. -/
def to_uint32 (n : Nat) : Nat := n % 4294967296

def pg_ofs (va : Nat) : Nat := va % PGSIZE

def pg_round_down (va : Nat) : Nat := va - va % PGSIZE

def is_user_vaddr (va : Nat) : Bool := decide (va < PHYS_BASE)

/-! ## Bitmap (the swap table) -/

structure bitmap where
  bit_cnt : Nat
  bits : Nat → Bool

/-- Modelled from the spec: `lib/kernel/bitmap.c` is not among the sources;
`init` creates a free-slot bitmap, every bit clear (section 4.1). -/
def bitmap_create (bit_cnt : Nat) : bitmap :=
  { bit_cnt := bit_cnt, bits := fun _ => false }

/-- Scan upwards from index `i` over `n` candidate bits for one equal to
`value`. -/
def bitmap_scan_from (b : bitmap) (value : Bool) : Nat → Nat → Nat
  | 0, _ => BITMAP_ERROR
  | n + 1, i => if b.bits i = value then i else bitmap_scan_from b value n (i + 1)

/-- Modelled from the spec: `bitmap_scan (b, start, 1, value)` of
`lib/kernel/bitmap.c`, the lowest index at or after `start` whose bit is
`value`, or `BITMAP_ERROR`. -/
def bitmap_scan (b : bitmap) (start : Nat) (value : Bool) : Nat :=
  bitmap_scan_from b value (b.bit_cnt - start) start

def bitmap_set (b : bitmap) (idx : Nat) (value : Bool) : bitmap :=
  { b with bits := fun i => if i = idx then value else b.bits i }

/-- Modelled from the spec: `bitmap_scan_and_flip (b, start, 1, value)`,
"atomically flips one free bit to used" (section 4.1). -/
def bitmap_scan_and_flip (b : bitmap) (start : Nat) (value : Bool) : Nat × bitmap :=
  let idx := bitmap_scan b start value
  if idx ≠ BITMAP_ERROR then (idx, bitmap_set b idx (!value)) else (idx, b)

/-! ## Block device -/

/-- Modelled from the spec: the block device driver is not among the sources;
the device is an array of 512-byte sectors addressed by sector number
(section 6.2).  `data s i` is byte `i` of sector `s`. -/
structure block where
  size : Nat
  data : Nat → Nat → Byte

/-- Modelled from the spec: `block_write (block, sector, buffer)` stores the
512 bytes at `buffer` in sector `sector` of a device of `size` sectors.  For a
sector past the end of the device the driver stops the kernel ("Access past
end of device"); that outcome is `none`. -/
def block_write (blk : block) (sector : Nat) (buffer : Nat → Byte) : Option block :=
  if sector < blk.size then
    some { blk with
      data := fun s i =>
        if s = sector ∧ i < BLOCK_SECTOR_SIZE then buffer i else blk.data s i }
  else none

/-- Modelled from the spec: `block_read (block, sector, buffer)` yields the
512 bytes of sector `sector`; for a sector past the end of the device the
driver stops the kernel, which is `none`. -/
def block_read (blk : block) (sector : Nat) : Option (Nat → Byte) :=
  if sector < blk.size then some (blk.data sector) else none

/-! ## Records of the memory subsystem -/

inductive page_type where
  | FILE
  | MMAP
  | ZERO
  deriving DecidableEq, Repr

structure file_page where
  file : Nat
  offset : Nat
  read_bytes : Nat
  writable : Bool
  deriving DecidableEq, Repr

structure mmap_page where
  mmap_fd : Int
  offset : Nat
  read_bytes : Nat
  deriving DecidableEq, Repr

/-- `struct spte`.  The C union of `file_page` and `mmap_page` is kept as two
fields; the code reads only the one that `page_type` selects.  `fte` holds
the handle of the frame table entry (its `kpage`), `mmap_page.mmap_fd` the
`mapid` of the owning region. -/
structure spte where
  file_page : file_page
  mmap_page : mmap_page
  upage : Nat
  fte : Option Nat
  swap_index : Nat
  page_type : page_type
  deriving DecidableEq, Repr

/-- `struct fte`.  `spte` is the key (`upage`) of the supplemental entry in
the owner's table, `owner` the owning thread. -/
structure fte where
  pinned : Bool
  kpage : Nat
  spte : Nat
  owner : Nat
  deriving DecidableEq, Repr

/-- `struct file_descriptor`. -/
structure file_descriptor where
  fileno : Int
  file : Nat
  deriving DecidableEq, Repr

/-- `struct mmap_fd`; `spte_list` holds the keys of the region's pages. -/
structure mmap_fd where
  mapid : Int
  file : Nat
  spte_list : List Nat
  deriving DecidableEq, Repr

/-- Modelled from the spec: `userprog/pagedir.c` is not among the sources; a
page-directory entry maps a user page to a kernel page with a writable flag
and the accessed and dirty bits. -/
structure pte where
  kpage : Nat
  writable : Bool
  accessed : Bool
  dirty : Bool
  deriving DecidableEq, Repr

/-- The part of `struct thread` the memory subsystem uses. -/
structure thread where
  pagedir : Nat → Option pte
  sup_page_table : Nat → Option spte
  mmap_list : List mmap_fd
  fd_list : List file_descriptor
  exit_status : Int

/-- What the kernel does that is visible outside the memory subsystem: the
calls it makes into the file system and the console, the user addresses it
reads, and the addresses `kill_on_bad_uaddr` has examined. -/
inductive event where
  | file_read_at (file size offset : Nat)
  | file_write_at (file size offset : Nat)
  | file_read (file buffer size : Nat)
  | file_write (file buffer size : Nat)
  | file_length (file : Nat)
  | file_seek (file position : Nat)
  | file_close (file : Nat)
  | file_reopen (file : Nat)
  | filesys_open (name : Nat)
  | filesys_create (name size : Nat)
  | filesys_remove (name : Nat)
  | putbuf (buffer size : Nat)
  | process_execute (cmdline : Nat)
  | process_wait (pid : Int)
  | deref (uaddr : Nat)
  | check (uaddr : Nat)
  deriving DecidableEq, Repr

/-- Modelled from the spec: the file system is not among the sources.  A file
on disk (an inode) has a length and contents; an open handle (`struct file *`,
0 is `NULL`) refers to an inode and has a position; `lookup` tells which inode
a path names, the path being identified by the user address of its string. -/
structure filesys where
  inode_length : Nat → Nat
  inode_data : Nat → Nat → Byte
  inode_of : Nat → Nat
  pos : Nat → Nat
  next_file : Nat
  next_inode : Nat
  lookup : Nat → Option Nat

/-- The machine state the embedded code runs on.  `user_word` and
`user_strlen` describe user memory as the kernel reads it: the 32-bit word at
a user address, and the length `strlen` finds for the string at an address.
`swap_fits` records how `swap_init` sizes the swap table, with one bit per
`FRAME_SECTORS` sectors of the device: neither the number of bits nor the
number of sectors changes afterwards, so every slot of the table lies on the
device. -/
structure Kernel where
  current : Nat
  threads : Nat → thread
  frame_table : List fte
  swap_table : bitmap
  swap_block : block
  swap_fits : swap_table.bit_cnt * FRAME_SECTORS ≤ swap_block.size
  ram : Nat → Nat → Byte
  user_pool : List Nat
  fs : filesys
  user_word : Nat → Nat
  user_strlen : Nat → Nat
  exec_pid : Nat → Int
  wait_status : Int → Int
  trace : List event

/-! Field updates of the machine state. -/

def Kernel.with_threads (k : Kernel) (v : Nat → thread) : Kernel :=
  { k with threads := v }

def Kernel.with_frame_table (k : Kernel) (v : List fte) : Kernel :=
  { k with frame_table := v }

/-- The swap table takes the bits of `v`; its number of bits is the one
`swap_init` gave it. -/
def Kernel.with_swap_table (k : Kernel) (v : bitmap) : Kernel :=
  { k with
    swap_table := { bit_cnt := k.swap_table.bit_cnt, bits := v.bits },
    swap_fits := k.swap_fits }

/-- The swap device takes the contents of `v`; its number of sectors does not
change. -/
def Kernel.with_swap_block (k : Kernel) (v : block) : Kernel :=
  { k with
    swap_block := { size := k.swap_block.size, data := v.data },
    swap_fits := k.swap_fits }

def Kernel.with_ram (k : Kernel) (v : Nat → Nat → Byte) : Kernel :=
  { k with ram := v }

def Kernel.with_user_pool (k : Kernel) (v : List Nat) : Kernel :=
  { k with user_pool := v }

def Kernel.with_fs (k : Kernel) (v : filesys) : Kernel :=
  { k with fs := v }

def Kernel.with_trace (k : Kernel) (v : List event) : Kernel :=
  { k with trace := v }

/-- The site of a kernel `ASSERT` or `PANIC` that stopped the machine. -/
inductive panic_site where
  | swap_out_index
  | bitmap_index
  | frame_table_empty
  | evict_links
  | evict_not_mapped
  | frame_alloc_spte
  | frame_free_fte
  | pagedir_set_page_present
  | frame_pin_addr_spte
  | frame_unpin_addr_spte
  | page_get_spte_vaddr
  | page_add_upage
  | page_add_exists
  | page_add_file
  | page_add_offset
  | page_add_length
  | create_spte_vaddr
  | load_page_type
  | load_read_short
  | load_swap_slot
  | block_sector
  | null_deref
  deriving DecidableEq, Repr

/-- How a piece of kernel code ends: it returns a value in a new state, the
process is terminated through `syscall_exit`, the machine is powered off, the
kernel panics, or the iteration budget of a loop of the embedding is used up. -/
inductive Res (α : Type) where
  | ok (a : α) (k : Kernel)
  | killed (status : Int) (k : Kernel)
  | halted (k : Kernel)
  | panic (site : panic_site)
  | out_of_fuel

/-- Kernel code. -/
def K (α : Type) : Type := Kernel → Res α

def K.ret {α : Type} (a : α) : K α := fun k => Res.ok a k

def K.seq {α β : Type} (x : K α) (f : α → K β) : K β := fun k =>
  match x k with
  | Res.ok a k1 => f a k1
  | Res.killed s k1 => Res.killed s k1
  | Res.halted k1 => Res.halted k1
  | Res.panic p => Res.panic p
  | Res.out_of_fuel => Res.out_of_fuel

instance : Monad K where
  pure := K.ret
  bind := K.seq

def K.get : K Kernel := fun k => Res.ok k k

def K.modify (f : Kernel → Kernel) : K Unit := fun k => Res.ok () (f k)

def K.panic {α : Type} (site : panic_site) : K α := fun _ => Res.panic site

def K.no_fuel {α : Type} : K α := fun _ => Res.out_of_fuel

/-- `ASSERT (c)`. -/
def K.assert (c : Bool) (site : panic_site) : K Unit :=
  if c then pure () else K.panic site

/-! ## vm/swap.c -/

/-- `swap_init`: the swap table has one bit per 8 sectors of the device. -/
def swap_init (blk : block) (k : Kernel) : Kernel :=
  { k with
    swap_block := blk,
    swap_table := bitmap_create (blk.size / FRAME_SECTORS),
    swap_fits := Nat.div_mul_le_self blk.size FRAME_SECTORS }

/-- The `for` loop of `swap_out`: one `block_write` per sector, `offset`
advancing by a sector and `sector` by one (in `block_sector_t`). -/
def swap_out_loop (page : Nat → Byte) : Nat → Nat → Nat → block → Option block
  | 0, _, _, blk => some blk
  | fuel + 1, offset, sector, blk =>
    if offset < PGSIZE then
      match block_write blk sector (fun i => page (offset + i)) with
      | some b =>
        swap_out_loop page fuel (offset + BLOCK_SECTOR_SIZE) (to_uint32 (sector + 1)) b
      | none => none
    else some blk

/-- `swap_out (kpage)`. -/
def swap_out (kpage : Nat) : K Nat := do
  let k ← K.get
  let (swap_index, table) := bitmap_scan_and_flip k.swap_table 0 SWAP_FREE
  K.modify (fun k => k.with_swap_table table)
  K.assert (decide (swap_index ≠ to_uint16 BITMAP_ERROR)) panic_site.swap_out_index
  let sector := to_uint32 (swap_index * FRAME_SECTORS)
  match swap_out_loop (k.ram kpage) PGSIZE 0 sector k.swap_block with
  | none => K.panic panic_site.block_sector
  | some blk =>
    K.modify (fun k => k.with_swap_block blk)
    pure swap_index

/-- The `for` loop of `swap_in`: one `block_read` per sector into the page
at `offset`. -/
def swap_in_loop (blk : block) : Nat → Nat → Nat → (Nat → Byte) → Option (Nat → Byte)
  | 0, _, _, page => some page
  | fuel + 1, offset, sector, page =>
    if offset < PGSIZE then
      match block_read blk sector with
      | some buffer =>
        swap_in_loop blk fuel (offset + BLOCK_SECTOR_SIZE) (to_uint32 (sector + 1))
          (fun i =>
            if offset ≤ i ∧ i < offset + BLOCK_SECTOR_SIZE then buffer (i - offset)
            else page i)
      | none => none
    else some page

/-- `bitmap_reset (b, idx)`, with the bound assertion of the bitmap library. -/
def bitmap_reset (idx : Nat) : K Unit := do
  let k ← K.get
  K.assert (decide (idx < k.swap_table.bit_cnt)) panic_site.bitmap_index
  K.modify (fun k => k.with_swap_table (bitmap_set k.swap_table idx false))

/-- `swap_in (kpage, swap_index)`. -/
def swap_in (kpage : Nat) (swap_index : Nat) : K Unit := do
  let sector := to_uint32 (swap_index * FRAME_SECTORS)
  let k ← K.get
  match swap_in_loop k.swap_block PGSIZE 0 sector (k.ram kpage) with
  | none => K.panic panic_site.block_sector
  | some page =>
    K.modify (fun k => k.with_ram (fun p => if p = kpage then page else k.ram p))
    bitmap_reset swap_index

/-- `swap_free_index (swap_index)`. -/
def swap_free_index (swap_index : Nat) : K Unit :=
  bitmap_reset swap_index

/-- `swap_test_index (swap_index)`. -/
def swap_test_index (swap_index : Nat) : K Bool := do
  let k ← K.get
  K.assert (decide (swap_index < k.swap_table.bit_cnt)) panic_site.bitmap_index
  pure (k.swap_table.bits swap_index)

end Pintos

namespace Pintos

/-! ## Threads and the page directory -/

/-- `thread_current ()`. -/
def Kernel.cur (k : Kernel) : thread := k.threads k.current

def Kernel.with_thread (k : Kernel) (tid : Nat) (f : thread → thread) : Kernel :=
  k.with_threads (fun i => if i = tid then f (k.threads i) else k.threads i)

/-- Assignment through a `struct spte *`: the entry stored under `key` in the
table of the thread is changed. -/
def thread.with_spte (t : thread) (key : Nat) (f : spte → spte) : thread :=
  { t with
    sup_page_table := fun p =>
      if p = key then (t.sup_page_table p).map f else t.sup_page_table p }

def thread.with_pagedir (t : thread) (pd : Nat → Option pte) : thread :=
  { t with pagedir := pd }

def K.emit (e : event) : K Unit :=
  K.modify (fun k => k.with_trace (k.trace ++ [e]))

/-- Modelled from the spec: `pagedir_get_page` of `userprog/pagedir.c`, the
kernel address a user address is mapped to, if any. -/
def pagedir_get_page (pd : Nat → Option pte) (uaddr : Nat) : Option Nat :=
  (pd (pg_round_down uaddr)).map (fun e => e.kpage + pg_ofs uaddr)

/-- Modelled from the spec: `pagedir_is_accessed`. -/
def pagedir_is_accessed (pd : Nat → Option pte) (upage : Nat) : Bool :=
  match pd (pg_round_down upage) with
  | some e => e.accessed
  | none => false

/-- Modelled from the spec: `pagedir_is_dirty`. -/
def pagedir_is_dirty (pd : Nat → Option pte) (upage : Nat) : Bool :=
  match pd (pg_round_down upage) with
  | some e => e.dirty
  | none => false

/-- Modelled from the spec: `pagedir_set_accessed`. -/
def pagedir_set_accessed (pd : Nat → Option pte) (upage : Nat) (v : Bool) :
    Nat → Option pte :=
  fun p => if p = pg_round_down upage then (pd p).map (fun e => { e with accessed := v })
    else pd p

/-- Modelled from the spec: `pagedir_set_dirty`. -/
def pagedir_set_dirty (pd : Nat → Option pte) (upage : Nat) (v : Bool) :
    Nat → Option pte :=
  fun p => if p = pg_round_down upage then (pd p).map (fun e => { e with dirty := v })
    else pd p

/-- Modelled from the spec: `pagedir_clear_page`, after which the page
directory has no mapping for the page. -/
def pagedir_clear_page (pd : Nat → Option pte) (upage : Nat) : Nat → Option pte :=
  fun p => if p = pg_round_down upage then none else pd p

/-- Modelled from the spec: `pagedir_set_page`, which installs a fresh mapping
(accessed and dirty clear) and asserts that the page was not mapped. -/
def pagedir_set_page (tid upage kpage : Nat) (writable : Bool) : K Unit := do
  let k ← K.get
  K.assert ((k.threads tid).pagedir (pg_round_down upage)).isNone
    panic_site.pagedir_set_page_present
  K.modify (fun k => k.with_thread tid (fun t => t.with_pagedir (fun p =>
    if p = pg_round_down upage then
      some { kpage := kpage, writable := writable, accessed := false, dirty := false }
    else t.pagedir p)))

/-! ## The page allocator and the file system, as the core uses them -/

/-- `enum palloc_flags`, the two flags the core passes. -/
structure palloc_flags where
  user : Bool
  zero : Bool
  deriving DecidableEq, Repr

abbrev PAL_USER : palloc_flags := { user := true, zero := false }

abbrev PAL_USER_ZERO : palloc_flags := { user := true, zero := true }

/-- Modelled from the spec: `palloc_get_page` of `threads/palloc.c`; a free
user frame, zero-filled on `PAL_ZERO`, or `NULL` when the pool is empty. -/
def palloc_get_page (flags : palloc_flags) : K (Option Nat) := fun k =>
  match k.user_pool with
  | [] => Res.ok none k
  | p :: rest =>
    Res.ok (some p)
      ((k.with_user_pool rest).with_ram
        (fun q => if q = p ∧ flags.zero = true then fun _ => 0 else k.ram q))

/-- Modelled from the spec: `palloc_free_page`. -/
def palloc_free_page (kpage : Nat) : K Unit :=
  K.modify (fun k => k.with_user_pool (kpage :: k.user_pool))

/-- Bytes a transfer of `size` bytes at `offset` of a file of length `len`
really moves. -/
def file_span (len size offset : Nat) : Nat := min size (len - offset)

/-- Modelled from the spec: `file_write_at (file, kpage, size, offset)` from a
kernel page; files do not grow. -/
def file_write_at (file kpage size offset : Nat) : K Nat := do
  K.emit (event.file_write_at file size offset)
  let k ← K.get
  let ino := k.fs.inode_of file
  let n := file_span (k.fs.inode_length ino) size offset
  K.modify (fun k =>
    k.with_fs
      { k.fs with
        inode_data := fun i j =>
          if i = ino ∧ offset ≤ j ∧ j < offset + n then k.ram kpage (j - offset)
          else k.fs.inode_data i j })
  pure n

/-- Modelled from the spec: `file_read_at (file, kpage, size, offset)` into a
kernel page. -/
def file_read_at (file kpage size offset : Nat) : K Nat := do
  K.emit (event.file_read_at file size offset)
  let k ← K.get
  let ino := k.fs.inode_of file
  let n := file_span (k.fs.inode_length ino) size offset
  K.modify (fun k =>
    k.with_ram (fun p i =>
      if p = kpage ∧ i < n then k.fs.inode_data ino (offset + i) else k.ram p i))
  pure n

/-- `memset (kpage + from, 0, PGSIZE - from)`. -/
def zero_tail (kpage start : Nat) : K Unit :=
  K.modify (fun k =>
    k.with_ram (fun p i => if p = kpage ∧ start ≤ i ∧ i < PGSIZE then 0 else k.ram p i))

/-! ## vm/page.c: lookup -/

/-- `page_get_spte (uaddr)`: the entry of the current thread for the page of
`uaddr`, or `NULL`. -/
def page_get_spte (uaddr : Nat) : K (Option spte) := do
  K.assert (is_user_vaddr uaddr) panic_site.page_get_spte_vaddr
  let k ← K.get
  pure (k.cur.sup_page_table (pg_round_down uaddr))

/-! ## vm/frame.c -/

/-- `write_back (spte)`, for an entry of thread `owner`. -/
def write_back (owner : Nat) (sp : spte) : K Unit := do
  let k ← K.get
  match sp.page_type with
  | page_type.FILE =>
    match sp.fte with
    | none => K.panic panic_site.null_deref
    | some kpage =>
      let _ ← file_write_at sp.file_page.file kpage PGSIZE (sp.file_page.offset * PGSIZE)
      pure ()
  | page_type.MMAP =>
    match (k.threads owner).mmap_list.find? (fun m => decide (m.mapid = sp.mmap_page.mmap_fd)) with
    | none => K.panic panic_site.null_deref
    | some m =>
      match sp.fte with
      | none => K.panic panic_site.null_deref
      | some kpage =>
        let _ ← file_write_at m.file kpage PGSIZE (sp.mmap_page.offset * PGSIZE)
        pure ()
  | page_type.ZERO => pure ()

/-- The `while (true)` loop of `evict`: pop the head of the frame table, skip
it when pinned, choose it when its page was not accessed, otherwise clear one
of its bits (after a write back when dirty); a frame not chosen goes to the
back of the list.  Returns the chosen frame and its entry. -/
def evict_loop : Nat → K (fte × spte)
  | 0 => K.no_fuel
  | fuel + 1 => do
    let k ← K.get
    match k.frame_table with
    | [] => K.panic panic_site.frame_table_empty
    | f :: rest =>
      K.modify (fun k => k.with_frame_table rest)
      match (k.threads f.owner).sup_page_table f.spte with
      | none => K.panic panic_site.evict_links
      | some sp =>
        let pagedir := (k.threads f.owner).pagedir
        let upage := sp.upage
        K.assert (decide (upage ≠ 0)) panic_site.evict_links
        K.assert (pagedir_get_page pagedir upage).isSome panic_site.evict_not_mapped
        if f.pinned then do
          K.modify (fun k => k.with_frame_table (k.frame_table ++ [f]))
          evict_loop fuel
        else if !pagedir_is_accessed pagedir upage then
          pure (f, sp)
        else do
          if pagedir_is_dirty pagedir upage then do
            write_back f.owner sp
            K.modify (fun k => k.with_thread f.owner (fun t =>
              t.with_pagedir (pagedir_set_dirty t.pagedir upage false)))
          else
            K.modify (fun k => k.with_thread f.owner (fun t =>
              t.with_pagedir (pagedir_set_accessed t.pagedir upage false)))
          K.modify (fun k => k.with_frame_table (k.frame_table ++ [f]))
          evict_loop fuel

/-- `evict ()`; `fuel` bounds the iterations of its loop. -/
def evict (fuel : Nat) : K Unit := do
  let k ← K.get
  K.assert (!k.frame_table.isEmpty) panic_site.frame_table_empty
  let (f, sp) ← evict_loop fuel
  let swap_index ← swap_out f.kpage
  K.modify (fun k => k.with_thread f.owner (fun t =>
    t.with_spte f.spte (fun s => { s with swap_index := to_uint16 swap_index })))
  K.modify (fun k => k.with_thread f.owner (fun t =>
    t.with_pagedir (pagedir_clear_page t.pagedir sp.upage)))
  K.modify (fun k => k.with_thread f.owner (fun t =>
    t.with_spte f.spte (fun s => { s with fte := none })))
  palloc_free_page f.kpage

/-- The loop of `frame_alloc` that obtains a free frame:
`while (!kpage) { evict (); kpage = palloc_get_page (flags); }`. -/
def frame_alloc_page (fuel : Nat) (flags : palloc_flags) : Nat → K Nat
  | 0 => K.no_fuel
  | n + 1 => do
    match ← palloc_get_page flags with
    | some kpage => pure kpage
    | none => do
      evict fuel
      frame_alloc_page fuel flags n

/-- `frame_alloc (spte, flags, writable)`; `key` is the entry of the current
thread that `spte` points to. -/
def frame_alloc (fuel : Nat) (key : Nat) (flags : palloc_flags) (writable : Bool) : K fte := do
  let k ← K.get
  match k.cur.sup_page_table key with
  | none => K.panic panic_site.frame_alloc_spte
  | some sp =>
    K.assert (decide (sp.upage ≠ 0) && is_user_vaddr sp.upage) panic_site.frame_alloc_spte
    K.assert flags.user panic_site.frame_alloc_spte
    let kpage ← frame_alloc_page fuel flags (fuel + 1)
    let f : fte := { spte := key, kpage := kpage, owner := k.current, pinned := true }
    K.modify (fun k => k.with_frame_table (k.frame_table ++ [f]))
    K.modify (fun k => k.with_thread f.owner (fun t =>
      t.with_spte key (fun s => { s with fte := some kpage })))
    pagedir_set_page f.owner sp.upage kpage writable
    pure f

/-- `frame_free (fte)`; `h` is the handle of the frame table entry. -/
def frame_free (h : Nat) : K Unit := do
  let k ← K.get
  match k.frame_table.find? (fun f => decide (f.kpage = h)) with
  | none => K.panic panic_site.frame_free_fte
  | some f =>
    match (k.threads f.owner).sup_page_table f.spte with
    | none => K.panic panic_site.null_deref
    | some sp =>
      K.modify (fun k =>
        k.with_frame_table (k.frame_table.filter (fun g => decide (g.kpage ≠ h))))
      (if pagedir_is_dirty k.cur.pagedir sp.upage then write_back f.owner sp else pure ())
      K.modify (fun k => k.with_thread k.current (fun t =>
        t.with_pagedir (pagedir_clear_page t.pagedir sp.upage)))
      palloc_free_page f.kpage
      K.modify (fun k => k.with_thread f.owner (fun t =>
        t.with_spte f.spte (fun s => { s with fte := none })))

/-- Assignment to `spte->fte->pinned`. -/
def set_pinned (h : Nat) (v : Bool) : K Unit :=
  K.modify (fun k =>
    k.with_frame_table
      (k.frame_table.map (fun f => if f.kpage = h then { f with pinned := v } else f)))

/-- `frame_unpin_addr (uaddr)`. -/
def frame_unpin_addr (uaddr : Nat) : K Unit := do
  match ← page_get_spte uaddr with
  | none => K.panic panic_site.frame_unpin_addr_spte
  | some sp =>
    match sp.fte with
    | none => K.panic panic_site.frame_unpin_addr_spte
    | some h => set_pinned h false

/-! ## vm/page.c -/

/-- Modelled from the spec: `USER_VADDR_BOTTOM`, the lowest user address
(`USER_BOTTOM` of section 6.3; scenario 2 places the first page there). -/
abbrev USER_VADDR_BOTTOM : Nat := 0x08048000

/-- `create_spte (uaddr, page_type)`; the members of the union are not
initialised. -/
def create_spte (uaddr : Nat) (ty : page_type) : K spte := do
  K.assert (decide (uaddr ≠ 0) && is_user_vaddr uaddr) panic_site.create_spte_vaddr
  K.assert (decide (USER_VADDR_BOTTOM ≤ uaddr)) panic_site.create_spte_vaddr
  pure
    { file_page := { file := 0, offset := 0, read_bytes := 0, writable := false },
      mmap_page := { mmap_fd := 0, offset := 0, read_bytes := 0 },
      upage := pg_round_down uaddr,
      fte := none,
      swap_index := NOT_IN_SWAP_PARTITION,
      page_type := ty }

/-- `hash_insert (&thread_current ()->sup_page_table, &spte->elem)`: the entry
already stored under the same `upage`, or `NULL` after inserting. -/
def hash_insert (sp : spte) : K (Option spte) := do
  let k ← K.get
  match k.cur.sup_page_table sp.upage with
  | some old => pure (some old)
  | none =>
    K.modify (fun k => k.with_thread k.current (fun t =>
      { t with sup_page_table := fun p => if p = sp.upage then some sp else t.sup_page_table p }))
    pure none

/-- `hash_delete` followed by `free (spte)`: the entry leaves the table. -/
def hash_delete (upage : Nat) : K Unit :=
  K.modify (fun k => k.with_thread k.current (fun t =>
    { t with sup_page_table := fun p => if p = upage then none else t.sup_page_table p }))

/-- `page_add_zero_lazily (upage)`. -/
def page_add_zero_lazily (upage : Nat) : K Unit := do
  K.assert (decide (upage ≠ 0) && is_user_vaddr upage) panic_site.page_add_upage
  let old ← page_get_spte upage
  K.assert old.isNone panic_site.page_add_exists
  let sp ← create_spte upage page_type.ZERO
  let clash ← hash_insert sp
  K.assert clash.isNone panic_site.page_add_exists

/-- `page_add_file_lazily (upage, file, read_bytes, offset, writable)`. -/
def page_add_file_lazily (upage file read_bytes offset : Nat) (writable : Bool) : K Unit := do
  K.assert (decide (upage ≠ 0) && is_user_vaddr upage) panic_site.page_add_upage
  K.assert (decide (file ≠ 0)) panic_site.page_add_file
  K.assert (decide (pg_ofs offset = 0)) panic_site.page_add_offset
  K.assert (decide (offset < 0xFFFF * PGSIZE)) panic_site.page_add_offset
  let old ← page_get_spte upage
  K.assert old.isNone panic_site.page_add_exists
  let sp ← create_spte upage page_type.FILE
  let sp := { sp with
    file_page := { file := file, read_bytes := to_uint16 read_bytes,
                   offset := to_uint16 (offset / PGSIZE), writable := writable } }
  let clash ← hash_insert sp
  K.assert clash.isNone panic_site.page_add_exists

/-- `load_zero_page (spte)`; `key` is the entry `spte` points to. -/
def load_zero_page (fuel : Nat) (key : Nat) (sp : spte) : K Unit := do
  K.assert (decide (sp.page_type = page_type.ZERO)) panic_site.load_page_type
  let _ ← frame_alloc fuel key PAL_USER_ZERO true
  frame_unpin_addr sp.upage

/-- `load_file_page (spte)`. -/
def load_file_page (fuel : Nat) (key : Nat) (sp : spte) : K Unit := do
  let f ← frame_alloc fuel key PAL_USER sp.file_page.writable
  let kpage := f.kpage
  let file := sp.file_page.file
  let offset := sp.file_page.offset * PGSIZE
  let read_bytes := sp.file_page.read_bytes
  let n ← file_read_at file kpage read_bytes offset
  K.assert (decide (n = read_bytes)) panic_site.load_read_short
  zero_tail kpage read_bytes

/-- `load_swap_page (spte)`. -/
def load_swap_page (fuel : Nat) (key : Nat) (sp : spte) : K Unit := do
  let used ← swap_test_index sp.swap_index
  K.assert used panic_site.load_swap_slot
  let writable := if sp.page_type = page_type.FILE then sp.file_page.writable else true
  let f ← frame_alloc fuel key PAL_USER writable
  swap_in f.kpage sp.swap_index
  K.modify (fun k => k.with_thread k.current (fun t =>
    t.with_spte key (fun s => { s with swap_index := NOT_IN_SWAP_PARTITION })))

/-- `load_mmap_page (spte)`. -/
def load_mmap_page (fuel : Nat) (key : Nat) (sp : spte) : K Unit := do
  let f ← frame_alloc fuel key PAL_USER true
  let kpage := f.kpage
  let k ← K.get
  match k.cur.mmap_list.find? (fun m => decide (m.mapid = sp.mmap_page.mmap_fd)) with
  | none => K.panic panic_site.null_deref
  | some m =>
    let offset := sp.mmap_page.offset * PGSIZE
    let read_bytes := sp.mmap_page.read_bytes
    let n ← file_read_at m.file kpage read_bytes offset
    K.assert (decide (n = read_bytes)) panic_site.load_read_short
    zero_tail kpage read_bytes

/-- `page_load (uaddr)`. -/
def page_load (fuel : Nat) (uaddr : Nat) : K Bool := do
  match ← page_get_spte uaddr with
  | none => pure false
  | some sp =>
    let key := pg_round_down uaddr
    if sp.swap_index ≠ NOT_IN_SWAP_PARTITION then do
      load_swap_page fuel key sp
      pure true
    else do
      match sp.page_type with
      | page_type.ZERO => load_zero_page fuel key sp
      | page_type.FILE => load_file_page fuel key sp
      | page_type.MMAP => load_mmap_page fuel key sp
      pure true

/-- `page_add_zero (upage)`. -/
def page_add_zero (fuel : Nat) (upage : Nat) : K Unit := do
  page_add_zero_lazily upage
  let _ ← page_load fuel upage
  pure ()

/-- The `while` loop of `munmap_pages` over the pages of the region. -/
def munmap_loop : List Nat → K Unit
  | [] => pure ()
  | key :: rest => do
    let k ← K.get
    match k.cur.sup_page_table key with
    | none => K.panic panic_site.null_deref
    | some sp =>
      (match sp.fte with
        | some h => frame_free h
        | none => pure ())
      hash_delete sp.upage
      munmap_loop rest

/-- `munmap_pages (mapid)`. -/
def munmap_pages (mapid : Int) : K Unit := do
  let k ← K.get
  match k.cur.mmap_list.find? (fun m => decide (m.mapid = mapid)) with
  | none => pure ()
  | some m =>
    munmap_loop m.spte_list
    K.modify (fun k => k.with_thread k.current (fun t =>
      { t with mmap_list := t.mmap_list.erase m }))

/-- The check loop of `page_add_mmap_lazily`: is some page of the range
already in the table? -/
def mmap_range_taken (limit : Nat) : Nat → Nat → K Bool
  | 0, _ => K.no_fuel
  | fuel + 1, pg => do
    if pg < limit then do
      match ← page_get_spte pg with
      | some _ => pure true
      | none => mmap_range_taken limit fuel (pg + PGSIZE)
    else pure false

/-- The loop of `page_add_mmap_lazily` that creates the entries; `false` when
an insertion met an existing entry.  That branch follows a check that found
the whole range free of entries; in it the page just listed names the entry
already in the table, the one `hash_delete` finds. -/
def mmap_add_loop (upage : Nat) (mapid : Int) (read_bytes last_page_offset : Nat) :
    Nat → Nat → K Bool
  | 0, _ => K.no_fuel
  | fuel + 1, offset => do
    if offset < read_bytes then do
      let sp ← create_spte (upage + offset) page_type.MMAP
      let last_page := decide (offset = last_page_offset)
      let sp := { sp with
        mmap_page := { mmap_fd := mapid, offset := to_uint16 (offset / PGSIZE),
                       read_bytes := to_uint16 (if last_page then read_bytes % PGSIZE else PGSIZE) } }
      K.modify (fun k => k.with_thread k.current (fun t =>
        { t with mmap_list := t.mmap_list.map (fun m =>
            if m.mapid = mapid then { m with spte_list := m.spte_list ++ [sp.upage] } else m) }))
      match ← hash_insert sp with
      | some _ => do
        munmap_pages mapid
        pure false
      | none => mmap_add_loop upage mapid read_bytes last_page_offset fuel (offset + PGSIZE)
    else pure true

/-- `page_add_mmap_lazily (upage, file, read_bytes)`. -/
def page_add_mmap_lazily (upage file read_bytes : Nat) : K Int := do
  K.assert (decide (upage ≠ 0) && is_user_vaddr upage && decide (pg_ofs upage = 0))
    panic_site.page_add_upage
  K.assert (decide (file ≠ 0)) panic_site.page_add_file
  K.assert (decide (read_bytes < 0xFFFF * PGSIZE)) panic_site.page_add_length
  if ← mmap_range_taken (upage + read_bytes) (read_bytes / PGSIZE + 2) upage then
    pure MAP_FAILED
  else do
    let k ← K.get
    let mapid : Int :=
      match k.cur.mmap_list.getLast? with
      | none => 0
      | some m => m.mapid + 1
    K.modify (fun k => k.with_thread k.current (fun t =>
      { t with mmap_list := t.mmap_list ++ [{ mapid := mapid, file := 0, spte_list := [] }] }))
    let last_page_offset := read_bytes - read_bytes % PGSIZE
    if ← mmap_add_loop upage mapid read_bytes last_page_offset (read_bytes / PGSIZE + 2) 0 then do
      K.modify (fun k => k.with_thread k.current (fun t =>
        { t with mmap_list := t.mmap_list.map (fun m =>
            if m.mapid = mapid then { m with file := file } else m) }))
      pure mapid
    else pure MAP_FAILED

/-- `page_destructor (e, aux)`, for the entry stored under `key`; the entry is
released. -/
def page_destructor (key : Nat) : K Unit := do
  let k ← K.get
  match k.cur.sup_page_table key with
  | none => K.panic panic_site.null_deref
  | some sp =>
    (match sp.fte with
      | some h => frame_free h
      | none =>
        if sp.swap_index ≠ NOT_IN_SWAP_PARTITION then swap_free_index sp.swap_index
        else pure ())
    hash_delete key

/-- `frame_pin_addr (uaddr)`. -/
def frame_pin_addr (fuel : Nat) (uaddr : Nat) : K Unit := do
  match ← page_get_spte uaddr with
  | none => K.panic panic_site.frame_pin_addr_spte
  | some sp =>
    (if sp.fte.isNone then do
        let _ ← page_load fuel sp.upage
        pure ()
      else pure ())
    let k ← K.get
    match k.cur.sup_page_table (pg_round_down uaddr) with
    | none => K.panic panic_site.null_deref
    | some sp1 =>
      match sp1.fte with
      | none => K.panic panic_site.null_deref
      | some h => set_pinned h true

/-- The loop of `frame_pin_string` and of `frame_pin_buffer`: from `uaddr` in
steps of a page while the bound holds.  `uaddr` is a 32-bit pointer, so
`uaddr += PGSIZE` wraps. -/
def pin_loop (fuel : Nat) (continues : Nat → Bool) : Nat → Nat → K Unit
  | 0, _ => K.no_fuel
  | n + 1, uaddr => do
    if continues uaddr then do
      frame_pin_addr fuel uaddr
      pin_loop fuel continues n (to_uint32 (uaddr + PGSIZE))
    else pure ()

def unpin_loop (continues : Nat → Bool) : Nat → Nat → K Unit
  | 0, _ => K.no_fuel
  | n + 1, uaddr => do
    if continues uaddr then do
      frame_unpin_addr uaddr
      unpin_loop continues n (to_uint32 (uaddr + PGSIZE))
    else pure ()

/-- `frame_pin_string (file)`; `len` is the value of `strlen (file)`.  The
bound `file + strlen (file)` is 32-bit pointer arithmetic. -/
def frame_pin_string (fuel : Nat) (file len : Nat) : K Unit :=
  pin_loop fuel (fun uaddr => decide (uaddr ≤ to_uint32 (file + len))) (len / PGSIZE + 2) file

/-- `frame_unpin_string (file)`. -/
def frame_unpin_string (file len : Nat) : K Unit :=
  unpin_loop (fun uaddr => decide (uaddr ≤ to_uint32 (file + len))) (len / PGSIZE + 2) file

/-- `frame_pin_buffer (buffer, size)`.  The bound `buffer + size` is 32-bit
pointer arithmetic and wraps for a `size` that reaches past the end of the
address space. -/
def frame_pin_buffer (fuel : Nat) (buffer size : Nat) : K Unit :=
  pin_loop fuel (fun uaddr => decide (uaddr < to_uint32 (buffer + size))) (size / PGSIZE + 3)
    (pg_round_down buffer)

/-- `frame_unpin_buffer (buffer, size)`. -/
def frame_unpin_buffer (buffer size : Nat) : K Unit :=
  unpin_loop (fun uaddr => decide (uaddr < to_uint32 (buffer + size))) (size / PGSIZE + 3)
    (pg_round_down buffer)

end Pintos

namespace Pintos

/-! ## userprog/syscall.c -/

/-- Conversion of a 32-bit word to `int`. -/
def to_int32 (n : Nat) : Int :=
  if n % 4294967296 < 2147483648 then (n % 4294967296 : Nat)
  else ((n % 4294967296 : Nat) : Int) - 4294967296

/-- The system call numbers.  Modelled from the spec: `lib/syscall-nr.h` is
not among the sources; the codes are numbered in the order of section 6.1
(`SYS_TELL`, absent from the table, keeps its number 11). -/
abbrev SYS_HALT : Nat := 0

abbrev SYS_EXIT : Nat := 1

abbrev SYS_EXEC : Nat := 2

abbrev SYS_WAIT : Nat := 3

abbrev SYS_CREATE : Nat := 4

abbrev SYS_REMOVE : Nat := 5

abbrev SYS_OPEN : Nat := 6

abbrev SYS_FILESIZE : Nat := 7

abbrev SYS_READ : Nat := 8

abbrev SYS_WRITE : Nat := 9

abbrev SYS_SEEK : Nat := 10

abbrev SYS_CLOSE : Nat := 12

abbrev SYS_MMAP : Nat := 13

abbrev SYS_MUNMAP : Nat := 14

/-- `thread_exit ()`: the process ends with the exit status it has. -/
def thread_exit {α : Type} : K α := fun k => Res.killed k.cur.exit_status k

/-- `syscall_exit (status)`. -/
def syscall_exit {α : Type} (status : Int) : K α := do
  K.modify (fun k => k.with_thread k.current (fun t => { t with exit_status := status }))
  thread_exit

/-- `halt ()`. -/
def halt {α : Type} : K α := fun k => Res.halted k

/-- `kill_on_bad_uaddr (uaddr)`. -/
def kill_on_bad_uaddr (uaddr : Nat) : K Unit := do
  K.emit (event.check uaddr)
  if !is_user_vaddr uaddr then syscall_exit ERROR
  else
    match ← page_get_spte uaddr with
    | none => syscall_exit ERROR
    | some _ => pure ()

/-- `get_fildes (fileno)`. -/
def get_fildes (fileno : Int) : K (Option file_descriptor) := do
  let k ← K.get
  pure (k.cur.fd_list.find? (fun d => decide (d.fileno = fileno)))

/-- The byte the kernel reads at a user address of the current process. -/
def user_byte (k : Kernel) (uaddr : Nat) : Byte :=
  match k.cur.pagedir (pg_round_down uaddr) with
  | some e => k.ram e.kpage (pg_ofs uaddr)
  | none => 0

/-- Storing `n` bytes of `src` at user address `buffer`, through the page
directory of the current process. -/
def copy_to_user (pd : Nat → Option pte) (src : Nat → Byte) (buffer : Nat) :
    Nat → (Nat → Nat → Byte) → (Nat → Nat → Byte)
  | 0, ram => ram
  | n + 1, ram =>
    let ram1 := copy_to_user pd src buffer n ram
    match pd (pg_round_down (buffer + n)) with
    | some e => fun p i => if p = e.kpage ∧ i = pg_ofs (buffer + n) then src n else ram1 p i
    | none => ram1

/-- Modelled from the spec: `file_read (file, buffer, size)` into a user
buffer, from the position of the handle. -/
def file_read (file buffer size : Nat) : K Int := do
  K.emit (event.file_read file buffer size)
  let k ← K.get
  let ino := k.fs.inode_of file
  let pos := k.fs.pos file
  let n := file_span (k.fs.inode_length ino) size pos
  K.modify (fun k =>
    (k.with_ram
      (copy_to_user k.cur.pagedir (fun i => k.fs.inode_data ino (pos + i)) buffer n k.ram)).with_fs
      { k.fs with pos := fun f => if f = file then pos + n else k.fs.pos f })
  pure (n : Int)

/-- Modelled from the spec: `file_write (file, buffer, size)` from a user
buffer. -/
def file_write (file buffer size : Nat) : K Int := do
  K.emit (event.file_write file buffer size)
  let k ← K.get
  let ino := k.fs.inode_of file
  let pos := k.fs.pos file
  let n := file_span (k.fs.inode_length ino) size pos
  K.modify (fun k =>
    k.with_fs
      { k.fs with
        inode_data := fun i j =>
          if i = ino ∧ pos ≤ j ∧ j < pos + n then user_byte k (buffer + (j - pos))
          else k.fs.inode_data i j,
        pos := fun f => if f = file then pos + n else k.fs.pos f })
  pure (n : Int)

/-- Modelled from the spec: `filesys_open (name)`, a new handle or `NULL`. -/
def filesys_open (name : Nat) : K Nat := do
  K.emit (event.filesys_open name)
  let k ← K.get
  match k.fs.lookup name with
  | none => pure 0
  | some ino =>
    let h := k.fs.next_file
    K.modify (fun k =>
      k.with_fs
        { k.fs with
          inode_of := fun f => if f = h then ino else k.fs.inode_of f,
          pos := fun f => if f = h then 0 else k.fs.pos f,
          next_file := h + 1 })
    pure h

/-- Modelled from the spec: `file_reopen (file)`, a new handle for the same
file. -/
def file_reopen (file : Nat) : K Nat := do
  K.emit (event.file_reopen file)
  let k ← K.get
  let h := k.fs.next_file
  K.modify (fun k =>
    k.with_fs
      { k.fs with
        inode_of := fun f => if f = h then k.fs.inode_of file else k.fs.inode_of f,
        pos := fun f => if f = h then 0 else k.fs.pos f,
        next_file := h + 1 })
  pure h

/-- Modelled from the spec: `file_length (file)`. -/
def file_length (file : Nat) : K Nat := do
  K.emit (event.file_length file)
  let k ← K.get
  pure (k.fs.inode_length (k.fs.inode_of file))

/-- Modelled from the spec: `filesys_create (name, initial_size)`. -/
def filesys_create (name size : Nat) : K Bool := do
  K.emit (event.filesys_create name size)
  let k ← K.get
  match k.fs.lookup name with
  | some _ => pure false
  | none =>
    let ino := k.fs.next_inode
    K.modify (fun k =>
      k.with_fs
        { k.fs with
          lookup := fun n => if n = name then some ino else k.fs.lookup n,
          inode_length := fun i => if i = ino then size else k.fs.inode_length i,
          inode_data := fun i j => if i = ino then 0 else k.fs.inode_data i j,
          next_inode := ino + 1 })
    pure true

/-- Modelled from the spec: `filesys_remove (name)`. -/
def filesys_remove (name : Nat) : K Bool := do
  K.emit (event.filesys_remove name)
  let k ← K.get
  match k.fs.lookup name with
  | none => pure false
  | some _ =>
    K.modify (fun k =>
      k.with_fs { k.fs with lookup := fun n => if n = name then none else k.fs.lookup n })
    pure true

/-- `exec (file)`.  Modelled from the spec for `process_execute` and the wait
for the child to load: `exec_pid` is the pid of the loaded child or -1. -/
def exec (fuel : Nat) (file : Nat) : K Int := do
  kill_on_bad_uaddr file
  let k ← K.get
  frame_pin_string fuel file (k.user_strlen file)
  K.emit (event.process_execute file)
  frame_unpin_string file (k.user_strlen file)
  pure (k.exec_pid file)

/-- `wait (pid)`. -/
def wait (pid : Int) : K Int := do
  K.emit (event.process_wait pid)
  let k ← K.get
  pure (k.wait_status pid)

/-- `create (file, initial_size)`. -/
def create (fuel : Nat) (file initial_size : Nat) : K Bool := do
  kill_on_bad_uaddr file
  let k ← K.get
  frame_pin_string fuel file (k.user_strlen file)
  let success ← filesys_create file initial_size
  frame_unpin_string file (k.user_strlen file)
  pure success

/-- `remove (file)`. -/
def remove (fuel : Nat) (file : Nat) : K Bool := do
  kill_on_bad_uaddr file
  let k ← K.get
  frame_pin_string fuel file (k.user_strlen file)
  let success ← filesys_remove file
  frame_unpin_string file (k.user_strlen file)
  pure success

/-- `open (file)`. -/
def sys_open (fuel : Nat) (file : Nat) : K Int := do
  kill_on_bad_uaddr file
  let k ← K.get
  frame_pin_string fuel file (k.user_strlen file)
  let f ← filesys_open file
  frame_unpin_string file (k.user_strlen file)
  if f = 0 then pure ERROR
  else do
    let k ← K.get
    let fileno : Int :=
      match k.cur.fd_list.getLast? with
      | none => FILENO_START
      | some d => d.fileno + 1
    K.modify (fun k => k.with_thread k.current (fun t =>
      { t with fd_list := t.fd_list ++ [{ fileno := fileno, file := f }] }))
    pure fileno

/-- `filesize (fd)`. -/
def filesize (fd : Int) : K Int := do
  match ← get_fildes fd with
  | none => pure ERROR
  | some fildes =>
    let len ← file_length fildes.file
    pure (len : Int)

/-- `read (fd, buffer, size)`. -/
def read (fuel : Nat) (fd : Int) (buffer size : Nat) : K Int := do
  kill_on_bad_uaddr buffer
  match ← get_fildes fd with
  | none => pure ERROR
  | some fildes =>
    let found ← page_get_spte buffer
    (match found with
      | some sp =>
        if sp.page_type = page_type.FILE ∧ sp.file_page.writable = false then
          syscall_exit ERROR
        else pure ()
      | none => pure ())
    frame_pin_buffer fuel buffer size
    let n ← file_read fildes.file buffer size
    frame_unpin_buffer buffer size
    pure n

/-- `write (fd, buffer, size)`. -/
def write (fuel : Nat) (fd : Int) (buffer size : Nat) : K Int := do
  kill_on_bad_uaddr buffer
  if fd = STDOUT_FILENO then do
    frame_pin_buffer fuel buffer size
    K.emit (event.putbuf buffer size)
    frame_unpin_buffer buffer size
    pure (to_int32 size)
  else
    match ← get_fildes fd with
    | none => syscall_exit ERROR
    | some fildes =>
      frame_pin_buffer fuel buffer size
      let n ← file_write fildes.file buffer size
      frame_unpin_buffer buffer size
      pure n

/-- `seek (fd, position)`. -/
def seek (fd : Int) (position : Nat) : K Unit := do
  match ← get_fildes fd with
  | none => pure ()
  | some fildes =>
    K.emit (event.file_seek fildes.file position)
    K.modify (fun k =>
      k.with_fs { k.fs with pos := fun f => if f = fildes.file then position else k.fs.pos f })

/-- `close (fd)`. -/
def close (fd : Int) : K Unit := do
  match ← get_fildes fd with
  | none => pure ()
  | some fildes =>
    K.emit (event.file_close fildes.file)
    K.modify (fun k => k.with_thread k.current (fun t =>
      { t with fd_list := t.fd_list.erase fildes }))

/-- `mmap (fd, addr)`. -/
def mmap (fd : Int) (addr : Nat) : K Int := do
  match ← get_fildes fd with
  | none => pure MAP_FAILED
  | some fildes =>
    if pg_ofs addr ≠ 0 then pure MAP_FAILED
    else if addr = 0 then pure MAP_FAILED
    else if (← file_length fildes.file) = 0 then pure MAP_FAILED
    else do
      let file ← file_reopen fildes.file
      let len ← file_length file
      page_add_mmap_lazily addr file len

/-- `munmap (mapid)`. -/
def munmap (mapid : Int) : K Unit :=
  munmap_pages mapid

/-- A read of the 32-bit word at a user address by the handler. -/
def user_read (uaddr : Nat) : K Nat := do
  K.emit (event.deref uaddr)
  let k ← K.get
  pure (k.user_word uaddr)

/-- `syscall_handler (f)`, with `esp` the user stack pointer `f->esp`; the
result is the value stored in `f->eax`, if any. -/
def syscall_handler (fuel : Nat) (esp : Nat) : K (Option Int) := do
  let sp := esp
  kill_on_bad_uaddr sp
  let sys_code ← user_read sp
  let arg0 ← user_read (sp + 4)
  let arg1 ← user_read (sp + 8)
  let arg2 ← user_read (sp + 12)
  if sys_code = SYS_HALT then halt
  else if sys_code = SYS_EXIT then do
    kill_on_bad_uaddr (sp + 4); syscall_exit (to_int32 arg0)
  else if sys_code = SYS_EXEC then do
    kill_on_bad_uaddr (sp + 4); let r ← exec fuel arg0; pure (some r)
  else if sys_code = SYS_WAIT then do
    kill_on_bad_uaddr (sp + 4); let r ← wait (to_int32 arg0); pure (some r)
  else if sys_code = SYS_CREATE then do
    kill_on_bad_uaddr (sp + 8); let r ← create fuel arg0 arg1; pure (some (if r then 1 else 0))
  else if sys_code = SYS_REMOVE then do
    kill_on_bad_uaddr (sp + 4); let r ← remove fuel arg0; pure (some (if r then 1 else 0))
  else if sys_code = SYS_OPEN then do
    kill_on_bad_uaddr (sp + 4); let r ← sys_open fuel arg0; pure (some r)
  else if sys_code = SYS_FILESIZE then do
    kill_on_bad_uaddr (sp + 4); let r ← filesize (to_int32 arg0); pure (some r)
  else if sys_code = SYS_READ then do
    kill_on_bad_uaddr (sp + 12); let r ← read fuel (to_int32 arg0) arg1 arg2; pure (some r)
  else if sys_code = SYS_WRITE then do
    kill_on_bad_uaddr (sp + 12); let r ← write fuel (to_int32 arg0) arg1 arg2; pure (some r)
  else if sys_code = SYS_SEEK then do
    kill_on_bad_uaddr (sp + 8); seek (to_int32 arg0) arg1; pure none
  else if sys_code = SYS_CLOSE then do
    kill_on_bad_uaddr (sp + 4); close (to_int32 arg0); pure none
  else if sys_code = SYS_MMAP then do
    kill_on_bad_uaddr (sp + 8); let r ← mmap (to_int32 arg0) arg1; pure (some r)
  else if sys_code = SYS_MUNMAP then do
    kill_on_bad_uaddr (sp + 4); munmap (to_int32 arg0); pure none
  else thread_exit

end Pintos

namespace Pintos

/-! ## Predicates on machine states -/

/-- Every supplemental entry is stored under its own page-aligned `upage`
(what `create_spte` and `hash_insert` establish). -/
def spt_keys_ok (k : Kernel) : Prop :=
  ∀ tid key sp, (k.threads tid).sup_page_table key = some sp →
    sp.upage = key ∧ pg_round_down key = key

/-- No two frame table entries back the same supplemental entry. -/
def frames_distinct (k : Kernel) : Prop :=
  k.frame_table.Pairwise (fun g h => ¬ (g.owner = h.owner ∧ g.spte = h.spte))

/-- What the scan of `evict` leaves alone: between the two states only
accessed and dirty bits, the order of the frame table, file contents and the
trace may differ. -/
structure scan_rel (k k1 : Kernel) : Prop where
  current : k1.current = k.current
  spt : ∀ tid, (k1.threads tid).sup_page_table = (k.threads tid).sup_page_table
  mmap_list : ∀ tid, (k1.threads tid).mmap_list = (k.threads tid).mmap_list
  fd_list : ∀ tid, (k1.threads tid).fd_list = (k.threads tid).fd_list
  exit_status : ∀ tid, (k1.threads tid).exit_status = (k.threads tid).exit_status
  pd_kpage : ∀ tid p, ((k1.threads tid).pagedir p).map pte.kpage
    = ((k.threads tid).pagedir p).map pte.kpage
  pd_writable : ∀ tid p, ((k1.threads tid).pagedir p).map pte.writable
    = ((k.threads tid).pagedir p).map pte.writable
  swap_table : k1.swap_table = k.swap_table
  swap_block : k1.swap_block = k.swap_block
  ram : k1.ram = k.ram
  user_pool : k1.user_pool = k.user_pool

/-- The page `(tid, p)` belongs to no unpinned frame of the frame table. -/
def not_scanned (k : Kernel) (tid p : Nat) : Prop :=
  ∀ g, g ∈ k.frame_table → g.pinned = false →
    ∀ sp, (k.threads g.owner).sup_page_table g.spte = some sp →
      ¬ (g.owner = tid ∧ pg_round_down sp.upage = p)

end Pintos

namespace Pintos

/-- Only the file system and the trace differ between the two states. -/
structure fs_only (k k1 : Kernel) : Prop where
  current : k1.current = k.current
  threads : k1.threads = k.threads
  frame_table : k1.frame_table = k.frame_table
  swap_table : k1.swap_table = k.swap_table
  swap_block : k1.swap_block = k.swap_block
  ram : k1.ram = k.ram
  user_pool : k1.user_pool = k.user_pool

end Pintos

namespace Pintos

/-- What a scan of `evict` that started in `k` and chose frame `f` (backing
entry `sp`) in state `k1` guarantees. -/
structure chosen (k : Kernel) (f : fte) (sp : spte) (k1 : Kernel) : Prop where
  rel : scan_rel k k1
  perm : k.frame_table.Perm (f :: k1.frame_table)
  unpinned : f.pinned = false
  entry : (k.threads f.owner).sup_page_table f.spte = some sp
  upage_ne : sp.upage ≠ 0
  not_accessed : pagedir_is_accessed (k1.threads f.owner).pagedir sp.upage = false
  mapped : (pagedir_get_page (k1.threads f.owner).pagedir sp.upage).isSome = true
  untouched : ∀ tid p, not_scanned k tid p →
    (k1.threads tid).pagedir p = (k.threads tid).pagedir p

end Pintos

namespace Pintos

/-- Only the swap table and the swap device differ between the two states. -/
structure swap_only (k k1 : Kernel) : Prop where
  current : k1.current = k.current
  threads : k1.threads = k.threads
  frame_table : k1.frame_table = k.frame_table
  ram : k1.ram = k.ram
  user_pool : k1.user_pool = k.user_pool
  fs : k1.fs = k.fs
  trace : k1.trace = k.trace

/-- The last part of `evict`, after the victim `f` (backing entry `sp`) was
written to slot `s`: record the slot, clear the mapping, unlink and release
the frame. -/
def evict_release (f : fte) (sp : spte) (s : Nat) (k : Kernel) : Kernel :=
  (((k.with_thread f.owner (fun t =>
        t.with_spte f.spte (fun e => { e with swap_index := to_uint16 s }))).with_thread f.owner
      (fun t => t.with_pagedir (pagedir_clear_page t.pagedir sp.upage))).with_thread f.owner
    (fun t => t.with_spte f.spte (fun e => { e with fte := none }))).with_user_pool
    (f.kpage :: k.user_pool)

end Pintos

namespace Pintos

/-! ## The invariant of the memory subsystem -/

/-- What identifies a frame table entry: its frame, its owner and the entry
it backs. -/
def frame_key (f : fte) : Nat × Nat × Nat := (f.kpage, f.owner, f.spte)

def frames (k : Kernel) : List (Nat × Nat × Nat) := k.frame_table.map frame_key

/-- The kernel page the page directory of thread `tid` maps page `p` to. -/
def pd_kpage (k : Kernel) (tid p : Nat) : Option Nat :=
  ((k.threads tid).pagedir p).map pte.kpage

/-- The predicate on one supplemental entry `P` of thread `tid`: not both
resident and swapped; if resident, the page directory maps its page to the
frame; if swapped, the slot is marked used and the page is not mapped. -/
def spte_inv (k : Kernel) (tid : Nat) (P : spte) : Prop :=
  ¬ (P.fte ≠ none ∧ P.swap_index ≠ NOT_IN_SWAP_PARTITION) ∧
  (∀ h, P.fte = some h → pd_kpage k tid (pg_round_down P.upage) = some h) ∧
  (P.swap_index ≠ NOT_IN_SWAP_PARTITION →
    (P.swap_index < k.swap_table.bit_cnt ∧ k.swap_table.bits P.swap_index = true) ∧
      pd_kpage k tid (pg_round_down P.upage) = none)

/-- The predicate on (SPT, frame table, swap bitmap, page directory). -/
def vm_inv (k : Kernel) : Prop :=
  ∀ tid key P, (k.threads tid).sup_page_table key = some P → spte_inv k tid P

/-- Slots from 65535 on are never in use, and no bit beyond the table is set:
`swap_out` asserts that the slot it takes is not 65535 and takes the lowest
free one. -/
def swap_reachable (b : bitmap) : Prop :=
  ∀ i, b.bits i = true → i < 65535 ∧ i < b.bit_cnt

/-- The predicate together with the linking facts of the data model: entries
are stored under their own page-aligned address, frame table entries and
resident supplemental entries are linked one to one, frames are distinct from
each other and from the free pool, no slot is recorded in two entries. -/
structure vm_ok (k : Kernel) : Prop where
  inv : vm_inv k
  keys : spt_keys_ok k
  link_ft : ∀ kp ow key, (kp, ow, key) ∈ frames k →
    ∃ P, (k.threads ow).sup_page_table key = some P ∧ P.fte = some kp
  link_spt : ∀ tid key P h, (k.threads tid).sup_page_table key = some P → P.fte = some h →
    (h, tid, key) ∈ frames k
  kpages : ((frames k).map Prod.fst).Nodup
  pool : ∀ kp ow key, (kp, ow, key) ∈ frames k → kp ∉ k.user_pool
  pool_nodup : k.user_pool.Nodup
  slots : ∀ tid key P tid2 key2 P2, (k.threads tid).sup_page_table key = some P →
    (k.threads tid2).sup_page_table key2 = some P2 →
    P.swap_index ≠ NOT_IN_SWAP_PARTITION → P.swap_index = P2.swap_index →
    tid = tid2 ∧ key = key2
  swap : swap_reachable k.swap_table

end Pintos

namespace Pintos

/-- What obtaining a frame (with the evictions it may need) leaves alone: the
current thread, the entries that are not resident, the mmap regions. -/
structure alloc_rel (k kb : Kernel) : Prop where
  current : kb.current = k.current
  entries : ∀ tid q Q, (k.threads tid).sup_page_table q = some Q → Q.fte = none →
    (kb.threads tid).sup_page_table q = some Q
  mmap_list : ∀ tid, (kb.threads tid).mmap_list = (k.threads tid).mmap_list

/-- The part of `frame_alloc` after the frame was obtained: the new entry `f`
joins the frame table, the supplemental entry points to it, and the page is
mapped. -/
def frame_install (f : fte) (upage : Nat) (writable : Bool) (k : Kernel) : Kernel :=
  ((k.with_frame_table (k.frame_table ++ [f])).with_thread f.owner (fun t =>
      t.with_spte f.spte (fun s => { s with fte := some f.kpage }))).with_thread f.owner
    (fun t => t.with_pagedir (fun p =>
      if p = pg_round_down upage then
        some { kpage := f.kpage, writable := writable, accessed := false, dirty := false }
      else t.pagedir p))

end Pintos

namespace Pintos

/-- The part of `frame_free` after the write back: unmap the page, release
the frame, sever the link of the supplemental entry. -/
def frame_free_release (f : fte) (sp : spte) (k : Kernel) : Kernel :=
  (((k.with_thread k.current (fun t =>
        t.with_pagedir (pagedir_clear_page t.pagedir sp.upage))).with_user_pool
      (f.kpage :: k.user_pool)).with_thread f.owner
    (fun t => t.with_spte f.spte (fun s => { s with fte := none })))

end Pintos
namespace Pintos

/-- Modelled from the spec: the eight operations the predicate on (SPT, frame
table, swap bitmap, page directory) is stated for, each with its arguments. -/
inductive vm_op where
  | page_add_zero_lazily (upage : Nat)
  | page_add_file_lazily (upage file read_bytes offset : Nat) (writable : Bool)
  | page_add_mmap_lazily (upage file read_bytes : Nat)
  | page_load (fuel uaddr : Nat)
  | evict (fuel : Nat)
  | frame_free (hnd : Nat)
  | munmap_pages (mapid : Int)
  | page_destructor (key : Nat)

/-- The call of the operation, its result dropped. -/
def vm_op.run : vm_op → K Unit
  | .page_add_zero_lazily upage => Pintos.page_add_zero_lazily upage
  | .page_add_file_lazily upage file read_bytes offset writable =>
    Pintos.page_add_file_lazily upage file read_bytes offset writable
  | .page_add_mmap_lazily upage file read_bytes => do
    let _ ← Pintos.page_add_mmap_lazily upage file read_bytes
    pure ()
  | .page_load fuel uaddr => do
    let _ ← Pintos.page_load fuel uaddr
    pure ()
  | .evict fuel => Pintos.evict fuel
  | .frame_free hnd => Pintos.frame_free hnd
  | .munmap_pages mapid => Pintos.munmap_pages mapid
  | .page_destructor key => Pintos.page_destructor key

/-- The condition under which the operation is called: `page_load` for a page
that is not resident (`frame_pin_addr` tests `spte->fte == NULL` first),
`frame_free` for a frame of the running process (`munmap_pages` and
`page_destructor` pass frames of entries of its own table). -/
def vm_op.pre : vm_op → Kernel → Prop
  | .page_load _ uaddr, k =>
    ∀ P, k.cur.sup_page_table (pg_round_down uaddr) = some P → P.fte = none
  | .frame_free hnd, k =>
    ∀ f, f ∈ k.frame_table → f.kpage = hnd → f.owner = k.current
  | _, _ => True

end Pintos

namespace Pintos

/-! ## Concrete machine states -/

def thread.empty : thread :=
  { pagedir := fun _ => none, sup_page_table := fun _ => none,
    mmap_list := [], fd_list := [], exit_status := 0 }

def filesys.empty : filesys :=
  { inode_length := fun _ => 0, inode_data := fun _ _ => 0, inode_of := fun _ => 0,
    pos := fun _ => 0, next_file := 1, next_inode := 1, lookup := fun _ => none }

/-- The machine after `frame_init` and `swap_init` on a swap device of
`sectors` sectors, with `pool` the free user frames and no user page yet. -/
def Kernel.boot (sectors : Nat) (pool : List Nat) : Kernel :=
  { current := 1, threads := fun _ => thread.empty, frame_table := [],
    swap_table := bitmap_create (sectors / FRAME_SECTORS),
    swap_block := { size := sectors, data := fun _ _ => 0 },
    swap_fits := Nat.div_mul_le_self sectors FRAME_SECTORS,
    ram := fun _ _ => 0, user_pool := pool, fs := filesys.empty,
    user_word := fun _ => 0, user_strlen := fun _ => 0, exec_pid := fun _ => -1,
    wait_status := fun _ => -1, trace := [] }

/-- A machine whose swap device has one slot, and that slot is in use. -/
def swap_full_example : Kernel :=
  (Kernel.boot 8 []).with_swap_table (bitmap_set (bitmap_create 1) 0 true)

end Pintos

namespace Pintos

/-- The state a piece of kernel code returns in (the given state when it
does not return). -/
def Res.state_or {α : Type} (r : Res α) (k : Kernel) : Kernel :=
  match r with
  | Res.ok _ k1 => k1
  | _ => k

def zero_spte (upage : Nat) (fte : Option Nat) : spte :=
  { file_page := { file := 0, offset := 0, read_bytes := 0, writable := false },
    mmap_page := { mmap_fd := 0, offset := 0, read_bytes := 0 },
    upage := upage, fte := fte, swap_index := NOT_IN_SWAP_PARTITION,
    page_type := page_type.ZERO }

def fresh_pte (kpage : Nat) : pte :=
  { kpage := kpage, writable := true, accessed := false, dirty := false }

/-- A process (thread 1) with two resident zero pages, at 0x10000000 in frame
100 and at 0x10001000 in frame 101; both frames are listed in the frame
table, unpinned. -/
def two_pages_thread : thread :=
  { pagedir := fun p =>
      if p = 0x10000000 then some (fresh_pte 100)
      else if p = 0x10001000 then some (fresh_pte 101) else none,
    sup_page_table := fun p =>
      if p = 0x10000000 then some (zero_spte 0x10000000 (some 100))
      else if p = 0x10001000 then some (zero_spte 0x10001000 (some 101)) else none,
    mmap_list := [], fd_list := [], exit_status := 0 }

def two_pages_example : Kernel :=
  ((Kernel.boot 64 []).with_threads
    (fun i => if i = 1 then two_pages_thread else thread.empty)).with_frame_table
    [{ pinned := false, kpage := 100, spte := 0x10000000, owner := 1 },
     { pinned := false, kpage := 101, spte := 0x10001000, owner := 1 }]

/-- As `two_pages_example`, with the frame of the first page pinned. -/
def pinned_first_example : Kernel :=
  two_pages_example.with_frame_table
    [{ pinned := true, kpage := 100, spte := 0x10000000, owner := 1 },
     { pinned := false, kpage := 101, spte := 0x10001000, owner := 1 }]

end Pintos

namespace Pintos

/-- A process with one page of code, not yet loaded: a `FILE` entry at
0x08048000 for the first 100 bytes of file handle 5, not writable (scenario 2
of the specification); one user frame, 100, is free. -/
def code_page_example : Kernel :=
  ((Kernel.boot 64 [100]).with_threads
    (fun i =>
      if i = 1 then
        { thread.empty with
          sup_page_table := fun p =>
            if p = 0x08048000 then
              some { zero_spte 0x08048000 none with
                page_type := page_type.FILE,
                file_page := { file := 5, offset := 0, read_bytes := 100, writable := false } }
            else none }
      else thread.empty)).with_fs
    { filesys.empty with inode_length := fun _ => 4096 }

/-- A process with one resident zero page at 0x10000000 (frame 100) and
nothing above it; descriptor 2 is open on file handle 1. -/
def one_page_example : Kernel :=
  ((Kernel.boot 64 []).with_threads
    (fun i =>
      if i = 1 then
        { thread.empty with
          pagedir := fun p => if p = 0x10000000 then some (fresh_pte 100) else none,
          sup_page_table := fun p =>
            if p = 0x10000000 then some (zero_spte 0x10000000 (some 100)) else none,
          fd_list := [{ fileno := 2, file := 1 }] }
      else thread.empty)).with_frame_table
    [{ pinned := false, kpage := 100, spte := 0x10000000, owner := 1 }]

/-- A process whose stack page, the last below `PHYS_BASE`, is resident
(frame 100); the word at 0xbffffffc, the last of the page, is 1
(`SYS_EXIT`). -/
def stack_top_example : Kernel :=
  { ((Kernel.boot 64 []).with_threads
      (fun i =>
        if i = 1 then
          { thread.empty with
            pagedir := fun p => if p = 0xbffff000 then some (fresh_pte 100) else none,
            sup_page_table := fun p =>
              if p = 0xbffff000 then some (zero_spte 0xbffff000 (some 100)) else none }
        else thread.empty)).with_frame_table
      [{ pinned := false, kpage := 100, spte := 0xbffff000, owner := 1 }] with
    user_word := fun a => if a = 0xbffffffc then 1 else 0 }

/-- A process with a resident zero page at 0x10000000 (frame 100) followed by
a resident page of code at 0x10001000 (frame 101, a `FILE` entry that is not
writable); descriptor 2 is open on file handle 1, a file of 4096 bytes of
value 7. -/
def data_then_code_example : Kernel :=
  (((Kernel.boot 64 []).with_threads
      (fun i =>
        if i = 1 then
          { thread.empty with
            pagedir := fun p =>
              if p = 0x10000000 then some (fresh_pte 100)
              else if p = 0x10001000 then
                some { kpage := 101, writable := false, accessed := false, dirty := false }
              else none,
            sup_page_table := fun p =>
              if p = 0x10000000 then some (zero_spte 0x10000000 (some 100))
              else if p = 0x10001000 then
                some { zero_spte 0x10001000 (some 101) with
                  page_type := page_type.FILE,
                  file_page := { file := 5, offset := 0, read_bytes := 100, writable := false } }
              else none,
            fd_list := [{ fileno := 2, file := 1 }] }
        else thread.empty)).with_frame_table
      [{ pinned := false, kpage := 100, spte := 0x10000000, owner := 1 },
       { pinned := false, kpage := 101, spte := 0x10001000, owner := 1 }]).with_fs
    { filesys.empty with
      inode_length := fun _ => 4096,
      inode_data := fun _ _ => 7 }

end Pintos

namespace Pintos

/-- A machine with one free user frame, 100, and a process that has declared
two zero pages, at 0x10000000 and at 0x10001000. -/
def two_lazy_pages_example : Kernel :=
  ((vm_op.page_add_zero_lazily 0x10001000).run
    (((vm_op.page_add_zero_lazily 0x10000000).run (Kernel.boot 64 [100])).state_or
      (Kernel.boot 64 [100]))).state_or (Kernel.boot 64 [100])

/-- The machine of `two_lazy_pages_example` after the first page was loaded. -/
def first_loaded_example : Kernel :=
  ((vm_op.page_load 3 0x10000000).run two_lazy_pages_example).state_or two_lazy_pages_example

/-- The machine of `first_loaded_example` after the second page was loaded,
which evicts the first. -/
def second_loaded_example : Kernel :=
  ((vm_op.page_load 3 0x10001000).run first_loaded_example).state_or first_loaded_example

end Pintos

namespace Pintos

/-- As `two_pages_example`, with frame 100, the frame of the first page,
holding the bytes 0, 1, 2, ... (modulo 256). -/
def written_pages_example : Kernel :=
  two_pages_example.with_ram (fun p i => if p = 100 then i % 256 else 0)

end Pintos

namespace Pintos

/-! ## Further concrete machine states -/

/-- An `MMAP` entry of region `mapid`, for page number `page` of the file,
`read_bytes` of which come from the file. -/
def mmap_spte (upage : Nat) (mapid : Int) (page read_bytes : Nat) (fte : Option Nat)
    (swap_index : Nat) : spte :=
  { file_page := { file := 0, offset := 0, read_bytes := 0, writable := false },
    mmap_page := { mmap_fd := mapid, offset := page, read_bytes := read_bytes },
    upage := upage, fte := fte, swap_index := swap_index, page_type := page_type.MMAP }

/-- A process whose resident page at 0x10000000 (frame 100) holds the string
"abc", the path of a file on disk; it has no open descriptor. -/
def open_example : Kernel :=
  { (((Kernel.boot 64 []).with_threads
      (fun i =>
        if i = 1 then
          { thread.empty with
            pagedir := fun p => if p = 0x10000000 then some (fresh_pte 100) else none,
            sup_page_table := fun p =>
              if p = 0x10000000 then some (zero_spte 0x10000000 (some 100)) else none }
        else thread.empty)).with_frame_table
      [{ pinned := false, kpage := 100, spte := 0x10000000, owner := 1 }]).with_fs
      { filesys.empty with lookup := fun n => if n = 0x10000000 then some 1 else none } with
    user_strlen := fun _ => 3 }

/-- A process that has mapped a file of 5000 bytes (handle 5) at 0x10000000 as
region 0: two `MMAP` pages with `read_bytes` 4096 and 904, both resident
(frames 100 and 101) and unpinned.  The first page is clean and not accessed;
the user has filled the second page, tail included, with the byte 0x58, so it
is accessed and dirty. -/
def mmap_two_pages_example : Kernel :=
  ((((Kernel.boot 64 []).with_threads
      (fun i =>
        if i = 1 then
          { thread.empty with
            pagedir := fun p =>
              if p = 0x10000000 then some (fresh_pte 100)
              else if p = 0x10001000 then
                some { kpage := 101, writable := true, accessed := true, dirty := true }
              else none,
            sup_page_table := fun p =>
              if p = 0x10000000 then
                some (mmap_spte 0x10000000 0 0 4096 (some 100) NOT_IN_SWAP_PARTITION)
              else if p = 0x10001000 then
                some (mmap_spte 0x10001000 0 1 904 (some 101) NOT_IN_SWAP_PARTITION)
              else none,
            mmap_list := [{ mapid := 0, file := 5, spte_list := [0x10000000, 0x10001000] }] }
        else thread.empty)).with_frame_table
      [{ pinned := false, kpage := 100, spte := 0x10000000, owner := 1 },
       { pinned := false, kpage := 101, spte := 0x10001000, owner := 1 }]).with_fs
    { filesys.empty with inode_length := fun _ => 5000 }).with_ram
    (fun p _ => if p = 101 then 0x58 else 0)

/-- A process with one page of code, resident in frame 100 and clean: a `FILE`
entry at 0x08048000 for the first 100 bytes of file handle 5, not writable. -/
def resident_code_example : Kernel :=
  (((Kernel.boot 64 []).with_threads
      (fun i =>
        if i = 1 then
          { thread.empty with
            pagedir := fun p =>
              if p = 0x08048000 then
                some { kpage := 100, writable := false, accessed := false, dirty := false }
              else none,
            sup_page_table := fun p =>
              if p = 0x08048000 then
                some { zero_spte 0x08048000 (some 100) with
                  page_type := page_type.FILE,
                  file_page := { file := 5, offset := 0, read_bytes := 100, writable := false } }
              else none }
        else thread.empty)).with_frame_table
      [{ pinned := false, kpage := 100, spte := 0x08048000, owner := 1 }]).with_fs
    { filesys.empty with inode_length := fun _ => 4096 }

/-- A process that has mapped a file of 4096 bytes at 0x10000000 as region 0;
the page is swapped out in slot 0, the only slot in use. -/
def swapped_mmap_example : Kernel :=
  (((Kernel.boot 64 [100]).with_threads
      (fun i =>
        if i = 1 then
          { thread.empty with
            sup_page_table := fun p =>
              if p = 0x10000000 then some (mmap_spte 0x10000000 0 0 4096 none 0) else none,
            mmap_list := [{ mapid := 0, file := 5, spte_list := [0x10000000] }] }
        else thread.empty)).with_swap_table
      (bitmap_set (bitmap_create 8) 0 true)).with_fs
    { filesys.empty with inode_length := fun _ => 4096 }

/-- Modelled from the spec: every swap slot marked used in the swap bitmap is
the `swap_index` of exactly one supplemental entry. -/
def slots_owned (k : Kernel) : Prop :=
  ∀ i, i < k.swap_table.bit_cnt → k.swap_table.bits i = true →
    ∃! e : Nat × Nat, ∃ P, (k.threads e.1).sup_page_table e.2 = some P ∧ P.swap_index = i

end Pintos

namespace Pintos

/-- The machine after boot with one free user frame, 100; the files on disk
are 5000 bytes long. -/
def mmap_boot_example : Kernel :=
  (Kernel.boot 64 [100]).with_fs { filesys.empty with inode_length := fun _ => 5000 }

/-- The machine of `mmap_boot_example` after file handle 5 was mapped at
0x10000000. -/
def mmap_added_example : Kernel :=
  (page_add_mmap_lazily 0x10000000 5 5000 mmap_boot_example).state_or mmap_boot_example

/-- The machine of `mmap_added_example` after the second page of the region
was loaded. -/
def mmap_loaded_example : Kernel :=
  (page_load 3 0x10001000 mmap_added_example).state_or mmap_added_example

end Pintos

namespace Pintos

/-! ## The scan of `evict`: what it relies on, and how long a frame waits -/

/-- What the scan of `evict` relies on: entries are stored under their own
page, no two frames back the same entry, and every frame of the frame table
backs an entry whose page is not null and is mapped (the assertions of the
scan), that points to a frame, and, for an `MMAP` page, whose region exists
(the pointers `write_back` follows). -/
structure scan_ready (k : Kernel) : Prop where
  keys : spt_keys_ok k
  distinct : frames_distinct k
  linked : ∀ g, g ∈ k.frame_table →
    ∃ sp, (k.threads g.owner).sup_page_table g.spte = some sp ∧ sp.upage ≠ 0 ∧
      (pagedir_get_page (k.threads g.owner).pagedir sp.upage).isSome = true ∧
      sp.fte.isSome = true ∧
      (sp.page_type = page_type.MMAP →
        ((k.threads g.owner).mmap_list.find?
          (fun m => decide (m.mapid = sp.mmap_page.mmap_fd))).isSome = true)

/-- How many times the scan sends frame `g` to the back of the list before it
chooses it, were the frame unpinned: twice when its page is accessed and
dirty, once when it is accessed only, never otherwise. -/
def frame_rank (k : Kernel) (g : fte) : Nat :=
  match (k.threads g.owner).sup_page_table g.spte with
  | none => 0
  | some sp =>
    if pagedir_is_accessed (k.threads g.owner).pagedir sp.upage then
      if pagedir_is_dirty (k.threads g.owner).pagedir sp.upage then 2 else 1
    else 0

/-- As `mmap_two_pages_example`, with the frame of the first page pinned: the
only unpinned frame is the last of the list, its page accessed and dirty. -/
def pinned_then_dirty_example : Kernel :=
  mmap_two_pages_example.with_frame_table
    [{ pinned := true, kpage := 100, spte := 0x10000000, owner := 1 },
     { pinned := false, kpage := 101, spte := 0x10001000, owner := 1 }]

end Pintos

namespace Pintos

/-! ## Memory-mapped regions, as the specification describes them -/

/-- Modelled from the spec: the number of pages of a region of `length`
bytes, `length / 4096` rounded up. -/
def mmap_page_count (length : Nat) : Nat := (length + PGSIZE - 1) / PGSIZE

/-- Modelled from the spec: the address of page `i` of a region at `upage`. -/
def mmap_key (upage i : Nat) : Nat := upage + PGSIZE * i

/-- Modelled from the spec: the `read_bytes` of page `i` of a region of
`length` bytes; every page but the last has 4096, the last has
`length mod 4096` when that is not zero, else 4096. -/
def mmap_read_bytes (length i : Nat) : Nat :=
  if i + 1 = mmap_page_count length ∧ length % PGSIZE ≠ 0 then length % PGSIZE else PGSIZE

/-- Modelled from the spec: the entry of page `i` of region `mapid`, an `MMAP`
entry at `upage + 4096 * i` with file offset `i` pages, neither resident nor
swapped. -/
def mmap_entry (upage : Nat) (mapid : Int) (length i : Nat) : spte :=
  mmap_spte (mmap_key upage i) mapid i (mmap_read_bytes length i) none NOT_IN_SWAP_PARTITION

/-- The `mapid` that `page_add_mmap_lazily` gives a new region: 0 for the
first region of the list, else one more than that of the last. -/
def next_mapid (l : List mmap_fd) : Int :=
  match l.getLast? with
  | none => 0
  | some m => m.mapid + 1

/-- Modelled from the spec: "`mapid` is a monotonically increasing small
integer, unique within a process"; along the list of regions the `mapid`s
increase. -/
def mapids_increasing (l : List mmap_fd) : Prop :=
  l.Pairwise (fun a b => a.mapid < b.mapid)

/-- What of an entry says which page it describes and where its contents come
from; the frame and the swap slot, which change as the page is loaded and
evicted, are left out. -/
def spte_static (P : spte) : file_page × mmap_page × Nat × page_type :=
  (P.file_page, P.mmap_page, P.upage, P.page_type)

/-- Zero or more calls of `page_load`, each for a page that is not resident,
lead from the first state to the second. -/
inductive loads : Kernel → Kernel → Prop where
  | refl (k : Kernel) : loads k k
  | step {k k1 k2 : Kernel} (fuel uaddr : Nat) (b : Bool) :
    loads k k1 →
    (∀ P, k1.cur.sup_page_table (pg_round_down uaddr) = some P → P.fte = none) →
    page_load fuel uaddr k1 = Res.ok b k2 → loads k k2

end Pintos

namespace Pintos

/-- The addresses of the pages `j`, `j + 1`, ... of a region of `length`
bytes at `upage`. -/
def mmap_keys_from (upage length j : Nat) : List Nat :=
  (List.range' j (mmap_page_count length - j)).map (mmap_key upage)

/-- The pages `keys` join the list of region `mapid`. -/
def region_extend (mapid : Int) (keys : List Nat) (m : mmap_fd) : mmap_fd :=
  if m.mapid = mapid then { m with spte_list := m.spte_list ++ keys } else m

end Pintos

namespace Pintos

/-- The two states describe the same pages: the same thread is running, every
table has entries for the same pages with the same description (frames and
swap slots apart), and the regions are the same. -/
structure same_pages (k k1 : Kernel) : Prop where
  current : k1.current = k.current
  static : ∀ tid q, ((k1.threads tid).sup_page_table q).map spte_static
    = ((k.threads tid).sup_page_table q).map spte_static
  mmap_list : ∀ tid, (k1.threads tid).mmap_list = (k.threads tid).mmap_list

end Pintos

namespace Pintos

/-! ## Reloading an evicted page -/

/-- The page `upage` of the running process is swapped out to slot `s` in
state `kx` as the eviction left it in state `k1`: the same process runs, its
entry for the page is the same, the page is not mapped, the slot is still
marked used, and the eight sectors of the slot hold what they held in `k1`.
Everything else may differ, the contents of every frame and the free pool
included. -/
structure swapped_still (upage s : Nat) (k1 kx : Kernel) : Prop where
  current : kx.current = k1.current
  entry : kx.cur.sup_page_table upage = k1.cur.sup_page_table upage
  unmapped : (kx.threads kx.current).pagedir upage = none
  slots : kx.swap_table.bit_cnt = k1.swap_table.bit_cnt
  used : kx.swap_table.bits s = true
  sectors : ∀ m j, m < FRAME_SECTORS → j < BLOCK_SECTOR_SIZE →
    kx.swap_block.data (s * FRAME_SECTORS + m) j = k1.swap_block.data (s * FRAME_SECTORS + m) j

/-- What `frame_alloc` needs to obtain a frame in state `k` with `fuel` pops
of the scan of `evict`: the free pool is not empty, or `evict` finds a victim
and a slot for it, that is, the scan can run, some frame is unpinned, a slot
below 65535 is free and no slot from 65535 on is in use. -/
def frame_obtainable (fuel : Nat) (k : Kernel) : Prop :=
  k.user_pool ≠ [] ∨
    (scan_ready k ∧ swap_reachable k.swap_table ∧
      (∃ i, i < k.swap_table.bit_cnt ∧ i < 65535 ∧ k.swap_table.bits i = false) ∧
      (∃ g, g ∈ k.frame_table ∧ g.pinned = false) ∧ 3 * k.frame_table.length ≤ fuel)

end Pintos

namespace Pintos

/-- The machine of `written_pages_example` after `evict` has written its
first page to slot 0 and the released frame, 100, has been given, zero-filled,
to a third page at 0x10002000: the first page is swapped out, frame 101
still holds the second page, the free pool is empty again, and the swap
device is the one the eviction left. -/
def reload_example : Kernel :=
  (((((Kernel.boot 64 []).with_threads
      (fun i =>
        if i = 1 then
          { thread.empty with
            pagedir := fun p =>
              if p = 0x10001000 then some (fresh_pte 101)
              else if p = 0x10002000 then some (fresh_pte 100) else none,
            sup_page_table := fun p =>
              if p = 0x10000000 then some { zero_spte 0x10000000 none with swap_index := 0 }
              else if p = 0x10001000 then some (zero_spte 0x10001000 (some 101))
              else if p = 0x10002000 then some (zero_spte 0x10002000 (some 100)) else none }
        else thread.empty)).with_frame_table
      [{ pinned := false, kpage := 101, spte := 0x10001000, owner := 1 },
       { pinned := false, kpage := 100, spte := 0x10002000, owner := 1 }]).with_ram
      (fun _ _ => 0)).with_swap_table (bitmap_set (bitmap_create 8) 0 true)).with_swap_block
    ((evict 3 written_pages_example).state_or written_pages_example).swap_block

end Pintos

namespace Pintos

/-! ## File descriptors of a process -/

/-- Between the two states the same process runs and no thread has changed
its list of open file descriptors. -/
structure fds_kept (k k1 : Kernel) : Prop where
  current : k1.current = k.current
  fd_list : ∀ tid, (k1.threads tid).fd_list = (k.threads tid).fd_list

/-- The kernel code `x` leaves the descriptor lists alone whenever it
returns. -/
def K.keeps_fds {α : Type} (x : K α) : Prop :=
  ∀ k a k1, x k = Res.ok a k1 → fds_kept k k1

/-- The numbers of the open descriptors of the running process, in the order
of its `fd_list`. -/
def fd_numbers (k : Kernel) : List Int :=
  k.cur.fd_list.map file_descriptor.fileno

/-- The open descriptors are listed in strictly increasing order of number,
from `FILENO_START` on. -/
def fds_increasing (k : Kernel) : Prop :=
  (fd_numbers k).Pairwise (fun a b => a < b) ∧ ∀ n, n ∈ fd_numbers k → FILENO_START ≤ n

/-- A sequence of `open` and `close` system calls, each of which returned,
leads from the first state to the second. -/
inductive fd_calls : Kernel → Kernel → Prop where
  | refl (k : Kernel) : fd_calls k k
  | sys_open {k k1 k2 : Kernel} (fuel file : Nat) (fd : Int) :
    fd_calls k k1 → sys_open fuel file k1 = Res.ok fd k2 → fd_calls k k2
  | close {k k1 k2 : Kernel} (fd : Int) :
    fd_calls k k1 → close fd k1 = Res.ok () k2 → fd_calls k k2

end Pintos

namespace Pintos

/-- The machine of `open_example` after the process opened the file "abc". -/
def open_once_example : Kernel :=
  (sys_open 3 0x10000000 open_example).state_or open_example

/-- The machine of `open_once_example` after a second `open` of the file. -/
def open_twice_example : Kernel :=
  (sys_open 3 0x10000000 open_once_example).state_or open_once_example

/-- The machine of `open_twice_example` after `close (3)`. -/
def open_closed_example : Kernel :=
  (close 3 open_twice_example).state_or open_twice_example

end Pintos


namespace Pintos

/-! ## Field updates commute with field reads -/

@[simp] theorem Kernel.with_threads_current (k : Kernel) (v : Nat → thread) :
    (k.with_threads v).current = k.current := rfl

@[simp] theorem Kernel.with_threads_threads (k : Kernel) (v : Nat → thread) :
    (k.with_threads v).threads = v := rfl

@[simp] theorem Kernel.with_threads_frame_table (k : Kernel) (v : Nat → thread) :
    (k.with_threads v).frame_table = k.frame_table := rfl

@[simp] theorem Kernel.with_threads_swap_table (k : Kernel) (v : Nat → thread) :
    (k.with_threads v).swap_table = k.swap_table := rfl

@[simp] theorem Kernel.with_threads_swap_block (k : Kernel) (v : Nat → thread) :
    (k.with_threads v).swap_block = k.swap_block := rfl

@[simp] theorem Kernel.with_threads_ram (k : Kernel) (v : Nat → thread) :
    (k.with_threads v).ram = k.ram := rfl

@[simp] theorem Kernel.with_threads_user_pool (k : Kernel) (v : Nat → thread) :
    (k.with_threads v).user_pool = k.user_pool := rfl

@[simp] theorem Kernel.with_threads_fs (k : Kernel) (v : Nat → thread) :
    (k.with_threads v).fs = k.fs := rfl

@[simp] theorem Kernel.with_threads_user_word (k : Kernel) (v : Nat → thread) :
    (k.with_threads v).user_word = k.user_word := rfl

@[simp] theorem Kernel.with_threads_user_strlen (k : Kernel) (v : Nat → thread) :
    (k.with_threads v).user_strlen = k.user_strlen := rfl

@[simp] theorem Kernel.with_threads_exec_pid (k : Kernel) (v : Nat → thread) :
    (k.with_threads v).exec_pid = k.exec_pid := rfl

@[simp] theorem Kernel.with_threads_wait_status (k : Kernel) (v : Nat → thread) :
    (k.with_threads v).wait_status = k.wait_status := rfl

@[simp] theorem Kernel.with_threads_trace (k : Kernel) (v : Nat → thread) :
    (k.with_threads v).trace = k.trace := rfl

@[simp] theorem Kernel.with_frame_table_current (k : Kernel) (v : List fte) :
    (k.with_frame_table v).current = k.current := rfl

@[simp] theorem Kernel.with_frame_table_threads (k : Kernel) (v : List fte) :
    (k.with_frame_table v).threads = k.threads := rfl

@[simp] theorem Kernel.with_frame_table_frame_table (k : Kernel) (v : List fte) :
    (k.with_frame_table v).frame_table = v := rfl

@[simp] theorem Kernel.with_frame_table_swap_table (k : Kernel) (v : List fte) :
    (k.with_frame_table v).swap_table = k.swap_table := rfl

@[simp] theorem Kernel.with_frame_table_swap_block (k : Kernel) (v : List fte) :
    (k.with_frame_table v).swap_block = k.swap_block := rfl

@[simp] theorem Kernel.with_frame_table_ram (k : Kernel) (v : List fte) :
    (k.with_frame_table v).ram = k.ram := rfl

@[simp] theorem Kernel.with_frame_table_user_pool (k : Kernel) (v : List fte) :
    (k.with_frame_table v).user_pool = k.user_pool := rfl

@[simp] theorem Kernel.with_frame_table_fs (k : Kernel) (v : List fte) :
    (k.with_frame_table v).fs = k.fs := rfl

@[simp] theorem Kernel.with_frame_table_user_word (k : Kernel) (v : List fte) :
    (k.with_frame_table v).user_word = k.user_word := rfl

@[simp] theorem Kernel.with_frame_table_user_strlen (k : Kernel) (v : List fte) :
    (k.with_frame_table v).user_strlen = k.user_strlen := rfl

@[simp] theorem Kernel.with_frame_table_exec_pid (k : Kernel) (v : List fte) :
    (k.with_frame_table v).exec_pid = k.exec_pid := rfl

@[simp] theorem Kernel.with_frame_table_wait_status (k : Kernel) (v : List fte) :
    (k.with_frame_table v).wait_status = k.wait_status := rfl

@[simp] theorem Kernel.with_frame_table_trace (k : Kernel) (v : List fte) :
    (k.with_frame_table v).trace = k.trace := rfl

@[simp] theorem Kernel.with_swap_table_current (k : Kernel) (v : bitmap) :
    (k.with_swap_table v).current = k.current := rfl

@[simp] theorem Kernel.with_swap_table_threads (k : Kernel) (v : bitmap) :
    (k.with_swap_table v).threads = k.threads := rfl

@[simp] theorem Kernel.with_swap_table_frame_table (k : Kernel) (v : bitmap) :
    (k.with_swap_table v).frame_table = k.frame_table := rfl

@[simp] theorem Kernel.with_swap_table_bits (k : Kernel) (v : bitmap) :
    (k.with_swap_table v).swap_table.bits = v.bits := rfl

@[simp] theorem Kernel.with_swap_table_bit_cnt (k : Kernel) (v : bitmap) :
    (k.with_swap_table v).swap_table.bit_cnt = k.swap_table.bit_cnt := rfl

@[simp] theorem Kernel.with_swap_table_swap_table (k : Kernel) (v : bitmap)
    (h : v.bit_cnt = k.swap_table.bit_cnt) : (k.with_swap_table v).swap_table = v := by
  cases v
  subst h
  rfl

@[simp] theorem Kernel.with_swap_table_swap_block (k : Kernel) (v : bitmap) :
    (k.with_swap_table v).swap_block = k.swap_block := rfl

@[simp] theorem Kernel.with_swap_table_ram (k : Kernel) (v : bitmap) :
    (k.with_swap_table v).ram = k.ram := rfl

@[simp] theorem Kernel.with_swap_table_user_pool (k : Kernel) (v : bitmap) :
    (k.with_swap_table v).user_pool = k.user_pool := rfl

@[simp] theorem Kernel.with_swap_table_fs (k : Kernel) (v : bitmap) :
    (k.with_swap_table v).fs = k.fs := rfl

@[simp] theorem Kernel.with_swap_table_user_word (k : Kernel) (v : bitmap) :
    (k.with_swap_table v).user_word = k.user_word := rfl

@[simp] theorem Kernel.with_swap_table_user_strlen (k : Kernel) (v : bitmap) :
    (k.with_swap_table v).user_strlen = k.user_strlen := rfl

@[simp] theorem Kernel.with_swap_table_exec_pid (k : Kernel) (v : bitmap) :
    (k.with_swap_table v).exec_pid = k.exec_pid := rfl

@[simp] theorem Kernel.with_swap_table_wait_status (k : Kernel) (v : bitmap) :
    (k.with_swap_table v).wait_status = k.wait_status := rfl

@[simp] theorem Kernel.with_swap_table_trace (k : Kernel) (v : bitmap) :
    (k.with_swap_table v).trace = k.trace := rfl

@[simp] theorem Kernel.with_swap_block_current (k : Kernel) (v : block) :
    (k.with_swap_block v).current = k.current := rfl

@[simp] theorem Kernel.with_swap_block_threads (k : Kernel) (v : block) :
    (k.with_swap_block v).threads = k.threads := rfl

@[simp] theorem Kernel.with_swap_block_frame_table (k : Kernel) (v : block) :
    (k.with_swap_block v).frame_table = k.frame_table := rfl

@[simp] theorem Kernel.with_swap_block_swap_table (k : Kernel) (v : block) :
    (k.with_swap_block v).swap_table = k.swap_table := rfl

@[simp] theorem Kernel.with_swap_block_data (k : Kernel) (v : block) :
    (k.with_swap_block v).swap_block.data = v.data := rfl

@[simp] theorem Kernel.with_swap_block_size (k : Kernel) (v : block) :
    (k.with_swap_block v).swap_block.size = k.swap_block.size := rfl

@[simp] theorem Kernel.with_swap_block_swap_block (k : Kernel) (v : block)
    (h : v.size = k.swap_block.size) : (k.with_swap_block v).swap_block = v := by
  cases v
  subst h
  rfl

@[simp] theorem Kernel.with_swap_block_ram (k : Kernel) (v : block) :
    (k.with_swap_block v).ram = k.ram := rfl

@[simp] theorem Kernel.with_swap_block_user_pool (k : Kernel) (v : block) :
    (k.with_swap_block v).user_pool = k.user_pool := rfl

@[simp] theorem Kernel.with_swap_block_fs (k : Kernel) (v : block) :
    (k.with_swap_block v).fs = k.fs := rfl

@[simp] theorem Kernel.with_swap_block_user_word (k : Kernel) (v : block) :
    (k.with_swap_block v).user_word = k.user_word := rfl

@[simp] theorem Kernel.with_swap_block_user_strlen (k : Kernel) (v : block) :
    (k.with_swap_block v).user_strlen = k.user_strlen := rfl

@[simp] theorem Kernel.with_swap_block_exec_pid (k : Kernel) (v : block) :
    (k.with_swap_block v).exec_pid = k.exec_pid := rfl

@[simp] theorem Kernel.with_swap_block_wait_status (k : Kernel) (v : block) :
    (k.with_swap_block v).wait_status = k.wait_status := rfl

@[simp] theorem Kernel.with_swap_block_trace (k : Kernel) (v : block) :
    (k.with_swap_block v).trace = k.trace := rfl

@[simp] theorem Kernel.with_ram_current (k : Kernel) (v : Nat → Nat → Byte) :
    (k.with_ram v).current = k.current := rfl

@[simp] theorem Kernel.with_ram_threads (k : Kernel) (v : Nat → Nat → Byte) :
    (k.with_ram v).threads = k.threads := rfl

@[simp] theorem Kernel.with_ram_frame_table (k : Kernel) (v : Nat → Nat → Byte) :
    (k.with_ram v).frame_table = k.frame_table := rfl

@[simp] theorem Kernel.with_ram_swap_table (k : Kernel) (v : Nat → Nat → Byte) :
    (k.with_ram v).swap_table = k.swap_table := rfl

@[simp] theorem Kernel.with_ram_swap_block (k : Kernel) (v : Nat → Nat → Byte) :
    (k.with_ram v).swap_block = k.swap_block := rfl

@[simp] theorem Kernel.with_ram_ram (k : Kernel) (v : Nat → Nat → Byte) :
    (k.with_ram v).ram = v := rfl

@[simp] theorem Kernel.with_ram_user_pool (k : Kernel) (v : Nat → Nat → Byte) :
    (k.with_ram v).user_pool = k.user_pool := rfl

@[simp] theorem Kernel.with_ram_fs (k : Kernel) (v : Nat → Nat → Byte) :
    (k.with_ram v).fs = k.fs := rfl

@[simp] theorem Kernel.with_ram_user_word (k : Kernel) (v : Nat → Nat → Byte) :
    (k.with_ram v).user_word = k.user_word := rfl

@[simp] theorem Kernel.with_ram_user_strlen (k : Kernel) (v : Nat → Nat → Byte) :
    (k.with_ram v).user_strlen = k.user_strlen := rfl

@[simp] theorem Kernel.with_ram_exec_pid (k : Kernel) (v : Nat → Nat → Byte) :
    (k.with_ram v).exec_pid = k.exec_pid := rfl

@[simp] theorem Kernel.with_ram_wait_status (k : Kernel) (v : Nat → Nat → Byte) :
    (k.with_ram v).wait_status = k.wait_status := rfl

@[simp] theorem Kernel.with_ram_trace (k : Kernel) (v : Nat → Nat → Byte) :
    (k.with_ram v).trace = k.trace := rfl

@[simp] theorem Kernel.with_user_pool_current (k : Kernel) (v : List Nat) :
    (k.with_user_pool v).current = k.current := rfl

@[simp] theorem Kernel.with_user_pool_threads (k : Kernel) (v : List Nat) :
    (k.with_user_pool v).threads = k.threads := rfl

@[simp] theorem Kernel.with_user_pool_frame_table (k : Kernel) (v : List Nat) :
    (k.with_user_pool v).frame_table = k.frame_table := rfl

@[simp] theorem Kernel.with_user_pool_swap_table (k : Kernel) (v : List Nat) :
    (k.with_user_pool v).swap_table = k.swap_table := rfl

@[simp] theorem Kernel.with_user_pool_swap_block (k : Kernel) (v : List Nat) :
    (k.with_user_pool v).swap_block = k.swap_block := rfl

@[simp] theorem Kernel.with_user_pool_ram (k : Kernel) (v : List Nat) :
    (k.with_user_pool v).ram = k.ram := rfl

@[simp] theorem Kernel.with_user_pool_user_pool (k : Kernel) (v : List Nat) :
    (k.with_user_pool v).user_pool = v := rfl

@[simp] theorem Kernel.with_user_pool_fs (k : Kernel) (v : List Nat) :
    (k.with_user_pool v).fs = k.fs := rfl

@[simp] theorem Kernel.with_user_pool_user_word (k : Kernel) (v : List Nat) :
    (k.with_user_pool v).user_word = k.user_word := rfl

@[simp] theorem Kernel.with_user_pool_user_strlen (k : Kernel) (v : List Nat) :
    (k.with_user_pool v).user_strlen = k.user_strlen := rfl

@[simp] theorem Kernel.with_user_pool_exec_pid (k : Kernel) (v : List Nat) :
    (k.with_user_pool v).exec_pid = k.exec_pid := rfl

@[simp] theorem Kernel.with_user_pool_wait_status (k : Kernel) (v : List Nat) :
    (k.with_user_pool v).wait_status = k.wait_status := rfl

@[simp] theorem Kernel.with_user_pool_trace (k : Kernel) (v : List Nat) :
    (k.with_user_pool v).trace = k.trace := rfl

@[simp] theorem Kernel.with_fs_current (k : Kernel) (v : filesys) :
    (k.with_fs v).current = k.current := rfl

@[simp] theorem Kernel.with_fs_threads (k : Kernel) (v : filesys) :
    (k.with_fs v).threads = k.threads := rfl

@[simp] theorem Kernel.with_fs_frame_table (k : Kernel) (v : filesys) :
    (k.with_fs v).frame_table = k.frame_table := rfl

@[simp] theorem Kernel.with_fs_swap_table (k : Kernel) (v : filesys) :
    (k.with_fs v).swap_table = k.swap_table := rfl

@[simp] theorem Kernel.with_fs_swap_block (k : Kernel) (v : filesys) :
    (k.with_fs v).swap_block = k.swap_block := rfl

@[simp] theorem Kernel.with_fs_ram (k : Kernel) (v : filesys) :
    (k.with_fs v).ram = k.ram := rfl

@[simp] theorem Kernel.with_fs_user_pool (k : Kernel) (v : filesys) :
    (k.with_fs v).user_pool = k.user_pool := rfl

@[simp] theorem Kernel.with_fs_fs (k : Kernel) (v : filesys) :
    (k.with_fs v).fs = v := rfl

@[simp] theorem Kernel.with_fs_user_word (k : Kernel) (v : filesys) :
    (k.with_fs v).user_word = k.user_word := rfl

@[simp] theorem Kernel.with_fs_user_strlen (k : Kernel) (v : filesys) :
    (k.with_fs v).user_strlen = k.user_strlen := rfl

@[simp] theorem Kernel.with_fs_exec_pid (k : Kernel) (v : filesys) :
    (k.with_fs v).exec_pid = k.exec_pid := rfl

@[simp] theorem Kernel.with_fs_wait_status (k : Kernel) (v : filesys) :
    (k.with_fs v).wait_status = k.wait_status := rfl

@[simp] theorem Kernel.with_fs_trace (k : Kernel) (v : filesys) :
    (k.with_fs v).trace = k.trace := rfl

@[simp] theorem Kernel.with_trace_current (k : Kernel) (v : List event) :
    (k.with_trace v).current = k.current := rfl

@[simp] theorem Kernel.with_trace_threads (k : Kernel) (v : List event) :
    (k.with_trace v).threads = k.threads := rfl

@[simp] theorem Kernel.with_trace_frame_table (k : Kernel) (v : List event) :
    (k.with_trace v).frame_table = k.frame_table := rfl

@[simp] theorem Kernel.with_trace_swap_table (k : Kernel) (v : List event) :
    (k.with_trace v).swap_table = k.swap_table := rfl

@[simp] theorem Kernel.with_trace_swap_block (k : Kernel) (v : List event) :
    (k.with_trace v).swap_block = k.swap_block := rfl

@[simp] theorem Kernel.with_trace_ram (k : Kernel) (v : List event) :
    (k.with_trace v).ram = k.ram := rfl

@[simp] theorem Kernel.with_trace_user_pool (k : Kernel) (v : List event) :
    (k.with_trace v).user_pool = k.user_pool := rfl

@[simp] theorem Kernel.with_trace_fs (k : Kernel) (v : List event) :
    (k.with_trace v).fs = k.fs := rfl

@[simp] theorem Kernel.with_trace_user_word (k : Kernel) (v : List event) :
    (k.with_trace v).user_word = k.user_word := rfl

@[simp] theorem Kernel.with_trace_user_strlen (k : Kernel) (v : List event) :
    (k.with_trace v).user_strlen = k.user_strlen := rfl

@[simp] theorem Kernel.with_trace_exec_pid (k : Kernel) (v : List event) :
    (k.with_trace v).exec_pid = k.exec_pid := rfl

@[simp] theorem Kernel.with_trace_wait_status (k : Kernel) (v : List event) :
    (k.with_trace v).wait_status = k.wait_status := rfl

@[simp] theorem Kernel.with_trace_trace (k : Kernel) (v : List event) :
    (k.with_trace v).trace = v := rfl

@[simp] theorem Kernel.with_thread_current (k : Kernel) (tid : Nat) (f : thread → thread) :
    (k.with_thread tid f).current = k.current := rfl

@[simp] theorem Kernel.with_thread_frame_table (k : Kernel) (tid : Nat) (f : thread → thread) :
    (k.with_thread tid f).frame_table = k.frame_table := rfl

@[simp] theorem Kernel.with_thread_swap_table (k : Kernel) (tid : Nat) (f : thread → thread) :
    (k.with_thread tid f).swap_table = k.swap_table := rfl

@[simp] theorem Kernel.with_thread_swap_block (k : Kernel) (tid : Nat) (f : thread → thread) :
    (k.with_thread tid f).swap_block = k.swap_block := rfl

@[simp] theorem Kernel.with_thread_ram (k : Kernel) (tid : Nat) (f : thread → thread) :
    (k.with_thread tid f).ram = k.ram := rfl

@[simp] theorem Kernel.with_thread_user_pool (k : Kernel) (tid : Nat) (f : thread → thread) :
    (k.with_thread tid f).user_pool = k.user_pool := rfl

@[simp] theorem Kernel.with_thread_fs (k : Kernel) (tid : Nat) (f : thread → thread) :
    (k.with_thread tid f).fs = k.fs := rfl

@[simp] theorem Kernel.with_thread_user_word (k : Kernel) (tid : Nat) (f : thread → thread) :
    (k.with_thread tid f).user_word = k.user_word := rfl

@[simp] theorem Kernel.with_thread_user_strlen (k : Kernel) (tid : Nat) (f : thread → thread) :
    (k.with_thread tid f).user_strlen = k.user_strlen := rfl

@[simp] theorem Kernel.with_thread_exec_pid (k : Kernel) (tid : Nat) (f : thread → thread) :
    (k.with_thread tid f).exec_pid = k.exec_pid := rfl

@[simp] theorem Kernel.with_thread_wait_status (k : Kernel) (tid : Nat) (f : thread → thread) :
    (k.with_thread tid f).wait_status = k.wait_status := rfl

@[simp] theorem Kernel.with_thread_trace (k : Kernel) (tid : Nat) (f : thread → thread) :
    (k.with_thread tid f).trace = k.trace := rfl

theorem Kernel.with_thread_threads (k : Kernel) (tid : Nat) (f : thread → thread) (i : Nat) :
    (k.with_thread tid f).threads i = if i = tid then f (k.threads i) else k.threads i := rfl

@[simp] theorem Kernel.with_thread_threads_same (k : Kernel) (tid : Nat) (f : thread → thread) :
    (k.with_thread tid f).threads tid = f (k.threads tid) := by
  simp [Kernel.with_thread_threads]

theorem Kernel.with_thread_threads_other (k : Kernel) (tid : Nat) (f : thread → thread)
    (i : Nat) (h : i ≠ tid) : (k.with_thread tid f).threads i = k.threads i := by
  simp [Kernel.with_thread_threads, h]

@[simp] theorem thread.with_pagedir_pagedir (t : thread) (pd : Nat → Option pte) :
    (t.with_pagedir pd).pagedir = pd := rfl

@[simp] theorem thread.with_pagedir_sup_page_table (t : thread) (pd : Nat → Option pte) :
    (t.with_pagedir pd).sup_page_table = t.sup_page_table := rfl

@[simp] theorem thread.with_pagedir_mmap_list (t : thread) (pd : Nat → Option pte) :
    (t.with_pagedir pd).mmap_list = t.mmap_list := rfl

@[simp] theorem thread.with_pagedir_fd_list (t : thread) (pd : Nat → Option pte) :
    (t.with_pagedir pd).fd_list = t.fd_list := rfl

@[simp] theorem thread.with_pagedir_exit_status (t : thread) (pd : Nat → Option pte) :
    (t.with_pagedir pd).exit_status = t.exit_status := rfl

@[simp] theorem thread.with_spte_pagedir (t : thread) (key : Nat) (f : spte → spte) :
    (t.with_spte key f).pagedir = t.pagedir := rfl

theorem thread.with_spte_sup_page_table (t : thread) (key : Nat) (f : spte → spte) (p : Nat) :
    (t.with_spte key f).sup_page_table p =
      if p = key then (t.sup_page_table p).map f else t.sup_page_table p := rfl

@[simp] theorem thread.with_spte_mmap_list (t : thread) (key : Nat) (f : spte → spte) :
    (t.with_spte key f).mmap_list = t.mmap_list := rfl

@[simp] theorem thread.with_spte_fd_list (t : thread) (key : Nat) (f : spte → spte) :
    (t.with_spte key f).fd_list = t.fd_list := rfl

@[simp] theorem thread.with_spte_exit_status (t : thread) (key : Nat) (f : spte → spte) :
    (t.with_spte key f).exit_status = t.exit_status := rfl

@[simp] theorem Kernel.cur_with_threads (k : Kernel) (v : Nat → thread) :
    (k.with_threads v).cur = v k.current := rfl

end Pintos


namespace Pintos

/-! ## Running kernel code -/

@[simp] theorem K.run_pure {α : Type} (a : α) (k : Kernel) :
    (pure a : K α) k = Res.ok a k := rfl

@[simp] theorem K.run_bind {α β : Type} (x : K α) (f : α → K β) (k : Kernel) :
    (x >>= f) k = K.seq x f k := rfl

@[simp] theorem K.run_get (k : Kernel) : K.get k = Res.ok k k := rfl

@[simp] theorem K.run_modify (f : Kernel → Kernel) (k : Kernel) :
    K.modify f k = Res.ok () (f k) := rfl

@[simp] theorem K.run_panic {α : Type} (s : panic_site) (k : Kernel) :
    (K.panic s : K α) k = Res.panic s := rfl

@[simp] theorem K.run_assert_true (s : panic_site) (k : Kernel) :
    K.assert true s k = Res.ok () k := rfl

@[simp] theorem K.run_assert_false (s : panic_site) (k : Kernel) :
    K.assert false s k = Res.panic s := rfl

theorem K.seq_ok {α β : Type} {x : K α} {f : α → K β} {k k1 : Kernel} {a : α}
    (h : x k = Res.ok a k1) : K.seq x f k = f a k1 := by
  simp [K.seq, h]

/-- Sequencing returns exactly when both parts do. -/
theorem K.seq_eq_ok {α β : Type} {x : K α} {f : α → K β} {k k2 : Kernel} {b : β} :
    K.seq x f k = Res.ok b k2 ↔ ∃ a k1, x k = Res.ok a k1 ∧ f a k1 = Res.ok b k2 := by
  unfold K.seq
  cases h : x k with
  | ok a k1 =>
    constructor
    · intro hf; exact ⟨a, k1, rfl, hf⟩
    · rintro ⟨a1, k3, e, hf⟩
      cases e
      exact hf
  | killed s k1 => simp
  | halted k1 => simp
  | panic p => simp
  | out_of_fuel => simp

theorem K.assert_eq_ok {c : Bool} {s : panic_site} {k k1 : Kernel} {u : Unit} :
    K.assert c s k = Res.ok u k1 ↔ c = true ∧ k = k1 := by
  cases c <;> simp

theorem K.pure_eq_ok {α : Type} {a b : α} {k k1 : Kernel} :
    (pure a : K α) k = Res.ok b k1 ↔ a = b ∧ k = k1 := by
  constructor
  · intro h; cases h; exact ⟨rfl, rfl⟩
  · rintro ⟨rfl, rfl⟩; rfl

theorem K.get_eq_ok {a k k1 : Kernel} : K.get k = Res.ok a k1 ↔ k = a ∧ k = k1 := by
  constructor
  · intro h; cases h; exact ⟨rfl, rfl⟩
  · rintro ⟨rfl, rfl⟩; rfl

theorem K.modify_eq_ok {f : Kernel → Kernel} {k k1 : Kernel} {u : Unit} :
    K.modify f k = Res.ok u k1 ↔ f k = k1 := by
  constructor
  · intro h; cases h; rfl
  · rintro rfl; rfl

@[simp] theorem K.panic_ne_ok {α : Type} {s : panic_site} {k k1 : Kernel} {a : α} :
    ((K.panic s : K α) k = Res.ok a k1) ↔ False := by
  simp [K.panic]

@[simp] theorem K.no_fuel_ne_ok {α : Type} {k k1 : Kernel} {a : α} :
    ((K.no_fuel : K α) k = Res.ok a k1) ↔ False := by
  simp [K.no_fuel]

/-! ## The bitmap scan -/

theorem bitmap_scan_from_spec (b : bitmap) (value : Bool) :
    ∀ n i, (bitmap_scan_from b value n i = BITMAP_ERROR ∧
              ∀ j, i ≤ j → j < i + n → b.bits j ≠ value) ∨
           (i ≤ bitmap_scan_from b value n i ∧ bitmap_scan_from b value n i < i + n ∧
              b.bits (bitmap_scan_from b value n i) = value ∧
              ∀ j, i ≤ j → j < bitmap_scan_from b value n i → b.bits j ≠ value) := by
  intro n
  induction n with
  | zero =>
    intro i
    left
    exact ⟨rfl, fun j h1 h2 => by omega⟩
  | succ n ih =>
    intro i
    by_cases h : b.bits i = value
    · right
      rw [bitmap_scan_from, if_pos h]
      exact ⟨le_refl _, by omega, h, fun j h1 h2 => by omega⟩
    · rw [bitmap_scan_from, if_neg h]
      rcases ih (i + 1) with ⟨e, hall⟩ | ⟨h1, h2, h3, h4⟩
      · left
        refine ⟨e, fun j hj1 hj2 => ?_⟩
        by_cases hji : j = i
        · subst hji; exact h
        · exact hall j (by omega) (by omega)
      · right
        refine ⟨by omega, by omega, h3, fun j hj1 hj2 => ?_⟩
        by_cases hji : j = i
        · subst hji; exact h
        · exact h4 j (by omega) hj2

/-- With a free slot in the table the scan finds the lowest one. -/
theorem bitmap_scan_free (b : bitmap)
    (hfree : ∃ i, i < b.bit_cnt ∧ b.bits i = false) :
    bitmap_scan b 0 false < b.bit_cnt ∧ b.bits (bitmap_scan b 0 false) = false ∧
      ∀ j, j < bitmap_scan b 0 false → b.bits j = true := by
  obtain ⟨i, hi, hb⟩ := hfree
  unfold bitmap_scan
  rcases bitmap_scan_from_spec b false (b.bit_cnt - 0) 0 with ⟨_, hall⟩ | ⟨_, h2, h3, h4⟩
  · exact absurd hb (hall i (Nat.zero_le _) (by omega))
  · refine ⟨by omega, h3, fun j hj => ?_⟩
    have := h4 j (Nat.zero_le _) hj
    cases hbj : b.bits j <;> simp_all

/-- On a table without a free slot the scan reports `BITMAP_ERROR`. -/
theorem bitmap_scan_full (b : bitmap)
    (hfull : ∀ i, i < b.bit_cnt → b.bits i = true) :
    bitmap_scan b 0 false = BITMAP_ERROR := by
  unfold bitmap_scan
  rcases bitmap_scan_from_spec b false (b.bit_cnt - 0) 0 with ⟨e, _⟩ | ⟨_, h2, h3, _⟩
  · exact e
  · have := hfull _ (by omega : bitmap_scan_from b false (b.bit_cnt - 0) 0 < b.bit_cnt)
    rw [h3] at this
    cases this

/-! ## The sector loops of `swap_out` and `swap_in` -/

theorem block_write_some {blk b : block} {sector : Nat} {buffer : Nat → Byte}
    (h : block_write blk sector buffer = some b) :
    sector < blk.size ∧ b.size = blk.size ∧
      b.data = fun s i => if s = sector ∧ i < BLOCK_SECTOR_SIZE then buffer i else blk.data s i := by
  unfold block_write at h
  by_cases hs : sector < blk.size
  · rw [if_pos hs] at h
    cases h
    exact ⟨hs, rfl, rfl⟩
  · rw [if_neg hs] at h
    cases h

theorem block_read_some {blk : block} {sector : Nat} {buffer : Nat → Byte}
    (h : block_read blk sector = some buffer) :
    sector < blk.size ∧ buffer = blk.data sector := by
  unfold block_read at h
  by_cases hs : sector < blk.size
  · rw [if_pos hs] at h
    cases h
    exact ⟨hs, rfl⟩
  · rw [if_neg hs] at h
    cases h

theorem swap_out_loop_step {page : Nat → Byte} {fuel offset sector : Nat} {blk b : block}
    (ho : offset < PGSIZE)
    (h : swap_out_loop page (fuel + 1) offset sector blk = some b) :
    ∃ b1, block_write blk sector (fun i => page (offset + i)) = some b1 ∧
      swap_out_loop page fuel (offset + BLOCK_SECTOR_SIZE) (to_uint32 (sector + 1)) b1 = some b := by
  unfold swap_out_loop at h
  rw [if_pos ho] at h
  cases hw : block_write blk sector (fun i => page (offset + i)) with
  | none => rw [hw] at h; cases h
  | some b1 => rw [hw] at h; exact ⟨b1, rfl, h⟩

theorem swap_out_loop_size (page : Nat → Byte) :
    ∀ (fuel offset sector : Nat) (blk b : block),
      swap_out_loop page fuel offset sector blk = some b → b.size = blk.size := by
  intro fuel
  induction fuel with
  | zero => intro offset sector blk b h; cases h; rfl
  | succ fuel ih =>
    intro offset sector blk b h
    by_cases ho : offset < PGSIZE
    · obtain ⟨b1, hw, hrest⟩ := swap_out_loop_step ho h
      rw [ih _ _ _ _ hrest, (block_write_some hw).2.1]
    · unfold swap_out_loop at h
      rw [if_neg ho] at h
      cases h; rfl

theorem swap_out_loop_other (page : Nat → Byte) :
    ∀ (fuel offset sector : Nat) (blk b : block) (s i : Nat),
      swap_out_loop page fuel offset sector blk = some b → sector < 4294967296 →
      (∀ m, offset + 512 * m < PGSIZE → s ≠ (sector + m) % 4294967296) →
      b.data s i = blk.data s i := by
  intro fuel
  induction fuel with
  | zero => intro offset sector blk b s i h _ _; cases h; rfl
  | succ fuel ih =>
    intro offset sector blk b s i h hsec hne
    by_cases ho : offset < PGSIZE
    · obtain ⟨b1, hw, hrest⟩ := swap_out_loop_step ho h
      rw [ih _ _ _ _ s i hrest, (block_write_some hw).2.2]
      · have h0 := hne 0 (by simpa using ho)
        have : s ≠ sector := by
          intro e; apply h0; subst e; simp [Nat.mod_eq_of_lt hsec]
        simp [this]
      · unfold to_uint32; exact Nat.mod_lt _ (by norm_num)
      · intro m hm
        have := hne (m + 1) (by simp only [BLOCK_SECTOR_SIZE] at hm; omega)
        unfold to_uint32
        omega
    · unfold swap_out_loop at h
      rw [if_neg ho] at h
      cases h; rfl

theorem swap_out_loop_hit (page : Nat → Byte) :
    ∀ (fuel offset sector : Nat) (blk b : block) (m j : Nat),
      swap_out_loop page fuel offset sector blk = some b → sector < 4294967296 →
      offset + 512 * m < PGSIZE → j < 512 → PGSIZE ≤ offset + 512 * fuel →
      b.data ((sector + m) % 4294967296) j = page (offset + 512 * m + j) := by
  intro fuel
  induction fuel with
  | zero => intro offset sector blk b m j _ _ h1 _ h2; omega
  | succ fuel ih =>
    intro offset sector blk b m j h hsec hm hj hfuel
    have ho : offset < PGSIZE := by omega
    obtain ⟨b1, hw, hrest⟩ := swap_out_loop_step ho h
    have hsec1 : to_uint32 (sector + 1) < 4294967296 := by
      unfold to_uint32; exact Nat.mod_lt _ (by norm_num)
    cases m with
    | zero =>
      rw [swap_out_loop_other page fuel _ _ _ _ _ _ hrest hsec1, (block_write_some hw).2.2]
      · simp [Nat.mod_eq_of_lt hsec, hj]
      · intro m hm2
        simp only [BLOCK_SECTOR_SIZE, PGSIZE] at hm2
        unfold to_uint32
        omega
    | succ m =>
      have := ih (offset + BLOCK_SECTOR_SIZE) (to_uint32 (sector + 1)) b1 b m j hrest hsec1
        (by simp only [BLOCK_SECTOR_SIZE]; omega) hj
        (by simp only [BLOCK_SECTOR_SIZE]; omega)
      have e1 : (to_uint32 (sector + 1) + m) % 4294967296 = (sector + (m + 1)) % 4294967296 := by
        unfold to_uint32; omega
      have e2 : offset + BLOCK_SECTOR_SIZE + 512 * m + j = offset + 512 * (m + 1) + j := by
        simp only [BLOCK_SECTOR_SIZE]; omega
      rw [e1, e2] at this
      exact this

/-- Every sector the loop of `swap_out` wrote lies on the device. -/
theorem swap_out_loop_in_range (page : Nat → Byte) :
    ∀ (fuel offset sector : Nat) (blk b : block) (m : Nat),
      swap_out_loop page fuel offset sector blk = some b → sector < 4294967296 →
      offset + 512 * m < PGSIZE → PGSIZE ≤ offset + 512 * fuel →
      (sector + m) % 4294967296 < blk.size := by
  intro fuel
  induction fuel with
  | zero => intro offset sector blk b m _ _ h1 h2; omega
  | succ fuel ih =>
    intro offset sector blk b m h hsec hm hfuel
    have ho : offset < PGSIZE := by omega
    obtain ⟨b1, hw, hrest⟩ := swap_out_loop_step ho h
    have hsec1 : to_uint32 (sector + 1) < 4294967296 := by
      unfold to_uint32; exact Nat.mod_lt _ (by norm_num)
    cases m with
    | zero =>
      rw [Nat.add_zero, Nat.mod_eq_of_lt hsec]
      exact (block_write_some hw).1
    | succ m =>
      have := ih (offset + BLOCK_SECTOR_SIZE) (to_uint32 (sector + 1)) b1 b m hrest hsec1
        (by simp only [BLOCK_SECTOR_SIZE]; omega)
        (by simp only [BLOCK_SECTOR_SIZE]; omega)
      have e1 : (to_uint32 (sector + 1) + m) % 4294967296 = (sector + (m + 1)) % 4294967296 := by
        unfold to_uint32; omega
      rw [e1, (block_write_some hw).2.1] at this
      exact this

/-- The loop of `swap_out` completes when its sectors lie on the device. -/
theorem swap_out_loop_returns (page : Nat → Byte) :
    ∀ (fuel offset sector : Nat) (blk : block), sector < 4294967296 →
      (∀ m, offset + 512 * m < PGSIZE → (sector + m) % 4294967296 < blk.size) →
      ∃ b, swap_out_loop page fuel offset sector blk = some b := by
  intro fuel
  induction fuel with
  | zero => intro offset sector blk _ _; exact ⟨blk, rfl⟩
  | succ fuel ih =>
    intro offset sector blk hsec hin
    unfold swap_out_loop
    by_cases ho : offset < PGSIZE
    · rw [if_pos ho]
      have h0 : sector < blk.size := by
        have := hin 0 (by simpa using ho)
        rwa [Nat.add_zero, Nat.mod_eq_of_lt hsec] at this
      have hw : block_write blk sector (fun i => page (offset + i)) =
          some { blk with
            data := fun s i =>
              if s = sector ∧ i < BLOCK_SECTOR_SIZE then page (offset + i) else blk.data s i } := by
        unfold block_write
        rw [if_pos h0]
      rw [hw]
      apply ih
      · unfold to_uint32; exact Nat.mod_lt _ (by norm_num)
      · intro m hm
        have := hin (m + 1) (by simp only [BLOCK_SECTOR_SIZE] at hm; omega)
        have e1 : (to_uint32 (sector + 1) + m) % 4294967296 = (sector + (m + 1)) % 4294967296 := by
          unfold to_uint32; omega
        rw [e1]
        exact this
    · rw [if_neg ho]
      exact ⟨blk, rfl⟩

/-- The loop of `swap_out` stops at its first `block_write` when the first
sector is past the end of the device. -/
theorem swap_out_loop_past_end (page : Nat → Byte) (fuel offset sector : Nat) (blk : block)
    (ho : offset < PGSIZE) (hs : blk.size ≤ sector) :
    swap_out_loop page (fuel + 1) offset sector blk = none := by
  unfold swap_out_loop
  rw [if_pos ho]
  have hw : block_write blk sector (fun i => page (offset + i)) = none := by
    unfold block_write
    rw [if_neg (by omega)]
  rw [hw]

theorem swap_in_loop_step {blk : block} {fuel offset sector : Nat} {page q : Nat → Byte}
    (ho : offset < PGSIZE)
    (h : swap_in_loop blk (fuel + 1) offset sector page = some q) :
    sector < blk.size ∧
      swap_in_loop blk fuel (offset + BLOCK_SECTOR_SIZE) (to_uint32 (sector + 1))
        (fun i =>
          if offset ≤ i ∧ i < offset + BLOCK_SECTOR_SIZE then blk.data sector (i - offset)
          else page i) = some q := by
  unfold swap_in_loop at h
  rw [if_pos ho] at h
  cases hr : block_read blk sector with
  | none => rw [hr] at h; cases h
  | some buffer =>
    rw [hr] at h
    obtain ⟨hs, rfl⟩ := block_read_some hr
    exact ⟨hs, h⟩

theorem swap_in_loop_below (blk : block) :
    ∀ (fuel offset sector : Nat) (page q : Nat → Byte) (i : Nat),
      swap_in_loop blk fuel offset sector page = some q → i < offset → q i = page i := by
  intro fuel
  induction fuel with
  | zero => intro offset sector page q i h _; cases h; rfl
  | succ fuel ih =>
    intro offset sector page q i h hi
    by_cases ho : offset < PGSIZE
    · obtain ⟨_, hrest⟩ := swap_in_loop_step ho h
      rw [ih _ _ _ _ _ hrest (by omega)]
      have : ¬ (offset ≤ i ∧ i < offset + BLOCK_SECTOR_SIZE) := by omega
      simp [this]
    · unfold swap_in_loop at h
      rw [if_neg ho] at h
      cases h; rfl

/-- The loop of `swap_in` leaves the bytes beyond the page alone. -/
theorem swap_in_loop_above (blk : block) :
    ∀ (fuel offset sector : Nat) (page q : Nat → Byte) (i : Nat),
      swap_in_loop blk fuel offset sector page = some q → PGSIZE + 511 ≤ i → q i = page i := by
  intro fuel
  induction fuel with
  | zero => intro offset sector page q i h _; cases h; rfl
  | succ fuel ih =>
    intro offset sector page q i h hi
    by_cases ho : offset < PGSIZE
    · obtain ⟨_, hrest⟩ := swap_in_loop_step ho h
      rw [ih _ _ _ _ _ hrest hi]
      have : ¬ (offset ≤ i ∧ i < offset + BLOCK_SECTOR_SIZE) := by
        simp only [BLOCK_SECTOR_SIZE]; omega
      simp [this]
    · unfold swap_in_loop at h
      rw [if_neg ho] at h
      cases h; rfl

theorem swap_in_loop_hit (blk : block) :
    ∀ (fuel offset sector : Nat) (page q : Nat → Byte) (m j : Nat),
      swap_in_loop blk fuel offset sector page = some q → sector < 4294967296 →
      offset + 512 * m < PGSIZE → j < 512 → PGSIZE ≤ offset + 512 * fuel →
      q (offset + 512 * m + j) = blk.data ((sector + m) % 4294967296) j := by
  intro fuel
  induction fuel with
  | zero => intro offset sector page q m j _ _ h1 _ h2; omega
  | succ fuel ih =>
    intro offset sector page q m j h hsec hm hj hfuel
    have ho : offset < PGSIZE := by omega
    obtain ⟨_, hrest⟩ := swap_in_loop_step ho h
    have hsec1 : to_uint32 (sector + 1) < 4294967296 := by
      unfold to_uint32; exact Nat.mod_lt _ (by norm_num)
    cases m with
    | zero =>
      rw [swap_in_loop_below blk fuel _ _ _ _ _ hrest (by simp only [BLOCK_SECTOR_SIZE]; omega)]
      have : offset ≤ offset + 512 * 0 + j ∧ offset + 512 * 0 + j < offset + BLOCK_SECTOR_SIZE := by
        simp only [BLOCK_SECTOR_SIZE]; omega
      rw [if_pos this]
      have e1 : offset + 512 * 0 + j - offset = j := by omega
      rw [e1, Nat.add_zero, Nat.mod_eq_of_lt hsec]
    | succ m =>
      have := ih (offset + BLOCK_SECTOR_SIZE) (to_uint32 (sector + 1)) _ q m j hrest hsec1
        (by simp only [BLOCK_SECTOR_SIZE]; omega) hj
        (by simp only [BLOCK_SECTOR_SIZE]; omega)
      have e1 : (to_uint32 (sector + 1) + m) % 4294967296 = (sector + (m + 1)) % 4294967296 := by
        unfold to_uint32; omega
      have e2 : offset + BLOCK_SECTOR_SIZE + 512 * m + j = offset + 512 * (m + 1) + j := by
        simp only [BLOCK_SECTOR_SIZE]; omega
      rw [e1, e2] at this
      exact this

/-- The loop of `swap_in` completes when its sectors lie on the device. -/
theorem swap_in_loop_returns (blk : block) :
    ∀ (fuel offset sector : Nat) (page : Nat → Byte), sector < 4294967296 →
      (∀ m, offset + 512 * m < PGSIZE → (sector + m) % 4294967296 < blk.size) →
      ∃ q, swap_in_loop blk fuel offset sector page = some q := by
  intro fuel
  induction fuel with
  | zero => intro offset sector page _ _; exact ⟨page, rfl⟩
  | succ fuel ih =>
    intro offset sector page hsec hin
    unfold swap_in_loop
    by_cases ho : offset < PGSIZE
    · rw [if_pos ho]
      have h0 : sector < blk.size := by
        have := hin 0 (by simpa using ho)
        rwa [Nat.add_zero, Nat.mod_eq_of_lt hsec] at this
      have hr : block_read blk sector = some (blk.data sector) := by
        unfold block_read
        rw [if_pos h0]
      rw [hr]
      apply ih
      · unfold to_uint32; exact Nat.mod_lt _ (by norm_num)
      · intro m hm
        have := hin (m + 1) (by simp only [BLOCK_SECTOR_SIZE] at hm; omega)
        have e1 : (to_uint32 (sector + 1) + m) % 4294967296 = (sector + (m + 1)) % 4294967296 := by
          unfold to_uint32; omega
        rw [e1]
        exact this
    · rw [if_neg ho]
      exact ⟨page, rfl⟩

/-- The eight sectors of slot `s` lie on a device that has `FRAME_SECTORS`
sectors for each of the `n > s` slots. -/
theorem slot_sectors_in_range {s n size m : Nat} (hs : s < n) (hfit : n * FRAME_SECTORS ≤ size)
    (hm : 0 + 512 * m < PGSIZE) :
    (to_uint32 (s * FRAME_SECTORS) + m) % 4294967296 < size := by
  simp only [PGSIZE, FRAME_SECTORS, to_uint32] at *
  by_cases hsmall : s * 8 + 8 ≤ 4294967296
  · rw [Nat.mod_eq_of_lt (by omega), Nat.mod_eq_of_lt (by omega)]
    omega
  · have : (s * 8 % 4294967296 + m) % 4294967296 < 4294967296 := Nat.mod_lt _ (by norm_num)
    omega

/-- Reading the eight sectors back yields the page that was written to them,
also when the device was written elsewhere in between. -/
theorem swap_loops_round_trip (page other q : Nat → Byte) (blk b b1 : block) (sector i : Nat)
    (hsec : sector < 4294967296) (hi : i < PGSIZE)
    (hout : swap_out_loop page PGSIZE 0 sector blk = some b)
    (hin : swap_in_loop b1 PGSIZE 0 sector other = some q)
    (hsame : ∀ m j, m < 8 → j < 512 →
      b1.data ((sector + m) % 4294967296) j = b.data ((sector + m) % 4294967296) j) :
    q i = page i := by
  have h1 := swap_in_loop_hit b1 PGSIZE 0 sector other q
    (i / 512) (i % 512) hin hsec (by simp only [PGSIZE] at *; omega) (Nat.mod_lt _ (by norm_num))
    (by simp only [PGSIZE]; omega)
  have h2 := swap_out_loop_hit page PGSIZE 0 sector blk b
    (i / 512) (i % 512) hout hsec (by simp only [PGSIZE] at *; omega) (Nat.mod_lt _ (by norm_num))
    (by simp only [PGSIZE]; omega)
  have e : 0 + 512 * (i / 512) + i % 512 = i := by omega
  rw [e] at h1 h2
  rw [h1, hsame _ _ (by simp only [PGSIZE] at hi; omega) (Nat.mod_lt _ (by norm_num)), h2]

end Pintos

namespace Pintos

@[simp] theorem bitmap_set_bit_cnt (b : bitmap) (i : Nat) (v : Bool) :
    (bitmap_set b i v).bit_cnt = b.bit_cnt := rfl

@[simp] theorem bitmap_scan_and_flip_bit_cnt (b : bitmap) (start : Nat) (value : Bool) :
    (bitmap_scan_and_flip b start value).2.bit_cnt = b.bit_cnt := by
  unfold bitmap_scan_and_flip
  by_cases h : bitmap_scan b start value ≠ BITMAP_ERROR <;> simp [h]

/-- What `swap_out` computes: the scan result decides between the assertion
of `swap_out` and the eight sector writes, and the driver between a stop at a
sector past the end of the device and the return of the slot. -/
theorem swap_out_eq (kpage : Nat) (k : Kernel) :
    swap_out kpage k =
      if (bitmap_scan_and_flip k.swap_table 0 SWAP_FREE).1 = 65535 then
        Res.panic panic_site.swap_out_index
      else
        match swap_out_loop (k.ram kpage) PGSIZE 0
            (to_uint32 ((bitmap_scan_and_flip k.swap_table 0 SWAP_FREE).1 * FRAME_SECTORS))
            k.swap_block with
        | none => Res.panic panic_site.block_sector
        | some b =>
          Res.ok (bitmap_scan_and_flip k.swap_table 0 SWAP_FREE).1
            ((k.with_swap_table (bitmap_scan_and_flip k.swap_table 0 SWAP_FREE).2).with_swap_block
              b) := by
  unfold swap_out
  simp only [K.run_bind, K.seq, K.run_get, K.run_modify, K.run_pure]
  have e : BITMAP_ERROR % 65536 = 65535 := by decide
  by_cases h : (bitmap_scan_and_flip k.swap_table 0 SWAP_FREE).1 = 65535
  · simp [h, to_uint16, K.assert, e]
  · cases hl : swap_out_loop (k.ram kpage) PGSIZE 0
        (to_uint32 ((bitmap_scan_and_flip k.swap_table 0 SWAP_FREE).1 * FRAME_SECTORS))
        k.swap_block <;>
      simp [h, to_uint16, K.assert, e, hl, K.seq]

/-- What `swap_out` did when it returned. -/
theorem swap_out_inv {kpage s : Nat} {k k1 : Kernel} (h : swap_out kpage k = Res.ok s k1) :
    s = (bitmap_scan_and_flip k.swap_table 0 SWAP_FREE).1 ∧ s ≠ 65535 ∧
      ∃ b, swap_out_loop (k.ram kpage) PGSIZE 0 (to_uint32 (s * FRAME_SECTORS)) k.swap_block
          = some b ∧
        k1 = (k.with_swap_table (bitmap_scan_and_flip k.swap_table 0 SWAP_FREE).2).with_swap_block
          b := by
  rw [swap_out_eq] at h
  by_cases hne : (bitmap_scan_and_flip k.swap_table 0 SWAP_FREE).1 = 65535
  · rw [if_pos hne] at h; cases h
  · rw [if_neg hne] at h
    cases hl : swap_out_loop (k.ram kpage) PGSIZE 0
        (to_uint32 ((bitmap_scan_and_flip k.swap_table 0 SWAP_FREE).1 * FRAME_SECTORS))
        k.swap_block with
    | none => rw [hl] at h; cases h
    | some b =>
      rw [hl] at h
      cases h
      exact ⟨rfl, hne, b, hl, rfl⟩

/-- What `swap_in` computes: the driver stops the kernel at a sector past the
end of the device, the bitmap library at a slot past the end of the table. -/
theorem swap_in_eq (kpage swap_index : Nat) (k : Kernel) :
    swap_in kpage swap_index k =
      match swap_in_loop k.swap_block PGSIZE 0 (to_uint32 (swap_index * FRAME_SECTORS))
          (k.ram kpage) with
      | none => Res.panic panic_site.block_sector
      | some page =>
        if swap_index < k.swap_table.bit_cnt then
          Res.ok ()
            ((k.with_ram (fun p => if p = kpage then page else k.ram p)).with_swap_table
              (bitmap_set k.swap_table swap_index false))
        else Res.panic panic_site.bitmap_index := by
  unfold swap_in bitmap_reset
  simp only [K.run_bind, K.seq, K.run_get, K.run_modify, K.run_pure]
  cases hl : swap_in_loop k.swap_block PGSIZE 0 (to_uint32 (swap_index * FRAME_SECTORS))
      (k.ram kpage) with
  | none => simp [K.seq]
  | some page =>
    by_cases h : swap_index < k.swap_table.bit_cnt
    · simp [h, K.assert, K.seq]
    · simp [h, K.assert, K.seq]

/-- What `swap_in` did when it returned. -/
theorem swap_in_inv {kpage swap_index : Nat} {k k1 : Kernel} {u : Unit}
    (h : swap_in kpage swap_index k = Res.ok u k1) :
    swap_index < k.swap_table.bit_cnt ∧
      ∃ page, swap_in_loop k.swap_block PGSIZE 0 (to_uint32 (swap_index * FRAME_SECTORS))
          (k.ram kpage) = some page ∧
        k1 = (k.with_ram (fun p => if p = kpage then page else k.ram p)).with_swap_table
          (bitmap_set k.swap_table swap_index false) := by
  rw [swap_in_eq] at h
  cases hl : swap_in_loop k.swap_block PGSIZE 0 (to_uint32 (swap_index * FRAME_SECTORS))
      (k.ram kpage) with
  | none => rw [hl] at h; cases h
  | some page =>
    rw [hl] at h
    dsimp only at h
    by_cases hlt : swap_index < k.swap_table.bit_cnt
    · rw [if_pos hlt] at h
      cases h
      exact ⟨hlt, page, rfl, rfl⟩
    · rw [if_neg hlt] at h
      cases h

/-- `swap_in` of a slot of the table returns: its eight sectors lie on the
device. -/
theorem swap_in_returns (kpage swap_index : Nat) (k : Kernel)
    (hlt : swap_index < k.swap_table.bit_cnt) :
    ∃ page, swap_in_loop k.swap_block PGSIZE 0 (to_uint32 (swap_index * FRAME_SECTORS))
        (k.ram kpage) = some page ∧
      swap_in kpage swap_index k = Res.ok ()
        ((k.with_ram (fun p => if p = kpage then page else k.ram p)).with_swap_table
          (bitmap_set k.swap_table swap_index false)) := by
  obtain ⟨page, hl⟩ := swap_in_loop_returns k.swap_block PGSIZE 0
    (to_uint32 (swap_index * FRAME_SECTORS)) (k.ram kpage)
    (by unfold to_uint32; exact Nat.mod_lt _ (by norm_num))
    (fun m hm => slot_sectors_in_range hlt k.swap_fits hm)
  refine ⟨page, hl, ?_⟩
  rw [swap_in_eq, hl]
  simp only [if_pos hlt]

/-- `swap_out` returns the lowest free slot when it is not number 65535: its
eight sectors lie on the device. -/
theorem swap_out_returns (kpage : Nat) (k : Kernel)
    (hfree : ∃ i, i < k.swap_table.bit_cnt ∧ k.swap_table.bits i = false)
    (hne : bitmap_scan k.swap_table 0 SWAP_FREE ≠ 65535) :
    ∃ s k1, swap_out kpage k = Res.ok s k1 := by
  obtain ⟨hlt, _, _⟩ := bitmap_scan_free k.swap_table hfree
  have hfst : (bitmap_scan_and_flip k.swap_table 0 SWAP_FREE).1
      = bitmap_scan k.swap_table 0 SWAP_FREE := by
    unfold bitmap_scan_and_flip
    by_cases h : bitmap_scan k.swap_table 0 SWAP_FREE ≠ BITMAP_ERROR <;> simp [h]
  obtain ⟨b, hl⟩ := swap_out_loop_returns (k.ram kpage) PGSIZE 0
    (to_uint32 (bitmap_scan k.swap_table 0 SWAP_FREE * FRAME_SECTORS)) k.swap_block
    (by unfold to_uint32; exact Nat.mod_lt _ (by norm_num))
    (fun m hm => slot_sectors_in_range hlt k.swap_fits hm)
  rw [swap_out_eq, hfst, if_neg hne, hl]
  exact ⟨_, _, rfl⟩

/-- C1.  A page written out by `swap_out` is read back unchanged by the
following `swap_in` on the returned slot: the buffer holds the page byte for
byte, the slot tests free, and every other slot is as before the `swap_out`.
With a free slot `swap_out` does return one, unless the lowest free slot is
number 65535, where its assertion stops the kernel. -/
theorem swap_out_swap_in_round_trip (k : Kernel) (kpage buf : Nat)
    (hfree : ∃ i, i < k.swap_table.bit_cnt ∧ k.swap_table.bits i = false) :
    (bitmap_scan k.swap_table 0 SWAP_FREE ≠ 65535 →
        ∃ s k1, swap_out kpage k = Res.ok s k1) ∧
    ∀ s k1, swap_out kpage k = Res.ok s k1 →
      ∃ k2, swap_in buf s k1 = Res.ok () k2 ∧
        (∀ i, i < PGSIZE → k2.ram buf i = k.ram kpage i) ∧
        swap_test_index s k2 = Res.ok false k2 ∧
        ∀ j, j ≠ s → k2.swap_table.bits j = k.swap_table.bits j := by
  obtain ⟨hlt, hbit, _⟩ := bitmap_scan_free k.swap_table hfree
  have hfst : (bitmap_scan_and_flip k.swap_table 0 SWAP_FREE).1
      = bitmap_scan k.swap_table 0 SWAP_FREE := by
    unfold bitmap_scan_and_flip
    by_cases h : bitmap_scan k.swap_table 0 SWAP_FREE ≠ BITMAP_ERROR <;> simp [h]
  constructor
  · intro hne
    exact swap_out_returns kpage k hfree hne
  · intro s k1 hout
    obtain ⟨hs, hne, b, hl, rfl⟩ := swap_out_inv hout
    rw [hfst] at hs
    subst hs
    have hbits : ∀ j, j ≠ bitmap_scan k.swap_table 0 SWAP_FREE →
        (bitmap_scan_and_flip k.swap_table 0 SWAP_FREE).2.bits j = k.swap_table.bits j := by
      intro j hj
      unfold bitmap_scan_and_flip
      by_cases h : bitmap_scan k.swap_table 0 SWAP_FREE ≠ BITMAP_ERROR <;>
        simp [h, bitmap_set, hj]
    obtain ⟨page, hin, hrun⟩ := swap_in_returns buf (bitmap_scan k.swap_table 0 SWAP_FREE)
      ((k.with_swap_table (bitmap_scan_and_flip k.swap_table 0 SWAP_FREE).2).with_swap_block b)
      hlt
    refine ⟨_, hrun, ?_, ?_, ?_⟩
    · intro i hi
      simp only [Kernel.with_swap_table_ram, Kernel.with_ram_ram, if_true]
      exact swap_loops_round_trip _ _ _ _ _ _ _ _
        (by unfold to_uint32; exact Nat.mod_lt _ (by norm_num)) hi hl hin
        (fun _ _ _ _ => rfl)
    · simp [swap_test_index, K.seq, bitmap_set, hlt, K.assert]
    · intro j hj
      simp [bitmap_set, hj, hbits j hj]

/-- The round trip of C1 on a machine just booted with a 64-sector swap
device. -/
theorem swap_out_swap_in_round_trip_witness :
    (∃ i, i < (Kernel.boot 64 []).swap_table.bit_cnt ∧
        (Kernel.boot 64 []).swap_table.bits i = false) ∧
    ((bitmap_scan (Kernel.boot 64 []).swap_table 0 SWAP_FREE ≠ 65535 →
        ∃ s k1, swap_out 7 (Kernel.boot 64 []) = Res.ok s k1) ∧
    ∀ s k1, swap_out 7 (Kernel.boot 64 []) = Res.ok s k1 →
      ∃ k2, swap_in 9 s k1 = Res.ok () k2 ∧
        (∀ i, i < PGSIZE → k2.ram 9 i = (Kernel.boot 64 []).ram 7 i) ∧
        swap_test_index s k2 = Res.ok false k2 ∧
        ∀ j, j ≠ s → k2.swap_table.bits j = (Kernel.boot 64 []).swap_table.bits j) :=
  ⟨⟨0, by decide, rfl⟩,
    swap_out_swap_in_round_trip (Kernel.boot 64 []) 7 9 ⟨0, by decide, rfl⟩⟩

/-- On a swap table with no free slot the assertion of `swap_out` does not
stop the kernel: the scan yields `BITMAP_ERROR`, which the assertion compares
with 65535, and the loop is entered at sector 4294967288. -/
theorem swap_out_full_table (kpage : Nat) (k : Kernel)
    (hfull : ∀ i, i < k.swap_table.bit_cnt → k.swap_table.bits i = true) :
    swap_out kpage k =
      match swap_out_loop (k.ram kpage) PGSIZE 0 4294967288 k.swap_block with
      | none => Res.panic panic_site.block_sector
      | some b => Res.ok BITMAP_ERROR ((k.with_swap_table k.swap_table).with_swap_block b) := by
  have hscan := bitmap_scan_full k.swap_table hfull
  have hpair : bitmap_scan_and_flip k.swap_table 0 SWAP_FREE = (BITMAP_ERROR, k.swap_table) := by
    unfold bitmap_scan_and_flip
    simp [hscan]
  have e : to_uint32 (BITMAP_ERROR * FRAME_SECTORS) = 4294967288 := by decide
  rw [swap_out_eq, hpair]
  simp only [e]
  rw [if_neg (by decide)]

/-- C6.  With every slot of the swap table in use, `swap_out` stops the
kernel: nothing is returned to the caller, and the first `block_write` of
the loop, the one the kernel stops in, stores nothing.  The stop is the
driver's, at sector 4294967288 (slot `BITMAP_ERROR` times 8, in 32 bits),
which lies past the end of every device of at most 4294967288 sectors; the
assertion of `swap_out` itself compares the slot with 65535 and passes. -/
theorem swap_out_full_table_panics (k : Kernel) (kpage : Nat)
    (hfull : ∀ i, i < k.swap_table.bit_cnt → k.swap_table.bits i = true)
    (hsize : k.swap_block.size ≤ 4294967288) :
    swap_out kpage k = Res.panic panic_site.block_sector ∧
      (∀ s k1, swap_out kpage k ≠ Res.ok s k1) ∧
      ∀ sector buffer, to_uint32 (BITMAP_ERROR * FRAME_SECTORS) ≤ sector →
        block_write k.swap_block sector buffer = none := by
  have hrun : swap_out kpage k = Res.panic panic_site.block_sector := by
    rw [swap_out_full_table kpage k hfull,
      swap_out_loop_past_end (k.ram kpage) 4095 0 4294967288 k.swap_block (by decide) hsize]
  refine ⟨hrun, ?_, ?_⟩
  · intro s k1 h
    rw [hrun] at h
    cases h
  · intro sector buffer hsec
    have e : to_uint32 (BITMAP_ERROR * FRAME_SECTORS) = 4294967288 := by decide
    rw [e] at hsec
    unfold block_write
    rw [if_neg (by omega)]

/-- The stop of C6 on a machine whose swap device has one slot, and that slot
is in use. -/
theorem swap_out_full_table_panics_witness :
    (∀ i, i < swap_full_example.swap_table.bit_cnt →
        swap_full_example.swap_table.bits i = true) ∧
    swap_full_example.swap_block.size ≤ 4294967288 ∧
    (swap_out 0 swap_full_example = Res.panic panic_site.block_sector ∧
      (∀ s k1, swap_out 0 swap_full_example ≠ Res.ok s k1) ∧
      ∀ sector buffer, to_uint32 (BITMAP_ERROR * FRAME_SECTORS) ≤ sector →
        block_write swap_full_example.swap_block sector buffer = none) :=
  ⟨fun i hi => by
      have h1 : i < 1 := hi
      have h0 : i = 0 := by omega
      subst h0
      rfl,
    by decide,
    swap_out_full_table_panics swap_full_example 0
      (fun i hi => by
        have h1 : i < 1 := hi
        have h0 : i = 0 := by omega
        subst h0
        rfl)
      (by decide)⟩

end Pintos


namespace Pintos

/-! ## The scan of `evict` -/

theorem fs_only_refl (k : Kernel) : fs_only k k :=
  ⟨rfl, rfl, rfl, rfl, rfl, rfl, rfl⟩

theorem file_write_at_fs_only {file kpage size offset n : Nat} {k k1 : Kernel}
    (h : file_write_at file kpage size offset k = Res.ok n k1) : fs_only k k1 := by
  simp only [file_write_at, K.emit, K.run_bind, K.seq_eq_ok, K.modify_eq_ok, K.get_eq_ok,
    K.pure_eq_ok] at h
  obtain ⟨_, _, rfl, _, _, ⟨rfl, rfl⟩, _, _, rfl, _, rfl⟩ := h
  constructor <;> rfl

theorem write_back_fs_only {owner : Nat} {sp : spte} {k k1 : Kernel} {u : Unit}
    (h : write_back owner sp k = Res.ok u k1) : fs_only k k1 := by
  unfold write_back at h
  simp only [K.run_bind, K.seq_eq_ok, K.get_eq_ok] at h
  obtain ⟨_, _, ⟨rfl, rfl⟩, h⟩ := h
  cases hty : sp.page_type <;> simp only [hty] at h
  · cases hf : sp.fte <;> simp only [hf] at h
    · simp at h
    · simp only [K.run_bind, K.seq_eq_ok, K.pure_eq_ok] at h
      obtain ⟨_, _, hw, _, rfl⟩ := h
      exact file_write_at_fs_only hw
  · cases hm : List.find? (fun (m : mmap_fd) => decide (m.mapid = sp.mmap_page.mmap_fd))
        (k.threads owner).mmap_list <;> simp only [hm] at h
    · simp at h
    · cases hf : sp.fte <;> simp only [hf] at h
      · simp at h
      · simp only [K.run_bind, K.seq_eq_ok, K.pure_eq_ok] at h
        obtain ⟨_, _, hw, _, rfl⟩ := h
        exact file_write_at_fs_only hw
  · simp only [K.pure_eq_ok] at h
    obtain ⟨_, rfl⟩ := h
    exact fs_only_refl _

end Pintos

namespace Pintos

/-- One iteration of the scan, read off a run that chose a frame. -/
theorem evict_loop_succ_inv {fuel : Nat} {k k1 : Kernel} {f : fte} {sp : spte}
    (h : evict_loop (fuel + 1) k = Res.ok (f, sp) k1) :
    ∃ g rest sp0, k.frame_table = g :: rest ∧
      (k.threads g.owner).sup_page_table g.spte = some sp0 ∧ sp0.upage ≠ 0 ∧
      (pagedir_get_page (k.threads g.owner).pagedir sp0.upage).isSome = true ∧
      ((g.pinned = true ∧
          evict_loop fuel (k.with_frame_table (rest ++ [g])) = Res.ok (f, sp) k1) ∨
       (g.pinned = false ∧
          pagedir_is_accessed (k.threads g.owner).pagedir sp0.upage = false ∧
          f = g ∧ sp = sp0 ∧ k1 = k.with_frame_table rest) ∨
       (g.pinned = false ∧
          pagedir_is_accessed (k.threads g.owner).pagedir sp0.upage = true ∧
          pagedir_is_dirty (k.threads g.owner).pagedir sp0.upage = true ∧
          ∃ kw, write_back g.owner sp0 (k.with_frame_table rest) = Res.ok () kw ∧
            evict_loop fuel
              ((kw.with_thread g.owner (fun t =>
                  t.with_pagedir (pagedir_set_dirty t.pagedir sp0.upage false))).with_frame_table
                (kw.frame_table ++ [g])) = Res.ok (f, sp) k1) ∨
       (g.pinned = false ∧
          pagedir_is_accessed (k.threads g.owner).pagedir sp0.upage = true ∧
          pagedir_is_dirty (k.threads g.owner).pagedir sp0.upage = false ∧
          evict_loop fuel
            (((k.with_frame_table rest).with_thread g.owner (fun t =>
                t.with_pagedir (pagedir_set_accessed t.pagedir sp0.upage false))).with_frame_table
              (rest ++ [g])) = Res.ok (f, sp) k1)) := by
  unfold evict_loop at h
  simp only [K.run_bind, K.seq_eq_ok, K.get_eq_ok] at h
  obtain ⟨_, _, ⟨rfl, rfl⟩, h⟩ := h
  cases hft : k.frame_table with
  | nil => simp [hft] at h
  | cons g rest =>
    simp only [hft, K.run_bind, K.seq_eq_ok, K.modify_eq_ok] at h
    obtain ⟨_, _, rfl, h⟩ := h
    cases hsp : (k.threads g.owner).sup_page_table g.spte with
    | none => simp [hsp] at h
    | some sp0 =>
      simp only [hsp, K.run_bind, K.seq_eq_ok, K.assert_eq_ok, decide_eq_true_eq] at h
      obtain ⟨_, _, ⟨hu, rfl⟩, _, _, ⟨hm, rfl⟩, h⟩ := h
      refine ⟨g, rest, sp0, rfl, hsp, hu, hm, ?_⟩
      cases hp : g.pinned with
      | true =>
        left
        simp only [hp, if_true, K.run_bind, K.seq_eq_ok, K.modify_eq_ok] at h
        obtain ⟨_, _, rfl, h⟩ := h
        exact ⟨rfl, h⟩
      | false =>
        right
        simp only [hp, Bool.false_eq_true, if_false] at h
        cases ha : pagedir_is_accessed (k.threads g.owner).pagedir sp0.upage with
        | false =>
          left
          simp only [ha, Bool.not_false, if_true, K.pure_eq_ok, Prod.mk.injEq] at h
          obtain ⟨⟨rfl, rfl⟩, rfl⟩ := h
          exact ⟨rfl, rfl, rfl, rfl, rfl⟩
        | true =>
          right
          simp only [ha, Bool.not_true, Bool.false_eq_true, if_false] at h
          cases hd : pagedir_is_dirty (k.threads g.owner).pagedir sp0.upage with
          | true =>
            left
            simp only [hd, if_true, K.run_bind, K.seq_eq_ok, K.modify_eq_ok] at h
            obtain ⟨_, kw, hw, _, _, rfl, _, _, rfl, h⟩ := h
            exact ⟨rfl, rfl, rfl, kw, hw, h⟩
          | false =>
            right
            simp only [hd, Bool.false_eq_true, if_false, K.run_bind, K.seq_eq_ok,
              K.modify_eq_ok] at h
            obtain ⟨_, _, rfl, _, _, rfl, h⟩ := h
            exact ⟨rfl, rfl, rfl, h⟩

end Pintos

namespace Pintos

theorem scan_rel_refl (k : Kernel) : scan_rel k k :=
  ⟨rfl, fun _ => rfl, fun _ => rfl, fun _ => rfl, fun _ => rfl, fun _ _ => rfl,
    fun _ _ => rfl, rfl, rfl, rfl, rfl⟩

theorem scan_rel_trans {a b c : Kernel} (h1 : scan_rel a b) (h2 : scan_rel b c) :
    scan_rel a c :=
  ⟨h2.current.trans h1.current,
    fun t => (h2.spt t).trans (h1.spt t),
    fun t => (h2.mmap_list t).trans (h1.mmap_list t),
    fun t => (h2.fd_list t).trans (h1.fd_list t),
    fun t => (h2.exit_status t).trans (h1.exit_status t),
    fun t p => (h2.pd_kpage t p).trans (h1.pd_kpage t p),
    fun t p => (h2.pd_writable t p).trans (h1.pd_writable t p),
    h2.swap_table.trans h1.swap_table,
    h2.swap_block.trans h1.swap_block,
    h2.ram.trans h1.ram,
    h2.user_pool.trans h1.user_pool⟩

theorem scan_rel_with_frame_table (k : Kernel) (l : List fte) :
    scan_rel k (k.with_frame_table l) :=
  ⟨rfl, fun _ => rfl, fun _ => rfl, fun _ => rfl, fun _ => rfl, fun _ _ => rfl,
    fun _ _ => rfl, rfl, rfl, rfl, rfl⟩

theorem scan_rel_of_fs_only {k k1 : Kernel} (h : fs_only k k1) : scan_rel k k1 :=
  ⟨h.current, fun t => by rw [h.threads], fun t => by rw [h.threads],
    fun t => by rw [h.threads], fun t => by rw [h.threads], fun t p => by rw [h.threads],
    fun t p => by rw [h.threads], h.swap_table, h.swap_block, h.ram, h.user_pool⟩

theorem option_map_map_field {β : Type} (o : Option pte) (f : pte → pte) (g : pte → β)
    (hf : ∀ e, g (f e) = g e) : (o.map f).map g = o.map g := by
  cases o <;> simp [hf]

theorem scan_rel_set_dirty (k : Kernel) (tid upage : Nat) (v : Bool) :
    scan_rel k (k.with_thread tid (fun t =>
      t.with_pagedir (pagedir_set_dirty t.pagedir upage v))) := by
  refine ⟨rfl, ?_, ?_, ?_, ?_, ?_, ?_, rfl, rfl, rfl, rfl⟩ <;> intro t <;>
    simp only [Kernel.with_thread_threads] <;> split <;> try rfl
  · intro p
    simp only [thread.with_pagedir_pagedir, pagedir_set_dirty]
    split
    · exact option_map_map_field _ _ _ (fun _ => rfl)
    · rfl
  · intro p; rfl
  · intro p
    simp only [thread.with_pagedir_pagedir, pagedir_set_dirty]
    split
    · exact option_map_map_field _ _ _ (fun _ => rfl)
    · rfl
  · intro p; rfl

theorem scan_rel_set_accessed (k : Kernel) (tid upage : Nat) (v : Bool) :
    scan_rel k (k.with_thread tid (fun t =>
      t.with_pagedir (pagedir_set_accessed t.pagedir upage v))) := by
  refine ⟨rfl, ?_, ?_, ?_, ?_, ?_, ?_, rfl, rfl, rfl, rfl⟩ <;> intro t <;>
    simp only [Kernel.with_thread_threads] <;> split <;> try rfl
  · intro p
    simp only [thread.with_pagedir_pagedir, pagedir_set_accessed]
    split
    · exact option_map_map_field _ _ _ (fun _ => rfl)
    · rfl
  · intro p; rfl
  · intro p
    simp only [thread.with_pagedir_pagedir, pagedir_set_accessed]
    split
    · exact option_map_map_field _ _ _ (fun _ => rfl)
    · rfl
  · intro p; rfl

/-- `not_scanned` only looks at the members of the frame table and at the
supplemental tables. -/
theorem not_scanned_of_rel {k k1 : Kernel} (h : scan_rel k k1)
    (hm : ∀ g, g ∈ k1.frame_table → g ∈ k.frame_table) {tid p : Nat}
    (hn : not_scanned k tid p) : not_scanned k1 tid p := by
  intro g hg hp sp hsp
  rw [h.spt] at hsp
  exact hn g (hm g hg) hp sp hsp

end Pintos

namespace Pintos

/-- A later part of a scan continues an earlier part. -/
theorem chosen_of_step {k km k1 : Kernel} {f : fte} {sp : spte}
    (hrel : scan_rel k km) (hperm : k.frame_table.Perm km.frame_table)
    (hpd : ∀ tid p, not_scanned k tid p →
      (km.threads tid).pagedir p = (k.threads tid).pagedir p)
    (h : chosen km f sp k1) : chosen k f sp k1 where
  rel := scan_rel_trans hrel h.rel
  perm := hperm.trans h.perm
  unpinned := h.unpinned
  entry := by rw [← hrel.spt]; exact h.entry
  upage_ne := h.upage_ne
  not_accessed := h.not_accessed
  mapped := h.mapped
  untouched := by
    intro tid p hn
    rw [h.untouched tid p (not_scanned_of_rel hrel (fun g hg => hperm.mem_iff.mpr hg) hn),
      hpd tid p hn]

/-- The scan of `evict`: the frame it chooses is unpinned and its page not
accessed, the frame table is rotated, and only accessed and dirty bits of
unpinned frames are changed. -/
theorem evict_loop_chosen : ∀ (fuel : Nat) (k k1 : Kernel) (f : fte) (sp : spte),
    evict_loop fuel k = Res.ok (f, sp) k1 → chosen k f sp k1 := by
  intro fuel
  induction fuel with
  | zero => intro k k1 f sp h; simp [evict_loop] at h
  | succ fuel ih =>
    intro k k1 f sp h
    obtain ⟨g, rest, sp0, hft, hsp, hu, hm, hcase⟩ := evict_loop_succ_inv h
    have hrot : k.frame_table.Perm (rest ++ [g]) := by
      rw [hft]; exact (List.perm_append_singleton g rest).symm
    rcases hcase with ⟨_, hrec⟩ | ⟨hp, ha, rfl, rfl, rfl⟩ | ⟨hp, _, _, kw, hw, hrec⟩ |
      ⟨hp, _, _, hrec⟩
    · exact chosen_of_step (scan_rel_with_frame_table k _) hrot (fun _ _ _ => rfl)
        (ih _ _ _ _ hrec)
    · exact
        { rel := scan_rel_with_frame_table k _
          perm := by rw [hft]; exact List.Perm.refl _
          unpinned := hp
          entry := hsp
          upage_ne := hu
          not_accessed := ha
          mapped := hm
          untouched := fun _ _ _ => rfl }
    · have hfs := write_back_fs_only hw
      have hkw : kw.frame_table = rest := hfs.frame_table
      refine chosen_of_step ?_ ?_ ?_ (ih _ _ _ _ hrec)
      · exact scan_rel_trans
          (scan_rel_trans (scan_rel_with_frame_table k rest) (scan_rel_of_fs_only hfs))
          (scan_rel_trans (scan_rel_set_dirty kw _ _ _) (scan_rel_with_frame_table _ _))
      · rw [hkw]; exact hrot
      · intro tid p hn
        have hne := hn g (by rw [hft]; exact List.mem_cons_self _ _) hp sp0 hsp
        simp only [Kernel.with_frame_table_threads, Kernel.with_thread_threads, hfs.threads]
        split
        · rename_i e
          simp only [thread.with_pagedir_pagedir, pagedir_set_dirty]
          split
          · rename_i e2
            exact absurd ⟨e.symm, e2.symm⟩ hne
          · rw [e]
        · rfl
    · refine chosen_of_step ?_ hrot ?_ (ih _ _ _ _ hrec)
      · exact scan_rel_trans (scan_rel_with_frame_table k rest)
          (scan_rel_trans (scan_rel_set_accessed _ _ _ _) (scan_rel_with_frame_table _ _))
      · intro tid p hn
        have hne := hn g (by rw [hft]; exact List.mem_cons_self _ _) hp sp0 hsp
        simp only [Kernel.with_frame_table_threads, Kernel.with_thread_threads]
        split
        · rename_i e
          simp only [thread.with_pagedir_pagedir, pagedir_set_accessed]
          split
          · rename_i e2
            exact absurd ⟨e.symm, e2.symm⟩ hne
          · rw [e]
        · rfl

end Pintos

namespace Pintos

/-! ## `evict` -/

theorem swap_out_swap_only {kpage s : Nat} {k k1 : Kernel}
    (h : swap_out kpage k = Res.ok s k1) : swap_only k k1 := by
  obtain ⟨_, _, b, _, rfl⟩ := swap_out_inv h
  constructor <;> rfl

/-- `evict` is its scan, a `swap_out` of the chosen frame, and the release. -/
theorem evict_inv {fuel : Nat} {k k1 : Kernel} {u : Unit}
    (h : evict fuel k = Res.ok u k1) :
    ∃ f sp km s ks, k.frame_table ≠ [] ∧ evict_loop fuel k = Res.ok (f, sp) km ∧
      swap_out f.kpage km = Res.ok s ks ∧ k1 = evict_release f sp s ks := by
  unfold evict at h
  simp only [K.run_bind, K.seq_eq_ok, K.get_eq_ok, K.assert_eq_ok, K.modify_eq_ok,
    palloc_free_page] at h
  obtain ⟨_, _, ⟨rfl, rfl⟩, _, _, ⟨hne, rfl⟩, ⟨f, sp⟩, km, hloop, s, ks, hswap,
    _, _, rfl, _, _, rfl, _, _, rfl, rfl⟩ := h
  refine ⟨f, sp, km, s, ks, ?_, hloop, hswap, rfl⟩
  intro e
  rw [e] at hne
  simp at hne

theorem evict_release_frame_table (f : fte) (sp : spte) (s : Nat) (k : Kernel) :
    (evict_release f sp s k).frame_table = k.frame_table := rfl

theorem evict_release_user_pool (f : fte) (sp : spte) (s : Nat) (k : Kernel) :
    (evict_release f sp s k).user_pool = f.kpage :: k.user_pool := rfl

theorem evict_release_current (f : fte) (sp : spte) (s : Nat) (k : Kernel) :
    (evict_release f sp s k).current = k.current := rfl

theorem evict_release_swap_table (f : fte) (sp : spte) (s : Nat) (k : Kernel) :
    (evict_release f sp s k).swap_table = k.swap_table := rfl

theorem evict_release_ram (f : fte) (sp : spte) (s : Nat) (k : Kernel) :
    (evict_release f sp s k).ram = k.ram := rfl

theorem evict_release_threads_other (f : fte) (sp : spte) (s : Nat) (k : Kernel) (tid : Nat)
    (h : tid ≠ f.owner) : (evict_release f sp s k).threads tid = k.threads tid := by
  simp [evict_release, Kernel.with_thread_threads, h]

theorem evict_release_spt (f : fte) (sp : spte) (s : Nat) (k : Kernel) (key : Nat) :
    ((evict_release f sp s k).threads f.owner).sup_page_table key =
      if key = f.spte then
        ((k.threads f.owner).sup_page_table key).map
          (fun e => { e with swap_index := to_uint16 s, fte := none })
      else (k.threads f.owner).sup_page_table key := by
  simp only [evict_release, Kernel.with_user_pool_threads, Kernel.with_thread_threads_same,
    thread.with_spte_sup_page_table, thread.with_pagedir_sup_page_table]
  split
  · cases (k.threads f.owner).sup_page_table key <;> rfl
  · rfl

theorem evict_release_pagedir (f : fte) (sp : spte) (s : Nat) (k : Kernel) :
    ((evict_release f sp s k).threads f.owner).pagedir =
      pagedir_clear_page (k.threads f.owner).pagedir sp.upage := by
  simp [evict_release]

theorem evict_release_mmap_list (f : fte) (sp : spte) (s : Nat) (k : Kernel) (tid : Nat) :
    ((evict_release f sp s k).threads tid).mmap_list = (k.threads tid).mmap_list := by
  by_cases h : tid = f.owner
  · subst h; simp [evict_release]
  · rw [evict_release_threads_other _ _ _ _ _ h]

theorem evict_release_fd_list (f : fte) (sp : spte) (s : Nat) (k : Kernel) (tid : Nat) :
    ((evict_release f sp s k).threads tid).fd_list = (k.threads tid).fd_list := by
  by_cases h : tid = f.owner
  · subst h; simp [evict_release]
  · rw [evict_release_threads_other _ _ _ _ _ h]

theorem frames_distinct_ne {k : Kernel} (hd : frames_distinct k) {g h : fte}
    (hg : g ∈ k.frame_table) (hh : h ∈ k.frame_table) (hne : g ≠ h) :
    ¬ (g.owner = h.owner ∧ g.spte = h.spte) := by
  have hsym : Symmetric (fun (g h : fte) => ¬ (g.owner = h.owner ∧ g.spte = h.spte)) := by
    intro a b hab hba
    exact hab ⟨hba.1.symm, hba.2.symm⟩
  exact List.Pairwise.forall hsym hd hg hh hne

theorem frames_distinct_nodup {k : Kernel} (hd : frames_distinct k) :
    k.frame_table.Nodup := by
  unfold frames_distinct at hd
  unfold List.Nodup
  exact hd.imp (fun {a b} hab e => hab (by subst e; exact ⟨rfl, rfl⟩))

end Pintos


namespace Pintos

/-- C2.  In a run of `evict` that returns, the frame that is removed from the
frame table and released was unpinned, and its page not accessed, in the state
in which the scan chose it; every frame that is pinned is still in the frame
table afterwards, unchanged, and so are its supplemental entry and the
page-directory entry of its page. -/
theorem evict_spares_pinned (fuel : Nat) (k k1 : Kernel)
    (hkeys : spt_keys_ok k) (hd : frames_distinct k)
    (h : evict fuel k = Res.ok () k1) :
    ∃ f sp km, evict_loop fuel k = Res.ok (f, sp) km ∧
      f ∈ k.frame_table ∧ (k.threads f.owner).sup_page_table f.spte = some sp ∧
      f.pinned = false ∧ pagedir_is_accessed (km.threads f.owner).pagedir sp.upage = false ∧
      f ∉ k1.frame_table ∧ f.kpage ∈ k1.user_pool ∧
      ∀ g, g ∈ k.frame_table → g.pinned = true →
        g ∈ k1.frame_table ∧
        (k1.threads g.owner).sup_page_table g.spte = (k.threads g.owner).sup_page_table g.spte ∧
        ∀ spg, (k.threads g.owner).sup_page_table g.spte = some spg →
          (k1.threads g.owner).pagedir (pg_round_down spg.upage)
            = (k.threads g.owner).pagedir (pg_round_down spg.upage) := by
  obtain ⟨f, sp, km, s, ks, _, hloop, hswap, rfl⟩ := evict_inv h
  have hc := evict_loop_chosen _ _ _ _ _ hloop
  have hso := swap_out_swap_only hswap
  have hnd : (f :: km.frame_table).Nodup := hc.perm.nodup_iff.mp (frames_distinct_nodup hd)
  have hfmem : f ∈ k.frame_table := hc.perm.mem_iff.mpr (List.mem_cons_self _ _)
  refine ⟨f, sp, km, hloop, hfmem, hc.entry, hc.unpinned, hc.not_accessed, ?_, ?_, ?_⟩
  · rw [evict_release_frame_table, hso.frame_table]
    exact (List.nodup_cons.mp hnd).1
  · rw [evict_release_user_pool]
    exact List.mem_cons_self _ _
  · intro g hg hp
    have hgf : g ≠ f := by
      intro e
      rw [e, hc.unpinned] at hp
      cases hp
    have hdist := frames_distinct_ne hd hg hfmem hgf
    refine ⟨?_, ?_, ?_⟩
    · rw [evict_release_frame_table, hso.frame_table]
      rcases List.mem_cons.mp (hc.perm.mem_iff.mp hg) with e | e
      · exact absurd e hgf
      · exact e
    · by_cases ho : g.owner = f.owner
      · rw [ho, evict_release_spt, hso.threads, hc.rel.spt]
        rw [if_neg (fun e => hdist ⟨ho, e⟩)]
      · rw [evict_release_threads_other _ _ _ _ _ ho, hso.threads, hc.rel.spt]
    · intro spg hspg
      have hkg := hkeys _ _ _ hspg
      have hscan : not_scanned k g.owner (pg_round_down spg.upage) := by
        intro h2 hh2 hp2 sph hsph ⟨e1, e2⟩
        have hkh := hkeys _ _ _ hsph
        have hne : h2 ≠ g := by
          intro e
          rw [e, hp] at hp2
          cases hp2
        apply frames_distinct_ne hd hh2 hg hne
        refine ⟨e1, ?_⟩
        rw [hkh.1, hkh.2, hkg.1, hkg.2] at e2
        exact e2
      by_cases ho : g.owner = f.owner
      · rw [ho, evict_release_pagedir, hso.threads, ← ho]
        simp only [pagedir_clear_page]
        have hkf := hkeys _ _ _ hc.entry
        rw [if_neg]
        · exact hc.untouched _ _ hscan
        · rw [hkg.1, hkg.2, hkf.1, hkf.2]
          exact fun e => hdist ⟨ho, e⟩
      · rw [evict_release_threads_other _ _ _ _ _ ho, hso.threads]
        exact hc.untouched _ _ hscan

theorem pinned_first_example_keys : spt_keys_ok pinned_first_example := by
  intro tid key sp h
  simp only [pinned_first_example, two_pages_example, Kernel.with_frame_table_threads,
    Kernel.with_threads_threads] at h
  split at h
  · simp only [two_pages_thread] at h
    split at h
    · cases h; subst_vars; exact ⟨rfl, by decide⟩
    · split at h
      · cases h; subst_vars; exact ⟨rfl, by decide⟩
      · cases h
  · cases h

theorem pinned_first_example_distinct : frames_distinct pinned_first_example := by
  unfold frames_distinct pinned_first_example
  simp

/-- C2 on a machine with two resident pages, the frame of the first pinned:
`evict` returns, having chosen the second. -/
theorem evict_spares_pinned_witness :
    spt_keys_ok pinned_first_example ∧ frames_distinct pinned_first_example ∧
    evict 3 pinned_first_example
      = Res.ok () ((evict 3 pinned_first_example).state_or pinned_first_example) ∧
    ∃ f sp km, evict_loop 3 pinned_first_example = Res.ok (f, sp) km ∧
      f ∈ pinned_first_example.frame_table ∧
      (pinned_first_example.threads f.owner).sup_page_table f.spte = some sp ∧
      f.pinned = false ∧ pagedir_is_accessed (km.threads f.owner).pagedir sp.upage = false ∧
      f ∉ ((evict 3 pinned_first_example).state_or pinned_first_example).frame_table ∧
      f.kpage ∈ ((evict 3 pinned_first_example).state_or pinned_first_example).user_pool ∧
      ∀ g, g ∈ pinned_first_example.frame_table → g.pinned = true →
        g ∈ ((evict 3 pinned_first_example).state_or pinned_first_example).frame_table ∧
        (((evict 3 pinned_first_example).state_or pinned_first_example).threads
            g.owner).sup_page_table g.spte
          = (pinned_first_example.threads g.owner).sup_page_table g.spte ∧
        ∀ spg, (pinned_first_example.threads g.owner).sup_page_table g.spte = some spg →
          (((evict 3 pinned_first_example).state_or pinned_first_example).threads
              g.owner).pagedir (pg_round_down spg.upage)
            = (pinned_first_example.threads g.owner).pagedir (pg_round_down spg.upage) :=
  ⟨pinned_first_example_keys, pinned_first_example_distinct, rfl,
    evict_spares_pinned 3 pinned_first_example _ pinned_first_example_keys
      pinned_first_example_distinct rfl⟩

end Pintos


namespace Pintos

/-! ## Runs on concrete machines -/

/-- C5.  `page_load` of a `FILE` page that was not resident returns true and
leaves the frame of the page pinned. -/
theorem page_load_file_page_stays_pinned :
    ∃ k1, page_load 1 0x08048000 code_page_example = Res.ok true k1 ∧
      (k1.cur.sup_page_table 0x08048000).map spte.fte = some (some 100) ∧
      k1.frame_table = [{ pinned := true, kpage := 100, spte := 0x08048000, owner := 1 }] :=
  ⟨_, rfl, rfl, rfl⟩

/-- C7.  A `write` to the console and a `read` from an open file whose buffer
starts 16 bytes before the end of a mapped page and runs 84 bytes into a page
without a supplemental entry end in the failed assertion of `frame_pin_addr`,
not in the exit of the process. -/
theorem write_read_past_mapped_page_panics :
    (one_page_example.cur.sup_page_table (pg_round_down 0x10000ff0)).isSome = true ∧
    one_page_example.cur.sup_page_table (pg_round_down (0x10000ff0 + 99)) = none ∧
    write 1 1 0x10000ff0 100 one_page_example = Res.panic panic_site.frame_pin_addr_spte ∧
    read 1 2 0x10000ff0 100 one_page_example = Res.panic panic_site.frame_pin_addr_spte :=
  ⟨rfl, rfl, rfl, rfl⟩

/-- C8.  A `read` of 100 bytes into a buffer that starts in a writable page
and ends in a page of code that is not writable does not terminate the
process: both pages are pinned and `file_read` is called on the whole
buffer. -/
theorem read_into_later_code_page :
    (data_then_code_example.cur.sup_page_table (pg_round_down (0x10000ff0 + 99))).map
        (fun sp => (sp.page_type, sp.file_page.writable)) = some (page_type.FILE, false) ∧
    ∃ r k1, read 1 2 0x10000ff0 100 data_then_code_example = Res.ok r k1 ∧
      event.file_read 1 0x10000ff0 100 ∈ k1.trace :=
  ⟨rfl, _, _, rfl, by decide⟩

/-- C9.  For `SYS_EXIT` with the stack pointer at the last word below
`PHYS_BASE`, the handler reads the three argument slots, which lie in kernel
space, and only then examines the first of them and terminates the process;
the other two are never examined. -/
theorem syscall_handler_reads_before_check :
    is_user_vaddr (0xbffffffc + 4) = false ∧
    ∃ k1, syscall_handler 1 0xbffffffc stack_top_example = Res.killed (-1) k1 ∧
      k1.trace =
        [event.check 0xbffffffc, event.deref 0xbffffffc, event.deref 0xc0000000,
          event.deref 0xc0000004, event.deref 0xc0000008, event.check 0xc0000000] :=
  ⟨rfl, _, rfl, rfl⟩

/-- C10.  For a string of length 200 that starts 96 bytes before the end of
its first page, `frame_pin_string` pins the frame of the first page only: the
frame of the second page, which holds the last 105 bytes of the string with
its terminator, stays unpinned. -/
theorem frame_pin_string_misses_second_page :
    pg_round_down (0x10000fa0 + 200) = 0x10001000 ∧
    ∃ k1, frame_pin_string 1 0x10000fa0 200 two_pages_example = Res.ok () k1 ∧
      k1.cur.sup_page_table 0x10001000 = some (zero_spte 0x10001000 (some 101)) ∧
      k1.frame_table =
        [{ pinned := true, kpage := 100, spte := 0x10000000, owner := 1 },
         { pinned := false, kpage := 101, spte := 0x10001000, owner := 1 }] :=
  ⟨by decide, _, rfl, rfl, rfl⟩

end Pintos


namespace Pintos

/-! ## The invariant under the elementary changes of state -/

theorem vm_ok_frame_of_kpage {k : Kernel} (h : vm_ok k) {kp ow key ow2 key2 : Nat}
    (h1 : (kp, ow, key) ∈ frames k) (h2 : (kp, ow2, key2) ∈ frames k) :
    ow2 = ow ∧ key2 = key := by
  have := List.inj_on_of_nodup_map h.kpages h1 h2 rfl
  simp only [Prod.mk.injEq, true_and] at this
  exact ⟨this.1.symm, this.2.symm⟩

theorem vm_ok_frame_unique {k : Kernel} (h : vm_ok k) {kp kp2 ow key : Nat}
    (h1 : (kp, ow, key) ∈ frames k) (h2 : (kp2, ow, key) ∈ frames k) : kp2 = kp := by
  obtain ⟨P, hP, hf⟩ := h.link_ft _ _ _ h1
  obtain ⟨P2, hP2, hf2⟩ := h.link_ft _ _ _ h2
  rw [hP] at hP2
  cases hP2
  rw [hf] at hf2
  cases hf2
  rfl

theorem pd_kpage_eq_none {k : Kernel} {tid p : Nat} :
    pd_kpage k tid p = none ↔ (k.threads tid).pagedir p = none := by
  unfold pd_kpage
  cases (k.threads tid).pagedir p <;> simp

/-- Releasing the frame `(kp, ow, key)`: its entry loses the frame and records
slot `s16` (a slot just taken, or none), the page is unmapped, the frame goes
to the free pool. -/
theorem vm_ok_release {k k1 : Kernel} {kp ow key : Nat} (s16 : Nat) {P : spte}
    (h : vm_ok k) (hf : (kp, ow, key) ∈ frames k)
    (hP : (k.threads ow).sup_page_table key = some P)
    (hspt : ∀ tid q, (k1.threads tid).sup_page_table q =
      if tid = ow ∧ q = key then some { P with swap_index := s16, fte := none }
      else (k.threads tid).sup_page_table q)
    (hpd : ∀ tid p, pd_kpage k1 tid p = if tid = ow ∧ p = key then none else pd_kpage k tid p)
    (hfr : (frames k).Perm ((kp, ow, key) :: frames k1))
    (hpool : k1.user_pool = kp :: k.user_pool)
    (hswap : (s16 = NOT_IN_SWAP_PARTITION ∧ k1.swap_table = k.swap_table) ∨
      (s16 < 65535 ∧ s16 < k.swap_table.bit_cnt ∧ k.swap_table.bits s16 = false ∧
        k1.swap_table = bitmap_set k.swap_table s16 true)) :
    vm_ok k1 := by
  have hkP := h.keys _ _ _ hP
  have hnd : (((kp, ow, key) :: frames k1).map Prod.fst).Nodup :=
    (hfr.map Prod.fst).nodup_iff.mp h.kpages
  rw [List.map_cons, List.nodup_cons] at hnd
  have hsub : ∀ x, x ∈ frames k1 → x ∈ frames k := fun x hx =>
    hfr.mem_iff.mpr (List.mem_cons_of_mem _ hx)
  have hbits : ∀ i, k.swap_table.bits i = true → k1.swap_table.bits i = true := by
    intro i hi
    rcases hswap with ⟨_, e⟩ | ⟨_, _, _, e⟩
    · rw [e]; exact hi
    · rw [e]; simp only [bitmap_set]; split
      · rfl
      · exact hi
  have hcnt : k1.swap_table.bit_cnt = k.swap_table.bit_cnt := by
    rcases hswap with ⟨_, e⟩ | ⟨_, _, _, e⟩ <;> rw [e] <;> rfl
  refine
    { inv := ?_, keys := ?_, link_ft := ?_, link_spt := ?_, kpages := hnd.2, pool := ?_,
      pool_nodup := ?_, slots := ?_, swap := ?_ }
  · intro tid q Q hQ
    rw [hspt] at hQ
    split at hQ
    · rename_i hc
      obtain ⟨rfl, rfl⟩ := hc
      cases hQ
      refine ⟨?_, ?_, ?_⟩
      · intro hh; exact hh.1 rfl
      · intro x hh; cases hh
      · intro hs
        have hs1 : s16 ≠ NOT_IN_SWAP_PARTITION := hs
        refine ⟨?_, ?_⟩
        · show s16 < k1.swap_table.bit_cnt ∧ k1.swap_table.bits s16 = true
          rcases hswap with ⟨e, _⟩ | ⟨_, h2, _, e⟩
          · exact absurd e hs1
          · rw [e]; simp only [bitmap_set, if_true]; exact ⟨h2, trivial⟩
        · show pd_kpage k1 tid (pg_round_down P.upage) = none
          rw [hpd, hkP.1, hkP.2, if_pos ⟨rfl, rfl⟩]
    · rename_i hc
      have hi := h.inv _ _ _ hQ
      have hkQ := h.keys _ _ _ hQ
      refine ⟨hi.1, fun x hx => ?_, fun hs => ?_⟩
      · rw [hpd, hkQ.1, hkQ.2, if_neg hc]
        have := hi.2.1 x hx
        rw [hkQ.1, hkQ.2] at this
        exact this
      · have := hi.2.2 hs
        rw [hkQ.1, hkQ.2] at this
        rw [hpd, hkQ.1, hkQ.2, if_neg hc, hcnt]
        exact ⟨⟨this.1.1, hbits _ this.1.2⟩, this.2⟩
  · intro tid q Q hQ
    rw [hspt] at hQ
    split at hQ
    · rename_i hc
      obtain ⟨rfl, rfl⟩ := hc
      cases hQ
      exact hkP
    · exact h.keys _ _ _ hQ
  · intro kp2 ow2 key2 hm
    obtain ⟨Q, hQ, hQf⟩ := h.link_ft _ _ _ (hsub _ hm)
    refine ⟨Q, ?_, hQf⟩
    rw [hspt, if_neg, hQ]
    rintro ⟨e1, e2⟩
    rw [e1, e2] at hm
    have := vm_ok_frame_unique h hf (hsub _ hm)
    rw [this] at hm
    exact hnd.1 (List.mem_map.mpr ⟨_, hm, rfl⟩)
  · intro tid q Q x hQ hx
    rw [hspt] at hQ
    split at hQ
    · cases hQ; cases hx
    · rename_i hc
      have := h.link_spt _ _ _ _ hQ hx
      rcases List.mem_cons.mp (hfr.mem_iff.mp this) with e | e
      · simp only [Prod.mk.injEq] at e
        exact absurd ⟨e.2.1, e.2.2⟩ hc
      · exact e
  · intro kp2 ow2 key2 hm
    rw [hpool]
    intro hin
    rcases List.mem_cons.mp hin with e | e
    · subst e
      exact hnd.1 (List.mem_map.mpr ⟨_, hm, rfl⟩)
    · exact h.pool _ _ _ (hsub _ hm) e
  · rw [hpool, List.nodup_cons]
    exact ⟨h.pool _ _ _ hf, h.pool_nodup⟩
  · intro tid q Q tid2 q2 Q2 hQ hQ2 hs he
    rw [hspt] at hQ hQ2
    have hfresh : ∀ t r R, (k.threads t).sup_page_table r = some R →
        s16 ≠ NOT_IN_SWAP_PARTITION → R.swap_index ≠ s16 := by
      intro t r R hR hs1 e
      rcases hswap with ⟨e1, _⟩ | ⟨_, _, h3, _⟩
      · exact hs1 e1
      · have := ((h.inv _ _ _ hR).2.2 (by rw [e]; exact hs1)).1.2
        rw [e, h3] at this
        cases this
    split at hQ <;> split at hQ2
    · rename_i c1 c2
      exact ⟨c1.1.trans c2.1.symm, c1.2.trans c2.2.symm⟩
    · cases hQ
      have he1 : s16 = Q2.swap_index := he
      exact absurd he1.symm (hfresh _ _ _ hQ2 hs)
    · cases hQ2
      have he1 : Q.swap_index = s16 := he
      exact absurd he1 (hfresh _ _ _ hQ (by rw [← he1]; exact hs))
    · exact h.slots _ _ _ _ _ _ hQ hQ2 hs he
  · intro i hi
    rcases hswap with ⟨_, e⟩ | ⟨h1, h2, _, e⟩
    · rw [e] at hi ⊢; exact h.swap i hi
    · rw [e] at hi ⊢
      simp only [bitmap_set] at hi ⊢
      split at hi
      · rename_i e2; subst e2; exact ⟨h1, h2⟩
      · exact h.swap i hi

end Pintos

namespace Pintos

theorem bitmap_set_false_bits {b : bitmap} {s i : Nat}
    (hi : (bitmap_set b s false).bits i = true) : b.bits i = true ∧ i ≠ s := by
  simp only [bitmap_set] at hi
  split at hi
  · cases hi
  · rename_i hne; exact ⟨hi, hne⟩

/-- Giving the entry at `(ow, key)` the free frame `kp`: the entry becomes
resident (and no longer swapped, its slot being reset when it was), the page
is mapped to the frame, the frame leaves the pool and enters the frame
table. -/
theorem vm_ok_install {k k1 : Kernel} {kp ow key : Nat} {P : spte} (P1 : spte)
    (h : vm_ok k) (hP : (k.threads ow).sup_page_table key = some P) (hPf : P.fte = none)
    (hu : P1.upage = P.upage) (hf1 : P1.fte = some kp)
    (hs1 : P1.swap_index = NOT_IN_SWAP_PARTITION)
    (hspt : ∀ tid q, (k1.threads tid).sup_page_table q =
      if tid = ow ∧ q = key then some P1 else (k.threads tid).sup_page_table q)
    (hpd : ∀ tid p, pd_kpage k1 tid p =
      if tid = ow ∧ p = key then some kp else pd_kpage k tid p)
    (hfr : (frames k1).Perm ((kp, ow, key) :: frames k))
    (hpool : k.user_pool = kp :: k1.user_pool)
    (hswap : k1.swap_table = k.swap_table ∨
      (P.swap_index ≠ NOT_IN_SWAP_PARTITION ∧
        k1.swap_table = bitmap_set k.swap_table P.swap_index false)) :
    vm_ok k1 := by
  have hkP := h.keys _ _ _ hP
  have hpn : (kp :: k1.user_pool).Nodup := by rw [← hpool]; exact h.pool_nodup
  rw [List.nodup_cons] at hpn
  have hkpf : kp ∉ (frames k).map Prod.fst := by
    intro hm
    obtain ⟨⟨a, b, c⟩, hm1, rfl⟩ := List.mem_map.mp hm
    exact h.pool _ _ _ hm1 (by rw [hpool]; exact List.mem_cons_self _ _)
  have hnoframe : ∀ x, (x, ow, key) ∉ frames k := by
    intro x hx
    obtain ⟨Q, hQ, hQf⟩ := h.link_ft _ _ _ hx
    rw [hP] at hQ
    cases hQ
    rw [hPf] at hQf
    cases hQf
  have hcnt : k1.swap_table.bit_cnt = k.swap_table.bit_cnt := by
    rcases hswap with e | ⟨_, e⟩ <;> rw [e] <;> rfl
  have hbits : ∀ tid q Q, (k.threads tid).sup_page_table q = some Q →
      ¬ (tid = ow ∧ q = key) → Q.swap_index ≠ NOT_IN_SWAP_PARTITION →
      k.swap_table.bits Q.swap_index = true → k1.swap_table.bits Q.swap_index = true := by
    intro tid q Q hQ hc hs hb
    rcases hswap with e | ⟨_, e⟩
    · rw [e]; exact hb
    · rw [e]; simp only [bitmap_set]
      rw [if_neg]
      · exact hb
      · intro e2
        exact hc (h.slots _ _ _ _ _ _ hQ hP hs e2)
  refine
    { inv := ?_, keys := ?_, link_ft := ?_, link_spt := ?_, kpages := ?_, pool := ?_,
      pool_nodup := hpn.2, slots := ?_, swap := ?_ }
  · intro tid q Q hQ
    rw [hspt] at hQ
    split at hQ
    · rename_i hc
      obtain ⟨rfl, rfl⟩ := hc
      cases hQ
      refine ⟨?_, ?_, ?_⟩
      · intro hh; exact hh.2 hs1
      · intro x hx
        rw [hf1] at hx
        cases hx
        rw [hpd, hu, hkP.1, hkP.2, if_pos ⟨rfl, rfl⟩]
      · intro hs; exact absurd hs1 hs
    · rename_i hc
      have hi := h.inv _ _ _ hQ
      have hkQ := h.keys _ _ _ hQ
      refine ⟨hi.1, fun x hx => ?_, fun hs => ?_⟩
      · rw [hpd, hkQ.1, hkQ.2, if_neg hc]
        have := hi.2.1 x hx
        rw [hkQ.1, hkQ.2] at this
        exact this
      · have := hi.2.2 hs
        rw [hkQ.1, hkQ.2] at this
        rw [hpd, hkQ.1, hkQ.2, if_neg hc, hcnt]
        exact ⟨⟨this.1.1, hbits _ _ _ hQ hc hs this.1.2⟩, this.2⟩
  · intro tid q Q hQ
    rw [hspt] at hQ
    split at hQ
    · rename_i hc
      obtain ⟨rfl, rfl⟩ := hc
      cases hQ
      rw [hu]
      exact hkP
    · exact h.keys _ _ _ hQ
  · intro kp2 ow2 key2 hm
    rcases List.mem_cons.mp (hfr.mem_iff.mp hm) with e | e
    · simp only [Prod.mk.injEq] at e
      obtain ⟨rfl, rfl, rfl⟩ := e
      exact ⟨P1, by rw [hspt, if_pos ⟨rfl, rfl⟩], hf1⟩
    · obtain ⟨Q, hQ, hQf⟩ := h.link_ft _ _ _ e
      refine ⟨Q, ?_, hQf⟩
      rw [hspt, if_neg, hQ]
      rintro ⟨e1, e2⟩
      rw [e1, e2] at e
      exact hnoframe _ e
  · intro tid q Q x hQ hx
    rw [hspt] at hQ
    split at hQ
    · rename_i hc
      obtain ⟨rfl, rfl⟩ := hc
      cases hQ
      rw [hf1] at hx
      cases hx
      exact hfr.mem_iff.mpr (List.mem_cons_self _ _)
    · exact hfr.mem_iff.mpr (List.mem_cons_of_mem _ (h.link_spt _ _ _ _ hQ hx))
  · have : (((kp, ow, key) :: frames k).map Prod.fst).Nodup := by
      rw [List.map_cons, List.nodup_cons]
      exact ⟨hkpf, h.kpages⟩
    exact (hfr.map Prod.fst).nodup_iff.mpr this
  · intro kp2 ow2 key2 hm hin
    rcases List.mem_cons.mp (hfr.mem_iff.mp hm) with e | e
    · simp only [Prod.mk.injEq] at e
      obtain ⟨rfl, rfl, rfl⟩ := e
      exact hpn.1 hin
    · exact h.pool _ _ _ e (by rw [hpool]; exact List.mem_cons_of_mem _ hin)
  · intro tid q Q tid2 q2 Q2 hQ hQ2 hs he
    rw [hspt] at hQ hQ2
    split at hQ <;> split at hQ2
    · rename_i c1 c2
      exact ⟨c1.1.trans c2.1.symm, c1.2.trans c2.2.symm⟩
    · cases hQ
      exact absurd hs1 hs
    · cases hQ2
      rw [he] at hs
      exact absurd hs1 hs
    · exact h.slots _ _ _ _ _ _ hQ hQ2 hs he
  · intro i hi
    rcases hswap with e | ⟨_, e⟩
    · rw [e] at hi ⊢; exact h.swap i hi
    · rw [e] at hi ⊢
      exact h.swap i (bitmap_set_false_bits hi).1

/-- Replacing the entry at `(ow, key)`, which has no frame, by nothing or by
an entry that is neither resident nor swapped; the slot of a removed entry
may be reset. -/
theorem vm_ok_entry {k k1 : Kernel} (ow key : Nat) (o1 : Option spte)
    (h : vm_ok k)
    (hold : ∀ P, (k.threads ow).sup_page_table key = some P → P.fte = none)
    (hnew : ∀ P1, o1 = some P1 → P1.upage = key ∧ pg_round_down key = key ∧
      P1.fte = none ∧ P1.swap_index = NOT_IN_SWAP_PARTITION)
    (hspt : ∀ tid q, (k1.threads tid).sup_page_table q =
      if tid = ow ∧ q = key then o1 else (k.threads tid).sup_page_table q)
    (hpd : ∀ tid p, pd_kpage k1 tid p = pd_kpage k tid p)
    (hfr : (frames k1).Perm (frames k))
    (hpool : k1.user_pool = k.user_pool)
    (hswap : k1.swap_table = k.swap_table ∨
      ∃ P, (k.threads ow).sup_page_table key = some P ∧
        P.swap_index ≠ NOT_IN_SWAP_PARTITION ∧
        k1.swap_table = bitmap_set k.swap_table P.swap_index false) :
    vm_ok k1 := by
  have hnoframe : ∀ x, (x, ow, key) ∉ frames k := by
    intro x hx
    obtain ⟨Q, hQ, hQf⟩ := h.link_ft _ _ _ hx
    rw [hold Q hQ] at hQf
    cases hQf
  have hcnt : k1.swap_table.bit_cnt = k.swap_table.bit_cnt := by
    rcases hswap with e | ⟨_, _, _, e⟩ <;> rw [e] <;> rfl
  have hbits : ∀ tid q Q, (k.threads tid).sup_page_table q = some Q →
      ¬ (tid = ow ∧ q = key) → Q.swap_index ≠ NOT_IN_SWAP_PARTITION →
      k.swap_table.bits Q.swap_index = true → k1.swap_table.bits Q.swap_index = true := by
    intro tid q Q hQ hc hs hb
    rcases hswap with e | ⟨P, hP, _, e⟩
    · rw [e]; exact hb
    · rw [e]; simp only [bitmap_set]
      rw [if_neg]
      · exact hb
      · intro e2
        exact hc (h.slots _ _ _ _ _ _ hQ hP hs e2)
  refine
    { inv := ?_, keys := ?_, link_ft := ?_, link_spt := ?_, kpages := ?_, pool := ?_,
      pool_nodup := ?_, slots := ?_, swap := ?_ }
  · intro tid q Q hQ
    rw [hspt] at hQ
    split at hQ
    · obtain ⟨_, _, hf, hs⟩ := hnew Q hQ
      refine ⟨?_, ?_, ?_⟩
      · intro hh; exact hh.2 hs
      · intro x hx; rw [hf] at hx; cases hx
      · intro hh; exact absurd hs hh
    · rename_i hc
      have hi := h.inv _ _ _ hQ
      refine ⟨hi.1, fun x hx => ?_, fun hs => ?_⟩
      · rw [hpd]; exact hi.2.1 x hx
      · have := hi.2.2 hs
        rw [hpd, hcnt]
        exact ⟨⟨this.1.1, hbits _ _ _ hQ hc hs this.1.2⟩, this.2⟩
  · intro tid q Q hQ
    rw [hspt] at hQ
    split at hQ
    · rename_i hc
      obtain ⟨e1, e2, _, _⟩ := hnew Q hQ
      rw [hc.2]
      exact ⟨e1, e2⟩
    · exact h.keys _ _ _ hQ
  · intro kp2 ow2 key2 hm
    have e := hfr.mem_iff.mp hm
    obtain ⟨Q, hQ, hQf⟩ := h.link_ft _ _ _ e
    refine ⟨Q, ?_, hQf⟩
    rw [hspt, if_neg, hQ]
    rintro ⟨e1, e2⟩
    rw [e1, e2] at e
    exact hnoframe _ e
  · intro tid q Q x hQ hx
    rw [hspt] at hQ
    split at hQ
    · obtain ⟨_, _, hf, _⟩ := hnew Q hQ
      rw [hf] at hx; cases hx
    · exact hfr.mem_iff.mpr (h.link_spt _ _ _ _ hQ hx)
  · exact (hfr.map Prod.fst).nodup_iff.mpr h.kpages
  · intro kp2 ow2 key2 hm
    rw [hpool]
    exact h.pool _ _ _ (hfr.mem_iff.mp hm)
  · rw [hpool]; exact h.pool_nodup
  · intro tid q Q tid2 q2 Q2 hQ hQ2 hs he
    rw [hspt] at hQ hQ2
    split at hQ <;> split at hQ2
    · rename_i c1 c2
      exact ⟨c1.1.trans c2.1.symm, c1.2.trans c2.2.symm⟩
    · exact absurd (hnew Q hQ).2.2.2 hs
    · rw [he] at hs
      exact absurd (hnew Q2 hQ2).2.2.2 hs
    · exact h.slots _ _ _ _ _ _ hQ hQ2 hs he
  · intro i hi
    rcases hswap with e | ⟨_, _, _, e⟩
    · rw [e] at hi ⊢; exact h.swap i hi
    · rw [e] at hi ⊢
      exact h.swap i (bitmap_set_false_bits hi).1

/-- Changes that the invariant does not see: accessed and dirty bits, pin
flags, the order of the frame table, memory and file contents, the trace. -/
theorem vm_ok_same_view {k k1 : Kernel} (h : vm_ok k)
    (hspt : ∀ tid, (k1.threads tid).sup_page_table = (k.threads tid).sup_page_table)
    (hpd : ∀ tid p, pd_kpage k1 tid p = pd_kpage k tid p)
    (hfr : (frames k1).Perm (frames k))
    (hpool : k1.user_pool = k.user_pool)
    (hswap : k1.swap_table = k.swap_table) : vm_ok k1 := by
  refine
    { inv := ?_, keys := ?_, link_ft := ?_, link_spt := ?_, kpages := ?_, pool := ?_,
      pool_nodup := ?_, slots := ?_, swap := ?_ }
  · intro tid q Q hQ
    rw [hspt] at hQ
    have hi := h.inv _ _ _ hQ
    refine ⟨hi.1, fun x hx => ?_, fun hs => ?_⟩
    · rw [hpd]; exact hi.2.1 x hx
    · rw [hpd, hswap]; exact hi.2.2 hs
  · intro tid q Q hQ
    rw [hspt] at hQ
    exact h.keys _ _ _ hQ
  · intro kp2 ow2 key2 hm
    rw [hspt]
    exact h.link_ft _ _ _ (hfr.mem_iff.mp hm)
  · intro tid q Q x hQ hx
    rw [hspt] at hQ
    exact hfr.mem_iff.mpr (h.link_spt _ _ _ _ hQ hx)
  · exact (hfr.map Prod.fst).nodup_iff.mpr h.kpages
  · intro kp2 ow2 key2 hm
    rw [hpool]
    exact h.pool _ _ _ (hfr.mem_iff.mp hm)
  · rw [hpool]; exact h.pool_nodup
  · intro tid q Q tid2 q2 Q2 hQ hQ2 hs he
    rw [hspt] at hQ hQ2
    exact h.slots _ _ _ _ _ _ hQ hQ2 hs he
  · rw [hswap]; exact h.swap

end Pintos


namespace Pintos

/-! ## `evict` keeps the invariant -/

theorem frame_key_mem {k : Kernel} {f : fte} (h : f ∈ k.frame_table) :
    (f.kpage, f.owner, f.spte) ∈ frames k :=
  List.mem_map.mpr ⟨f, h, rfl⟩

/-- The slot `swap_out` hands to `evict`: with no slot from 65535 on in use,
either the table is full and the recorded index is the sentinel, or the slot
was free, is below 65535 and is now marked used. -/
theorem swap_out_slot {kpage s : Nat} {k k1 : Kernel} (hr : swap_reachable k.swap_table)
    (h : swap_out kpage k = Res.ok s k1) :
    (to_uint16 s = NOT_IN_SWAP_PARTITION ∧ k1.swap_table = k.swap_table) ∨
    (to_uint16 s < 65535 ∧ to_uint16 s < k.swap_table.bit_cnt ∧
      k.swap_table.bits (to_uint16 s) = false ∧
      k1.swap_table = bitmap_set k.swap_table (to_uint16 s) true) := by
  obtain ⟨hs0, hne, b, _, rfl⟩ := swap_out_inv h
  subst hs0
  · simp only [Kernel.with_swap_block_swap_table]
    rw [Kernel.with_swap_table_swap_table _ _ (bitmap_scan_and_flip_bit_cnt _ _ _)]
    unfold bitmap_scan_and_flip at hne ⊢
    by_cases hs : bitmap_scan k.swap_table 0 SWAP_FREE ≠ BITMAP_ERROR
    · right
      simp only [hs, ne_eq, not_false_eq_true, if_true] at hne ⊢
      unfold bitmap_scan at hne hs ⊢
      rcases bitmap_scan_from_spec k.swap_table SWAP_FREE (k.swap_table.bit_cnt - 0) 0 with
        ⟨e, _⟩ | ⟨_, h2, h3, h4⟩
      · exact absurd e hs
      · have hlt : bitmap_scan_from k.swap_table SWAP_FREE (k.swap_table.bit_cnt - 0) 0
            < 65535 := by
          by_contra hge
          have h5 := h4 65535 (Nat.zero_le _) (by omega)
          have h6 : k.swap_table.bits 65535 = true := by
            cases hb : k.swap_table.bits 65535
            · exact absurd hb h5
            · rfl
          have := (hr 65535 h6).1
          omega
        have e16 : to_uint16 (bitmap_scan_from k.swap_table SWAP_FREE
            (k.swap_table.bit_cnt - 0) 0)
            = bitmap_scan_from k.swap_table SWAP_FREE (k.swap_table.bit_cnt - 0) 0 := by
          unfold to_uint16; omega
        rw [e16]
        exact ⟨hlt, by omega, h3, rfl⟩
    · left
      simp only [hs, if_false]
      have e : bitmap_scan k.swap_table 0 SWAP_FREE = BITMAP_ERROR := by
        by_contra hc; exact hs hc
      rw [e]
      exact ⟨by decide, trivial⟩

/-- What `evict` does to the state, in the terms of the invariant. -/
theorem evict_view {fuel : Nat} {k k1 : Kernel} (h : vm_ok k)
    (he : evict fuel k = Res.ok () k1) :
    ∃ kp ow key P s16, (kp, ow, key) ∈ frames k ∧
      (k.threads ow).sup_page_table key = some P ∧ P.fte = some kp ∧
      (∀ tid q, (k1.threads tid).sup_page_table q =
        if tid = ow ∧ q = key then some { P with swap_index := s16, fte := none }
        else (k.threads tid).sup_page_table q) ∧
      (∀ tid p, pd_kpage k1 tid p = if tid = ow ∧ p = key then none else pd_kpage k tid p) ∧
      (frames k).Perm ((kp, ow, key) :: frames k1) ∧
      k1.user_pool = kp :: k.user_pool ∧
      ((s16 = NOT_IN_SWAP_PARTITION ∧ k1.swap_table = k.swap_table) ∨
        (s16 < 65535 ∧ s16 < k.swap_table.bit_cnt ∧ k.swap_table.bits s16 = false ∧
          k1.swap_table = bitmap_set k.swap_table s16 true)) ∧
      k1.current = k.current ∧
      (∀ tid, (k1.threads tid).mmap_list = (k.threads tid).mmap_list) := by
  obtain ⟨f, sp, km, s, ks, _, hloop, hswap, rfl⟩ := evict_inv he
  have hc := evict_loop_chosen _ _ _ _ _ hloop
  have hso := swap_out_swap_only hswap
  have hfmem : f ∈ k.frame_table := hc.perm.mem_iff.mpr (List.mem_cons_self _ _)
  obtain ⟨P0, hP0, hP0f⟩ := h.link_ft _ _ _ (frame_key_mem hfmem)
  have hkP := h.keys _ _ _ hc.entry
  have hPeq : P0 = sp := by
    rw [hc.entry] at hP0
    cases hP0
    rfl
  subst hPeq
  refine ⟨f.kpage, f.owner, f.spte, P0, to_uint16 s, frame_key_mem hfmem, hc.entry, hP0f,
    ?_, ?_, ?_, ?_, ?_, ?_, ?_⟩
  · intro tid q
    by_cases ho : tid = f.owner
    · subst ho
      rw [evict_release_spt, hso.threads, hc.rel.spt]
      by_cases hq : q = f.spte
      · subst hq
        simp [hc.entry]
      · simp [hq]
    · rw [evict_release_threads_other _ _ _ _ _ ho, hso.threads, hc.rel.spt]
      simp [ho]
  · intro tid p
    unfold pd_kpage
    by_cases ho : tid = f.owner
    · subst ho
      rw [evict_release_pagedir, hso.threads]
      simp only [pagedir_clear_page, hkP.1, hkP.2]
      by_cases hp : p = f.spte
      · simp [hp]
      · simp only [hp, if_false, and_false]
        exact hc.rel.pd_kpage _ _
    · rw [evict_release_threads_other _ _ _ _ _ ho, hso.threads]
      simp only [ho, false_and, if_false]
      exact hc.rel.pd_kpage _ _
  · have := hc.perm.map frame_key
    rw [List.map_cons] at this
    unfold frames
    rw [evict_release_frame_table, hso.frame_table]
    exact this
  · rw [evict_release_user_pool, hso.user_pool, hc.rel.user_pool]
  · have := swap_out_slot (by rw [hc.rel.swap_table]; exact h.swap) hswap
    rw [evict_release_swap_table]
    rw [hc.rel.swap_table] at this
    exact this
  · rw [evict_release_current, hso.current, hc.rel.current]
  · intro tid
    rw [evict_release_mmap_list, hso.threads, hc.rel.mmap_list]

/-- `evict` keeps the invariant. -/
theorem evict_vm_ok {fuel : Nat} {k k1 : Kernel} (h : vm_ok k)
    (he : evict fuel k = Res.ok () k1) : vm_ok k1 := by
  obtain ⟨kp, ow, key, P, s16, hf, hP, _, hspt, hpd, hfr, hpool, hswap, _, _⟩ :=
    evict_view h he
  exact vm_ok_release _ h hf hP hspt hpd hfr hpool hswap

end Pintos


namespace Pintos

/-! ## `frame_alloc` and the loaders -/

theorem alloc_rel_refl (k : Kernel) : alloc_rel k k :=
  ⟨rfl, fun _ _ _ h _ => h, fun _ => rfl⟩

theorem alloc_rel_trans {a b c : Kernel} (h1 : alloc_rel a b) (h2 : alloc_rel b c) :
    alloc_rel a c :=
  ⟨h2.current.trans h1.current,
    fun t q Q hQ hf => h2.entries t q Q (h1.entries t q Q hQ hf) hf,
    fun t => (h2.mmap_list t).trans (h1.mmap_list t)⟩

theorem alloc_rel_of_evict {fuel : Nat} {k k1 : Kernel} (h : vm_ok k)
    (he : evict fuel k = Res.ok () k1) : alloc_rel k k1 := by
  obtain ⟨kp, ow, key, P, s16, _, hP, hPf, hspt, _, _, _, _, hcur, hmm⟩ := evict_view h he
  refine ⟨hcur, ?_, hmm⟩
  intro tid q Q hQ hQf
  rw [hspt, if_neg, hQ]
  rintro ⟨rfl, rfl⟩
  rw [hP] at hQ
  cases hQ
  rw [hPf] at hQf
  cases hQf

theorem palloc_get_page_inv {flags : palloc_flags} {k k1 : Kernel} {r : Option Nat}
    (h : palloc_get_page flags k = Res.ok r k1) :
    (r = none ∧ k1 = k ∧ k.user_pool = []) ∨
    (∃ p rest, r = some p ∧ k.user_pool = p :: rest ∧
      k1 = (k.with_user_pool rest).with_ram
        (fun q => if q = p ∧ flags.zero = true then fun _ => 0 else k.ram q)) := by
  unfold palloc_get_page at h
  cases hp : k.user_pool with
  | nil =>
    simp only [hp] at h
    cases h
    exact Or.inl ⟨rfl, rfl, rfl⟩
  | cons p rest =>
    simp only [hp] at h
    cases h
    exact Or.inr ⟨p, rest, rfl, rfl, rfl⟩

/-- Obtaining a frame: after the evictions the loop needed, the state `kb`
satisfies the invariant and has the frame at the head of its free pool; the
loop returns that frame in a state that differs from `kb` in pool and memory
only. -/
theorem frame_alloc_page_view {fuel : Nat} {flags : palloc_flags} :
    ∀ (n : Nat) (k ka : Kernel) (kp : Nat), vm_ok k →
      frame_alloc_page fuel flags n k = Res.ok kp ka →
      ∃ kb, vm_ok kb ∧ alloc_rel k kb ∧ kb.user_pool = kp :: ka.user_pool ∧
        ka.threads = kb.threads ∧ ka.frame_table = kb.frame_table ∧
        ka.swap_table = kb.swap_table ∧ ka.current = kb.current := by
  intro n
  induction n with
  | zero => intro k ka kp _ h; simp [frame_alloc_page] at h
  | succ n ih =>
    intro k ka kp hk h
    unfold frame_alloc_page at h
    simp only [K.run_bind, K.seq_eq_ok] at h
    obtain ⟨r, k1, hp, h⟩ := h
    rcases palloc_get_page_inv hp with ⟨rfl, rfl, _⟩ | ⟨p, rest, rfl, hpool, rfl⟩
    · simp only [K.run_bind, K.seq_eq_ok] at h
      obtain ⟨_, k2, hev, h⟩ := h
      obtain ⟨kb, h1, h2, h3⟩ := ih _ _ _ (evict_vm_ok hk hev) h
      exact ⟨kb, h1, alloc_rel_trans (alloc_rel_of_evict hk hev) h2, h3⟩
    · simp only [K.pure_eq_ok] at h
      obtain ⟨rfl, rfl⟩ := h
      exact ⟨k, hk, alloc_rel_refl k, hpool, rfl, rfl, rfl, rfl⟩

/-- `frame_alloc` is: find the entry, obtain a frame, install it. -/
theorem frame_alloc_inv {fuel key : Nat} {flags : palloc_flags} {w : Bool} {k kc : Kernel}
    {f : fte} (h : frame_alloc fuel key flags w k = Res.ok f kc) :
    ∃ sp ka, k.cur.sup_page_table key = some sp ∧ sp.upage ≠ 0 ∧
      is_user_vaddr sp.upage = true ∧
      frame_alloc_page fuel flags (fuel + 1) k = Res.ok f.kpage ka ∧
      f = { spte := key, kpage := f.kpage, owner := k.current, pinned := true } ∧
      ((ka.threads k.current).pagedir (pg_round_down sp.upage)) = none ∧
      kc = frame_install f sp.upage w ka := by
  unfold frame_alloc at h
  simp only [K.run_bind, K.seq_eq_ok, K.get_eq_ok] at h
  obtain ⟨_, _, ⟨rfl, rfl⟩, h⟩ := h
  cases hsp : k.cur.sup_page_table key with
  | none => simp [hsp] at h
  | some sp =>
    simp only [hsp, K.run_bind, K.seq_eq_ok, K.assert_eq_ok, K.modify_eq_ok, K.pure_eq_ok,
      Bool.and_eq_true, decide_eq_true_eq, pagedir_set_page, K.get_eq_ok] at h
    obtain ⟨_, _, ⟨⟨hu, huser⟩, rfl⟩, _, _, ⟨_, rfl⟩, kp, ka, hpage, _, _, rfl, _, _, rfl,
      _, _, ⟨_, _, ⟨rfl, rfl⟩, _, _, ⟨hnone, rfl⟩, rfl⟩, rfl, rfl⟩ := h
    refine ⟨sp, ka, rfl, hu, huser, hpage, rfl, ?_, rfl⟩
    simp only [Kernel.with_thread_threads_same, thread.with_spte_pagedir,
      Kernel.with_frame_table_threads, Option.isNone_iff_eq_none] at hnone
    exact hnone

end Pintos

namespace Pintos

theorem frame_install_frame_table (f : fte) (u : Nat) (w : Bool) (k : Kernel) :
    (frame_install f u w k).frame_table = k.frame_table ++ [f] := rfl

theorem frame_install_user_pool (f : fte) (u : Nat) (w : Bool) (k : Kernel) :
    (frame_install f u w k).user_pool = k.user_pool := rfl

theorem frame_install_swap_table (f : fte) (u : Nat) (w : Bool) (k : Kernel) :
    (frame_install f u w k).swap_table = k.swap_table := rfl

theorem frame_install_swap_block (f : fte) (u : Nat) (w : Bool) (k : Kernel) :
    (frame_install f u w k).swap_block = k.swap_block := rfl

theorem frame_install_ram (f : fte) (u : Nat) (w : Bool) (k : Kernel) :
    (frame_install f u w k).ram = k.ram := rfl

theorem frame_install_current (f : fte) (u : Nat) (w : Bool) (k : Kernel) :
    (frame_install f u w k).current = k.current := rfl

theorem frame_install_threads_other (f : fte) (u : Nat) (w : Bool) (k : Kernel) (tid : Nat)
    (h : tid ≠ f.owner) : (frame_install f u w k).threads tid = k.threads tid := by
  simp [frame_install, Kernel.with_thread_threads, h]

theorem frame_install_spt (f : fte) (u : Nat) (w : Bool) (k : Kernel) (q : Nat) :
    ((frame_install f u w k).threads f.owner).sup_page_table q =
      if q = f.spte then
        ((k.threads f.owner).sup_page_table q).map (fun s => { s with fte := some f.kpage })
      else (k.threads f.owner).sup_page_table q := by
  simp [frame_install, thread.with_spte_sup_page_table]

theorem frame_install_pagedir (f : fte) (u : Nat) (w : Bool) (k : Kernel) (p : Nat) :
    ((frame_install f u w k).threads f.owner).pagedir p =
      if p = pg_round_down u then
        some { kpage := f.kpage, writable := w, accessed := false, dirty := false }
      else (k.threads f.owner).pagedir p := by
  simp [frame_install]

theorem frame_install_mmap_list (f : fte) (u : Nat) (w : Bool) (k : Kernel) (tid : Nat) :
    ((frame_install f u w k).threads tid).mmap_list = (k.threads tid).mmap_list := by
  by_cases h : tid = f.owner
  · subst h; simp [frame_install]
  · rw [frame_install_threads_other _ _ _ _ _ h]

/-- What `frame_alloc` for an entry `P` that is not resident does to the
state, in the terms of the invariant: from a state `kb` that satisfies the
invariant (the state after the evictions), the frame at the head of the pool
is given to the entry. -/
theorem frame_alloc_view {fuel key : Nat} {flags : palloc_flags} {w : Bool} {k kc : Kernel}
    {f : fte} {P : spte} (hk : vm_ok k) (hP : k.cur.sup_page_table key = some P)
    (hPf : P.fte = none) (h : frame_alloc fuel key flags w k = Res.ok f kc) :
    ∃ kb, vm_ok kb ∧ alloc_rel k kb ∧ kb.user_pool = f.kpage :: kc.user_pool ∧
      (kb.threads k.current).sup_page_table key = some P ∧
      (∀ tid q, (kc.threads tid).sup_page_table q =
        if tid = k.current ∧ q = key then some { P with fte := some f.kpage }
        else (kb.threads tid).sup_page_table q) ∧
      (∀ tid p, pd_kpage kc tid p =
        if tid = k.current ∧ p = key then some f.kpage else pd_kpage kb tid p) ∧
      (frames kc).Perm ((f.kpage, k.current, key) :: frames kb) ∧
      kc.swap_table = kb.swap_table ∧ kc.current = k.current ∧
      (∀ tid, (kc.threads tid).mmap_list = (k.threads tid).mmap_list) ∧
      kc.frame_table = kb.frame_table ++
        [{ spte := key, kpage := f.kpage, owner := k.current, pinned := true }] := by
  obtain ⟨sp, ka, hsp, _, _, hpage, hf, _, rfl⟩ := frame_alloc_inv h
  rw [hP] at hsp
  cases hsp
  obtain ⟨kb, hkb, hrel, hpool, hthr, hft, hsw, hcur⟩ := frame_alloc_page_view _ _ _ _ hk hpage
  have hkP := hk.keys _ _ _ hP
  have hPb := hrel.entries _ _ _ hP hPf
  have hfo : f.owner = k.current := by rw [hf]
  have hfs : f.spte = key := by rw [hf]
  refine ⟨kb, hkb, hrel, ?_, hPb, ?_, ?_, ?_, ?_, ?_, ?_, ?_⟩
  · rw [frame_install_user_pool]; exact hpool
  · intro tid q
    by_cases ho : tid = k.current
    · subst ho
      rw [← hfo, frame_install_spt, hthr, hfs, hfo]
      by_cases hq : q = key
      · subst hq
        simp [hPb]
      · simp [hq]
    · rw [frame_install_threads_other _ _ _ _ _ (by rw [hfo]; exact ho), hthr]
      simp [ho]
  · intro tid p
    unfold pd_kpage
    by_cases ho : tid = k.current
    · subst ho
      rw [← hfo, frame_install_pagedir, hthr, hkP.1, hkP.2, hfo]
      by_cases hp : p = key
      · simp [hp]
      · simp [hp]
    · rw [frame_install_threads_other _ _ _ _ _ (by rw [hfo]; exact ho), hthr]
      simp [ho]
  · unfold frames
    rw [frame_install_frame_table, hft, List.map_append]
    have : List.map frame_key [f] = [(f.kpage, k.current, key)] := by
      rw [hf]; rfl
    rw [this]
    exact List.perm_append_singleton _ _
  · rw [frame_install_swap_table]; exact hsw
  · rw [frame_install_current, hcur]; exact hrel.current
  · intro tid
    rw [frame_install_mmap_list, hthr]
    exact hrel.mmap_list tid
  · rw [frame_install_frame_table, hft]
    congr 2

end Pintos


namespace Pintos

/-! ## `page_load` keeps the invariant -/

theorem page_get_spte_inv {uaddr : Nat} {k k1 : Kernel} {r : Option spte}
    (h : page_get_spte uaddr k = Res.ok r k1) :
    is_user_vaddr uaddr = true ∧ k.cur.sup_page_table (pg_round_down uaddr) = r ∧ k = k1 := by
  unfold page_get_spte at h
  simp only [K.run_bind, K.seq_eq_ok, K.assert_eq_ok, K.get_eq_ok, K.pure_eq_ok] at h
  obtain ⟨_, _, ⟨hu, rfl⟩, _, _, ⟨rfl, rfl⟩, rfl, rfl⟩ := h
  exact ⟨hu, rfl, rfl⟩

theorem frames_set_pinned (l : List fte) (h : Nat) (v : Bool) :
    (l.map (fun f => if f.kpage = h then { f with pinned := v } else f)).map frame_key
      = l.map frame_key := by
  rw [List.map_map]
  apply List.map_congr_left
  intro f _
  simp only [Function.comp]
  split <;> rfl

theorem set_pinned_inv {h : Nat} {v : Bool} {k k1 : Kernel} {u : Unit}
    (he : set_pinned h v k = Res.ok u k1) :
    k1 = k.with_frame_table
      (k.frame_table.map (fun f => if f.kpage = h then { f with pinned := v } else f)) := by
  unfold set_pinned at he
  rw [K.modify_eq_ok] at he
  exact he.symm

theorem frame_unpin_addr_inv {uaddr : Nat} {k k1 : Kernel} {u : Unit}
    (he : frame_unpin_addr uaddr k = Res.ok u k1) :
    ∃ h, k1 = k.with_frame_table
      (k.frame_table.map (fun f => if f.kpage = h then { f with pinned := false } else f)) := by
  unfold frame_unpin_addr at he
  simp only [K.run_bind, K.seq_eq_ok] at he
  obtain ⟨r, k2, hg, he⟩ := he
  obtain ⟨_, rfl, rfl⟩ := page_get_spte_inv hg
  cases hr : k.cur.sup_page_table (pg_round_down uaddr) with
  | none => simp [hr] at he
  | some sp =>
    simp only [hr] at he
    cases hf : sp.fte with
    | none => simp [hf] at he
    | some h =>
      simp only [hf] at he
      exact ⟨h, set_pinned_inv he⟩

theorem load_zero_page_vm_ok {fuel key : Nat} {P : spte} {k k1 : Kernel} {u : Unit}
    (hk : vm_ok k) (hP : k.cur.sup_page_table key = some P) (hPf : P.fte = none)
    (hPs : P.swap_index = NOT_IN_SWAP_PARTITION)
    (h : load_zero_page fuel key P k = Res.ok u k1) : vm_ok k1 := by
  unfold load_zero_page at h
  simp only [K.run_bind, K.seq_eq_ok, K.assert_eq_ok] at h
  obtain ⟨_, _, ⟨_, rfl⟩, f, kc, hfa, hun⟩ := h
  obtain ⟨kb, hkb, _, hpool, hPb, hspt, hpd, hfr, hsw, _, _, _⟩ := frame_alloc_view hk hP hPf hfa
  obtain ⟨h, rfl⟩ := frame_unpin_addr_inv hun
  refine vm_ok_install { P with fte := some f.kpage } hkb hPb hPf rfl rfl hPs
    (fun tid q => hspt tid q) (fun tid p => hpd tid p) ?_ hpool (Or.inl hsw)
  unfold frames at hfr ⊢
  rw [Kernel.with_frame_table_frame_table, frames_set_pinned]
  exact hfr

theorem file_read_at_inv {file kpage size offset n : Nat} {k k1 : Kernel}
    (h : file_read_at file kpage size offset k = Res.ok n k1) :
    ∃ t r, k1 = (k.with_trace t).with_ram r := by
  simp only [file_read_at, K.emit, K.run_bind, K.seq_eq_ok, K.modify_eq_ok, K.get_eq_ok,
    K.pure_eq_ok] at h
  obtain ⟨_, _, rfl, _, _, ⟨rfl, rfl⟩, _, _, rfl, _, rfl⟩ := h
  exact ⟨_, _, rfl⟩

theorem load_file_page_vm_ok {fuel key : Nat} {P : spte} {k k1 : Kernel} {u : Unit}
    (hk : vm_ok k) (hP : k.cur.sup_page_table key = some P) (hPf : P.fte = none)
    (hPs : P.swap_index = NOT_IN_SWAP_PARTITION)
    (h : load_file_page fuel key P k = Res.ok u k1) : vm_ok k1 := by
  unfold load_file_page at h
  simp only [K.run_bind, K.seq_eq_ok, K.assert_eq_ok, zero_tail, K.modify_eq_ok] at h
  obtain ⟨f, kc, hfa, n, kd, hrd, _, _, ⟨_, rfl⟩, rfl⟩ := h
  obtain ⟨kb, hkb, _, hpool, hPb, hspt, hpd, hfr, hsw, _, _, _⟩ := frame_alloc_view hk hP hPf hfa
  obtain ⟨t, r, rfl⟩ := file_read_at_inv hrd
  exact vm_ok_install { P with fte := some f.kpage } hkb hPb hPf rfl rfl hPs
    (fun tid q => hspt tid q) (fun tid p => hpd tid p) hfr hpool (Or.inl hsw)

theorem load_mmap_page_vm_ok {fuel key : Nat} {P : spte} {k k1 : Kernel} {u : Unit}
    (hk : vm_ok k) (hP : k.cur.sup_page_table key = some P) (hPf : P.fte = none)
    (hPs : P.swap_index = NOT_IN_SWAP_PARTITION)
    (h : load_mmap_page fuel key P k = Res.ok u k1) : vm_ok k1 := by
  unfold load_mmap_page at h
  simp only [K.run_bind, K.seq_eq_ok, K.get_eq_ok] at h
  obtain ⟨f, kc, hfa, _, _, ⟨rfl, rfl⟩, h⟩ := h
  obtain ⟨kb, hkb, _, hpool, hPb, hspt, hpd, hfr, hsw, _, _, _⟩ := frame_alloc_view hk hP hPf hfa
  cases hm : List.find? (fun (m : mmap_fd) => decide (m.mapid = P.mmap_page.mmap_fd))
      kc.cur.mmap_list with
  | none => simp [hm] at h
  | some m =>
    simp only [hm, K.run_bind, K.seq_eq_ok, K.assert_eq_ok, zero_tail, K.modify_eq_ok] at h
    obtain ⟨n, kd, hrd, _, _, ⟨_, rfl⟩, rfl⟩ := h
    obtain ⟨t, r, rfl⟩ := file_read_at_inv hrd
    exact vm_ok_install { P with fte := some f.kpage } hkb hPb hPf rfl rfl hPs
      (fun tid q => hspt tid q) (fun tid p => hpd tid p) hfr hpool (Or.inl hsw)

theorem swap_test_index_inv {s : Nat} {k k1 : Kernel} {b : Bool}
    (h : swap_test_index s k = Res.ok b k1) :
    s < k.swap_table.bit_cnt ∧ k.swap_table.bits s = b ∧ k = k1 := by
  unfold swap_test_index at h
  simp only [K.run_bind, K.seq_eq_ok, K.get_eq_ok, K.assert_eq_ok, K.pure_eq_ok,
    decide_eq_true_eq] at h
  obtain ⟨_, _, ⟨rfl, rfl⟩, _, _, ⟨hlt, rfl⟩, rfl, rfl⟩ := h
  exact ⟨hlt, rfl, rfl⟩

theorem load_swap_page_vm_ok {fuel key : Nat} {P : spte} {k k1 : Kernel} {u : Unit}
    (hk : vm_ok k) (hP : k.cur.sup_page_table key = some P) (hPf : P.fte = none)
    (hPs : P.swap_index ≠ NOT_IN_SWAP_PARTITION)
    (h : load_swap_page fuel key P k = Res.ok u k1) : vm_ok k1 := by
  unfold load_swap_page at h
  simp only [K.run_bind, K.seq_eq_ok, K.assert_eq_ok, K.modify_eq_ok] at h
  obtain ⟨b, k0, hts, _, _, ⟨_, rfl⟩, f, kc, hfa, _, kd, hin, rfl⟩ := h
  obtain ⟨_, _, rfl⟩ := swap_test_index_inv hts
  obtain ⟨kb, hkb, _, hpool, hPb, hspt, hpd, hfr, hsw, hcur, _, _⟩ :=
    frame_alloc_view hk hP hPf hfa
  obtain ⟨_, page, _, rfl⟩ := swap_in_inv hin
  · refine vm_ok_install
      { P with fte := some f.kpage, swap_index := NOT_IN_SWAP_PARTITION }
      hkb hPb hPf rfl rfl rfl ?_ ?_ hfr hpool
      (Or.inr ⟨hPs, by simp [hsw]⟩)
    rotate_left
    · intro tid p
      rw [← hpd]
      unfold pd_kpage
      simp only [Kernel.with_thread_threads, Kernel.with_swap_table_threads,
        Kernel.with_ram_threads]
      split <;> rfl
    intro tid q
    simp only [Kernel.with_thread_threads, Kernel.with_swap_table_threads,
      Kernel.with_ram_threads, Kernel.with_swap_table_current, Kernel.with_ram_current, hcur]
    by_cases ho : tid = k.current
    · subst ho
      simp only [if_true, thread.with_spte_sup_page_table, hspt]
      by_cases hq : q = key
      · subst hq
        simp
      · simp [hq]
    · simp only [ho, if_false, false_and]
      rw [hspt]
      simp [ho]

/-- `page_load` of a page that is not resident keeps the invariant. -/
theorem page_load_vm_ok {fuel uaddr : Nat} {k k1 : Kernel} {b : Bool} (hk : vm_ok k)
    (hnr : ∀ P, k.cur.sup_page_table (pg_round_down uaddr) = some P → P.fte = none)
    (h : page_load fuel uaddr k = Res.ok b k1) : vm_ok k1 := by
  unfold page_load at h
  simp only [K.run_bind, K.seq_eq_ok] at h
  obtain ⟨r, k0, hg, h⟩ := h
  obtain ⟨_, rfl, rfl⟩ := page_get_spte_inv hg
  cases hr : k.cur.sup_page_table (pg_round_down uaddr) with
  | none =>
    simp only [hr, K.pure_eq_ok] at h
    obtain ⟨_, rfl⟩ := h
    exact hk
  | some P =>
    simp only [hr] at h
    have hPf := hnr P hr
    by_cases hs : P.swap_index = NOT_IN_SWAP_PARTITION
    · simp only [hs, ne_eq, not_true_eq_false, if_false] at h
      cases hty : P.page_type <;>
        simp only [hty, K.run_bind, K.seq_eq_ok, K.pure_eq_ok] at h <;>
        obtain ⟨_, k2, h, _, rfl⟩ := h
      · exact load_file_page_vm_ok hk hr hPf hs h
      · exact load_mmap_page_vm_ok hk hr hPf hs h
      · exact load_zero_page_vm_ok hk hr hPf hs h
    · simp only [hs, ne_eq, not_false_eq_true, if_true, K.run_bind, K.seq_eq_ok,
        K.pure_eq_ok] at h
      obtain ⟨_, k2, h, _, rfl⟩ := h
      exact load_swap_page_vm_ok hk hr hPf hs h

end Pintos


namespace Pintos

/-! ## `frame_free`, `munmap_pages` and `page_destructor` keep the invariant -/

theorem frame_free_inv {hnd : Nat} {k k1 : Kernel} {u : Unit}
    (h : frame_free hnd k = Res.ok u k1) :
    ∃ f sp kw, k.frame_table.find? (fun f => decide (f.kpage = hnd)) = some f ∧
      (k.threads f.owner).sup_page_table f.spte = some sp ∧
      fs_only (k.with_frame_table (k.frame_table.filter (fun g => decide (g.kpage ≠ hnd)))) kw ∧
      k1 = frame_free_release f sp kw := by
  unfold frame_free at h
  simp only [K.run_bind, K.seq_eq_ok, K.get_eq_ok] at h
  obtain ⟨_, _, ⟨rfl, rfl⟩, h⟩ := h
  cases hfind : k.frame_table.find? (fun f => decide (f.kpage = hnd)) with
  | none => simp [hfind] at h
  | some f =>
    simp only [hfind] at h
    cases hsp : (k.threads f.owner).sup_page_table f.spte with
    | none => simp [hsp] at h
    | some sp =>
      simp only [hsp, K.run_bind, K.seq_eq_ok, K.modify_eq_ok, palloc_free_page] at h
      obtain ⟨_, _, rfl, _, kw, hwb, _, _, rfl, _, _, rfl, rfl⟩ := h
      refine ⟨f, sp, kw, rfl, hsp, ?_, rfl⟩
      split at hwb
      · exact write_back_fs_only hwb
      · simp only [K.pure_eq_ok] at hwb
        obtain ⟨_, rfl⟩ := hwb
        exact fs_only_refl _

theorem filter_kpage_perm {f : fte} : ∀ (l : List fte), (l.map fte.kpage).Nodup → f ∈ l →
    l.Perm (f :: l.filter (fun g => decide (g.kpage ≠ f.kpage))) := by
  intro l
  induction l with
  | nil => intro _ h; cases h
  | cons a t ih =>
    intro hnd hf
    rw [List.map_cons, List.nodup_cons] at hnd
    by_cases hfa : f = a
    · subst hfa
      have h1 : (f :: t).filter (fun g => decide (g.kpage ≠ f.kpage)) = t := by
        rw [List.filter_cons_of_neg (by simp)]
        apply List.filter_eq_self.mpr
        intro g hg
        simp only [ne_eq, decide_eq_true_eq]
        intro e
        exact hnd.1 (List.mem_map.mpr ⟨g, hg, e⟩)
      rw [h1]
    · have hft : f ∈ t := by
        rcases List.mem_cons.mp hf with e | e
        · exact absurd e hfa
        · exact e
      have hne : a.kpage ≠ f.kpage := by
        intro e
        exact hnd.1 (List.mem_map.mpr ⟨f, hft, e.symm⟩)
      rw [List.filter_cons_of_pos (by simpa using hne)]
      exact ((ih hnd.2 hft).cons a).trans (List.Perm.swap _ _ _)

theorem frames_map_fst (k : Kernel) : (frames k).map Prod.fst = k.frame_table.map fte.kpage := by
  unfold frames
  rw [List.map_map]
  rfl

theorem spte_clear_fte {P : spte} (h : P.swap_index = NOT_IN_SWAP_PARTITION) :
    ({ P with swap_index := NOT_IN_SWAP_PARTITION, fte := none } : spte)
      = { P with fte := none } := by
  cases P
  simp only at h
  subst h
  rfl

/-- What `frame_free` of a frame of the current thread does to the state, in
the terms of the invariant. -/
theorem frame_free_view {hnd : Nat} {k k1 : Kernel} {u : Unit} (hk : vm_ok k)
    (hown : ∀ f, f ∈ k.frame_table → f.kpage = hnd → f.owner = k.current)
    (h : frame_free hnd k = Res.ok u k1) :
    ∃ key P, (hnd, k.current, key) ∈ frames k ∧
      (k.threads k.current).sup_page_table key = some P ∧ P.fte = some hnd ∧
      (∀ tid q, (k1.threads tid).sup_page_table q =
        if tid = k.current ∧ q = key then some { P with fte := none }
        else (k.threads tid).sup_page_table q) ∧
      (∀ tid p, pd_kpage k1 tid p =
        if tid = k.current ∧ p = key then none else pd_kpage k tid p) ∧
      (frames k).Perm ((hnd, k.current, key) :: frames k1) ∧
      k1.user_pool = hnd :: k.user_pool ∧ k1.swap_table = k.swap_table ∧
      k1.current = k.current ∧
      (∀ tid, (k1.threads tid).mmap_list = (k.threads tid).mmap_list) := by
  obtain ⟨f, sp, kw, hfind, hsp, hfs, rfl⟩ := frame_free_inv h
  have hfk : f.kpage = hnd := by
    have := List.find?_some hfind
    simpa using this
  have hfm : f ∈ k.frame_table := List.mem_of_find?_eq_some hfind
  have hfo := hown f hfm hfk
  obtain ⟨P0, hP0, hP0f⟩ := hk.link_ft _ _ _ (frame_key_mem hfm)
  rw [hsp] at hP0
  cases hP0
  have hkP := hk.keys _ _ _ hsp
  have hthr : kw.threads = k.threads := hfs.threads
  have hcur : kw.current = k.current := hfs.current
  refine ⟨f.spte, sp, ?_, ?_, ?_, ?_, ?_, ?_, ?_, ?_, ?_, ?_⟩
  · rw [← hfk, ← hfo]; exact frame_key_mem hfm
  · rw [← hfo]; exact hsp
  · rw [← hfk]; exact hP0f
  · intro tid q
    simp only [frame_free_release, Kernel.with_thread_threads, Kernel.with_user_pool_threads,
      hcur, hthr, hfo]
    by_cases ho : tid = k.current
    · subst ho
      simp only [if_true, thread.with_spte_sup_page_table, thread.with_pagedir_sup_page_table]
      by_cases hq : q = f.spte
      · subst hq
        rw [hfo] at hsp
        simp [hsp]
      · simp [hq]
    · simp [ho]
  · intro tid p
    unfold pd_kpage
    simp only [frame_free_release, Kernel.with_thread_threads, Kernel.with_user_pool_threads,
      hcur, hthr, hfo]
    by_cases ho : tid = k.current
    · subst ho
      simp only [if_true, thread.with_spte_pagedir, thread.with_pagedir_pagedir,
        pagedir_clear_page, hkP.1, hkP.2]
      by_cases hp : p = f.spte
      · simp [hp]
      · simp [hp]
    · simp [ho]
  · have hp := filter_kpage_perm k.frame_table
      (by rw [← frames_map_fst]; exact hk.kpages) hfm
    have := hp.map frame_key
    rw [List.map_cons] at this
    unfold frames
    simp only [frame_free_release, Kernel.with_thread_frame_table,
      Kernel.with_user_pool_frame_table, hfs.frame_table, Kernel.with_frame_table_frame_table]
    rw [← hfk, ← hfo]
    exact this
  · simp only [frame_free_release, Kernel.with_thread_user_pool,
      Kernel.with_user_pool_user_pool, hfs.user_pool, Kernel.with_frame_table_user_pool, hfk]
  · simp only [frame_free_release, Kernel.with_thread_swap_table,
      Kernel.with_user_pool_swap_table, hfs.swap_table, Kernel.with_frame_table_swap_table]
  · simp only [frame_free_release, Kernel.with_thread_current,
      Kernel.with_user_pool_current, hcur]
  · intro tid
    simp only [frame_free_release, Kernel.with_thread_threads, Kernel.with_user_pool_threads,
      hthr]
    split <;> split <;> simp_all

/-- `frame_free` of a frame of the current thread keeps the invariant. -/
theorem frame_free_vm_ok {hnd : Nat} {k k1 : Kernel} {u : Unit} (hk : vm_ok k)
    (hown : ∀ f, f ∈ k.frame_table → f.kpage = hnd → f.owner = k.current)
    (h : frame_free hnd k = Res.ok u k1) : vm_ok k1 := by
  obtain ⟨key, P, hf, hP, hPf, hspt, hpd, hfr, hpool, hsw, _, _⟩ := frame_free_view hk hown h
  have hs : P.swap_index = NOT_IN_SWAP_PARTITION := by
    by_contra hc
    exact (hk.inv _ _ _ hP).1 ⟨by rw [hPf]; simp, hc⟩
  refine vm_ok_release NOT_IN_SWAP_PARTITION hk hf hP ?_ hpd hfr hpool
    (Or.inl ⟨rfl, hsw⟩)
  intro tid q
  rw [hspt, spte_clear_fte hs]

end Pintos

namespace Pintos

theorem pg_round_down_idem (x : Nat) : pg_round_down (pg_round_down x) = pg_round_down x := by
  unfold pg_round_down
  simp only [PGSIZE]
  omega

/-- Updating a field of a thread that the invariant does not mention. -/
theorem vm_ok_with_thread_same {k : Kernel} (hk : vm_ok k) (tid : Nat) (f : thread → thread)
    (h1 : ∀ t, (f t).sup_page_table = t.sup_page_table)
    (h2 : ∀ t, (f t).pagedir = t.pagedir) : vm_ok (k.with_thread tid f) := by
  refine vm_ok_same_view hk ?_ ?_ (List.Perm.refl _) rfl rfl
  · intro t
    simp only [Kernel.with_thread_threads]
    split
    · rw [h1]
    · rfl
  · intro t p
    unfold pd_kpage
    simp only [Kernel.with_thread_threads]
    split
    · rw [h2]
    · rfl

theorem hash_delete_inv {upage : Nat} {k k1 : Kernel} {u : Unit}
    (h : hash_delete upage k = Res.ok u k1) :
    k1 = k.with_thread k.current (fun t =>
      { t with sup_page_table := fun p => if p = upage then none else t.sup_page_table p }) := by
  unfold hash_delete at h
  rw [K.modify_eq_ok] at h
  exact h.symm

/-- Removing an entry without a frame from the table of the current thread,
its slot reset or not. -/
theorem vm_ok_delete {k : Kernel} (hk : vm_ok k) (key : Nat) (tbl : bitmap)
    (hold : ∀ P, k.cur.sup_page_table key = some P → P.fte = none)
    (hswap : tbl = k.swap_table ∨
      ∃ P, k.cur.sup_page_table key = some P ∧ P.swap_index ≠ NOT_IN_SWAP_PARTITION ∧
        tbl = bitmap_set k.swap_table P.swap_index false) :
    vm_ok ((k.with_swap_table tbl).with_thread k.current (fun t =>
      { t with sup_page_table := fun p => if p = key then none else t.sup_page_table p })) := by
  have hcnt : tbl.bit_cnt = k.swap_table.bit_cnt := by
    rcases hswap with rfl | ⟨P, _, _, rfl⟩ <;> rfl
  refine vm_ok_entry k.current key none hk hold
    (fun _ h => by cases h) ?_ ?_ (List.Perm.refl _) rfl ?_
  rotate_left 2
  · simp only [Kernel.with_thread_swap_table, Kernel.with_swap_table_swap_table _ _ hcnt]
    exact hswap
  · intro tid q
    simp only [Kernel.with_thread_threads, Kernel.with_swap_table_threads,
      Kernel.with_swap_table_current]
    by_cases ho : tid = k.current
    · subst ho
      by_cases hq : q = key
      · simp [hq]
      · simp [hq]
    · simp [ho]
  · intro tid p
    unfold pd_kpage
    simp only [Kernel.with_thread_threads, Kernel.with_swap_table_threads,
      Kernel.with_swap_table_current]
    split <;> rfl

theorem hash_delete_vm_ok {upage : Nat} {k k1 : Kernel} {u : Unit} (hk : vm_ok k)
    (hold : ∀ P, k.cur.sup_page_table upage = some P → P.fte = none)
    (h : hash_delete upage k = Res.ok u k1) : vm_ok k1 := by
  rw [hash_delete_inv h]
  exact vm_ok_delete hk upage k.swap_table hold (Or.inl rfl)

/-- `frame_free` of the frame of an entry of the current thread: the
invariant is kept and the entry has lost its frame. -/
theorem frame_free_entry {hnd key : Nat} {P : spte} {k k1 : Kernel} {u : Unit} (hk : vm_ok k)
    (hP : k.cur.sup_page_table key = some P) (hPf : P.fte = some hnd)
    (h : frame_free hnd k = Res.ok u k1) :
    vm_ok k1 ∧ k1.current = k.current ∧
      k1.cur.sup_page_table key = some { P with fte := none } ∧
      (∀ tid, (k1.threads tid).mmap_list = (k.threads tid).mmap_list) ∧
      k1.swap_table = k.swap_table := by
  have hfr := hk.link_spt _ _ _ _ hP hPf
  have hown : ∀ f, f ∈ k.frame_table → f.kpage = hnd → f.owner = k.current := by
    intro f hf e
    have := frame_key_mem hf
    rw [e] at this
    exact (vm_ok_frame_of_kpage hk hfr this).1
  refine ⟨frame_free_vm_ok hk hown h, ?_⟩
  obtain ⟨key2, P2, hf2, hP2, _, hspt, _, _, _, hsw, hcur, hmm⟩ := frame_free_view hk hown h
  have hkey : key2 = key := (vm_ok_frame_of_kpage hk hfr hf2).2
  subst hkey
  have hP' : (k.threads k.current).sup_page_table key2 = some P := hP
  rw [hP'] at hP2
  cases hP2
  refine ⟨hcur, ?_, hmm, hsw⟩
  unfold Kernel.cur
  rw [hcur, hspt, if_pos ⟨rfl, rfl⟩]

theorem munmap_loop_vm_ok : ∀ (keys : List Nat) (k k1 : Kernel), vm_ok k →
    munmap_loop keys k = Res.ok () k1 → vm_ok k1 := by
  intro keys
  induction keys with
  | nil =>
    intro k k1 hk h
    simp only [munmap_loop, K.pure_eq_ok] at h
    obtain ⟨_, rfl⟩ := h
    exact hk
  | cons key rest ih =>
    intro k k1 hk h
    unfold munmap_loop at h
    simp only [K.run_bind, K.seq_eq_ok, K.get_eq_ok] at h
    obtain ⟨_, _, ⟨rfl, rfl⟩, h⟩ := h
    cases hP : k.cur.sup_page_table key with
    | none => simp [hP] at h
    | some P =>
      simp only [hP, K.run_bind, K.seq_eq_ok] at h
      obtain ⟨_, k2, hfree, _, k3, hdel, hrest⟩ := h
      have hkP := hk.keys _ _ _ hP
      apply ih _ _ _ hrest
      cases hPf : P.fte with
      | none =>
        simp only [hPf, K.pure_eq_ok] at hfree
        obtain ⟨_, rfl⟩ := hfree
        refine hash_delete_vm_ok hk ?_ hdel
        intro Q hQ
        rw [hkP.1, hP] at hQ
        cases hQ
        exact hPf
      | some hnd =>
        simp only [hPf] at hfree
        obtain ⟨hk2, _, hP2, _, _⟩ := frame_free_entry hk hP hPf hfree
        refine hash_delete_vm_ok hk2 ?_ hdel
        intro Q hQ
        rw [hkP.1, hP2] at hQ
        cases hQ
        rfl

/-- `munmap_pages` keeps the invariant. -/
theorem munmap_pages_vm_ok {mapid : Int} {k k1 : Kernel} {u : Unit} (hk : vm_ok k)
    (h : munmap_pages mapid k = Res.ok u k1) : vm_ok k1 := by
  unfold munmap_pages at h
  simp only [K.run_bind, K.seq_eq_ok, K.get_eq_ok] at h
  obtain ⟨_, _, ⟨rfl, rfl⟩, h⟩ := h
  cases hm : List.find? (fun (m : mmap_fd) => decide (m.mapid = mapid)) k.cur.mmap_list with
  | none =>
    simp only [hm, K.pure_eq_ok] at h
    obtain ⟨_, rfl⟩ := h
    exact hk
  | some m =>
    simp only [hm, K.run_bind, K.seq_eq_ok, K.modify_eq_ok] at h
    obtain ⟨_, k2, hloop, rfl⟩ := h
    exact vm_ok_with_thread_same (munmap_loop_vm_ok _ _ _ hk hloop) _ _
      (fun _ => rfl) (fun _ => rfl)

theorem bitmap_reset_inv {idx : Nat} {k k1 : Kernel} {u : Unit}
    (h : bitmap_reset idx k = Res.ok u k1) :
    k1 = k.with_swap_table (bitmap_set k.swap_table idx false) := by
  unfold bitmap_reset at h
  simp only [K.run_bind, K.seq_eq_ok, K.get_eq_ok, K.assert_eq_ok, K.modify_eq_ok] at h
  obtain ⟨_, _, ⟨rfl, rfl⟩, _, _, ⟨_, rfl⟩, rfl⟩ := h
  rfl

/-- `page_destructor` keeps the invariant. -/
theorem page_destructor_vm_ok {key : Nat} {k k1 : Kernel} {u : Unit} (hk : vm_ok k)
    (h : page_destructor key k = Res.ok u k1) : vm_ok k1 := by
  unfold page_destructor at h
  simp only [K.run_bind, K.seq_eq_ok, K.get_eq_ok] at h
  obtain ⟨_, _, ⟨rfl, rfl⟩, h⟩ := h
  cases hP : k.cur.sup_page_table key with
  | none => simp [hP] at h
  | some P =>
    simp only [hP, K.run_bind, K.seq_eq_ok] at h
    obtain ⟨_, k2, hfree, hdel⟩ := h
    cases hPf : P.fte with
    | some hnd =>
      simp only [hPf] at hfree
      obtain ⟨hk2, _, hP2, _, _⟩ := frame_free_entry hk hP hPf hfree
      refine hash_delete_vm_ok hk2 ?_ hdel
      intro Q hQ
      rw [hP2] at hQ
      cases hQ
      rfl
    | none =>
      simp only [hPf] at hfree
      by_cases hs : P.swap_index = NOT_IN_SWAP_PARTITION
      · simp only [hs, ne_eq, not_true_eq_false, if_false, K.pure_eq_ok] at hfree
        obtain ⟨_, rfl⟩ := hfree
        refine hash_delete_vm_ok hk ?_ hdel
        intro Q hQ
        rw [hP] at hQ
        cases hQ
        exact hPf
      · simp only [hs, ne_eq, not_false_eq_true, if_true, swap_free_index] at hfree
        rw [bitmap_reset_inv hfree] at hdel
        rw [hash_delete_inv hdel]
        refine vm_ok_delete hk key _ ?_ (Or.inr ⟨P, hP, hs, rfl⟩)
        intro Q hQ
        rw [hP] at hQ
        cases hQ
        exact hPf

end Pintos

namespace Pintos

theorem create_spte_inv {uaddr : Nat} {ty : page_type} {k k1 : Kernel} {sp : spte}
    (h : create_spte uaddr ty k = Res.ok sp k1) :
    k1 = k ∧ sp.upage = pg_round_down uaddr ∧ sp.fte = none ∧
      sp.swap_index = NOT_IN_SWAP_PARTITION ∧ sp.page_type = ty := by
  unfold create_spte at h
  simp only [K.run_bind, K.seq_eq_ok, K.assert_eq_ok, K.pure_eq_ok] at h
  obtain ⟨_, _, ⟨_, rfl⟩, _, _, ⟨_, rfl⟩, rfl, rfl⟩ := h
  exact ⟨rfl, rfl, rfl, rfl, rfl⟩

theorem hash_insert_inv {sp : spte} {k k1 : Kernel} {r : Option spte}
    (h : hash_insert sp k = Res.ok r k1) :
    (∃ old, k.cur.sup_page_table sp.upage = some old ∧ r = some old ∧ k1 = k) ∨
    (k.cur.sup_page_table sp.upage = none ∧ r = none ∧
      k1 = k.with_thread k.current (fun t =>
        { t with sup_page_table := fun p => if p = sp.upage then some sp else t.sup_page_table p })) := by
  unfold hash_insert at h
  simp only [K.run_bind, K.seq_eq_ok, K.get_eq_ok] at h
  obtain ⟨_, _, ⟨rfl, rfl⟩, h⟩ := h
  cases ho : k.cur.sup_page_table sp.upage with
  | some old =>
    simp only [ho, K.pure_eq_ok] at h
    exact Or.inl ⟨old, rfl, h.1.symm, h.2.symm⟩
  | none =>
    simp only [ho, K.run_bind, K.seq_eq_ok, K.modify_eq_ok, K.pure_eq_ok] at h
    obtain ⟨_, _, rfl, rfl, rfl⟩ := h
    exact Or.inr ⟨rfl, rfl, rfl⟩

/-- Inserting a fresh entry, without a frame or a slot, in the table of the
current thread. -/
theorem vm_ok_insert {k : Kernel} (hk : vm_ok k) (sp : spte)
    (hfree : k.cur.sup_page_table sp.upage = none)
    (hrd : pg_round_down sp.upage = sp.upage) (hf : sp.fte = none)
    (hs : sp.swap_index = NOT_IN_SWAP_PARTITION) :
    vm_ok (k.with_thread k.current (fun t =>
      { t with sup_page_table := fun p => if p = sp.upage then some sp else t.sup_page_table p })) := by
  refine vm_ok_entry k.current sp.upage (some sp) hk ?_ ?_ ?_ ?_
    (List.Perm.refl _) rfl (Or.inl rfl)
  · intro P hP
    have hP' : k.cur.sup_page_table sp.upage = some P := hP
    rw [hfree] at hP'
    cases hP'
  · intro Q hQ
    cases hQ
    exact ⟨rfl, hrd, hf, hs⟩
  · intro tid q
    simp only [Kernel.with_thread_threads]
    by_cases ho : tid = k.current
    · subst ho
      by_cases hq : q = sp.upage
      · simp [hq]
      · simp [hq]
    · simp [ho]
  · intro tid p
    unfold pd_kpage
    simp only [Kernel.with_thread_threads]
    split <;> rfl

theorem hash_insert_vm_ok {sp : spte} {k k1 : Kernel} {r : Option spte} (hk : vm_ok k)
    (h : hash_insert sp k = Res.ok r k1)
    (hrd : pg_round_down sp.upage = sp.upage) (hf : sp.fte = none)
    (hs : sp.swap_index = NOT_IN_SWAP_PARTITION) : vm_ok k1 := by
  rcases hash_insert_inv h with ⟨_, _, _, rfl⟩ | ⟨hfree, _, rfl⟩
  · exact hk
  · exact vm_ok_insert hk sp hfree hrd hf hs

/-- `page_add_zero_lazily` keeps the invariant. -/
theorem page_add_zero_lazily_vm_ok {upage : Nat} {k k1 : Kernel} {u : Unit} (hk : vm_ok k)
    (h : page_add_zero_lazily upage k = Res.ok u k1) : vm_ok k1 := by
  unfold page_add_zero_lazily at h
  simp only [K.run_bind, K.seq_eq_ok, K.assert_eq_ok] at h
  obtain ⟨_, _, ⟨_, rfl⟩, old, k2, hget, _, _, ⟨_, rfl⟩, sp, k3, hsp, clash, k4, hins, _, rfl⟩ := h
  obtain ⟨_, _, rfl⟩ := page_get_spte_inv hget
  obtain ⟨rfl, hup, hf, hs, _⟩ := create_spte_inv hsp
  have hrd : pg_round_down sp.upage = sp.upage := by rw [hup, pg_round_down_idem]
  exact hash_insert_vm_ok hk hins hrd hf hs

/-- `page_add_file_lazily` keeps the invariant. -/
theorem page_add_file_lazily_vm_ok {upage file read_bytes offset : Nat} {writable : Bool}
    {k k1 : Kernel} {u : Unit} (hk : vm_ok k)
    (h : page_add_file_lazily upage file read_bytes offset writable k = Res.ok u k1) :
    vm_ok k1 := by
  unfold page_add_file_lazily at h
  simp only [K.run_bind, K.seq_eq_ok, K.assert_eq_ok] at h
  obtain ⟨_, _, ⟨_, rfl⟩, _, _, ⟨_, rfl⟩, _, _, ⟨_, rfl⟩, _, _, ⟨_, rfl⟩,
    old, k2, hget, _, _, ⟨_, rfl⟩, sp, k3, hsp, clash, k4, hins, _, rfl⟩ := h
  obtain ⟨_, _, rfl⟩ := page_get_spte_inv hget
  obtain ⟨rfl, hup, hf, hs, _⟩ := create_spte_inv hsp
  have hrd : pg_round_down sp.upage = sp.upage := by rw [hup, pg_round_down_idem]
  exact hash_insert_vm_ok hk hins hrd hf hs

theorem mmap_range_taken_inv (limit : Nat) : ∀ (fuel pg : Nat) (k k1 : Kernel) (b : Bool),
    mmap_range_taken limit fuel pg k = Res.ok b k1 → k1 = k := by
  intro fuel
  induction fuel with
  | zero =>
    intro pg k k1 b h
    simp [mmap_range_taken, K.no_fuel] at h
  | succ n ih =>
    intro pg k k1 b h
    unfold mmap_range_taken at h
    by_cases hlt : pg < limit
    · simp only [hlt, if_true, K.run_bind, K.seq_eq_ok] at h
      obtain ⟨r, k2, hget, h⟩ := h
      obtain ⟨_, _, rfl⟩ := page_get_spte_inv hget
      cases r with
      | some _ =>
        simp only [K.pure_eq_ok] at h
        exact h.2.symm
      | none => exact ih _ _ _ _ h
    · simp only [hlt, if_false, K.pure_eq_ok] at h
      exact h.2.symm

theorem mmap_add_loop_vm_ok (upage : Nat) (mapid : Int) (read_bytes last_page_offset : Nat) :
    ∀ (fuel offset : Nat) (k k1 : Kernel) (b : Bool), vm_ok k →
      mmap_add_loop upage mapid read_bytes last_page_offset fuel offset k = Res.ok b k1 →
      vm_ok k1 := by
  intro fuel
  induction fuel with
  | zero =>
    intro offset k k1 b _ h
    simp [mmap_add_loop, K.no_fuel] at h
  | succ n ih =>
    intro offset k k1 b hk h
    unfold mmap_add_loop at h
    by_cases hlt : offset < read_bytes
    · simp only [hlt, if_true, K.run_bind, K.seq_eq_ok, K.modify_eq_ok] at h
      obtain ⟨sp, k2, hsp, _, k3, hmod, r, k4, hins, h⟩ := h
      obtain ⟨rfl, hup, hf, hs, _⟩ := create_spte_inv hsp
      have hk3 : vm_ok k3 := by
        rw [← hmod]
        exact vm_ok_with_thread_same hk _ _ (fun _ => rfl) (fun _ => rfl)
      have hk4 : vm_ok k4 := by
        have hrd : pg_round_down sp.upage = sp.upage := by rw [hup, pg_round_down_idem]
        exact hash_insert_vm_ok hk3 hins hrd hf hs
      cases r with
      | some _ =>
        simp only [K.run_bind, K.seq_eq_ok, K.pure_eq_ok] at h
        obtain ⟨_, k5, hun, _, rfl⟩ := h
        exact munmap_pages_vm_ok hk4 hun
      | none => exact ih _ _ _ _ hk4 h
    · simp only [hlt, if_false, K.pure_eq_ok] at h
      obtain ⟨_, rfl⟩ := h
      exact hk

/-- `page_add_mmap_lazily` keeps the invariant. -/
theorem page_add_mmap_lazily_vm_ok {upage file read_bytes : Nat} {k k1 : Kernel} {r : Int}
    (hk : vm_ok k) (h : page_add_mmap_lazily upage file read_bytes k = Res.ok r k1) :
    vm_ok k1 := by
  unfold page_add_mmap_lazily at h
  simp only [K.run_bind, K.seq_eq_ok, K.assert_eq_ok] at h
  obtain ⟨_, _, ⟨_, rfl⟩, _, _, ⟨_, rfl⟩, _, _, ⟨_, rfl⟩, taken, k2, htaken, h⟩ := h
  have := mmap_range_taken_inv _ _ _ _ _ _ htaken
  subst this
  cases taken with
  | true =>
    simp only [if_true, K.pure_eq_ok] at h
    obtain ⟨_, rfl⟩ := h
    exact hk
  | false =>
    simp only [Bool.false_eq_true, if_false, K.run_bind, K.seq_eq_ok, K.get_eq_ok,
      K.modify_eq_ok] at h
    obtain ⟨_, _, ⟨rfl, rfl⟩, _, k3, hmod, ok, k4, hloop, h⟩ := h
    have hk3 : vm_ok k3 := by
      rw [← hmod]
      exact vm_ok_with_thread_same hk _ _ (fun _ => rfl) (fun _ => rfl)
    have hk4 := mmap_add_loop_vm_ok _ _ _ _ _ _ _ _ _ hk3 hloop
    cases ok with
    | true =>
      simp only [if_true, K.run_bind, K.seq_eq_ok, K.modify_eq_ok, K.pure_eq_ok] at h
      obtain ⟨_, _, rfl, _, rfl⟩ := h
      exact vm_ok_with_thread_same hk4 _ _ (fun _ => rfl) (fun _ => rfl)
    | false =>
      simp only [Bool.false_eq_true, if_false, K.pure_eq_ok] at h
      obtain ⟨_, rfl⟩ := h
      exact hk4

end Pintos

namespace Pintos

theorem frames_boot (sectors : Nat) (pool : List Nat) : frames (Kernel.boot sectors pool) = [] := rfl

/-- The machine after `frame_init` and `swap_init` satisfies the predicate and
the linking facts. -/
theorem vm_ok_boot (sectors : Nat) (pool : List Nat) (hp : pool.Nodup) :
    vm_ok (Kernel.boot sectors pool) where
  inv := by intro tid key P h; cases h
  keys := by intro tid key P h; cases h
  link_ft := by intro kp ow key h; rw [frames_boot] at h; cases h
  link_spt := by intro tid key P h hP; cases hP
  kpages := by rw [frames_boot]; exact List.nodup_nil
  pool := by intro kp ow key h; rw [frames_boot] at h; cases h
  pool_nodup := hp
  slots := by intro tid key P tid2 key2 P2 h; cases h
  swap := by intro i h; cases h

theorem vm_op_run_vm_ok (op : vm_op) (k k1 : Kernel) (hk : vm_ok k) (hpre : op.pre k)
    (h : op.run k = Res.ok () k1) : vm_ok k1 := by
  cases op with
  | page_add_zero_lazily upage => exact page_add_zero_lazily_vm_ok hk h
  | page_add_file_lazily upage file read_bytes offset writable =>
    exact page_add_file_lazily_vm_ok hk h
  | page_add_mmap_lazily upage file read_bytes =>
    simp only [vm_op.run, K.run_bind, K.seq_eq_ok, K.pure_eq_ok] at h
    obtain ⟨r, k2, h, _, rfl⟩ := h
    exact page_add_mmap_lazily_vm_ok hk h
  | page_load fuel uaddr =>
    simp only [vm_op.run, K.run_bind, K.seq_eq_ok, K.pure_eq_ok] at h
    obtain ⟨r, k2, h, _, rfl⟩ := h
    exact page_load_vm_ok hk hpre h
  | evict fuel => exact evict_vm_ok hk h
  | frame_free hnd => exact frame_free_vm_ok hk hpre h
  | munmap_pages mapid => exact munmap_pages_vm_ok hk h
  | page_destructor key => exact page_destructor_vm_ok hk h

/-- C4 (amended): the predicate on (SPT, frame table, swap bitmap, page
directory) holds in the initial empty state, together with the linking facts
of the data model (`vm_ok`); and from a state where both hold, each of
`page_add_zero_lazily`, `page_add_file_lazily`, `page_add_mmap_lazily`,
`page_load` (for a page that is not resident), `evict`, `frame_free` (for a
frame of the running process), `munmap_pages` and `page_destructor`, when it
returns, returns in a state where both hold again. -/
theorem vm_inv_preserved_on_linked_states :
    (∀ sectors pool, pool.Nodup →
      vm_ok (Kernel.boot sectors pool) ∧ vm_inv (Kernel.boot sectors pool)) ∧
    (∀ (op : vm_op) (k k1 : Kernel), vm_ok k → op.pre k → op.run k = Res.ok () k1 →
      vm_ok k1 ∧ vm_inv k1) :=
  ⟨fun sectors pool hp => ⟨vm_ok_boot sectors pool hp, (vm_ok_boot sectors pool hp).inv⟩,
   fun op k k1 hk hpre h =>
    ⟨vm_op_run_vm_ok op k k1 hk hpre h, (vm_op_run_vm_ok op k k1 hk hpre h).inv⟩⟩

theorem two_lazy_pages_example_first :
    two_lazy_pages_example.cur.sup_page_table (pg_round_down 0x10000000)
      = some (zero_spte 0x10000000 none) := rfl

theorem first_loaded_example_second :
    first_loaded_example.cur.sup_page_table (pg_round_down 0x10001000)
      = some (zero_spte 0x10001000 none) := rfl

/-- C4 (amended) along a run: from the initial state with one free frame, two
zero pages are declared, the first is loaded, and loading the second evicts
the first to slot 0; the predicate holds in the state reached. -/
theorem vm_inv_preserved_on_linked_states_witness :
    [100].Nodup ∧ vm_ok (Kernel.boot 64 [100]) ∧
    (vm_op.page_load 3 0x10001000).pre first_loaded_example ∧
    (vm_op.page_load 3 0x10001000).run first_loaded_example
      = Res.ok () second_loaded_example ∧
    vm_ok second_loaded_example ∧ vm_inv second_loaded_example ∧
    (second_loaded_example.cur.sup_page_table 0x10000000).map
        (fun P => (P.fte, P.swap_index)) = some (none, 0) ∧
    (second_loaded_example.cur.sup_page_table 0x10001000).map
        (fun P => (P.fte, P.swap_index)) = some (some 100, NOT_IN_SWAP_PARTITION) :=
  have hp : [100].Nodup := by decide
  have h0 := (vm_inv_preserved_on_linked_states.1 64 [100] hp).1
  have h1 := (vm_inv_preserved_on_linked_states.2 (vm_op.page_add_zero_lazily 0x10000000)
    (Kernel.boot 64 [100]) _ h0 trivial rfl).1
  have h2 : vm_ok two_lazy_pages_example :=
    (vm_inv_preserved_on_linked_states.2 (vm_op.page_add_zero_lazily 0x10001000) _ _ h1
      trivial rfl).1
  have p3 : (vm_op.page_load 3 0x10000000).pre two_lazy_pages_example := fun P hP =>
    (Option.some.inj (two_lazy_pages_example_first.symm.trans hP)) ▸ rfl
  have h3 : vm_ok first_loaded_example :=
    (vm_inv_preserved_on_linked_states.2 (vm_op.page_load 3 0x10000000) _ _ h2 p3 rfl).1
  have p4 : (vm_op.page_load 3 0x10001000).pre first_loaded_example := fun P hP =>
    (Option.some.inj (first_loaded_example_second.symm.trans hP)) ▸ rfl
  have h4 := vm_inv_preserved_on_linked_states.2 (vm_op.page_load 3 0x10001000)
    first_loaded_example second_loaded_example h3 p4 rfl
  ⟨hp, h0, p4, rfl, h4.1, h4.2, rfl, rfl⟩

theorem one_page_example_vm_inv : vm_inv one_page_example := by
  intro tid key P h
  simp only [one_page_example, Kernel.with_frame_table_threads,
    Kernel.with_threads_threads] at h
  split at h
  · simp only [thread.empty] at h
    split at h
    · cases h
      subst_vars
      refine ⟨?_, ?_, ?_⟩
      · intro hh
        exact hh.2 rfl
      · intro hnd hh
        cases hh
        rfl
      · intro hh
        exact absurd rfl hh
    · cases h
  · cases h

/-- C4, counterexample to preservation by `page_load` from every state that
satisfies the predicate: a process whose only page, at 0x10000000, is resident
in the only user frame, unpinned and not accessed. The predicate holds;
`page_load` on that page returns `true`, having evicted the page to slot 0 and
given it the frame back, so the entry has both a frame and a swap slot and the
predicate fails. -/
theorem page_load_resident_page_breaks_vm_inv :
    vm_inv one_page_example ∧
    ∃ k1, page_load 3 0x10000000 one_page_example = Res.ok true k1 ∧
      (k1.cur.sup_page_table 0x10000000).map (fun P => (P.fte, P.swap_index))
        = some (some 100, 0) ∧
      ¬ vm_inv k1 :=
  ⟨one_page_example_vm_inv, _, rfl, rfl, fun hinv =>
    (hinv 1 0x10000000 _ rfl).1 ⟨by decide, by decide⟩⟩

end Pintos

namespace Pintos

/-! ## Loading a page back from its swap slot -/

theorem page_get_spte_eq {uaddr : Nat} (k : Kernel) (hu : is_user_vaddr uaddr = true) :
    page_get_spte uaddr k = Res.ok (k.cur.sup_page_table (pg_round_down uaddr)) k := by
  unfold page_get_spte
  simp only [K.run_bind, K.seq, hu, K.run_assert_true, K.run_get, K.run_pure]

theorem swap_test_index_eq {s : Nat} (k : Kernel) (h : s < k.swap_table.bit_cnt) :
    swap_test_index s k = Res.ok (k.swap_table.bits s) k := by
  unfold swap_test_index
  simp only [K.run_bind, K.seq, K.run_get, h, decide_True, K.run_assert_true, K.run_pure]

/-- What `frame_alloc` does once its loop has obtained the frame `kp`: the
frame is installed for the entry. -/
theorem frame_alloc_of_page {fuel key kp : Nat} {flags : palloc_flags} {w : Bool}
    {k kb : Kernel} {sp : spte} (hsp : k.cur.sup_page_table key = some sp)
    (hne : sp.upage ≠ 0) (hu : is_user_vaddr sp.upage = true) (hflags : flags.user = true)
    (hpage : frame_alloc_page fuel flags (fuel + 1) k = Res.ok kp kb)
    (hpd : (kb.threads k.current).pagedir (pg_round_down sp.upage) = none) :
    frame_alloc fuel key flags w k =
      Res.ok { spte := key, kpage := kp, owner := k.current, pinned := true }
        (frame_install { spte := key, kpage := kp, owner := k.current, pinned := true }
          sp.upage w kb) := by
  unfold frame_alloc
  simp only [K.run_bind, K.seq, K.run_get, hsp, hne, hu, hflags, ne_eq, not_false_eq_true,
    decide_True, Bool.and_self, K.run_assert_true, hpage, K.run_modify, pagedir_set_page,
    Kernel.with_thread_threads_same, Kernel.with_frame_table_threads,
    thread.with_spte_pagedir, hpd, Option.isNone_none, K.run_pure]
  rfl

/-- With a frame in the free pool, `frame_alloc` takes its head and installs
it for the entry, evicting nothing. -/
theorem frame_alloc_eq {fuel key kp : Nat} {rest : List Nat} {flags : palloc_flags} {w : Bool}
    {k : Kernel} {sp : spte} (hsp : k.cur.sup_page_table key = some sp)
    (hne : sp.upage ≠ 0) (hu : is_user_vaddr sp.upage = true) (hflags : flags.user = true)
    (hpool : k.user_pool = kp :: rest)
    (hpd : (k.threads k.current).pagedir (pg_round_down sp.upage) = none) :
    frame_alloc fuel key flags w k =
      Res.ok { spte := key, kpage := kp, owner := k.current, pinned := true }
        (frame_install { spte := key, kpage := kp, owner := k.current, pinned := true }
          sp.upage w
          ((k.with_user_pool rest).with_ram
            (fun q => if q = kp ∧ flags.zero = true then fun _ => 0 else k.ram q))) := by
  have hpage : frame_alloc_page fuel flags (fuel + 1) k = Res.ok kp
      ((k.with_user_pool rest).with_ram
        (fun q => if q = kp ∧ flags.zero = true then fun _ => 0 else k.ram q)) := by
    unfold frame_alloc_page
    simp only [K.run_bind, K.seq, palloc_get_page, hpool, K.run_pure]
  exact frame_alloc_of_page hsp hne hu hflags hpage hpd

/-- What `load_swap_page` does once `frame_alloc` has returned the frame
entry `F` in state `ka`: the eight sectors of the slot are read into the
frame, the slot is reset and the entry records no slot. -/
theorem load_swap_page_of_alloc {fuel key : Nat} {k ka : Kernel} {sp : spte} {F : fte}
    (hs2 : sp.swap_index < k.swap_table.bit_cnt)
    (hbit : k.swap_table.bits sp.swap_index = true)
    (hfa : frame_alloc fuel key PAL_USER
      (if sp.page_type = page_type.FILE then sp.file_page.writable else true) k = Res.ok F ka)
    (hcnt : ka.swap_table.bit_cnt = k.swap_table.bit_cnt) :
    ∃ page, swap_in_loop ka.swap_block PGSIZE 0 (to_uint32 (sp.swap_index * FRAME_SECTORS))
        (ka.ram F.kpage) = some page ∧
      load_swap_page fuel key sp k = Res.ok ()
        (((ka.with_ram (fun p => if p = F.kpage then page else ka.ram p)).with_swap_table
            (bitmap_set ka.swap_table sp.swap_index false)).with_thread ka.current
          (fun t => t.with_spte key (fun s => { s with swap_index := NOT_IN_SWAP_PARTITION }))) := by
  obtain ⟨page, hl, hin⟩ := swap_in_returns F.kpage sp.swap_index ka (by rw [hcnt]; exact hs2)
  refine ⟨page, hl, ?_⟩
  unfold load_swap_page
  simp only [K.run_bind]
  rw [K.seq_ok (swap_test_index_eq k hs2)]
  simp only [hbit, K.run_bind]
  rw [K.seq_ok (K.run_assert_true _ _)]
  simp only [K.run_bind]
  rw [K.seq_ok hfa]
  simp only [K.run_bind]
  rw [K.seq_ok hin]
  rfl

/-- A page whose entry records a slot in use and that is not mapped, in a
state where the loop of `frame_alloc` obtains the frame `kp` and leaves the
entry alone: `page_load` returns `true`, the entry is resident in that frame
and records no slot, the frame holds what `swap_in` read from the slot, and
the slot is free. -/
theorem page_load_of_page {fuel key kp : Nat} {k1 kb : Kernel} {P1 : spte}
    (hu : is_user_vaddr key = true) (hkey : pg_round_down key = key) (hne : key ≠ 0)
    (hP1 : k1.cur.sup_page_table key = some P1) (hup : P1.upage = key)
    (hs1 : P1.swap_index ≠ NOT_IN_SWAP_PARTITION)
    (hs2 : P1.swap_index < k1.swap_table.bit_cnt)
    (hbit : k1.swap_table.bits P1.swap_index = true)
    (hpage : frame_alloc_page fuel PAL_USER (fuel + 1) k1 = Res.ok kp kb)
    (hcurb : kb.current = k1.current)
    (hPb : (kb.threads k1.current).sup_page_table key = some P1)
    (hpdb : (kb.threads k1.current).pagedir key = none)
    (hcnt : kb.swap_table.bit_cnt = k1.swap_table.bit_cnt) :
    ∃ k2, page_load fuel key k1 = Res.ok true k2 ∧
      k2.current = k1.current ∧
      k2.cur.sup_page_table key
        = some { P1 with fte := some kp, swap_index := NOT_IN_SWAP_PARTITION } ∧
      pd_kpage k2 k1.current key = some kp ∧
      swap_in_loop kb.swap_block PGSIZE 0
        (to_uint32 (P1.swap_index * FRAME_SECTORS)) (kb.ram kp) = some (k2.ram kp) ∧
      k2.swap_table = bitmap_set kb.swap_table P1.swap_index false ∧
      k2.trace = kb.trace := by
  have hne1 : P1.upage ≠ 0 := by rw [hup]; exact hne
  have hu1 : is_user_vaddr P1.upage = true := by rw [hup]; exact hu
  have hpd1 : (kb.threads k1.current).pagedir (pg_round_down P1.upage) = none := by
    rw [hup, hkey]; exact hpdb
  unfold page_load
  simp only [K.run_bind]
  rw [K.seq_ok (page_get_spte_eq k1 hu)]
  simp only [hkey, hP1, hs1, ne_eq, not_false_eq_true, if_true]
  have hfa := @frame_alloc_of_page fuel key kp PAL_USER
    (if P1.page_type = page_type.FILE then P1.file_page.writable else true) k1 kb P1
    hP1 hne1 hu1 rfl hpage hpd1
  obtain ⟨page, hl, h2⟩ := load_swap_page_of_alloc hs2 hbit hfa
    (by rw [frame_install_swap_table]; exact hcnt)
  simp only [K.run_bind]
  rw [K.seq_ok h2]
  refine ⟨_, rfl, ?_, ?_, ?_, ?_, ?_, ?_⟩
  · simp [frame_install, hcurb]
  · unfold Kernel.cur
    simp [frame_install, thread.with_spte_sup_page_table, hPb, hcurb]
  · unfold pd_kpage
    simp [frame_install, hup, hkey, hcurb]
  · simpa [frame_install] using hl
  · simp [frame_install]
  · simp [frame_install]

/-- The case of `page_load_of_page` with a free frame at the head of the
pool. -/
theorem page_load_swapped {fuel key kp : Nat} {rest : List Nat} {k1 : Kernel} {P1 : spte}
    (hu : is_user_vaddr key = true) (hkey : pg_round_down key = key) (hne : key ≠ 0)
    (hP1 : k1.cur.sup_page_table key = some P1) (hup : P1.upage = key)
    (hs1 : P1.swap_index ≠ NOT_IN_SWAP_PARTITION)
    (hs2 : P1.swap_index < k1.swap_table.bit_cnt)
    (hbit : k1.swap_table.bits P1.swap_index = true)
    (hpool : k1.user_pool = kp :: rest)
    (hpd : (k1.threads k1.current).pagedir key = none) :
    ∃ k2, page_load fuel key k1 = Res.ok true k2 ∧
      k2.current = k1.current ∧
      k2.cur.sup_page_table key
        = some { P1 with fte := some kp, swap_index := NOT_IN_SWAP_PARTITION } ∧
      pd_kpage k2 k1.current key = some kp ∧
      swap_in_loop k1.swap_block PGSIZE 0
        (to_uint32 (P1.swap_index * FRAME_SECTORS)) (k1.ram kp) = some (k2.ram kp) ∧
      k2.swap_table = bitmap_set k1.swap_table P1.swap_index false ∧
      k2.trace = k1.trace := by
  have hpage : frame_alloc_page fuel PAL_USER (fuel + 1) k1 = Res.ok kp
      ((k1.with_user_pool rest).with_ram
        (fun q => if q = kp ∧ PAL_USER.zero = true then fun _ => 0 else k1.ram q)) := by
    unfold frame_alloc_page
    simp only [K.run_bind, K.seq, palloc_get_page, hpool, K.run_pure]
  have e : PAL_USER.zero = false := rfl
  obtain ⟨k2, h1, h2, h3, h4, h5, h6, h7⟩ :=
    page_load_of_page hu hkey hne hP1 hup hs1 hs2 hbit hpage rfl hP1 hpd rfl
  refine ⟨k2, h1, h2, h3, h4, ?_, ?_, ?_⟩
  · simpa [e] using h5
  · simpa using h6
  · simpa using h7

end Pintos

namespace Pintos

/-- What `swap_out` does when it returns, in a state with a free slot and no
slot from 65535 on in use: the slot is the lowest free one, below 65535, and
its eight sectors have been written. -/
theorem swap_out_free_inv {kpage s : Nat} {k k1 : Kernel} (hr : swap_reachable k.swap_table)
    (hfree : ∃ i, i < k.swap_table.bit_cnt ∧ k.swap_table.bits i = false)
    (h : swap_out kpage k = Res.ok s k1) :
    s < 65535 ∧ s < k.swap_table.bit_cnt ∧ k.swap_table.bits s = false ∧
      ∃ b, swap_out_loop (k.ram kpage) PGSIZE 0 (to_uint32 (s * FRAME_SECTORS)) k.swap_block
          = some b ∧
        k1 = (k.with_swap_table (bitmap_set k.swap_table s true)).with_swap_block b := by
  obtain ⟨hlt, hbit, hall⟩ :
      bitmap_scan k.swap_table 0 SWAP_FREE < k.swap_table.bit_cnt ∧
      k.swap_table.bits (bitmap_scan k.swap_table 0 SWAP_FREE) = false ∧
      ∀ j, j < bitmap_scan k.swap_table 0 SWAP_FREE → k.swap_table.bits j = true :=
    bitmap_scan_free k.swap_table hfree
  obtain ⟨hs0, hne, b, hl, rfl⟩ := swap_out_inv h
  have hfst : (bitmap_scan_and_flip k.swap_table 0 SWAP_FREE).1
      = bitmap_scan k.swap_table 0 SWAP_FREE := by
    unfold bitmap_scan_and_flip
    by_cases h : bitmap_scan k.swap_table 0 SWAP_FREE ≠ BITMAP_ERROR <;> simp [h]
  rw [hfst] at hs0
  subst hs0
  have hlt2 : bitmap_scan k.swap_table 0 SWAP_FREE < 65535 := by
    by_contra hge
    have h6 := hall 65535 (by omega)
    have := (hr 65535 h6).1
    omega
  have hpair : bitmap_scan_and_flip k.swap_table 0 SWAP_FREE
      = (bitmap_scan k.swap_table 0 SWAP_FREE,
          bitmap_set k.swap_table (bitmap_scan k.swap_table 0 SWAP_FREE) true) := by
    unfold bitmap_scan_and_flip
    have hb : bitmap_scan k.swap_table 0 SWAP_FREE ≠ BITMAP_ERROR := by
      simp only [BITMAP_ERROR, SIZE_MAX]; omega
    simp [hb]
  rw [hpair]
  exact ⟨hlt2, hlt, hbit, b, hl, rfl⟩

end Pintos

namespace Pintos

/-! ## Descriptor numbers and the slots of evicted pages -/

/-- C14 as stated does not hold: a process opens a file twice and gets the
descriptors 2 and 3, closes 3 (descriptor 2 stays open), and opens again: the
third `open` returns 3 a second time, a number not greater than one returned
before.  `open` numbers from the back of the list of open descriptors. -/
theorem open_reuses_closed_number :
    ∃ k1 k2 k3 k4,
      sys_open 3 0x10000000 open_example = Res.ok 2 k1 ∧
      sys_open 3 0x10000000 k1 = Res.ok 3 k2 ∧
      close 3 k2 = Res.ok () k3 ∧
      k3.cur.fd_list.map file_descriptor.fileno = [2] ∧
      sys_open 3 0x10000000 k3 = Res.ok 3 k4 :=
  ⟨_, _, _, _, rfl, rfl, rfl, rfl, rfl⟩

/-- C15 as stated does not hold: `evict` on `mmap_two_pages_example` chooses
the clean `MMAP` page at 0x10000000, and `evict` on `resident_code_example`
chooses the clean, not writable `FILE` page; in both cases slot 0 is taken in
the swap bitmap and recorded in the entry, and the next `page_load` of the
`MMAP` page reads it back from the slot without a read of its file.  `evict`
has no case for the kind of the page. -/
theorem evict_swaps_out_mmap_and_clean_file_pages :
    (∃ k1, evict 3 mmap_two_pages_example = Res.ok () k1 ∧
      k1.swap_table.bits 0 = true ∧
      (k1.cur.sup_page_table 0x10000000).map (fun P => (P.page_type, P.fte, P.swap_index))
        = some (page_type.MMAP, none, 0) ∧
      ∃ k2, page_load 3 0x10000000 k1 = Res.ok true k2 ∧ k2.trace = []) ∧
    (∃ k1, evict 3 resident_code_example = Res.ok () k1 ∧
      k1.swap_table.bits 0 = true ∧
      (k1.cur.sup_page_table 0x08048000).map
          (fun P => (P.page_type, P.file_page.writable, P.fte, P.swap_index))
        = some (page_type.FILE, false, none, 0)) :=
  ⟨⟨_, rfl, rfl, rfl, _, rfl, rfl⟩, ⟨_, rfl, rfl, rfl⟩⟩

theorem swapped_mmap_example_slots_owned : slots_owned swapped_mmap_example := by
  intro i _ hbit
  have hi : i = 0 := by
    by_contra hne
    simp [swapped_mmap_example, bitmap_set, bitmap_create, hne] at hbit
  subst hi
  refine ⟨(1, 0x10000000), ⟨_, rfl, rfl⟩, ?_⟩
  rintro ⟨tid, key⟩ ⟨P, hP, _⟩
  simp only [swapped_mmap_example, Kernel.with_fs_threads, Kernel.with_swap_table_threads,
    Kernel.with_threads_threads] at hP
  split at hP
  · simp only [thread.empty] at hP
    split at hP
    · subst_vars; rfl
    · cases hP
  · cases hP

/-- C17, where the code diverges: in `swapped_mmap_example` every slot in use
belongs to exactly one entry; `munmap_pages` of the region returns, having
removed the entry of the swapped-out page, and slot 0 is still marked used
though no entry is left, so the predicate fails. -/
theorem munmap_pages_leaks_swap_slot :
    slots_owned swapped_mmap_example ∧
    ∃ k1, munmap_pages 0 swapped_mmap_example = Res.ok () k1 ∧
      k1.swap_table.bits 0 = true ∧
      (∀ tid key, (k1.threads tid).sup_page_table key = none) ∧
      ¬ slots_owned k1 := by
  have hrun : munmap_pages 0 swapped_mmap_example = Res.ok ()
      ((swapped_mmap_example.with_thread 1 (fun t =>
        { t with sup_page_table := fun p =>
            if p = 0x10000000 then none else t.sup_page_table p })).with_thread 1 (fun t =>
        { t with mmap_list :=
            t.mmap_list.erase { mapid := 0, file := 5, spte_list := [0x10000000] } })) := rfl
  have hnone : ∀ tid key,
      (((swapped_mmap_example.with_thread 1 (fun t =>
        { t with sup_page_table := fun p =>
            if p = 0x10000000 then none else t.sup_page_table p })).with_thread 1 (fun t =>
        { t with mmap_list :=
            t.mmap_list.erase { mapid := 0, file := 5, spte_list := [0x10000000] } })).threads
        tid).sup_page_table key = none := by
    intro tid key
    simp only [Kernel.with_thread_threads, swapped_mmap_example, Kernel.with_fs_threads,
      Kernel.with_swap_table_threads, Kernel.with_threads_threads]
    split_ifs <;> simp_all [thread.empty]
  refine ⟨swapped_mmap_example_slots_owned, _, hrun, rfl, hnone, ?_⟩
  intro h
  obtain ⟨e, ⟨P, hP, _⟩, _⟩ := h 0 (by decide) rfl
  rw [hnone] at hP
  cases hP

end Pintos

namespace Pintos

/-! ## One iteration of the scan, forwards -/

theorem evict_loop_pinned {fuel : Nat} {k : Kernel} {g : fte} {rest : List fte} {sp0 : spte}
    (hft : k.frame_table = g :: rest)
    (hsp : (k.threads g.owner).sup_page_table g.spte = some sp0) (hu : sp0.upage ≠ 0)
    (hm : (pagedir_get_page (k.threads g.owner).pagedir sp0.upage).isSome = true)
    (hp : g.pinned = true) :
    evict_loop (fuel + 1) k = evict_loop fuel (k.with_frame_table (rest ++ [g])) := by
  rw [evict_loop]
  simp only [K.run_bind, K.seq, K.run_get, hft, K.run_modify, hsp, hu, ne_eq,
    not_false_eq_true, decide_True, K.run_assert_true, hm, hp, if_true,
    Kernel.with_frame_table_frame_table]
  rfl

theorem evict_loop_choose {fuel : Nat} {k : Kernel} {g : fte} {rest : List fte} {sp0 : spte}
    (hft : k.frame_table = g :: rest)
    (hsp : (k.threads g.owner).sup_page_table g.spte = some sp0) (hu : sp0.upage ≠ 0)
    (hm : (pagedir_get_page (k.threads g.owner).pagedir sp0.upage).isSome = true)
    (hp : g.pinned = false)
    (ha : pagedir_is_accessed (k.threads g.owner).pagedir sp0.upage = false) :
    evict_loop (fuel + 1) k = Res.ok (g, sp0) (k.with_frame_table rest) := by
  rw [evict_loop]
  simp only [K.run_bind, K.seq, K.run_get, hft, K.run_modify, hsp, hu, ne_eq,
    not_false_eq_true, decide_True, K.run_assert_true, hm, hp, ha, Bool.false_eq_true,
    if_false, Bool.not_false, if_true, K.run_pure]

theorem evict_loop_dirty {fuel : Nat} {k kw : Kernel} {g : fte} {rest : List fte} {sp0 : spte}
    (hft : k.frame_table = g :: rest)
    (hsp : (k.threads g.owner).sup_page_table g.spte = some sp0) (hu : sp0.upage ≠ 0)
    (hm : (pagedir_get_page (k.threads g.owner).pagedir sp0.upage).isSome = true)
    (hp : g.pinned = false)
    (ha : pagedir_is_accessed (k.threads g.owner).pagedir sp0.upage = true)
    (hd : pagedir_is_dirty (k.threads g.owner).pagedir sp0.upage = true)
    (hw : write_back g.owner sp0 (k.with_frame_table rest) = Res.ok () kw) :
    evict_loop (fuel + 1) k = evict_loop fuel
      ((kw.with_thread g.owner (fun t =>
          t.with_pagedir (pagedir_set_dirty t.pagedir sp0.upage false))).with_frame_table
        (kw.frame_table ++ [g])) := by
  rw [evict_loop]
  simp only [K.run_bind, K.seq, K.run_get, hft, K.run_modify, hsp, hu, ne_eq,
    not_false_eq_true, decide_True, K.run_assert_true, hm, hp, ha, hd, Bool.false_eq_true,
    if_false, Bool.not_true, if_true, hw, Kernel.with_thread_frame_table]

theorem evict_loop_accessed {fuel : Nat} {k : Kernel} {g : fte} {rest : List fte} {sp0 : spte}
    (hft : k.frame_table = g :: rest)
    (hsp : (k.threads g.owner).sup_page_table g.spte = some sp0) (hu : sp0.upage ≠ 0)
    (hm : (pagedir_get_page (k.threads g.owner).pagedir sp0.upage).isSome = true)
    (hp : g.pinned = false)
    (ha : pagedir_is_accessed (k.threads g.owner).pagedir sp0.upage = true)
    (hd : pagedir_is_dirty (k.threads g.owner).pagedir sp0.upage = false) :
    evict_loop (fuel + 1) k = evict_loop fuel
      (((k.with_frame_table rest).with_thread g.owner (fun t =>
          t.with_pagedir (pagedir_set_accessed t.pagedir sp0.upage false))).with_frame_table
        (rest ++ [g])) := by
  rw [evict_loop]
  simp only [K.run_bind, K.seq, K.run_get, hft, K.run_modify, hsp, hu, ne_eq,
    not_false_eq_true, decide_True, K.run_assert_true, hm, hp, ha, hd, Bool.false_eq_true,
    if_false, Bool.not_true, Kernel.with_thread_frame_table,
    Kernel.with_frame_table_frame_table]

/-- `write_back` returns when the pointers it follows are there. -/
theorem write_back_returns (owner : Nat) (sp : spte) (k : Kernel)
    (hf : sp.fte.isSome = true)
    (hmm : sp.page_type = page_type.MMAP →
      ((k.threads owner).mmap_list.find?
        (fun m => decide (m.mapid = sp.mmap_page.mmap_fd))).isSome = true) :
    ∃ kw, write_back owner sp k = Res.ok () kw := by
  obtain ⟨h, hh⟩ := Option.isSome_iff_exists.mp hf
  unfold write_back
  cases hty : sp.page_type with
  | ZERO =>
    simp only [K.run_bind, K.seq, K.run_get, K.run_pure]
    exact ⟨_, rfl⟩
  | FILE =>
    simp only [K.run_bind, K.seq, K.run_get, hh, file_write_at, K.emit, K.run_modify,
      K.run_pure]
    exact ⟨_, rfl⟩
  | MMAP =>
    obtain ⟨m, hm⟩ := Option.isSome_iff_exists.mp (hmm hty)
    simp only [K.run_bind, K.seq, K.run_get, hm, hh, file_write_at, K.emit, K.run_modify,
      K.run_pure]
    exact ⟨_, rfl⟩

end Pintos

namespace Pintos

/-! ## The scan of `evict` ends within three rounds -/

theorem frame_rank_congr {k k1 : Kernel} (h : k1.threads = k.threads) (g : fte) :
    frame_rank k1 g = frame_rank k g := by
  unfold frame_rank
  rw [h]

theorem frame_rank_le (k : Kernel) (g : fte) : frame_rank k g ≤ 2 := by
  unfold frame_rank
  split
  · omega
  · split
    · split <;> omega
    · omega

theorem pagedir_is_accessed_set_dirty (pd : Nat → Option pte) (u u1 : Nat) (v : Bool) :
    pagedir_is_accessed (pagedir_set_dirty pd u v) u1 = pagedir_is_accessed pd u1 := by
  unfold pagedir_is_accessed pagedir_set_dirty
  by_cases h : pg_round_down u1 = pg_round_down u
  · simp only [h, if_true]
    cases pd (pg_round_down u) <;> rfl
  · simp only [h, if_false]

theorem pagedir_is_dirty_set_dirty (pd : Nat → Option pte) (u u1 : Nat)
    (h : pg_round_down u1 ≠ pg_round_down u) (v : Bool) :
    pagedir_is_dirty (pagedir_set_dirty pd u v) u1 = pagedir_is_dirty pd u1 := by
  unfold pagedir_is_dirty pagedir_set_dirty
  simp only [h, if_false]

theorem pagedir_is_dirty_set_dirty_same (pd : Nat → Option pte) (u : Nat) :
    pagedir_is_dirty (pagedir_set_dirty pd u false) u = false := by
  unfold pagedir_is_dirty pagedir_set_dirty
  simp only [if_true]
  cases pd (pg_round_down u) <;> rfl

theorem pagedir_is_dirty_set_accessed (pd : Nat → Option pte) (u u1 : Nat) (v : Bool) :
    pagedir_is_dirty (pagedir_set_accessed pd u v) u1 = pagedir_is_dirty pd u1 := by
  unfold pagedir_is_dirty pagedir_set_accessed
  by_cases h : pg_round_down u1 = pg_round_down u
  · simp only [h, if_true]
    cases pd (pg_round_down u) <;> rfl
  · simp only [h, if_false]

theorem pagedir_is_accessed_set_accessed (pd : Nat → Option pte) (u u1 : Nat)
    (h : pg_round_down u1 ≠ pg_round_down u) (v : Bool) :
    pagedir_is_accessed (pagedir_set_accessed pd u v) u1 = pagedir_is_accessed pd u1 := by
  unfold pagedir_is_accessed pagedir_set_accessed
  simp only [h, if_false]

theorem pagedir_is_accessed_set_accessed_same (pd : Nat → Option pte) (u : Nat) :
    pagedir_is_accessed (pagedir_set_accessed pd u false) u = false := by
  unfold pagedir_is_accessed pagedir_set_accessed
  simp only [if_true]
  cases pd (pg_round_down u) <;> rfl

/-- The facts the scan relies on survive whatever the scan does. -/
theorem scan_ready_of_rel {k k1 : Kernel} (hk : scan_ready k) (hrel : scan_rel k k1)
    (hperm : k1.frame_table.Perm k.frame_table) : scan_ready k1 where
  keys := by
    intro tid key sp h
    rw [hrel.spt] at h
    exact hk.keys tid key sp h
  distinct := by
    unfold frames_distinct
    refine (List.Perm.pairwise_iff ?_ hperm).mpr hk.distinct
    intro a b hab hba
    exact hab ⟨hba.1.symm, hba.2.symm⟩
  linked := by
    intro g hg
    obtain ⟨sp, hsp, hu, hm, hf, hmm⟩ := hk.linked g (hperm.mem_iff.mp hg)
    refine ⟨sp, by rw [hrel.spt]; exact hsp, hu, ?_, hf, ?_⟩
    · have := hrel.pd_kpage g.owner (pg_round_down sp.upage)
      unfold pagedir_get_page at hm ⊢
      cases h1 : (k1.threads g.owner).pagedir (pg_round_down sp.upage) with
      | some e => rfl
      | none =>
        rw [h1] at this
        cases h0 : (k.threads g.owner).pagedir (pg_round_down sp.upage) with
        | some e => rw [h0] at this; cases this
        | none => rw [h0] at hm; cases hm
    · intro hty
      rw [hrel.mmap_list]
      exact hmm hty

/-- The general form of the bound: an unpinned frame at position `pre.length`
of a frame table of `n` frames that waits `frame_rank` rounds is chosen, if no
other frame is before, at pop number `pre.length + 1 + frame_rank * n`. -/
theorem evict_loop_returns : ∀ (fuel : Nat) (k : Kernel) (pre post : List fte) (g : fte),
    scan_ready k → k.frame_table = pre ++ g :: post → g.pinned = false →
    pre.length + 1 + frame_rank k g * (pre.length + 1 + post.length) ≤ fuel →
    ∃ f sp k1, evict_loop fuel k = Res.ok (f, sp) k1 := by
  intro fuel
  induction fuel with
  | zero => intro k pre post g _ _ _ h; omega
  | succ fuel ih =>
    intro k pre post g hk hft hg hfuel
    cases pre with
    | nil =>
      -- the frame is at the head of the list
      simp only [List.nil_append] at hft
      simp only [List.length_nil, Nat.zero_add] at hfuel
      obtain ⟨sp0, hsp, hu, hm, hf, hmm⟩ := hk.linked g (by rw [hft]; exact List.mem_cons_self _ _)
      have hrot : (post ++ [g]).Perm k.frame_table := by
        rw [hft]; exact List.perm_append_singleton g post
      cases ha : pagedir_is_accessed (k.threads g.owner).pagedir sp0.upage with
      | false => exact ⟨_, _, _, evict_loop_choose hft hsp hu hm hg ha⟩
      | true =>
        cases hd : pagedir_is_dirty (k.threads g.owner).pagedir sp0.upage with
        | true =>
          obtain ⟨kw, hw⟩ := write_back_returns g.owner sp0 (k.with_frame_table post) hf hmm
          have hfs := write_back_fs_only hw
          have hkwt : kw.threads = k.threads := hfs.threads
          have hkwf : kw.frame_table = post := hfs.frame_table
          rw [evict_loop_dirty hft hsp hu hm hg ha hd hw, hkwf]
          have hrel : scan_rel k ((kw.with_thread g.owner (fun t =>
              t.with_pagedir (pagedir_set_dirty t.pagedir sp0.upage false))).with_frame_table
              (post ++ [g])) :=
            scan_rel_trans
              (scan_rel_trans (scan_rel_with_frame_table k post) (scan_rel_of_fs_only hfs))
              (scan_rel_trans (scan_rel_set_dirty kw _ _ _) (scan_rel_with_frame_table _ _))
          have hrank : frame_rank ((kw.with_thread g.owner (fun t =>
              t.with_pagedir (pagedir_set_dirty t.pagedir sp0.upage false))).with_frame_table
              (post ++ [g])) g = 1 := by
            unfold frame_rank
            simp only [Kernel.with_frame_table_threads, Kernel.with_thread_threads_same,
              thread.with_pagedir_sup_page_table, thread.with_pagedir_pagedir, hkwt, hsp,
              pagedir_is_accessed_set_dirty, ha, if_true, pagedir_is_dirty_set_dirty_same,
              Bool.false_eq_true, if_false]
          have hrk : frame_rank k g = 2 := by
            unfold frame_rank
            simp only [hsp, ha, hd, if_true]
          rw [hrk] at hfuel
          refine ih _ post [] g (scan_ready_of_rel hk hrel hrot) (by simp) hg ?_
          rw [hrank]
          simp only [List.length_nil]
          omega
        | false =>
          rw [evict_loop_accessed hft hsp hu hm hg ha hd]
          have hrel : scan_rel k (((k.with_frame_table post).with_thread g.owner (fun t =>
              t.with_pagedir (pagedir_set_accessed t.pagedir sp0.upage false))).with_frame_table
              (post ++ [g])) :=
            scan_rel_trans (scan_rel_with_frame_table k post)
              (scan_rel_trans (scan_rel_set_accessed _ _ _ _) (scan_rel_with_frame_table _ _))
          have hrank : frame_rank (((k.with_frame_table post).with_thread g.owner (fun t =>
              t.with_pagedir (pagedir_set_accessed t.pagedir sp0.upage false))).with_frame_table
              (post ++ [g])) g = 0 := by
            unfold frame_rank
            simp only [Kernel.with_frame_table_threads, Kernel.with_thread_threads_same,
              thread.with_pagedir_sup_page_table, thread.with_pagedir_pagedir, hsp,
              pagedir_is_accessed_set_accessed_same, Bool.false_eq_true, if_false]
          have hrk : frame_rank k g = 1 := by
            unfold frame_rank
            simp only [hsp, ha, hd, if_true, Bool.false_eq_true, if_false]
          rw [hrk] at hfuel
          refine ih _ post [] g (scan_ready_of_rel hk hrel hrot) (by simp) hg ?_
          rw [hrank]
          simp only [List.length_nil]
          omega
    | cons h pre1 =>
      -- another frame is at the head; the frame moves up by one
      simp only [List.cons_append] at hft
      simp only [List.length_cons] at hfuel
      obtain ⟨sp0, hsp, hu, hm, hf, hmm⟩ := hk.linked h (by rw [hft]; exact List.mem_cons_self _ _)
      have hgm : g ∈ k.frame_table := by rw [hft]; simp
      obtain ⟨spg, hspg, _, _, _, _⟩ := hk.linked g hgm
      have hne : ¬ (h.owner = g.owner ∧ h.spte = g.spte) := by
        have hd := hk.distinct
        unfold frames_distinct at hd
        rw [hft] at hd
        exact (List.pairwise_cons.mp hd).1 g (by simp)
      have hrot : (pre1 ++ g :: post ++ [h]).Perm k.frame_table := by
        rw [hft]; exact List.perm_append_singleton h _
      have hlen : pre1.length + 1 + (post ++ [h]).length = pre1.length + 1 + 1 + post.length := by
        simp only [List.length_append, List.length_singleton]; omega
      have hother : ∀ (k1 : Kernel),
          (∀ tid, (k1.threads tid).sup_page_table = (k.threads tid).sup_page_table) →
          pagedir_is_accessed (k1.threads g.owner).pagedir spg.upage
            = pagedir_is_accessed (k.threads g.owner).pagedir spg.upage →
          pagedir_is_dirty (k1.threads g.owner).pagedir spg.upage
            = pagedir_is_dirty (k.threads g.owner).pagedir spg.upage →
          frame_rank k1 g = frame_rank k g := by
        intro k1 h1 h2 h3
        unfold frame_rank
        rw [h1, hspg]
        simp only [h2, h3]
      have hpage : g.owner = h.owner → pg_round_down spg.upage ≠ pg_round_down sp0.upage := by
        intro ho e
        have e1 := hk.keys _ _ _ hspg
        have e2 := hk.keys _ _ _ hsp
        rw [e1.1, e2.1, e1.2, e2.2] at e
        exact hne ⟨ho.symm, e.symm⟩
      cases hp : h.pinned with
      | true =>
        rw [evict_loop_pinned hft hsp hu hm hp]
        refine ih _ pre1 (post ++ [h]) g
          (scan_ready_of_rel hk (scan_rel_with_frame_table k _) (by simpa using hrot))
          (by simp) hg ?_
        have hr : frame_rank (k.with_frame_table (pre1 ++ g :: post ++ [h])) g
            = frame_rank k g := frame_rank_congr rfl g
        rw [hr, hlen]
        omega
      | false =>
        cases ha : pagedir_is_accessed (k.threads h.owner).pagedir sp0.upage with
        | false => exact ⟨_, _, _, evict_loop_choose hft hsp hu hm hp ha⟩
        | true =>
          cases hd : pagedir_is_dirty (k.threads h.owner).pagedir sp0.upage with
          | true =>
            obtain ⟨kw, hw⟩ := write_back_returns h.owner sp0
              (k.with_frame_table (pre1 ++ g :: post)) hf hmm
            have hfs := write_back_fs_only hw
            have hkwt : kw.threads = k.threads := hfs.threads
            have hkwf : kw.frame_table = pre1 ++ g :: post := hfs.frame_table
            rw [evict_loop_dirty hft hsp hu hm hp ha hd hw, hkwf]
            have hrel : scan_rel k ((kw.with_thread h.owner (fun t =>
                t.with_pagedir (pagedir_set_dirty t.pagedir sp0.upage false))).with_frame_table
                (pre1 ++ g :: post ++ [h])) :=
              scan_rel_trans
                (scan_rel_trans (scan_rel_with_frame_table k _) (scan_rel_of_fs_only hfs))
                (scan_rel_trans (scan_rel_set_dirty kw _ _ _) (scan_rel_with_frame_table _ _))
            have hrank := hother _ hrel.spt
              (by
                simp only [Kernel.with_frame_table_threads, Kernel.with_thread_threads, hkwt]
                split
                · rename_i e
                  simp only [thread.with_pagedir_pagedir, pagedir_is_accessed_set_dirty]
                · rfl)
              (by
                simp only [Kernel.with_frame_table_threads, Kernel.with_thread_threads, hkwt]
                split
                · rename_i e
                  simp only [thread.with_pagedir_pagedir]
                  exact pagedir_is_dirty_set_dirty _ _ _ (hpage e) _
                · rfl)
            refine ih _ pre1 (post ++ [h]) g (scan_ready_of_rel hk hrel (by simpa using hrot))
              (by simp) hg ?_
            rw [hrank, hlen]
            omega
          | false =>
            rw [evict_loop_accessed hft hsp hu hm hp ha hd]
            have hrel : scan_rel k (((k.with_frame_table (pre1 ++ g :: post)).with_thread
                h.owner (fun t => t.with_pagedir
                  (pagedir_set_accessed t.pagedir sp0.upage false))).with_frame_table
                (pre1 ++ g :: post ++ [h])) :=
              scan_rel_trans (scan_rel_with_frame_table k _)
                (scan_rel_trans (scan_rel_set_accessed _ _ _ _) (scan_rel_with_frame_table _ _))
            have hrank := hother _ hrel.spt
              (by
                simp only [Kernel.with_frame_table_threads, Kernel.with_thread_threads]
                split
                · rename_i e
                  simp only [thread.with_pagedir_pagedir]
                  exact pagedir_is_accessed_set_accessed _ _ _ (hpage e) _
                · rfl)
              (by
                simp only [Kernel.with_frame_table_threads, Kernel.with_thread_threads]
                split
                · rename_i e
                  simp only [thread.with_pagedir_pagedir, pagedir_is_dirty_set_accessed]
                · rfl)
            refine ih _ pre1 (post ++ [h]) g (scan_ready_of_rel hk hrel (by simpa using hrot))
              (by simp) hg ?_
            rw [hrank, hlen]
            omega

end Pintos

namespace Pintos

/-- C16: in a state where every frame of the frame table backs a mapped page
of a well-formed entry, and some frame is unpinned, the scan of `evict`
returns a victim within `3 * n` iterations, `n` the number of frames; each
iteration pops one frame. -/
theorem evict_loop_pops_at_most_three_rounds (k : Kernel) (hk : scan_ready k)
    (hun : ∃ g, g ∈ k.frame_table ∧ g.pinned = false) :
    ∃ f sp k1, evict_loop (3 * k.frame_table.length) k = Res.ok (f, sp) k1 := by
  obtain ⟨g, hg, hp⟩ := hun
  obtain ⟨pre, post, hft⟩ := List.append_of_mem hg
  refine evict_loop_returns _ k pre post g hk hft hp ?_
  have hr := frame_rank_le k g
  have hlen : k.frame_table.length = pre.length + 1 + post.length := by
    rw [hft]; simp only [List.length_append, List.length_cons]; omega
  rw [hlen]
  have : frame_rank k g * (pre.length + 1 + post.length)
      ≤ 2 * (pre.length + 1 + post.length) := Nat.mul_le_mul_right _ hr
  omega

theorem pinned_then_dirty_example_ready : scan_ready pinned_then_dirty_example where
  keys := by
    intro tid key sp h
    simp only [pinned_then_dirty_example, mmap_two_pages_example, Kernel.with_ram_threads,
      Kernel.with_fs_threads, Kernel.with_frame_table_threads,
      Kernel.with_threads_threads] at h
    split at h
    · simp only [thread.empty] at h
      split at h
      · cases h; subst_vars; exact ⟨rfl, by decide⟩
      · split at h
        · cases h; subst_vars; exact ⟨rfl, by decide⟩
        · cases h
    · cases h
  distinct := by
    unfold frames_distinct pinned_then_dirty_example
    simp
  linked := by
    intro g hg
    have hg2 : g = { pinned := true, kpage := 100, spte := 0x10000000, owner := 1 } ∨
        g = { pinned := false, kpage := 101, spte := 0x10001000, owner := 1 } := by
      simpa [pinned_then_dirty_example] using hg
    rcases hg2 with rfl | rfl
    · exact ⟨_, rfl, by decide, rfl, rfl, fun _ => rfl⟩
    · exact ⟨_, rfl, by decide, rfl, rfl, fun _ => rfl⟩

/-- C16 on two frames, the first pinned, the page of the second accessed and
dirty: the scan returns the second frame within six iterations, and not
within five. -/
theorem evict_loop_pops_at_most_three_rounds_witness :
    scan_ready pinned_then_dirty_example ∧
    (∃ g, g ∈ pinned_then_dirty_example.frame_table ∧ g.pinned = false) ∧
    (∃ f sp k1, evict_loop (3 * pinned_then_dirty_example.frame_table.length)
      pinned_then_dirty_example = Res.ok (f, sp) k1) ∧
    (evict_loop 5 pinned_then_dirty_example : Res (fte × spte)) = Res.out_of_fuel :=
  ⟨pinned_then_dirty_example_ready,
    ⟨{ pinned := false, kpage := 101, spte := 0x10001000, owner := 1 }, by decide, rfl⟩,
    evict_loop_pops_at_most_three_rounds pinned_then_dirty_example
      pinned_then_dirty_example_ready
      ⟨{ pinned := false, kpage := 101, spte := 0x10001000, owner := 1 }, by decide, rfl⟩,
    rfl⟩

end Pintos

namespace Pintos

/-! ## `page_add_mmap_lazily`: the check of the range and the loop that adds the entries -/

theorem pg_round_down_mmap_key {upage : Nat} (h : pg_ofs upage = 0) (i : Nat) :
    pg_round_down (mmap_key upage i) = mmap_key upage i := by
  simp only [pg_round_down, pg_ofs, mmap_key, PGSIZE] at *
  omega

theorem mmap_key_lt_iff (length i : Nat) :
    PGSIZE * i < length ↔ i < mmap_page_count length := by
  simp only [mmap_page_count, PGSIZE]
  omega

theorem mmap_key_inj {upage i j : Nat} (h : mmap_key upage i = mmap_key upage j) : i = j := by
  simp only [mmap_key, PGSIZE] at h
  omega

/-- The `read_bytes` the code stores for page `i` is the one the
specification gives. -/
theorem mmap_read_bytes_code (length i : Nat) (hi : PGSIZE * i < length)
    (hlen : length < 0xFFFF * PGSIZE) :
    to_uint16 (if decide (PGSIZE * i = length - length % PGSIZE) = true
      then length % PGSIZE else PGSIZE) = mmap_read_bytes length i := by
  simp only [mmap_read_bytes, mmap_page_count, to_uint16, PGSIZE, decide_eq_true_eq] at *
  by_cases h1 : 4096 * i = length - length % 4096
  · rw [if_pos h1]
    have h2 : i + 1 = (length + 4096 - 1) / 4096 ∧ length % 4096 ≠ 0 := by
      constructor <;> omega
    rw [if_pos h2]
    omega
  · rw [if_neg h1]
    have h2 : ¬ (i + 1 = (length + 4096 - 1) / 4096 ∧ length % 4096 ≠ 0) := by
      intro h; omega
    rw [if_neg h2]

theorem mmap_offset_code (length i : Nat) (hi : PGSIZE * i < length)
    (hlen : length < 0xFFFF * PGSIZE) : to_uint16 (PGSIZE * i / PGSIZE) = i := by
  simp only [to_uint16, PGSIZE] at *
  omega

/-- The `read_bytes` of the pages of a region add up to its length. -/
theorem mmap_read_bytes_sum (length : Nat) :
    ((List.range (mmap_page_count length)).map (mmap_read_bytes length)).sum = length := by
  have key : ∀ n, n ≤ mmap_page_count length →
      ((List.range n).map (mmap_read_bytes length)).sum
        = if n = mmap_page_count length then length else PGSIZE * n := by
    intro n
    induction n with
    | zero =>
      intro _
      simp only [List.range_zero, List.map_nil, List.sum_nil, mmap_page_count, PGSIZE]
      split <;> omega
    | succ n ih =>
      intro hn
      rw [List.range_succ, List.map_append, List.sum_append, ih (by omega)]
      simp only [List.map_cons, List.map_nil, List.sum_cons, List.sum_nil, Nat.add_zero,
        mmap_read_bytes, mmap_page_count, PGSIZE] at *
      split_ifs <;> omega
  rw [key _ (Nat.le_refl _), if_pos rfl]

theorem create_spte_eq {uaddr : Nat} {ty : page_type} {k k1 : Kernel} {sp : spte}
    (h : create_spte uaddr ty k = Res.ok sp k1) :
    k1 = k ∧ sp =
      { file_page := { file := 0, offset := 0, read_bytes := 0, writable := false },
        mmap_page := { mmap_fd := 0, offset := 0, read_bytes := 0 },
        upage := pg_round_down uaddr, fte := none, swap_index := NOT_IN_SWAP_PARTITION,
        page_type := ty } := by
  unfold create_spte at h
  simp only [K.run_bind, K.seq_eq_ok, K.assert_eq_ok, K.pure_eq_ok] at h
  obtain ⟨_, _, ⟨_, rfl⟩, _, _, ⟨_, rfl⟩, rfl, rfl⟩ := h
  exact ⟨rfl, rfl⟩

theorem create_spte_returns {uaddr : Nat} (ty : page_type) (k : Kernel) (hne : uaddr ≠ 0)
    (hu : is_user_vaddr uaddr = true) (hb : USER_VADDR_BOTTOM ≤ uaddr) :
    create_spte uaddr ty k = Res.ok
      { file_page := { file := 0, offset := 0, read_bytes := 0, writable := false },
        mmap_page := { mmap_fd := 0, offset := 0, read_bytes := 0 },
        upage := pg_round_down uaddr, fte := none, swap_index := NOT_IN_SWAP_PARTITION,
        page_type := ty } k := by
  unfold create_spte
  simp only [K.run_bind, K.seq, hne, ne_eq, not_false_eq_true, decide_True, hu, Bool.and_self,
    K.run_assert_true, hb, K.run_pure]

/-- The check of the range found no entry: every page of the range is a user
page without an entry. -/
theorem mmap_range_taken_false (limit : Nat) : ∀ (fuel pg : Nat) (k k1 : Kernel),
    mmap_range_taken limit fuel pg k = Res.ok false k1 →
    ∀ i, pg + PGSIZE * i < limit →
      is_user_vaddr (pg + PGSIZE * i) = true ∧
      k.cur.sup_page_table (pg_round_down (pg + PGSIZE * i)) = none := by
  intro fuel
  induction fuel with
  | zero =>
    intro pg k k1 h
    simp [mmap_range_taken, K.no_fuel] at h
  | succ n ih =>
    intro pg k k1 h i hi
    unfold mmap_range_taken at h
    by_cases hlt : pg < limit
    · simp only [hlt, if_true, K.run_bind, K.seq_eq_ok] at h
      obtain ⟨r, k2, hget, h⟩ := h
      obtain ⟨hu, hr, rfl⟩ := page_get_spte_inv hget
      cases r with
      | some _ => simp [K.pure_eq_ok] at h
      | none =>
        cases i with
        | zero => exact ⟨hu, hr⟩
        | succ i =>
          have e : pg + PGSIZE * (i + 1) = pg + PGSIZE + PGSIZE * i := by
            simp only [PGSIZE]; omega
          rw [e] at hi ⊢
          exact ih _ _ _ h i hi
    · exfalso
      simp only [PGSIZE] at hi
      omega

/-- The check of a range of user pages without entries returns `false`. -/
theorem mmap_range_taken_free (limit : Nat) : ∀ (fuel pg : Nat) (k : Kernel),
    (∀ i, pg + PGSIZE * i < limit →
      is_user_vaddr (pg + PGSIZE * i) = true ∧
      k.cur.sup_page_table (pg_round_down (pg + PGSIZE * i)) = none) →
    (limit - pg + PGSIZE - 1) / PGSIZE + 1 ≤ fuel →
    mmap_range_taken limit fuel pg k = Res.ok false k := by
  intro fuel
  induction fuel with
  | zero => intro pg k _ h; exact absurd h (Nat.not_succ_le_zero _)
  | succ n ih =>
    intro pg k hfree hfuel
    unfold mmap_range_taken
    by_cases hlt : pg < limit
    · obtain ⟨hu, hr⟩ := hfree 0 (by simpa using hlt)
      simp only [Nat.mul_zero, Nat.add_zero] at hu hr
      simp only [hlt, if_true, K.run_bind, K.seq, page_get_spte_eq k hu, hr]
      refine ih _ _ ?_ ?_
      · intro i hi
        have e : pg + PGSIZE + PGSIZE * i = pg + PGSIZE * (i + 1) := by
          simp only [PGSIZE]; omega
        rw [e] at hi ⊢
        exact hfree (i + 1) hi
      · simp only [PGSIZE] at *
        omega
    · simp only [hlt, if_false, K.run_pure]

end Pintos

namespace Pintos

theorem region_extend_nil (mapid : Int) (m : mmap_fd) : region_extend mapid [] m = m := by
  unfold region_extend
  split
  · cases m; simp
  · rfl

theorem region_extend_append (mapid : Int) (a b : List Nat) (m : mmap_fd) :
    region_extend mapid b (region_extend mapid a m) = region_extend mapid (a ++ b) m := by
  unfold region_extend
  by_cases h : m.mapid = mapid
  · simp [h]
  · simp [h]

theorem mmap_keys_from_done (upage length j : Nat) (h : ¬ PGSIZE * j < length) :
    mmap_keys_from upage length j = [] := by
  have : mmap_page_count length - j = 0 := by
    have := (mmap_key_lt_iff length j).not.mp h
    omega
  simp [mmap_keys_from, this]

theorem mmap_keys_from_step (upage length j : Nat) (h : PGSIZE * j < length) :
    mmap_keys_from upage length j = mmap_key upage j :: mmap_keys_from upage length (j + 1) := by
  have hj := (mmap_key_lt_iff length j).mp h
  have e : mmap_page_count length - j = (mmap_page_count length - (j + 1)) + 1 := by omega
  unfold mmap_keys_from
  rw [e, List.range'_succ]
  rfl

/-- The entry the loop stores for page `j` is the one the specification
describes. -/
theorem mmap_entry_code (upage : Nat) (mapid : Int) (length j : Nat) (hal : pg_ofs upage = 0)
    (hj : PGSIZE * j < length) (hlen : length < 0xFFFF * PGSIZE) :
    ({ file_page := { file := 0, offset := 0, read_bytes := 0, writable := false },
       mmap_page :=
        { mmap_fd := mapid, offset := to_uint16 (PGSIZE * j / PGSIZE),
          read_bytes := to_uint16 (if decide (PGSIZE * j = length - length % PGSIZE) = true
            then length % PGSIZE else PGSIZE) },
       upage := pg_round_down (upage + PGSIZE * j), fte := none,
       swap_index := NOT_IN_SWAP_PARTITION, page_type := page_type.MMAP } : spte)
      = mmap_entry upage mapid length j := by
  rw [mmap_read_bytes_code length j hj hlen, mmap_offset_code length j hj hlen]
  have := pg_round_down_mmap_key hal j
  unfold mmap_key at this
  rw [this]
  rfl

/-- What the loop of `page_add_mmap_lazily` has done when it returns `true`,
started at page `j`: the pages from `j` on had no entry and now have the
entries of the specification, no other entry is touched, and the pages have
joined the list of the region. -/
theorem mmap_add_loop_true (upage : Nat) (mapid : Int) (length : Nat) (hal : pg_ofs upage = 0)
    (hlen : length < 0xFFFF * PGSIZE) :
    ∀ (fuel j : Nat) (k k1 : Kernel),
      mmap_add_loop upage mapid length (length - length % PGSIZE) fuel (PGSIZE * j) k
        = Res.ok true k1 →
      k1.current = k.current ∧
      (∀ i, j ≤ i → i < mmap_page_count length →
        k.cur.sup_page_table (mmap_key upage i) = none ∧
        k1.cur.sup_page_table (mmap_key upage i) = some (mmap_entry upage mapid length i)) ∧
      (∀ p, (∀ i, j ≤ i → i < mmap_page_count length → p ≠ mmap_key upage i) →
        k1.cur.sup_page_table p = k.cur.sup_page_table p) ∧
      k1.cur.mmap_list
        = k.cur.mmap_list.map (region_extend mapid (mmap_keys_from upage length j)) := by
  intro fuel
  induction fuel with
  | zero =>
    intro j k k1 h
    simp [mmap_add_loop, K.no_fuel] at h
  | succ n ih =>
    intro j k k1 h
    unfold mmap_add_loop at h
    by_cases hlt : PGSIZE * j < length
    · simp only [hlt, if_true, K.run_bind, K.seq_eq_ok, K.modify_eq_ok] at h
      obtain ⟨sp, k2, hsp, _, k3, hmod, r, k4, hins, h⟩ := h
      obtain ⟨rfl, rfl⟩ := create_spte_eq hsp
      simp only [mmap_entry_code upage mapid length j hal hlt hlen] at hins
      have hup : (mmap_entry upage mapid length j).upage = mmap_key upage j := rfl
      have hrd : pg_round_down (upage + PGSIZE * j) = mmap_key upage j :=
        pg_round_down_mmap_key hal j
      have h3cur : k3.current = k2.current := by rw [← hmod]; rfl
      have h3spt : k3.cur.sup_page_table = k2.cur.sup_page_table := by
        rw [← hmod]; simp [Kernel.cur]
      have h3mm : k3.cur.mmap_list
          = k2.cur.mmap_list.map (region_extend mapid [mmap_key upage j]) := by
        rw [← hmod]
        simp only [Kernel.cur, Kernel.with_thread_current, Kernel.with_thread_threads_same, hrd]
        rfl
      rcases hash_insert_inv hins with ⟨old, _, rfl, _⟩ | ⟨hfree, rfl, hk4⟩
      · simp only [K.run_bind, K.seq_eq_ok, K.pure_eq_ok] at h
        obtain ⟨_, _, _, hc, _⟩ := h
        cases hc
      · simp only at h
        have e : PGSIZE * j + PGSIZE = PGSIZE * (j + 1) := by simp only [PGSIZE]; omega
        rw [e] at h
        obtain ⟨hcur, hent, hoth, hmm⟩ := ih _ _ _ h
        rw [hup, h3spt] at hfree
        have h4cur : k4.current = k2.current := by rw [hk4]; exact h3cur
        have h4spt : ∀ p, k4.cur.sup_page_table p
            = if p = mmap_key upage j then some (mmap_entry upage mapid length j)
              else k2.cur.sup_page_table p := by
          intro p
          rw [← h3spt, hk4]
          simp [Kernel.cur, hup]
        have h4mm : k4.cur.mmap_list
            = k2.cur.mmap_list.map (region_extend mapid [mmap_key upage j]) := by
          rw [← h3mm, hk4]
          simp [Kernel.cur]
        refine ⟨by rw [hcur, h4cur], ?_, ?_, ?_⟩
        · intro i hji hin
          by_cases hij : i = j
          · subst hij
            refine ⟨hfree, ?_⟩
            rw [hoth _ (fun i2 h2 _ e2 => by have := mmap_key_inj e2; omega), h4spt, if_pos rfl]
          · obtain ⟨hn, hs⟩ := hent i (by omega) hin
            refine ⟨?_, hs⟩
            rw [h4spt, if_neg (fun e2 => hij (mmap_key_inj e2))] at hn
            exact hn
        · intro p hp
          rw [hoth p (fun i hji hin => hp i (by omega) hin), h4spt,
            if_neg (hp j (Nat.le_refl _) ((mmap_key_lt_iff length j).mp hlt))]
        · rw [hmm, h4mm, mmap_keys_from_step upage length j hlt, List.map_map]
          apply List.map_congr_left
          intro m _
          exact region_extend_append mapid [mmap_key upage j] _ m
    · simp only [hlt, if_false, K.pure_eq_ok] at h
      obtain ⟨_, rfl⟩ := h
      have hno : ∀ i, j ≤ i → ¬ i < mmap_page_count length := by
        intro i hji hin
        have := (mmap_key_lt_iff length i).mpr hin
        simp only [PGSIZE] at *
        have : 4096 * j ≤ 4096 * i := Nat.mul_le_mul_left _ hji
        omega
      refine ⟨rfl, fun i hji hin => absurd hin (hno i hji), fun _ _ => rfl, ?_⟩
      rw [mmap_keys_from_done upage length j hlt]
      have : region_extend mapid [] = id := funext (region_extend_nil mapid)
      rw [this, List.map_id]

end Pintos

namespace Pintos

/-- On user pages without entries the loop of `page_add_mmap_lazily` returns
`true`. -/
theorem mmap_add_loop_returns (upage : Nat) (mapid : Int) (length : Nat) (hal : pg_ofs upage = 0)
    (hbot : USER_VADDR_BOTTOM ≤ upage) (htop : upage + length ≤ PHYS_BASE) :
    ∀ (fuel j : Nat) (k : Kernel),
      (∀ i, j ≤ i → i < mmap_page_count length →
        k.cur.sup_page_table (mmap_key upage i) = none) →
      mmap_page_count length - j + 1 ≤ fuel →
      ∃ k1, mmap_add_loop upage mapid length (length - length % PGSIZE) fuel (PGSIZE * j) k
        = Res.ok true k1 := by
  intro fuel
  induction fuel with
  | zero => intro j k _ h; omega
  | succ n ih =>
    intro j k hfree hfuel
    unfold mmap_add_loop
    by_cases hlt : PGSIZE * j < length
    · have hj := (mmap_key_lt_iff length j).mp hlt
      have hne : upage + PGSIZE * j ≠ 0 := by
        simp only [USER_VADDR_BOTTOM] at hbot; omega
      have hu : is_user_vaddr (upage + PGSIZE * j) = true := by
        simp only [is_user_vaddr, decide_eq_true_eq]; omega
      have hb : USER_VADDR_BOTTOM ≤ upage + PGSIZE * j := by omega
      have hrd : pg_round_down (upage + PGSIZE * j) = mmap_key upage j :=
        pg_round_down_mmap_key hal j
      have hfree0 : (k.threads k.current).sup_page_table (mmap_key upage j) = none :=
        hfree j (Nat.le_refl _) hj
      have e : PGSIZE * j + PGSIZE = PGSIZE * (j + 1) := by simp only [PGSIZE]; omega
      simp only [hlt, if_true, K.run_bind, K.seq, create_spte_returns page_type.MMAP k hne hu hb,
        K.run_modify, hash_insert, K.run_get, Kernel.cur, Kernel.with_thread_current,
        Kernel.with_thread_threads_same, hrd, hfree0, K.run_pure, e]
      apply ih
      · intro i hji hin
        simp only [Kernel.cur, Kernel.with_thread_current, Kernel.with_thread_threads_same]
        rw [if_neg (fun e2 => by have := mmap_key_inj e2; omega)]
        exact hfree i (by omega) hin
      · omega
    · simp only [hlt, if_false, K.run_pure]
      exact ⟨_, rfl⟩

end Pintos

namespace Pintos

/-- After the check of the range found it free of entries, the loop of
`page_add_mmap_lazily` never meets an existing entry: it does not return
`false`, and the call of `munmap_pages` in that branch is not reached. -/
theorem mmap_add_loop_not_false (upage : Nat) (mapid : Int) (length lpo : Nat)
    (hal : pg_ofs upage = 0) :
    ∀ (fuel j : Nat) (k k1 : Kernel),
      (∀ i, j ≤ i → i < mmap_page_count length →
        k.cur.sup_page_table (mmap_key upage i) = none) →
      mmap_add_loop upage mapid length lpo fuel (PGSIZE * j) k ≠ Res.ok false k1 := by
  intro fuel
  induction fuel with
  | zero =>
    intro j k k1 _ h
    simp [mmap_add_loop, K.no_fuel] at h
  | succ n ih =>
    intro j k k1 hfree h
    unfold mmap_add_loop at h
    by_cases hlt : PGSIZE * j < length
    · have hj := (mmap_key_lt_iff length j).mp hlt
      simp only [hlt, if_true, K.run_bind, K.seq_eq_ok, K.modify_eq_ok] at h
      obtain ⟨sp, k2, hsp, _, k3, hmod, r, k4, hins, h⟩ := h
      obtain ⟨rfl, rfl⟩ := create_spte_eq hsp
      have hrd : pg_round_down (upage + PGSIZE * j) = mmap_key upage j :=
        pg_round_down_mmap_key hal j
      have h3spt : k3.cur.sup_page_table = k2.cur.sup_page_table := by
        rw [← hmod]; simp [Kernel.cur]
      rcases hash_insert_inv hins with ⟨old, hold, _, _⟩ | ⟨_, rfl, hk4⟩
      · simp only [hrd, h3spt] at hold
        rw [hfree j (Nat.le_refl _) hj] at hold
        cases hold
      · simp only at h
        have e : PGSIZE * j + PGSIZE = PGSIZE * (j + 1) := by simp only [PGSIZE]; omega
        rw [e] at h
        refine ih _ _ _ ?_ h
        intro i hji hin
        have h4 : k4.cur.sup_page_table (mmap_key upage i)
            = k3.cur.sup_page_table (mmap_key upage i) := by
          rw [hk4]
          simp only [Kernel.cur, Kernel.with_thread_current, Kernel.with_thread_threads_same, hrd]
          rw [if_neg (fun e2 => by have := mmap_key_inj e2; omega)]
        rw [h4, h3spt]
        exact hfree i (by omega) hin
    · simp only [hlt, if_false, K.pure_eq_ok] at h
      cases h.1

end Pintos

namespace Pintos

/-! ## `page_add_mmap_lazily` as a whole -/

/-- The pages of the range the check loop of `page_add_mmap_lazily` visits are
the pages of the region. -/
theorem mmap_range_iff (upage length i : Nat) :
    upage + PGSIZE * i < upage + length ↔ i < mmap_page_count length := by
  rw [← mmap_key_lt_iff]
  omega

/-- What a call of `page_add_mmap_lazily` that returned a `mapid` has done. -/
theorem page_add_mmap_lazily_ok {upage file length : Nat} {k k1 : Kernel} {m : Int}
    (h : page_add_mmap_lazily upage file length k = Res.ok m k1) (hm : m ≠ MAP_FAILED) :
    pg_ofs upage = 0 ∧ length < 0xFFFF * PGSIZE ∧
    m = next_mapid k.cur.mmap_list ∧ k1.current = k.current ∧
    (∀ i, i < mmap_page_count length →
      k.cur.sup_page_table (mmap_key upage i) = none ∧
      k1.cur.sup_page_table (mmap_key upage i) = some (mmap_entry upage m length i)) ∧
    (∀ p, (∀ i, i < mmap_page_count length → p ≠ mmap_key upage i) →
      k1.cur.sup_page_table p = k.cur.sup_page_table p) ∧
    k1.cur.mmap_list =
      ((k.cur.mmap_list ++ [({ mapid := m, file := 0, spte_list := [] } : mmap_fd)]).map
        (region_extend m (mmap_keys_from upage length 0))).map
        (fun (r : mmap_fd) => if r.mapid = m then { r with file := file } else r) := by
  unfold page_add_mmap_lazily at h
  simp only [K.run_bind, K.seq_eq_ok, K.assert_eq_ok, Bool.and_eq_true, decide_eq_true_eq] at h
  obtain ⟨_, _, ⟨⟨⟨_, _⟩, hal⟩, rfl⟩, _, _, ⟨_, rfl⟩, _, _, ⟨hlen, rfl⟩, taken, k2, htaken, h⟩ := h
  have := mmap_range_taken_inv _ _ _ _ _ _ htaken
  subst this
  cases taken with
  | true =>
    simp only [if_true, K.pure_eq_ok] at h
    exact absurd h.1.symm hm
  | false =>
    simp only [Bool.false_eq_true, if_false, K.run_bind, K.seq_eq_ok, K.get_eq_ok,
      K.modify_eq_ok] at h
    obtain ⟨_, _, ⟨rfl, rfl⟩, _, k3, hmod, ok, k4, hloop, h⟩ := h
    cases ok with
    | false =>
      simp only [Bool.false_eq_true, if_false, K.pure_eq_ok] at h
      exact absurd h.1.symm hm
    | true =>
      simp only [if_true, K.run_bind, K.seq_eq_ok, K.modify_eq_ok, K.pure_eq_ok] at h
      obtain ⟨_, k5, hfile, hres, rfl⟩ := h
      have hm2 : m = next_mapid k2.cur.mmap_list := hres.symm
      have e0 : (0 : Nat) = PGSIZE * 0 := rfl
      rw [hres, e0] at hloop
      obtain ⟨hcur, hent, hoth, hmm⟩ := mmap_add_loop_true upage m length hal hlen _ _ _ _ hloop
      have h3cur : k3.current = k2.current := by rw [← hmod]; rfl
      have h3spt : k3.cur.sup_page_table = k2.cur.sup_page_table := by
        rw [← hmod]; simp [Kernel.cur]
      have h3mm : k3.cur.mmap_list
          = k2.cur.mmap_list ++ [({ mapid := m, file := 0, spte_list := [] } : mmap_fd)] := by
        rw [← hmod, ← hres]; simp [Kernel.cur]
      have h5cur : k5.current = k4.current := by rw [← hfile]; rfl
      have h5spt : k5.cur.sup_page_table = k4.cur.sup_page_table := by
        rw [← hfile]; simp [Kernel.cur]
      have h5mm : k5.cur.mmap_list
          = k4.cur.mmap_list.map
              (fun (r : mmap_fd) => if r.mapid = m then { r with file := file } else r) := by
        rw [← hfile, ← hres]; simp [Kernel.cur]
      refine ⟨hal, hlen, hm2, by rw [h5cur, hcur, h3cur], ?_, ?_, ?_⟩
      · intro i hi
        obtain ⟨h1, h2⟩ := hent i (Nat.zero_le _) hi
        rw [h3spt] at h1
        exact ⟨h1, by rw [h5spt]; exact h2⟩
      · intro p hp
        rw [h5spt, hoth p (fun i _ hi => hp i hi), h3spt]
      · rw [h5mm, hmm, h3mm]

/-- A call of `page_add_mmap_lazily` for a page-aligned range of user pages
without entries returns the next `mapid`: its loop returns `true`, and the
call returns in the state the loop left, the file recorded in the region. -/
theorem page_add_mmap_lazily_returns {upage file length : Nat} (k : Kernel)
    (hal : pg_ofs upage = 0) (hbot : USER_VADDR_BOTTOM ≤ upage)
    (htop : upage + length ≤ PHYS_BASE) (hfile : file ≠ 0) (hpos : 0 < length)
    (hlen : length < 0xFFFF * PGSIZE)
    (hfree : ∀ i, i < mmap_page_count length → k.cur.sup_page_table (mmap_key upage i) = none) :
    ∃ k4,
      mmap_add_loop upage (next_mapid k.cur.mmap_list) length (length - length % PGSIZE)
        (length / PGSIZE + 2) (PGSIZE * 0)
        (k.with_thread k.current (fun t =>
          { t with mmap_list := t.mmap_list ++
            [{ mapid := next_mapid k.cur.mmap_list, file := 0, spte_list := [] }] }))
        = Res.ok true k4 ∧
      page_add_mmap_lazily upage file length k
        = Res.ok (next_mapid k.cur.mmap_list)
            (k4.with_thread k4.current (fun t =>
              { t with mmap_list := t.mmap_list.map (fun m =>
                  if m.mapid = next_mapid k.cur.mmap_list then { m with file := file }
                  else m) })) := by
  have hne : upage ≠ 0 := by simp only [USER_VADDR_BOTTOM] at hbot; omega
  have hu : is_user_vaddr upage = true := by
    simp only [is_user_vaddr, decide_eq_true_eq]; omega
  have htaken : mmap_range_taken (upage + length) (length / PGSIZE + 2) upage k
      = Res.ok false k := by
    refine mmap_range_taken_free _ _ _ _ ?_ ?_
    · intro i hi
      have hi2 := (mmap_range_iff upage length i).mp hi
      refine ⟨?_, ?_⟩
      · simp only [is_user_vaddr, decide_eq_true_eq]; omega
      · have := pg_round_down_mmap_key hal i
        unfold mmap_key at this
        rw [this]
        exact hfree i hi2
    · simp only [PGSIZE]; omega
  obtain ⟨k4, hloop⟩ := mmap_add_loop_returns upage (next_mapid k.cur.mmap_list) length hal hbot
    htop (length / PGSIZE + 2) 0
    (k.with_thread k.current (fun t =>
      { t with mmap_list := t.mmap_list ++
        [{ mapid := next_mapid k.cur.mmap_list, file := 0, spte_list := [] }] }))
    (by
      intro i _ hi
      simp only [Kernel.cur, Kernel.with_thread_current, Kernel.with_thread_threads_same]
      exact hfree i hi)
    (by simp only [mmap_page_count, PGSIZE]; omega)
  refine ⟨k4, hloop, ?_⟩
  have e0 : PGSIZE * 0 = 0 := rfl
  rw [e0] at hloop
  unfold page_add_mmap_lazily
  simp only [K.run_bind, K.seq, hne, ne_eq, not_false_eq_true, decide_True, hu, hal, Bool.and_self,
    K.run_assert_true, hfile, hlen, htaken, Bool.false_eq_true, if_false, K.run_get,
    K.run_modify]
  cases hgl : k.cur.mmap_list.getLast? with
  | none =>
    simp only [next_mapid, hgl] at hloop ⊢
    simp only [hloop, if_true, K.run_bind, K.seq, K.run_modify, K.run_pure]
  | some d =>
    simp only [next_mapid, hgl] at hloop ⊢
    simp only [hloop, if_true, K.run_bind, K.seq, K.run_modify, K.run_pure]

end Pintos

namespace Pintos

/-- In `page_add_mmap_lazily` the loop that adds the entries runs after the
check returned `false` and the region was appended to the list; there it
never returns `false`. -/
theorem mmap_add_loop_after_check {upage length : Nat} (hal : pg_ofs upage = 0) (mapid : Int)
    (lpo fuel0 fuel : Nat) {k k1 kx : Kernel} (f : thread → thread)
    (hf : ∀ t, (f t).sup_page_table = t.sup_page_table)
    (htaken : mmap_range_taken (upage + length) fuel0 upage k = Res.ok false k1) :
    mmap_add_loop upage mapid length lpo fuel (PGSIZE * 0) (k.with_thread k.current f)
      ≠ Res.ok false kx := by
  refine mmap_add_loop_not_false upage mapid length lpo hal _ _ _ _ ?_
  intro i _ hi
  have h1 := (mmap_range_taken_false _ _ _ _ _ htaken i
    ((mmap_range_iff upage length i).mpr hi)).2
  have h2 := pg_round_down_mmap_key hal i
  unfold mmap_key at h2
  rw [h2] at h1
  simp only [Kernel.cur, Kernel.with_thread_current, Kernel.with_thread_threads_same, hf]
  exact h1

end Pintos

namespace Pintos

/-- C12 (amended): for a page-aligned `upage` with `USER_BOTTOM ≤ upage` and
`upage + length ≤ PHYS_BASE`, a file handle that is not null, and a `length`
with `0 < length < 0xFFFF * 4096` such that no page of the range has an entry,
`page_add_mmap_lazily` returns the next `mapid`, having registered exactly
`ceil (length / 4096)` entries: page `i` has the `MMAP` entry at
`upage + 4096 * i` with file offset `i` pages, `read_bytes` 4096 for every
page but the last and `length mod 4096` (4096 when that is zero) for the last;
no other entry is changed; the `read_bytes` add up to `length`. -/
theorem page_add_mmap_lazily_registers (k : Kernel) (upage file length : Nat)
    (hal : pg_ofs upage = 0) (hbot : USER_VADDR_BOTTOM ≤ upage)
    (htop : upage + length ≤ PHYS_BASE) (hfile : file ≠ 0) (hpos : 0 < length)
    (hlen : length < 0xFFFF * PGSIZE)
    (hfree : ∀ i, i < mmap_page_count length → k.cur.sup_page_table (mmap_key upage i) = none) :
    ∃ k1, page_add_mmap_lazily upage file length k
        = Res.ok (next_mapid k.cur.mmap_list) k1 ∧
      (∀ i, i < mmap_page_count length →
        k1.cur.sup_page_table (mmap_key upage i)
          = some (mmap_entry upage (next_mapid k.cur.mmap_list) length i)) ∧
      (∀ p, (∀ i, i < mmap_page_count length → p ≠ mmap_key upage i) →
        k1.cur.sup_page_table p = k.cur.sup_page_table p) ∧
      ((List.range (mmap_page_count length)).map (mmap_read_bytes length)).sum = length := by
  obtain ⟨k4, hloop, hrun⟩ :=
    @page_add_mmap_lazily_returns upage file length k hal hbot htop hfile hpos hlen hfree
  obtain ⟨_, hent, hoth, _⟩ :=
    mmap_add_loop_true upage (next_mapid k.cur.mmap_list) length hal hlen _ _ _ _ hloop
  refine ⟨_, hrun, ?_, ?_, mmap_read_bytes_sum length⟩
  · intro i hi
    have := (hent i (Nat.zero_le _) hi).2
    simpa [Kernel.cur] using this
  · intro p hp
    have := hoth p (fun i _ hi => hp i hi)
    simpa [Kernel.cur] using this

/-- C12 (amended) for the 5000 bytes of scenario 5: two entries, at 0x10000000
with `read_bytes` 4096 and at 0x10001000 with `read_bytes` 904. -/
theorem page_add_mmap_lazily_registers_witness :
    mmap_page_count 5000 = 2 ∧
    mmap_entry 0x10000000 0 5000 0
      = mmap_spte 0x10000000 0 0 4096 none NOT_IN_SWAP_PARTITION ∧
    mmap_entry 0x10000000 0 5000 1
      = mmap_spte 0x10001000 0 1 904 none NOT_IN_SWAP_PARTITION ∧
    ∃ k1, page_add_mmap_lazily 0x10000000 5 5000 (Kernel.boot 64 [])
        = Res.ok (next_mapid (Kernel.boot 64 []).cur.mmap_list) k1 ∧
      (∀ i, i < mmap_page_count 5000 →
        k1.cur.sup_page_table (mmap_key 0x10000000 i)
          = some (mmap_entry 0x10000000 (next_mapid (Kernel.boot 64 []).cur.mmap_list)
              5000 i)) ∧
      (∀ p, (∀ i, i < mmap_page_count 5000 → p ≠ mmap_key 0x10000000 i) →
        k1.cur.sup_page_table p = (Kernel.boot 64 []).cur.sup_page_table p) ∧
      ((List.range (mmap_page_count 5000)).map (mmap_read_bytes 5000)).sum = 5000 :=
  ⟨by decide, by decide, by decide,
    page_add_mmap_lazily_registers (Kernel.boot 64 []) 0x10000000 5 5000 (by decide)
      (by decide) (by decide) (by decide) (by decide) (by decide) (fun _ _ => rfl)⟩

/-- C12, counterexample to the claim for every page-aligned user address: the
last user page, 0xbffff000, is page-aligned, 5000 is a length within the
bounds, and no page has an entry; the range reaches `PHYS_BASE`, and
`page_add_mmap_lazily` stops the kernel at the assertion of `page_get_spte`
instead of registering two entries. -/
theorem page_add_mmap_lazily_panics_at_phys_base :
    pg_ofs 0xbffff000 = 0 ∧ is_user_vaddr 0xbffff000 = true ∧
    USER_VADDR_BOTTOM ≤ 0xbffff000 ∧ 0 < 5000 ∧ 5000 < 0xFFFF * PGSIZE ∧
    (∀ p, (Kernel.boot 64 []).cur.sup_page_table p = none) ∧
    page_add_mmap_lazily 0xbffff000 5 5000 (Kernel.boot 64 [])
      = Res.panic panic_site.page_get_spte_vaddr :=
  ⟨by decide, by decide, by decide, by decide, by decide, fun _ => rfl, rfl⟩

end Pintos

namespace Pintos

/-! ## Loading pages changes frames and slots only -/

theorem same_pages_refl (k : Kernel) : same_pages k k :=
  ⟨rfl, fun _ _ => rfl, fun _ => rfl⟩

theorem same_pages_trans {a b c : Kernel} (h1 : same_pages a b) (h2 : same_pages b c) :
    same_pages a c :=
  ⟨h2.current.trans h1.current, fun t q => (h2.static t q).trans (h1.static t q),
    fun t => (h2.mmap_list t).trans (h1.mmap_list t)⟩

theorem same_pages_of_threads {k k1 : Kernel} (hc : k1.current = k.current)
    (ht : k1.threads = k.threads) : same_pages k k1 :=
  ⟨hc, fun _ _ => by rw [ht], fun _ => by rw [ht]⟩

/-- A state that differs in one entry, of which the description is kept. -/
theorem same_pages_of_entry {k k1 : Kernel} {ow key : Nat} {P P1 : spte}
    (hc : k1.current = k.current) (hP : (k.threads ow).sup_page_table key = some P)
    (hspt : ∀ tid q, (k1.threads tid).sup_page_table q =
      if tid = ow ∧ q = key then some P1 else (k.threads tid).sup_page_table q)
    (hs : spte_static P1 = spte_static P)
    (hmm : ∀ tid, (k1.threads tid).mmap_list = (k.threads tid).mmap_list) :
    same_pages k k1 := by
  refine ⟨hc, ?_, hmm⟩
  intro tid q
  rw [hspt]
  split
  · rename_i h
    obtain ⟨rfl, rfl⟩ := h
    rw [hP]
    simp [hs]
  · rfl

theorem evict_same_pages {fuel : Nat} {k k1 : Kernel} (h : vm_ok k)
    (he : evict fuel k = Res.ok () k1) : same_pages k k1 := by
  obtain ⟨kp, ow, key, P, s16, _, hP, _, hspt, _, _, _, _, hcur, hmm⟩ := evict_view h he
  exact same_pages_of_entry hcur hP hspt rfl hmm

theorem frame_alloc_page_same {fuel : Nat} {flags : palloc_flags} :
    ∀ (n : Nat) (k ka : Kernel) (kp : Nat), vm_ok k →
      frame_alloc_page fuel flags n k = Res.ok kp ka → same_pages k ka := by
  intro n
  induction n with
  | zero => intro k ka kp _ h; simp [frame_alloc_page] at h
  | succ n ih =>
    intro k ka kp hk h
    unfold frame_alloc_page at h
    simp only [K.run_bind, K.seq_eq_ok] at h
    obtain ⟨r, k1, hp, h⟩ := h
    rcases palloc_get_page_inv hp with ⟨rfl, rfl, _⟩ | ⟨p, rest, rfl, hpool, rfl⟩
    · simp only [K.run_bind, K.seq_eq_ok] at h
      obtain ⟨_, k2, hev, h⟩ := h
      exact same_pages_trans (evict_same_pages hk hev) (ih _ _ _ (evict_vm_ok hk hev) h)
    · simp only [K.pure_eq_ok] at h
      obtain ⟨rfl, rfl⟩ := h
      exact same_pages_of_threads rfl rfl

theorem frame_install_same (f : fte) (u : Nat) (w : Bool) (k : Kernel) :
    same_pages k (frame_install f u w k) := by
  refine ⟨frame_install_current f u w k, ?_, frame_install_mmap_list f u w k⟩
  intro tid q
  by_cases h : tid = f.owner
  · subst h
    rw [frame_install_spt]
    split
    · cases (k.threads f.owner).sup_page_table q <;> rfl
    · rfl
  · rw [frame_install_threads_other _ _ _ _ _ h]

theorem frame_alloc_same {fuel key : Nat} {flags : palloc_flags} {w : Bool} {k kc : Kernel}
    {f : fte} (hk : vm_ok k) (h : frame_alloc fuel key flags w k = Res.ok f kc) :
    same_pages k kc := by
  obtain ⟨sp, ka, _, _, _, hpage, _, _, rfl⟩ := frame_alloc_inv h
  exact same_pages_trans (frame_alloc_page_same _ _ _ _ hk hpage) (frame_install_same _ _ _ _)

theorem load_zero_page_same {fuel key : Nat} {P : spte} {k k1 : Kernel} {u : Unit}
    (hk : vm_ok k) (h : load_zero_page fuel key P k = Res.ok u k1) : same_pages k k1 := by
  unfold load_zero_page at h
  simp only [K.run_bind, K.seq_eq_ok, K.assert_eq_ok] at h
  obtain ⟨_, _, ⟨_, rfl⟩, f, kc, hfa, hun⟩ := h
  obtain ⟨h, rfl⟩ := frame_unpin_addr_inv hun
  exact same_pages_trans (frame_alloc_same hk hfa) (same_pages_of_threads rfl rfl)

theorem load_file_page_same {fuel key : Nat} {P : spte} {k k1 : Kernel} {u : Unit}
    (hk : vm_ok k) (h : load_file_page fuel key P k = Res.ok u k1) : same_pages k k1 := by
  unfold load_file_page at h
  simp only [K.run_bind, K.seq_eq_ok, K.assert_eq_ok, zero_tail, K.modify_eq_ok] at h
  obtain ⟨f, kc, hfa, n, kd, hrd, _, _, ⟨_, rfl⟩, rfl⟩ := h
  obtain ⟨t, r, rfl⟩ := file_read_at_inv hrd
  exact same_pages_trans (frame_alloc_same hk hfa) (same_pages_of_threads rfl rfl)

theorem load_mmap_page_same {fuel key : Nat} {P : spte} {k k1 : Kernel} {u : Unit}
    (hk : vm_ok k) (h : load_mmap_page fuel key P k = Res.ok u k1) : same_pages k k1 := by
  unfold load_mmap_page at h
  simp only [K.run_bind, K.seq_eq_ok, K.get_eq_ok] at h
  obtain ⟨f, kc, hfa, _, _, ⟨rfl, rfl⟩, h⟩ := h
  cases hm : List.find? (fun (m : mmap_fd) => decide (m.mapid = P.mmap_page.mmap_fd))
      kc.cur.mmap_list with
  | none => simp [hm] at h
  | some m =>
    simp only [hm, K.run_bind, K.seq_eq_ok, K.assert_eq_ok, zero_tail, K.modify_eq_ok] at h
    obtain ⟨n, kd, hrd, _, _, ⟨_, rfl⟩, rfl⟩ := h
    obtain ⟨t, r, rfl⟩ := file_read_at_inv hrd
    exact same_pages_trans (frame_alloc_same hk hfa) (same_pages_of_threads rfl rfl)

theorem load_swap_page_same {fuel key : Nat} {P : spte} {k k1 : Kernel} {u : Unit}
    (hk : vm_ok k) (h : load_swap_page fuel key P k = Res.ok u k1) : same_pages k k1 := by
  unfold load_swap_page at h
  simp only [K.run_bind, K.seq_eq_ok, K.assert_eq_ok, K.modify_eq_ok] at h
  obtain ⟨b, k0, hts, _, _, ⟨_, rfl⟩, f, kc, hfa, _, kd, hin, rfl⟩ := h
  obtain ⟨_, _, rfl⟩ := swap_test_index_inv hts
  obtain ⟨_, page, _, rfl⟩ := swap_in_inv hin
  · refine same_pages_trans (frame_alloc_same hk hfa) ⟨rfl, ?_, ?_⟩
    · intro tid q
      simp only [Kernel.with_thread_threads, Kernel.with_swap_table_threads,
        Kernel.with_ram_threads]
      split
      · rename_i e
        rw [thread.with_spte_sup_page_table]
        split
        · rw [e]
          cases (kc.threads _).sup_page_table q <;> rfl
        · rw [e]
      · rfl
    · intro tid
      simp only [Kernel.with_thread_threads, Kernel.with_swap_table_threads,
        Kernel.with_ram_threads]
      split
      · rename_i e
        rw [thread.with_spte_mmap_list, e]
      · rfl

/-- `page_load` changes frames and slots only. -/
theorem page_load_same {fuel uaddr : Nat} {k k1 : Kernel} {b : Bool} (hk : vm_ok k)
    (h : page_load fuel uaddr k = Res.ok b k1) : same_pages k k1 := by
  unfold page_load at h
  simp only [K.run_bind, K.seq_eq_ok] at h
  obtain ⟨r, k0, hg, h⟩ := h
  obtain ⟨_, rfl, rfl⟩ := page_get_spte_inv hg
  cases hr : k.cur.sup_page_table (pg_round_down uaddr) with
  | none =>
    simp only [hr, K.pure_eq_ok] at h
    obtain ⟨_, rfl⟩ := h
    exact same_pages_refl _
  | some P =>
    simp only [hr] at h
    by_cases hs : P.swap_index = NOT_IN_SWAP_PARTITION
    · simp only [hs, ne_eq, not_true_eq_false, if_false] at h
      cases hty : P.page_type <;>
        simp only [hty, K.run_bind, K.seq_eq_ok, K.pure_eq_ok] at h <;>
        obtain ⟨_, k2, h, _, rfl⟩ := h
      · exact load_file_page_same hk h
      · exact load_mmap_page_same hk h
      · exact load_zero_page_same hk h
    · simp only [hs, ne_eq, not_false_eq_true, if_true, K.run_bind, K.seq_eq_ok,
        K.pure_eq_ok] at h
      obtain ⟨_, k2, h, _, rfl⟩ := h
      exact load_swap_page_same hk h

/-- Loads keep the invariant and change frames and slots only. -/
theorem loads_same {k k2 : Kernel} (hk : vm_ok k) (h : loads k k2) :
    vm_ok k2 ∧ same_pages k k2 := by
  induction h with
  | refl => exact ⟨hk, same_pages_refl _⟩
  | step fuel uaddr b _ hnr hload ih =>
    obtain ⟨h1, h2⟩ := ih
    exact ⟨page_load_vm_ok h1 hnr hload, same_pages_trans h2 (page_load_same h1 hload)⟩

end Pintos

namespace Pintos

/-! ## `munmap_pages` returns -/

/-- `frame_free` of the frame of an entry of the running process returns. -/
theorem frame_free_returns {hnd key : Nat} {P : spte} {k : Kernel} (hk : vm_ok k)
    (hP : k.cur.sup_page_table key = some P) (hPf : P.fte = some hnd)
    (hmm : P.page_type = page_type.MMAP →
      (k.cur.mmap_list.find? (fun m => decide (m.mapid = P.mmap_page.mmap_fd))).isSome = true) :
    ∃ k1, frame_free hnd k = Res.ok () k1 := by
  have hfr := hk.link_spt _ _ _ _ hP hPf
  obtain ⟨f0, hf0, hk0⟩ := List.mem_map.mp hfr
  cases hfind : k.frame_table.find? (fun f => decide (f.kpage = hnd)) with
  | none =>
    have := List.find?_eq_none.mp hfind f0 hf0
    have e : f0.kpage = hnd := by
      have := congrArg Prod.fst hk0
      exact this
    simp [e] at this
  | some f =>
    have hfk : f.kpage = hnd := by
      have := List.find?_some hfind
      simpa using this
    have hfm : f ∈ k.frame_table := List.mem_of_find?_eq_some hfind
    have h2 := frame_key_mem hfm
    rw [hfk] at h2
    obtain ⟨ho, hs⟩ := vm_ok_frame_of_kpage hk hfr h2
    have hsp : (k.threads f.owner).sup_page_table f.spte = some P := by
      rw [ho, hs]; exact hP
    obtain ⟨kw, hw⟩ := write_back_returns f.owner P
      (k.with_frame_table (k.frame_table.filter (fun g => decide (g.kpage ≠ hnd))))
      (by rw [hPf]; rfl)
      (by
        intro hty
        rw [ho]
        exact hmm hty)
    unfold frame_free
    simp only [K.run_bind, K.seq, K.run_get, hfind, hsp, K.run_modify, palloc_free_page]
    by_cases hd : pagedir_is_dirty k.cur.pagedir P.upage = true
    · simp only [hd, if_true, hw]
      exact ⟨_, rfl⟩
    · simp only [hd, Bool.false_eq_true, if_false, K.run_pure]
      exact ⟨_, rfl⟩

/-- The loop of `munmap_pages` over pages that all have entries returns; the
entries of those pages are gone and no other entry is touched. -/
theorem munmap_loop_returns : ∀ (keys : List Nat) (k : Kernel), vm_ok k → keys.Nodup →
    (∀ key, key ∈ keys → ∃ P, k.cur.sup_page_table key = some P ∧
      (P.page_type = page_type.MMAP →
        (k.cur.mmap_list.find? (fun m => decide (m.mapid = P.mmap_page.mmap_fd))).isSome
          = true)) →
    ∃ k1, munmap_loop keys k = Res.ok () k1 ∧ k1.current = k.current ∧
      (∀ p, k1.cur.sup_page_table p = if p ∈ keys then none else k.cur.sup_page_table p) ∧
      k1.cur.mmap_list = k.cur.mmap_list := by
  intro keys
  induction keys with
  | nil =>
    intro k _ _ _
    exact ⟨k, rfl, rfl, fun p => by simp, rfl⟩
  | cons key rest ih =>
    intro k hk hnd hent
    obtain ⟨P, hP, hPm⟩ := hent key (List.mem_cons_self _ _)
    obtain ⟨hup, _⟩ := hk.keys _ _ _ hP
    have hnd2 := List.nodup_cons.mp hnd
    -- the state after the frame, if any, is released
    have hstep : ∃ k2, ((P.fte = none ∧ k2 = k) ∨
          (∃ h, P.fte = some h ∧ frame_free h k = Res.ok () k2)) ∧
        vm_ok k2 ∧ k2.current = k.current ∧
        (∀ p, p ≠ key → k2.cur.sup_page_table p = k.cur.sup_page_table p) ∧
        (∀ Q, k2.cur.sup_page_table key = some Q → Q.fte = none) ∧
        k2.cur.mmap_list = k.cur.mmap_list := by
      cases hPf : P.fte with
      | none =>
        refine ⟨k, Or.inl ⟨rfl, rfl⟩, hk, rfl, fun _ _ => rfl, ?_, rfl⟩
        intro Q hQ
        rw [hP] at hQ
        cases hQ
        exact hPf
      | some h =>
        obtain ⟨k2, hfree⟩ := frame_free_returns hk hP hPf hPm
        have hown : ∀ f, f ∈ k.frame_table → f.kpage = h → f.owner = k.current := by
          intro f hf e
          have := frame_key_mem hf
          rw [e] at this
          exact (vm_ok_frame_of_kpage hk (hk.link_spt _ _ _ _ hP hPf) this).1
        obtain ⟨key2, P2, hf2, _, _, hspt, _, _, _, _, hcur, hmm⟩ :=
          frame_free_view hk hown hfree
        have hkey : key2 = key :=
          (vm_ok_frame_of_kpage hk (hk.link_spt _ _ _ _ hP hPf) hf2).2
        subst hkey
        refine ⟨k2, Or.inr ⟨h, rfl, hfree⟩, frame_free_vm_ok hk hown hfree, hcur, ?_, ?_, ?_⟩
        · intro p hp
          unfold Kernel.cur
          rw [hcur, hspt, if_neg (fun hh => hp hh.2)]
        · intro Q hQ
          unfold Kernel.cur at hQ
          rw [hcur, hspt, if_pos ⟨rfl, rfl⟩] at hQ
          cases hQ
          rfl
        · unfold Kernel.cur
          rw [hcur, hmm]
    obtain ⟨k2, hrun, hk2, hcur2, hoth2, hnof, hmm2⟩ := hstep
    have hk3 : vm_ok (k2.with_thread k2.current (fun t =>
        { t with sup_page_table := fun p => if p = key then none else t.sup_page_table p })) :=
      vm_ok_delete hk2 key k2.swap_table hnof (Or.inl rfl)
    obtain ⟨k1, hloop, hcur1, hspt1, hmm1⟩ := ih _ hk3 hnd2.2 (by
      intro key1 hk1
      obtain ⟨Q, hQ, hQm⟩ := hent key1 (List.mem_cons_of_mem _ hk1)
      have hne : key1 ≠ key := fun e => hnd2.1 (e ▸ hk1)
      refine ⟨Q, ?_, ?_⟩
      · simp only [Kernel.cur, Kernel.with_thread_current, Kernel.with_thread_threads_same,
          Kernel.with_swap_table_current, Kernel.with_swap_table_threads, if_neg hne]
        have := hoth2 key1 hne
        unfold Kernel.cur at this
        rw [this]
        exact hQ
      · intro hty
        have := hQm hty
        simp only [Kernel.cur, Kernel.with_thread_current, Kernel.with_thread_threads_same,
          Kernel.with_swap_table_current, Kernel.with_swap_table_threads]
        unfold Kernel.cur at hmm2 this
        rw [hmm2]
        exact this)
    refine ⟨k1, ?_, ?_, ?_, ?_⟩
    · unfold munmap_loop
      rcases hrun with ⟨hPf, rfl⟩ | ⟨h, hPf, hfree⟩
      · simp only [K.run_bind, K.seq, K.run_get, hP, hPf, K.run_pure, hash_delete,
          K.run_modify, hup]
        exact hloop
      · simp only [K.run_bind, K.seq, K.run_get, hP, hPf, hfree, hash_delete,
          K.run_modify, hup]
        exact hloop
    · rw [hcur1]; exact hcur2
    · intro p
      rw [hspt1]
      by_cases hp : p ∈ rest
      · simp [hp]
      · simp only [hp, if_false, List.mem_cons, or_false]
        simp only [Kernel.cur, Kernel.with_thread_current, Kernel.with_thread_threads_same,
          Kernel.with_swap_table_current, Kernel.with_swap_table_threads]
        by_cases hpk : p = key
        · simp [hpk]
        · simp only [hpk, if_false]
          exact hoth2 p hpk
    · rw [hmm1]
      simp only [Kernel.cur, Kernel.with_thread_current, Kernel.with_thread_threads_same,
        Kernel.with_swap_table_current, Kernel.with_swap_table_threads]
      exact hmm2

end Pintos

namespace Pintos

/-! ## `page_add_mmap_lazily` followed by `munmap_pages` -/

/-- Along a list of regions with increasing `mapid`s, the next `mapid` is
above all. -/
theorem next_mapid_fresh (l : List mmap_fd) (h : mapids_increasing l) :
    ∀ r, r ∈ l → r.mapid < next_mapid l := by
  intro r hr
  rcases List.eq_nil_or_concat l with rfl | ⟨L, b, rfl⟩
  · cases hr
  · rw [List.concat_eq_append] at h hr ⊢
    have hn : next_mapid (L ++ [b]) = b.mapid + 1 := by
      simp [next_mapid]
    rw [hn]
    unfold mapids_increasing at h
    rw [List.pairwise_append] at h
    rcases List.mem_append.mp hr with h1 | h1
    · have := h.2.2 r h1 b (List.mem_singleton_self b)
      omega
    · rw [List.mem_singleton.mp h1]
      omega

/-- Appending the region with the next `mapid` keeps the `mapid`s increasing. -/
theorem mapids_increasing_append (l : List mmap_fd) (h : mapids_increasing l) (file : Nat)
    (keys : List Nat) :
    mapids_increasing (l ++ [{ mapid := next_mapid l, file := file, spte_list := keys }]) := by
  unfold mapids_increasing
  rw [List.pairwise_append]
  refine ⟨h, List.pairwise_singleton _ _, ?_⟩
  intro a ha b hb
  rw [List.mem_singleton.mp hb]
  exact next_mapid_fresh l h a ha

/-- Removing a region keeps the `mapid`s increasing. -/
theorem mapids_increasing_erase (l : List mmap_fd) (h : mapids_increasing l) (r : mmap_fd) :
    mapids_increasing (l.erase r) :=
  List.Pairwise.sublist (List.erase_sublist r l) h

/-- The list of regions after `page_add_mmap_lazily`, when no older region has
the new `mapid`. -/
theorem mmap_list_after_add (L : List mmap_fd) (m : Int) (file : Nat) (keys : List Nat)
    (hno : ∀ r, r ∈ L → r.mapid ≠ m) :
    ((L ++ [({ mapid := m, file := 0, spte_list := [] } : mmap_fd)]).map
        (region_extend m keys)).map
        (fun (r : mmap_fd) => if r.mapid = m then { r with file := file } else r)
      = L ++ [{ mapid := m, file := file, spte_list := keys }] := by
  rw [List.map_append, List.map_append]
  congr 1
  · rw [List.map_map]
    conv_rhs => rw [← List.map_id L]
    apply List.map_congr_left
    intro r hr
    simp [region_extend, hno r hr]
  · simp [region_extend]

theorem find_region (L : List mmap_fd) (R : mmap_fd) (hno : ∀ r, r ∈ L → r.mapid ≠ R.mapid) :
    (L ++ [R]).find? (fun m => decide (m.mapid = R.mapid)) = some R := by
  rw [List.find?_append]
  have : L.find? (fun m => decide (m.mapid = R.mapid)) = none := by
    rw [List.find?_eq_none]
    intro x hx
    simpa using hno x hx
  rw [this]
  simp

theorem erase_region (L : List mmap_fd) (R : mmap_fd) (hno : ∀ r, r ∈ L → r.mapid ≠ R.mapid) :
    (L ++ [R]).erase R = L := by
  have hnot : R ∉ L := fun h => hno R h rfl
  rw [List.erase_append_right _ hnot]
  simp

theorem mem_mmap_keys (upage length p : Nat) :
    p ∈ mmap_keys_from upage length 0 ↔ ∃ i, i < mmap_page_count length ∧ p = mmap_key upage i := by
  unfold mmap_keys_from
  simp only [List.mem_map, List.mem_range'_1, Nat.sub_zero, Nat.zero_add, Nat.zero_le, true_and]
  constructor
  · rintro ⟨i, hi, rfl⟩; exact ⟨i, hi, rfl⟩
  · rintro ⟨i, hi, rfl⟩; exact ⟨i, hi, rfl⟩

theorem mmap_keys_nodup (upage length : Nat) : (mmap_keys_from upage length 0).Nodup := by
  unfold mmap_keys_from
  refine List.Nodup.map ?_ (List.nodup_range' _ _)
  intro a b h
  exact mmap_key_inj h

/-- `munmap_pages` of the last region of the list, whose `mapid` no older
region has. -/
theorem munmap_pages_last {k k3 : Kernel} {L : List mmap_fd} {R : mmap_fd}
    (hl : k.cur.mmap_list = L ++ [R]) (hno : ∀ r, r ∈ L → r.mapid ≠ R.mapid)
    (hloop : munmap_loop R.spte_list k = Res.ok () k3) :
    munmap_pages R.mapid k = Res.ok ()
      (k3.with_thread k3.current (fun t => { t with mmap_list := t.mmap_list.erase R })) := by
  unfold munmap_pages
  simp only [K.run_bind, K.seq, K.run_get, hl, find_region L R hno, hloop, K.run_modify]

end Pintos

namespace Pintos

/-- C11: in a state that satisfies the invariant of the memory subsystem and
whose regions have increasing `mapid`s, let `page_add_mmap_lazily (upage,
file, length)` return the `mapid` `m`, and let zero or more pages (of the
region or not) be loaded afterwards.  Then `munmap_pages (m)` returns, the
list of regions is exactly the list before the call of
`page_add_mmap_lazily`, and the table has entries for exactly the pages it
had before, each with the description it had (`munmap_pages` removes the
entries of the region and touches no other entry); when no page was loaded in
between, the table is equal to the table before. -/
theorem mmap_then_munmap_restores (k0 k1 k2 : Kernel) (upage file length : Nat) (m : Int)
    (hk : vm_ok k0) (hids : mapids_increasing k0.cur.mmap_list)
    (hadd : page_add_mmap_lazily upage file length k0 = Res.ok m k1) (hm : m ≠ MAP_FAILED)
    (hloads : loads k1 k2) :
    ∃ k3, munmap_pages m k2 = Res.ok () k3 ∧
      k3.current = k0.current ∧
      k3.cur.mmap_list = k0.cur.mmap_list ∧
      (∀ p, (k3.cur.sup_page_table p).map spte_static
        = (k0.cur.sup_page_table p).map spte_static) ∧
      (∀ p, k3.cur.sup_page_table p
        = if p ∈ mmap_keys_from upage length 0 then none else k2.cur.sup_page_table p) ∧
      (k2 = k1 → k3.cur.sup_page_table = k0.cur.sup_page_table) := by
  obtain ⟨hal, hlen, hm2, hcur1, hent, hoth, hmm1⟩ := page_add_mmap_lazily_ok hadd hm
  have hno : ∀ r, r ∈ k0.cur.mmap_list → r.mapid ≠ m := by
    intro r hr
    have := next_mapid_fresh _ hids r hr
    rw [hm2]
    omega
  rw [mmap_list_after_add _ m file _ hno] at hmm1
  obtain ⟨R, hR⟩ : ∃ R : mmap_fd,
      R = { mapid := m, file := file, spte_list := mmap_keys_from upage length 0 } := ⟨_, rfl⟩
  have hRm : R.mapid = m := by rw [hR]
  have hRl : R.spte_list = mmap_keys_from upage length 0 := by rw [hR]
  rw [← hR] at hmm1
  have hnoR : ∀ r, r ∈ k0.cur.mmap_list → r.mapid ≠ R.mapid := by rw [hRm]; exact hno
  have hk1 : vm_ok k1 := page_add_mmap_lazily_vm_ok hk hadd
  obtain ⟨hk2, hsame⟩ := loads_same hk1 hloads
  have hcur2 : k2.current = k1.current := hsame.current
  have hmm2 : k2.cur.mmap_list = k0.cur.mmap_list ++ [R] := by
    rw [← hmm1]
    unfold Kernel.cur
    rw [hcur2]
    exact hsame.mmap_list _
  have hst2 : ∀ p, (k2.cur.sup_page_table p).map spte_static
      = (k1.cur.sup_page_table p).map spte_static := by
    intro p
    unfold Kernel.cur
    rw [hcur2]
    exact hsame.static _ _
  have hkeys0 : ∀ p, p ∈ mmap_keys_from upage length 0 → k0.cur.sup_page_table p = none := by
    intro p hp
    obtain ⟨i, hi, rfl⟩ := (mem_mmap_keys upage length p).mp hp
    exact (hent i hi).1
  have hother : ∀ p, p ∉ mmap_keys_from upage length 0 →
      k1.cur.sup_page_table p = k0.cur.sup_page_table p := by
    intro p hp
    refine hoth p (fun i hi e => hp ?_)
    exact (mem_mmap_keys upage length p).mpr ⟨i, hi, e⟩
  obtain ⟨k3, hloop, hcur3, hspt3, hmm3⟩ := munmap_loop_returns
    (mmap_keys_from upage length 0) k2 hk2 (mmap_keys_nodup upage length) (by
      intro key hkey
      obtain ⟨i, hi, rfl⟩ := (mem_mmap_keys upage length key).mp hkey
      have h1 := hst2 (mmap_key upage i)
      rw [(hent i hi).2] at h1
      cases hP : k2.cur.sup_page_table (mmap_key upage i) with
      | none => rw [hP] at h1; cases h1
      | some P =>
        rw [hP] at h1
        simp only [Option.map_some', Option.some.injEq, spte_static, Prod.mk.injEq] at h1
        refine ⟨P, rfl, fun _ => ?_⟩
        rw [hmm2, h1.2.1]
        have := find_region k0.cur.mmap_list R hnoR
        rw [hRm] at this
        simp only [mmap_entry, mmap_spte]
        rw [this]
        rfl)
  rw [← hRl] at hloop
  have hrun := munmap_pages_last hmm2 hnoR hloop
  rw [hRm] at hrun
  have hfin : ∀ p, (k3.with_thread k3.current (fun t =>
      { t with mmap_list := t.mmap_list.erase R })).cur.sup_page_table p
      = if p ∈ mmap_keys_from upage length 0 then none else k2.cur.sup_page_table p := by
    intro p
    rw [← hspt3]
    simp [Kernel.cur]
  refine ⟨_, hrun, ?_, ?_, ?_, hfin, ?_⟩
  · show k3.current = k0.current
    rw [hcur3, hcur2, hcur1]
  · have : (k3.with_thread k3.current (fun t =>
        { t with mmap_list := t.mmap_list.erase R })).cur.mmap_list
        = k3.cur.mmap_list.erase R := by
      simp [Kernel.cur]
    rw [this, hmm3, hmm2]
    exact erase_region _ _ hnoR
  · intro p
    rw [hfin]
    by_cases hp : p ∈ mmap_keys_from upage length 0
    · rw [if_pos hp, hkeys0 p hp]
    · rw [if_neg hp, hst2, hother p hp]
  · intro e
    funext p
    rw [hfin, e]
    by_cases hp : p ∈ mmap_keys_from upage length 0
    · rw [if_pos hp, hkeys0 p hp]
    · rw [if_neg hp, hother p hp]

end Pintos

namespace Pintos

theorem mmap_boot_example_vm_ok : vm_ok mmap_boot_example :=
  vm_ok_same_view (vm_ok_boot 64 [100] (by decide)) (fun _ => rfl) (fun _ _ => rfl)
    (List.Perm.refl _) rfl rfl

theorem mmap_added_example_second :
    mmap_added_example.cur.sup_page_table (pg_round_down 0x10001000)
      = some (mmap_spte 0x10001000 0 1 904 none NOT_IN_SWAP_PARTITION) := rfl

/-- C11 on a machine just booted: a file of 5000 bytes is mapped at
0x10000000 as region 0, its second page is loaded into frame 100, and
`munmap_pages (0)` brings back the empty table and the empty list of
regions. -/
theorem mmap_then_munmap_restores_witness :
    vm_ok mmap_boot_example ∧ mapids_increasing mmap_boot_example.cur.mmap_list ∧
    page_add_mmap_lazily 0x10000000 5 5000 mmap_boot_example = Res.ok 0 mmap_added_example ∧
    (0 : Int) ≠ MAP_FAILED ∧ loads mmap_added_example mmap_loaded_example ∧
    (mmap_loaded_example.cur.sup_page_table 0x10001000).map (fun P => P.fte)
      = some (some 100) ∧
    ∃ k3, munmap_pages 0 mmap_loaded_example = Res.ok () k3 ∧
      k3.current = mmap_boot_example.current ∧
      k3.cur.mmap_list = mmap_boot_example.cur.mmap_list ∧
      (∀ p, (k3.cur.sup_page_table p).map spte_static
        = (mmap_boot_example.cur.sup_page_table p).map spte_static) ∧
      (∀ p, k3.cur.sup_page_table p
        = if p ∈ mmap_keys_from 0x10000000 5000 0 then none
          else mmap_loaded_example.cur.sup_page_table p) ∧
      (mmap_loaded_example = mmap_added_example →
        k3.cur.sup_page_table = mmap_boot_example.cur.sup_page_table) :=
  have hl : loads mmap_added_example mmap_loaded_example :=
    loads.step 3 0x10001000 true (loads.refl _)
      (fun P hP => (Option.some.inj (mmap_added_example_second.symm.trans hP)) ▸ rfl) rfl
  ⟨mmap_boot_example_vm_ok, List.Pairwise.nil, rfl, by decide, hl, rfl,
    mmap_then_munmap_restores mmap_boot_example mmap_added_example mmap_loaded_example
      0x10000000 5 5000 0 mmap_boot_example_vm_ok List.Pairwise.nil rfl (by decide) hl⟩

end Pintos

namespace Pintos

/-! ## Reloading a swapped page when the frame has to be obtained by `evict` -/

/-- With a slot below 65535 free, the lowest free slot is below 65535. -/
theorem bitmap_scan_below {b : bitmap}
    (hfree : ∃ i, i < b.bit_cnt ∧ i < 65535 ∧ b.bits i = false) :
    bitmap_scan b 0 SWAP_FREE < 65535 := by
  obtain ⟨i, hi, hi2, hb⟩ := hfree
  obtain ⟨_, _, hall⟩ := bitmap_scan_free b ⟨i, hi, hb⟩
  by_contra hge
  have hge2 : ¬ bitmap_scan b 0 false < 65535 := hge
  have h6 := hall i (by omega)
  rw [hb] at h6
  cases h6

/-- `evict` returns when its scan can run, some frame is unpinned and a slot
is free. -/
theorem evict_returns {fuel : Nat} {k : Kernel} (hk : scan_ready k)
    (hfree : ∃ i, i < k.swap_table.bit_cnt ∧ i < 65535 ∧ k.swap_table.bits i = false)
    (hun : ∃ g, g ∈ k.frame_table ∧ g.pinned = false)
    (hfuel : 3 * k.frame_table.length ≤ fuel) :
    ∃ k1, evict fuel k = Res.ok () k1 := by
  obtain ⟨g, hg, hp⟩ := hun
  obtain ⟨pre, post, hft⟩ := List.append_of_mem hg
  have hlen : k.frame_table.length = pre.length + 1 + post.length := by
    rw [hft]; simp only [List.length_append, List.length_cons]; omega
  have hrank : frame_rank k g * (pre.length + 1 + post.length)
      ≤ 2 * (pre.length + 1 + post.length) := Nat.mul_le_mul_right _ (frame_rank_le k g)
  obtain ⟨f, sp, km, hloop⟩ := evict_loop_returns fuel k pre post g hk hft hp (by omega)
  have hc := evict_loop_chosen fuel k km f sp hloop
  have hfree1 : ∃ i, i < km.swap_table.bit_cnt ∧ i < 65535 ∧ km.swap_table.bits i = false := by
    rw [hc.rel.swap_table]; exact hfree
  obtain ⟨s, ks, hso⟩ := swap_out_returns f.kpage km
    (by obtain ⟨i, h1, _, h3⟩ := hfree1; exact ⟨i, h1, h3⟩)
    (by have := bitmap_scan_below hfree1; omega)
  have hne : (!k.frame_table.isEmpty) = true := by
    rw [hft]
    cases pre <;> rfl
  unfold evict
  simp only [K.run_bind]
  rw [K.seq_ok (K.run_get k)]
  simp only [hne, K.run_bind]
  rw [K.seq_ok (K.run_assert_true _ _)]
  simp only [K.run_bind]
  rw [K.seq_ok hloop]
  simp only [K.run_bind]
  rw [K.seq_ok hso]
  exact ⟨_, rfl⟩

/-- The loop of `frame_alloc` on an empty pool: one `evict`, whose released
frame is taken at once. -/
theorem frame_alloc_page_evicts {fuel kp : Nat} {rest : List Nat} {flags : palloc_flags}
    {k ke : Kernel} (hpool : k.user_pool = []) (hev : evict fuel k = Res.ok () ke)
    (hpe : ke.user_pool = kp :: rest) (hfuel : 1 ≤ fuel) :
    frame_alloc_page fuel flags (fuel + 1) k = Res.ok kp
      ((ke.with_user_pool rest).with_ram
        (fun q => if q = kp ∧ flags.zero = true then fun _ => 0 else ke.ram q)) := by
  obtain ⟨n, rfl⟩ : ∃ n, fuel = n + 1 := ⟨fuel - 1, by omega⟩
  have h1 : palloc_get_page flags k = Res.ok none k := by
    unfold palloc_get_page
    rw [hpool]
  have h2 : palloc_get_page flags ke = Res.ok (some kp)
      ((ke.with_user_pool rest).with_ram
        (fun q => if q = kp ∧ flags.zero = true then fun _ => 0 else ke.ram q)) := by
    unfold palloc_get_page
    rw [hpe]
  unfold frame_alloc_page
  simp only [K.run_bind]
  rw [K.seq_ok h1]
  simp only [K.run_bind]
  rw [K.seq_ok hev]
  unfold frame_alloc_page
  simp only [K.run_bind]
  rw [K.seq_ok h2]
  rfl

/-- What `evict` leaves alone of a page of the running process that is
swapped out to slot `s0`: its entry, that it is not mapped, the mark of the
slot and the sectors of the slot.  The frame it releases heads the pool. -/
theorem evict_keeps_swapped {fuel key s0 : Nat} {k ke : Kernel} {E : spte}
    (hk : scan_ready k) (hr : swap_reachable k.swap_table)
    (hfree : ∃ i, i < k.swap_table.bit_cnt ∧ k.swap_table.bits i = false)
    (hE : k.cur.sup_page_table key = some E) (hEf : E.fte = none)
    (hpd : (k.threads k.current).pagedir key = none)
    (hbit : k.swap_table.bits s0 = true)
    (hev : evict fuel k = Res.ok () ke) :
    ke.current = k.current ∧
      (ke.threads k.current).sup_page_table key = some E ∧
      (ke.threads k.current).pagedir key = none ∧
      ke.swap_table.bit_cnt = k.swap_table.bit_cnt ∧
      ke.swap_table.bits s0 = true ∧
      (∀ m j, m < FRAME_SECTORS → j < BLOCK_SECTOR_SIZE →
        ke.swap_block.data (s0 * FRAME_SECTORS + m) j
          = k.swap_block.data (s0 * FRAME_SECTORS + m) j) ∧
      ∃ kp, ke.user_pool = kp :: k.user_pool := by
  obtain ⟨f, sp, km, s, ks, _, hloop, hswap, rfl⟩ := evict_inv hev
  have hc := evict_loop_chosen fuel k km f sp hloop
  have hfree1 : ∃ i, i < km.swap_table.bit_cnt ∧ km.swap_table.bits i = false := by
    rw [hc.rel.swap_table]; exact hfree
  have hr1 : swap_reachable km.swap_table := by rw [hc.rel.swap_table]; exact hr
  obtain ⟨hs, hsl, hsb, b, hl, rfl⟩ := swap_out_free_inv hr1 hfree1 hswap
  have hfmem : f ∈ k.frame_table := hc.perm.mem_iff.mpr (List.mem_cons_self _ _)
  have hfs : sp.fte.isSome = true := by
    obtain ⟨sp0, hsp0, _, _, hfsome, _⟩ := hk.linked f hfmem
    rw [hc.entry] at hsp0
    cases hsp0
    exact hfsome
  have hEk : (k.threads k.current).sup_page_table key = some E := hE
  -- the victim is not the swapped page
  have hdiff : ¬ (f.owner = k.current ∧ f.spte = key) := by
    rintro ⟨ho, hsk⟩
    have := hc.entry
    rw [ho, hsk, hEk] at this
    cases this
    rw [hEf] at hfs
    cases hfs
  have hs0 : s0 < 65535 := (hr s0 hbit).1
  have hne : s0 ≠ s := by
    intro e
    rw [e, ← hc.rel.swap_table, hsb] at hbit
    cases hbit
  have hkmpd : (km.threads k.current).pagedir key = none := by
    have := hc.rel.pd_kpage k.current key
    rw [hpd] at this
    simpa using this
  refine ⟨?_, ?_, ?_, ?_, ?_, ?_, ⟨f.kpage, ?_⟩⟩
  · rw [evict_release_current]
    exact hc.rel.current
  · by_cases ho : k.current = f.owner
    · rw [ho, evict_release_spt]
      have hk2 : key ≠ f.spte := fun e => hdiff ⟨ho.symm, e.symm⟩
      rw [if_neg hk2]
      simp only [Kernel.with_swap_block_threads, Kernel.with_swap_table_threads]
      rw [hc.rel.spt, ← ho]
      exact hEk
    · rw [evict_release_threads_other _ _ _ _ _ ho]
      simp only [Kernel.with_swap_block_threads, Kernel.with_swap_table_threads]
      rw [hc.rel.spt]
      exact hEk
  · by_cases ho : k.current = f.owner
    · rw [ho, evict_release_pagedir]
      simp only [Kernel.with_swap_block_threads, Kernel.with_swap_table_threads]
      unfold pagedir_clear_page
      split
      · rfl
      · rw [← ho]; exact hkmpd
    · rw [evict_release_threads_other _ _ _ _ _ ho]
      simp only [Kernel.with_swap_block_threads, Kernel.with_swap_table_threads]
      exact hkmpd
  · rw [evict_release_swap_table]
    simp only [Kernel.with_swap_block_swap_table, Kernel.with_swap_table_bit_cnt]
    rw [hc.rel.swap_table]
  · rw [evict_release_swap_table]
    simp only [Kernel.with_swap_block_swap_table, Kernel.with_swap_table_bits]
    rw [hc.rel.swap_table]
    simp [bitmap_set, hbit]
  · intro m j hm hj
    have hdata : (evict_release f sp s
        ((km.with_swap_table (bitmap_set km.swap_table s true)).with_swap_block b)).swap_block.data
        = b.data := rfl
    rw [hdata, swap_out_loop_other _ _ _ _ _ _ _ _ hl
      (by unfold to_uint32; exact Nat.mod_lt _ (by norm_num)), hc.rel.swap_block]
    intro m2 hm2
    simp only [FRAME_SECTORS, PGSIZE, to_uint32] at *
    omega
  · rw [evict_release_user_pool]
    simp only [Kernel.with_swap_block_user_pool, Kernel.with_swap_table_user_pool]
    rw [hc.rel.user_pool]

end Pintos

namespace Pintos

/-- What the reload of a page from slot `s` yields when the slot holds what
`swap_out` wrote there: the bytes of the page that was written. -/
theorem reload_reads_back {page other q : Nat → Byte} {blk b bx : block} {s i : Nat}
    (hs : s < 65535) (hi : i < PGSIZE)
    (hout : swap_out_loop page PGSIZE 0 (to_uint32 (s * FRAME_SECTORS)) blk = some b)
    (hin : swap_in_loop bx PGSIZE 0 (to_uint32 (s * FRAME_SECTORS)) other = some q)
    (hsame : ∀ m j, m < FRAME_SECTORS → j < BLOCK_SECTOR_SIZE →
      bx.data (s * FRAME_SECTORS + m) j = b.data (s * FRAME_SECTORS + m) j) :
    q i = page i := by
  refine swap_loops_round_trip page other q blk b bx _ i
    (by unfold to_uint32; exact Nat.mod_lt _ (by norm_num)) hi hout hin ?_
  intro m j hm hj
  have e : (to_uint32 (s * FRAME_SECTORS) + m) % 4294967296 = s * FRAME_SECTORS + m := by
    simp only [to_uint32, FRAME_SECTORS]
    omega
  rw [e]
  exact hsame m j hm hj

/-- C3: for a page of any kind, on a swap device with a free slot (and, as in
every state reached from `swap_init`, no slot from 65535 on in use): if
`evict` chooses the page `P` of the running process, backed by frame `f`, and
returns in state `k1`, then the entry `E` of the page records a slot that is
marked used and no frame, and in `k1` and in every later state `kx` in which
the page is still swapped out to that slot and a frame can be obtained (from
the free pool, or by another `evict`), whatever the frames hold by then,
`page_load` on the address of the page returns `true` in a state where the
page is resident again (the entry points to a frame and the page directory
maps the page to it), the frame holds the bytes the frame of the page held
before the eviction, the entry records no slot, and the slot it occupied is
free.  With a frame in the free pool the page is loaded into the first. -/
theorem evict_then_page_load_round_trip (fuel fuel2 : Nat) (k km k1 : Kernel) (f : fte) (P : spte)
    (hkeys : spt_keys_ok k) (hreach : swap_reachable k.swap_table)
    (hfree : ∃ i, i < k.swap_table.bit_cnt ∧ k.swap_table.bits i = false)
    (hchoose : evict_loop fuel k = Res.ok (f, P) km) (hown : f.owner = k.current)
    (hu : is_user_vaddr P.upage = true)
    (he : evict fuel k = Res.ok () k1) :
    ∃ E, k1.cur.sup_page_table P.upage = some E ∧ E.fte = none ∧
      E.swap_index ≠ NOT_IN_SWAP_PARTITION ∧ k1.swap_table.bits E.swap_index = true ∧
      swapped_still P.upage E.swap_index k1 k1 ∧ frame_obtainable fuel2 k1 ∧
      ∀ kx, swapped_still P.upage E.swap_index k1 kx → frame_obtainable fuel2 kx →
        ∃ kp k2, page_load fuel2 P.upage kx = Res.ok true k2 ∧
          k2.cur.sup_page_table P.upage
            = some { P with fte := some kp, swap_index := NOT_IN_SWAP_PARTITION } ∧
          pd_kpage k2 k2.current P.upage = some kp ∧
          (∀ i, i < PGSIZE → k2.ram kp i = k.ram f.kpage i) ∧
          k2.swap_table.bits E.swap_index = false ∧
          ∀ p rest, kx.user_pool = p :: rest → kp = p := by
  have hc := evict_loop_chosen fuel k km f P hchoose
  obtain ⟨f1, sp1, km1, s, ks, _, hloop1, hswap, hk1⟩ := evict_inv he
  rw [hchoose] at hloop1
  cases hloop1
  obtain ⟨hup, hkey⟩ := hkeys _ _ _ hc.entry
  have hreach1 : swap_reachable km.swap_table := by rw [hc.rel.swap_table]; exact hreach
  have hfree1 : ∃ i, i < km.swap_table.bit_cnt ∧ km.swap_table.bits i = false := by
    rw [hc.rel.swap_table]; exact hfree
  obtain ⟨hs, hsl, hsb, b, hl, hks⟩ := swap_out_free_inv hreach1 hfree1 hswap
  have e16 : to_uint16 s = s := by unfold to_uint16; omega
  have hcur : km.current = k.current := hc.rel.current
  have hne : P.upage ≠ 0 := hc.upage_ne
  have hkeyP : pg_round_down P.upage = P.upage := by rw [hup]; exact hkey
  have hsne : s ≠ NOT_IN_SWAP_PARTITION := by
    simp only [NOT_IN_SWAP_PARTITION]; omega
  have hk1cur : k1.current = f.owner := by
    rw [hk1, evict_release_current, hks, hown]
    exact hcur
  have hP1 : k1.cur.sup_page_table P.upage = some { P with swap_index := s, fte := none } := by
    unfold Kernel.cur
    rw [hk1cur, hk1, evict_release_spt, if_pos hup, hks]
    simp only [Kernel.with_swap_block_threads, Kernel.with_swap_table_threads]
    have hent : (k.threads f.owner).sup_page_table P.upage = some P := by
      rw [hup]; exact hc.entry
    rw [hc.rel.spt, hent, e16]
    rfl
  have hpd : (k1.threads k1.current).pagedir P.upage = none := by
    rw [hk1cur, hk1, evict_release_pagedir]
    unfold pagedir_clear_page
    rw [hkeyP, if_pos rfl]
  have hcnt1 : k1.swap_table.bit_cnt = km.swap_table.bit_cnt := by
    rw [hk1, evict_release_swap_table, hks]
    rfl
  have hbit1 : k1.swap_table.bits s = true := by
    rw [hk1, evict_release_swap_table, hks]
    show (bitmap_set km.swap_table s true).bits s = true
    simp [bitmap_set]
  have hdata1 : k1.swap_block.data = b.data := by
    rw [hk1, hks]
    rfl
  have hpool1 : k1.user_pool = f.kpage :: km.user_pool := by
    rw [hk1, evict_release_user_pool, hks]
    rfl
  refine ⟨{ P with swap_index := s, fte := none }, hP1, rfl, hsne, hbit1,
    ⟨rfl, rfl, hpd, rfl, hbit1, fun _ _ _ _ => rfl⟩,
    Or.inl (by rw [hpool1]; exact List.cons_ne_nil _ _), ?_⟩
  intro kx hstill hob
  have hPx : kx.cur.sup_page_table P.upage = some { P with swap_index := s, fte := none } := by
    rw [hstill.entry]; exact hP1
  have hs2 : s < kx.swap_table.bit_cnt := by
    rw [hstill.slots, hcnt1]; exact hsl
  have hsect : ∀ m j, m < FRAME_SECTORS → j < BLOCK_SECTOR_SIZE →
      kx.swap_block.data (s * FRAME_SECTORS + m) j = b.data (s * FRAME_SECTORS + m) j := by
    intro m j hm hj
    rw [hstill.sectors m j hm hj, hdata1]
  cases hpx : kx.user_pool with
  | cons p rest =>
    obtain ⟨k2, hload, hcur2, hQ, hpd2, hram, hsw, _⟩ :=
      @page_load_swapped fuel2 P.upage p rest kx { P with swap_index := s, fte := none }
        hu hkeyP hne hPx rfl hsne hs2 hstill.used hpx hstill.unmapped
    refine ⟨p, k2, hload, hQ, ?_, ?_, ?_, ?_⟩
    · rw [hcur2]; exact hpd2
    · intro i hi
      rw [reload_reads_back hs hi hl hram hsect, hc.rel.ram]
    · rw [hsw]
      show (bitmap_set _ s false).bits s = false
      simp [bitmap_set]
    · intro p2 rest2 h2
      cases h2
      rfl
  | nil =>
    rcases hob with hne2 | ⟨hready, hrx, hfx, hux, hfuel⟩
    · exact absurd hpx hne2
    · obtain ⟨ke, hev⟩ := evict_returns hready hfx hux hfuel
      obtain ⟨hcure, hEe, hpde, hcnte, hbite, hsecte, kp, hpoole⟩ :=
        evict_keeps_swapped hready hrx
          (by obtain ⟨i, h1, _, h3⟩ := hfx; exact ⟨i, h1, h3⟩)
          hPx rfl hstill.unmapped hstill.used hev
      have hfuel1 : 1 ≤ fuel2 := by
        obtain ⟨g, hg, _⟩ := hux
        have : 0 < kx.frame_table.length := List.length_pos_of_mem hg
        omega
      have hpage := @frame_alloc_page_evicts fuel2 kp kx.user_pool PAL_USER kx ke hpx hev
        hpoole hfuel1
      obtain ⟨k2, hload, hcur2, hQ, hpd2, hram, hsw, _⟩ :=
        @page_load_of_page fuel2 P.upage kp kx _ { P with swap_index := s, fte := none }
          hu hkeyP hne hPx rfl hsne hs2 hstill.used hpage hcure hEe hpde hcnte
      refine ⟨kp, k2, hload, hQ, ?_, ?_, ?_, ?_⟩
      · rw [hcur2]; exact hpd2
      · intro i hi
        have hsect2 : ∀ m j, m < FRAME_SECTORS → j < BLOCK_SECTOR_SIZE →
            ke.swap_block.data (s * FRAME_SECTORS + m) j = b.data (s * FRAME_SECTORS + m) j := by
          intro m j hm hj
          rw [hsecte m j hm hj, hsect m j hm hj]
        rw [reload_reads_back hs hi hl hram hsect2, hc.rel.ram]
      · rw [hsw]
        show (bitmap_set _ s false).bits s = false
        simp [bitmap_set]
      · intro p2 rest2 h2
        cases h2

theorem written_pages_example_keys : spt_keys_ok written_pages_example := by
  intro tid key sp h
  simp only [written_pages_example, two_pages_example, Kernel.with_ram_threads,
    Kernel.with_frame_table_threads, Kernel.with_threads_threads] at h
  split at h
  · simp only [two_pages_thread] at h
    split at h
    · cases h; subst_vars; exact ⟨rfl, by decide⟩
    · split at h
      · cases h; subst_vars; exact ⟨rfl, by decide⟩
      · cases h
  · cases h

theorem reload_example_ready : scan_ready reload_example where
  keys := by
    intro tid key sp h
    simp only [reload_example, Kernel.with_ram_threads, Kernel.with_swap_table_threads,
      Kernel.with_swap_block_threads, Kernel.with_frame_table_threads,
      Kernel.with_threads_threads] at h
    split at h
    · simp only [thread.empty] at h
      split at h
      · cases h; subst_vars; exact ⟨rfl, by decide⟩
      · split at h
        · cases h; subst_vars; exact ⟨rfl, by decide⟩
        · split at h
          · cases h; subst_vars; exact ⟨rfl, by decide⟩
          · cases h
    · cases h
  distinct := by
    unfold frames_distinct reload_example
    simp
  linked := by
    intro g hg
    have hg2 : g = { pinned := false, kpage := 101, spte := 0x10001000, owner := 1 } ∨
        g = { pinned := false, kpage := 100, spte := 0x10002000, owner := 1 } := by
      simpa [reload_example] using hg
    rcases hg2 with rfl | rfl
    · exact ⟨_, rfl, by decide, rfl, rfl, fun h => by cases h⟩
    · exact ⟨_, rfl, by decide, rfl, rfl, fun h => by cases h⟩

/-- In `reload_example` the first page is swapped out to slot 0 as the
eviction in `written_pages_example` left it. -/
theorem reload_example_still :
    swapped_still 0x10000000 0
      ((evict 3 written_pages_example).state_or written_pages_example) reload_example :=
  ⟨rfl, rfl, rfl, rfl, rfl, fun _ _ _ _ => rfl⟩

/-- In `reload_example` a frame is obtained by evicting: the pool is empty,
both frames are unpinned, and slot 1 is free. -/
theorem reload_example_obtainable : frame_obtainable 6 reload_example :=
  Or.inr ⟨reload_example_ready,
    fun i h => by
      have hi : i = 0 := by
        by_contra hne
        simp [reload_example, bitmap_set, bitmap_create, hne] at h
      subst hi
      exact ⟨by decide, by decide⟩,
    ⟨1, by decide, by decide, rfl⟩,
    ⟨{ pinned := false, kpage := 101, spte := 0x10001000, owner := 1 }, by decide, rfl⟩,
    by decide⟩

/-- C3 on a machine with two resident zero pages, the frame of the first
holding the bytes 0, 1, 2, ...: `evict` chooses the first page and writes it
to slot 0.  In `reload_example`, where the released frame has been given to
a third page and every frame holds zeros, `page_load` has to evict to obtain
a frame, and the frame it loads the page into holds the bytes 0, 1, 2, ...
again. -/
theorem evict_then_page_load_round_trip_witness :
    spt_keys_ok written_pages_example ∧
    swap_reachable written_pages_example.swap_table ∧
    (∃ i, i < written_pages_example.swap_table.bit_cnt ∧
      written_pages_example.swap_table.bits i = false) ∧
    evict_loop 3 written_pages_example
      = Res.ok ({ pinned := false, kpage := 100, spte := 0x10000000, owner := 1 },
          zero_spte 0x10000000 (some 100))
        ((evict_loop 3 written_pages_example).state_or written_pages_example) ∧
    evict 3 written_pages_example
      = Res.ok () ((evict 3 written_pages_example).state_or written_pages_example) ∧
    swapped_still 0x10000000 0
      ((evict 3 written_pages_example).state_or written_pages_example) reload_example ∧
    frame_obtainable 6 reload_example ∧
    reload_example.user_pool = [] ∧
    (∀ p i, reload_example.ram p i = 0) ∧
    ∃ kp k2, page_load 6 0x10000000 reload_example = Res.ok true k2 ∧
      k2.cur.sup_page_table 0x10000000
        = some { zero_spte 0x10000000 (some 100) with
            fte := some kp, swap_index := NOT_IN_SWAP_PARTITION } ∧
      pd_kpage k2 k2.current 0x10000000 = some kp ∧
      (∀ i, i < PGSIZE → k2.ram kp i = i % 256) ∧
      k2.swap_table.bits 0 = false := by
  refine ⟨written_pages_example_keys, fun _ h => absurd h Bool.false_ne_true,
    ⟨0, by decide, rfl⟩, rfl, rfl, reload_example_still, reload_example_obtainable, rfl,
    fun _ _ => rfl, ?_⟩
  obtain ⟨E, hE, _, _, _, _, _, hall⟩ :=
    evict_then_page_load_round_trip 3 6 written_pages_example
      ((evict_loop 3 written_pages_example).state_or written_pages_example)
      ((evict 3 written_pages_example).state_or written_pages_example)
      { pinned := false, kpage := 100, spte := 0x10000000, owner := 1 }
      (zero_spte 0x10000000 (some 100))
      written_pages_example_keys (fun _ h => absurd h Bool.false_ne_true) ⟨0, by decide, rfl⟩
      rfl rfl rfl rfl
  have hE0 : ((evict 3 written_pages_example).state_or written_pages_example).cur.sup_page_table
      0x10000000 = some { zero_spte 0x10000000 none with swap_index := 0 } := rfl
  have hE1 : E = { zero_spte 0x10000000 none with swap_index := 0 } :=
    Option.some.inj (hE.symm.trans hE0)
  subst hE1
  obtain ⟨kp, k2, h1, h2, h3, h4, h5, _⟩ :=
    hall reload_example reload_example_still reload_example_obtainable
  exact ⟨kp, k2, h1, h2, h3, fun i hi => h4 i hi, h5⟩

/-- The reload of `reload_example`, evaluated: `page_load` evicts the second
page from frame 101 to slot 1 and reads the first page into that frame, which
held zeros before and holds the bytes 0, 1, 2, ... of the page afterwards;
slot 0 is free again. -/
theorem reload_example_loads :
    ∃ k2, page_load 6 0x10000000 reload_example = Res.ok true k2 ∧
      k2.cur.sup_page_table 0x10000000 = some (zero_spte 0x10000000 (some 101)) ∧
      k2.cur.sup_page_table 0x10001000
        = some { zero_spte 0x10001000 none with swap_index := 1 } ∧
      reload_example.ram 101 5 = 0 ∧ k2.ram 101 5 = 5 ∧ k2.ram 101 4095 = 255 ∧
      k2.swap_table.bits 0 = false ∧ k2.swap_table.bits 1 = true :=
  ⟨_, rfl, rfl, rfl, rfl, rfl, rfl, rfl, rfl⟩

end Pintos

namespace Pintos

/-! ## What unmapping writes to the file of a region -/

/-- The bytes a transfer of a whole page moves at page `i` of a file of
`length` bytes are the `read_bytes` of that page. -/
theorem file_span_page (length i : Nat) (h : i < mmap_page_count length) :
    file_span length PGSIZE (i * PGSIZE) = mmap_read_bytes length i := by
  unfold file_span mmap_read_bytes mmap_page_count at *
  simp only [PGSIZE] at *
  split
  · rename_i hc
    omega
  · rename_i hc
    have : ¬ (i + 1 = (length + 4096 - 1) / 4096 ∧ length % 4096 ≠ 0) := hc
    rw [Nat.min_def]
    split <;> omega

/-- C13: when the loop of `munmap_pages` reaches a resident, dirty `MMAP` page
(entry `P` under `key`, frame `h`, region `m`) whose `read_bytes` is the one
`mmap` recorded for that page of the file, `frame_free` writes the page back
and the loop goes on with the next page.  The write is one call
`file_write_at (file, kpage, PGSIZE, offset)`, and what it stores in the file
is exactly the first `read_bytes` bytes of the frame at the offset of the
page: every other byte of every file, the bytes after them included, is as
before, and no file changes its length.  For the last page of a file whose
length is not a multiple of 4096, `read_bytes` is `length mod 4096`, fewer
than 4096, so what the user stored in the tail of the page does not reach
the file. -/
theorem munmap_writes_back_read_bytes (k : Kernel) (key h : Nat) (rest : List Nat) (P : spte)
    (f : fte) (m : mmap_fd)
    (hP : k.cur.sup_page_table key = some P) (hty : P.page_type = page_type.MMAP)
    (hfte : P.fte = some h)
    (hf : k.frame_table.find? (fun f => decide (f.kpage = h)) = some f)
    (hfo : f.owner = k.current) (hfs : f.spte = key)
    (hm : k.cur.mmap_list.find? (fun m => decide (m.mapid = P.mmap_page.mmap_fd)) = some m)
    (hdirty : pagedir_is_dirty k.cur.pagedir P.upage = true)
    (hoff : P.mmap_page.offset < mmap_page_count (k.fs.inode_length (k.fs.inode_of m.file)))
    (hrb : P.mmap_page.read_bytes
      = mmap_read_bytes (k.fs.inode_length (k.fs.inode_of m.file)) P.mmap_page.offset) :
    ∃ k1 k2, frame_free h k = Res.ok () k1 ∧ hash_delete P.upage k1 = Res.ok () k2 ∧
      munmap_loop (key :: rest) k = munmap_loop rest k2 ∧
      k1.trace = k.trace ++ [event.file_write_at m.file PGSIZE (P.mmap_page.offset * PGSIZE)] ∧
      k2.trace = k1.trace ∧ k2.fs = k1.fs ∧
      k1.fs.inode_length = k.fs.inode_length ∧
      (∀ i j, k1.fs.inode_data i j =
        if i = k.fs.inode_of m.file ∧ P.mmap_page.offset * PGSIZE ≤ j ∧
            j < P.mmap_page.offset * PGSIZE + P.mmap_page.read_bytes then
          k.ram h (j - P.mmap_page.offset * PGSIZE)
        else k.fs.inode_data i j) ∧
      (P.mmap_page.offset + 1 = mmap_page_count (k.fs.inode_length (k.fs.inode_of m.file)) →
        k.fs.inode_length (k.fs.inode_of m.file) % PGSIZE ≠ 0 →
        P.mmap_page.read_bytes = k.fs.inode_length (k.fs.inode_of m.file) % PGSIZE ∧
          P.mmap_page.read_bytes < PGSIZE) := by
  have hspan := file_span_page _ _ hoff
  rw [← hrb] at hspan
  have hP2 : (k.threads f.owner).sup_page_table f.spte = some P := by
    rw [hfo, hfs]; exact hP
  have hm2 : (k.threads f.owner).mmap_list.find?
      (fun m => decide (m.mapid = P.mmap_page.mmap_fd)) = some m := by
    rw [hfo]; exact hm
  have hwb : ∀ k0 : Kernel, k0.threads = k.threads → k0.fs = k.fs → k0.ram = k.ram →
      write_back f.owner P k0 = Res.ok ()
        ((k0.with_trace
          (k0.trace ++ [event.file_write_at m.file PGSIZE (P.mmap_page.offset * PGSIZE)])).with_fs
          { k.fs with
            inode_data := fun i j =>
              if i = k.fs.inode_of m.file ∧ P.mmap_page.offset * PGSIZE ≤ j ∧
                  j < P.mmap_page.offset * PGSIZE + P.mmap_page.read_bytes then
                k.ram h (j - P.mmap_page.offset * PGSIZE)
              else k.fs.inode_data i j }) := by
    intro k0 ht hfs0 hr0
    unfold write_back
    simp only [K.run_bind, K.seq, K.run_get, hty, ht, hm2, hfte, file_write_at, K.emit,
      K.run_modify, Kernel.with_trace_fs, hfs0, hspan, K.run_pure, Kernel.with_trace_ram, hr0]
  obtain ⟨k1, hk1, hrun⟩ : ∃ k1, k1 =
      (((((k.with_frame_table (k.frame_table.filter (fun g => decide (g.kpage ≠ h)))).with_trace
          (k.trace ++ [event.file_write_at m.file PGSIZE (P.mmap_page.offset * PGSIZE)])).with_fs
          { k.fs with
            inode_data := fun i j =>
              if i = k.fs.inode_of m.file ∧ P.mmap_page.offset * PGSIZE ≤ j ∧
                  j < P.mmap_page.offset * PGSIZE + P.mmap_page.read_bytes then
                k.ram h (j - P.mmap_page.offset * PGSIZE)
              else k.fs.inode_data i j }).with_thread k.current (fun t =>
          t.with_pagedir (pagedir_clear_page t.pagedir P.upage))).with_user_pool
        (f.kpage :: k.user_pool)).with_thread f.owner (fun t =>
          t.with_spte f.spte (fun s => { s with fte := none })) ∧
      frame_free h k = Res.ok () k1 := by
    refine ⟨_, rfl, ?_⟩
    unfold frame_free
    simp only [K.run_bind, K.seq, K.run_get, hf, hP2, K.run_modify, hdirty, if_true,
      hwb (k.with_frame_table (k.frame_table.filter (fun g => decide (g.kpage ≠ h)))) rfl rfl rfl,
      palloc_free_page]
    rfl
  refine ⟨k1, _, hrun, rfl, ?_, ?_, rfl, rfl, ?_, ?_, ?_⟩
  · rw [munmap_loop]
    simp only [K.run_bind, K.seq, K.run_get, hP, hfte, hrun, hash_delete, K.run_modify]
  · rw [hk1]; rfl
  · rw [hk1]; rfl
  · intro i j
    rw [hk1]
    rfl
  · intro hlast hmod
    rw [hrb]
    unfold mmap_read_bytes
    rw [if_pos ⟨hlast, hmod⟩]
    exact ⟨rfl, Nat.mod_lt _ (by decide)⟩

/-- C13 on `mmap_two_pages_example`, a file of 5000 bytes mapped as two pages:
the second page, dirty and filled with the byte 0x58 by the user, has
`read_bytes` 904, and its write back stores the 904 bytes at offsets 4096 to
4999 of the file. -/
theorem munmap_writes_back_read_bytes_witness :
    mmap_two_pages_example.cur.sup_page_table 0x10001000
      = some (mmap_spte 0x10001000 0 1 904 (some 101) NOT_IN_SWAP_PARTITION) ∧
    pagedir_is_dirty mmap_two_pages_example.cur.pagedir 0x10001000 = true ∧
    1 < mmap_page_count (mmap_two_pages_example.fs.inode_length 0) ∧
    904 = mmap_read_bytes (mmap_two_pages_example.fs.inode_length 0) 1 ∧
    ∃ k1 k2, frame_free 101 mmap_two_pages_example = Res.ok () k1 ∧
      hash_delete 0x10001000 k1 = Res.ok () k2 ∧
      munmap_loop [0x10001000] mmap_two_pages_example = munmap_loop [] k2 ∧
      k1.trace = mmap_two_pages_example.trace ++ [event.file_write_at 5 PGSIZE (1 * PGSIZE)] ∧
      k2.trace = k1.trace ∧ k2.fs = k1.fs ∧
      k1.fs.inode_length = mmap_two_pages_example.fs.inode_length ∧
      (∀ i j, k1.fs.inode_data i j =
        if i = 0 ∧ 1 * PGSIZE ≤ j ∧ j < 1 * PGSIZE + 904 then
          mmap_two_pages_example.ram 101 (j - 1 * PGSIZE)
        else mmap_two_pages_example.fs.inode_data i j) ∧
      (1 + 1 = mmap_page_count (mmap_two_pages_example.fs.inode_length 0) →
        mmap_two_pages_example.fs.inode_length 0 % PGSIZE ≠ 0 →
        904 = mmap_two_pages_example.fs.inode_length 0 % PGSIZE ∧ 904 < PGSIZE) :=
  ⟨rfl, rfl, by decide, by decide,
    munmap_writes_back_read_bytes mmap_two_pages_example 0x10001000 101 []
      (mmap_spte 0x10001000 0 1 904 (some 101) NOT_IN_SWAP_PARTITION)
      { pinned := false, kpage := 101, spte := 0x10001000, owner := 1 }
      { mapid := 0, file := 5, spte_list := [0x10000000, 0x10001000] }
      rfl rfl rfl rfl rfl rfl rfl rfl (by decide) (by decide)⟩

/-- The whole `munmap_pages` of the region of `mmap_two_pages_example`,
evaluated: one write is requested, for the dirty second page; afterwards the
file is 5000 bytes long as before, its bytes 4096 to 4999 are the 0x58 the
user stored, and byte 5000, where the 0x58 at offset 904 of the page would
go, is as before. -/
theorem munmap_example_file_contents :
    mmap_two_pages_example.ram 101 904 = 0x58 ∧
    mmap_two_pages_example.fs.inode_data 0 4096 = 0 ∧
    ∃ k1, munmap_pages 0 mmap_two_pages_example = Res.ok () k1 ∧
      k1.trace = [event.file_write_at 5 4096 4096] ∧
      k1.fs.inode_length 0 = 5000 ∧
      k1.fs.inode_data 0 4095 = 0 ∧ k1.fs.inode_data 0 4096 = 0x58 ∧
      k1.fs.inode_data 0 4999 = 0x58 ∧ k1.fs.inode_data 0 5000 = 0 :=
  ⟨rfl, rfl, _, rfl, rfl, rfl, rfl, rfl, rfl, rfl⟩

end Pintos

namespace Pintos

/-! ## The slot of an evicted page -/

/-- C15, as the code has it: `evict` gives every victim a slot, whatever the
kind of its page (`ZERO`, `FILE`, writable or not, `MMAP`) and whether or not
the page was written.  With a free slot in the table (and no slot from 65535
on in use), when `evict` has chosen frame `f` with entry `P` and returns, the
lowest free slot `s` has been taken: the swap bitmap has gained exactly that
bit, the eight sectors of the slot hold the bytes of the frame, and the entry
records `s` and no frame.  The next `page_load` of the page, when it belongs
to the running process, returns `true` without a call into the file system
(the trace is unchanged): the frame holds what `swap_in` read from the
sectors of the slot, the slot is free again and the entry records no slot. -/
theorem evict_swaps_out_every_victim (fuel fuel2 : Nat) (k km k1 : Kernel) (f : fte) (P : spte)
    (hkeys : spt_keys_ok k) (hreach : swap_reachable k.swap_table)
    (hfree : ∃ i, i < k.swap_table.bit_cnt ∧ k.swap_table.bits i = false)
    (hchoose : evict_loop fuel k = Res.ok (f, P) km)
    (he : evict fuel k = Res.ok () k1) :
    ∃ s, s < k.swap_table.bit_cnt ∧ s ≠ NOT_IN_SWAP_PARTITION ∧
      k.swap_table.bits s = false ∧ (∀ j, j < s → k.swap_table.bits j = true) ∧
      k1.swap_table = bitmap_set k.swap_table s true ∧
      (k1.threads f.owner).sup_page_table f.spte
        = some { P with swap_index := s, fte := none } ∧
      (∀ m j, m < FRAME_SECTORS → j < BLOCK_SECTOR_SIZE →
        k1.swap_block.data (s * FRAME_SECTORS + m) j
          = k.ram f.kpage (BLOCK_SECTOR_SIZE * m + j)) ∧
      (f.owner = k.current → is_user_vaddr P.upage = true →
        ∃ k2, page_load fuel2 P.upage k1 = Res.ok true k2 ∧ k2.trace = k1.trace ∧
          k2.cur.sup_page_table P.upage
            = some { P with fte := some f.kpage, swap_index := NOT_IN_SWAP_PARTITION } ∧
          (∀ m j, m < FRAME_SECTORS → j < BLOCK_SECTOR_SIZE →
            k2.ram f.kpage (BLOCK_SECTOR_SIZE * m + j)
              = k1.swap_block.data (s * FRAME_SECTORS + m) j) ∧
          k2.swap_table = k.swap_table) := by
  have hc := evict_loop_chosen fuel k km f P hchoose
  obtain ⟨f1, sp1, km1, s, ks, _, hloop1, hswap, hk1⟩ := evict_inv he
  rw [hchoose] at hloop1
  cases hloop1
  obtain ⟨hup, hkey⟩ := hkeys _ _ _ hc.entry
  have hreach1 : swap_reachable km.swap_table := by rw [hc.rel.swap_table]; exact hreach
  have hfree1 : ∃ i, i < km.swap_table.bit_cnt ∧ km.swap_table.bits i = false := by
    rw [hc.rel.swap_table]; exact hfree
  obtain ⟨hs, hsl, hsb, b, hl, hks⟩ := swap_out_free_inv hreach1 hfree1 hswap
  obtain ⟨hs0, _, _⟩ := swap_out_inv hswap
  have hfst : (bitmap_scan_and_flip km.swap_table 0 SWAP_FREE).1
      = bitmap_scan km.swap_table 0 SWAP_FREE := by
    unfold bitmap_scan_and_flip
    by_cases h : bitmap_scan km.swap_table 0 SWAP_FREE ≠ BITMAP_ERROR <;> simp [h]
  have hlow : ∀ j, j < s → km.swap_table.bits j = true := by
    obtain ⟨_, _, hall⟩ := bitmap_scan_free km.swap_table hfree1
    intro j hj
    rw [hs0, hfst] at hj
    exact hall j hj
  have e16 : to_uint16 s = s := by unfold to_uint16; omega
  have hsne : s ≠ NOT_IN_SWAP_PARTITION := by
    simp only [NOT_IN_SWAP_PARTITION]; omega
  have hkeyP : pg_round_down P.upage = P.upage := by rw [hup]; exact hkey
  have hent1 : (k1.threads f.owner).sup_page_table f.spte
      = some { P with swap_index := s, fte := none } := by
    rw [hk1, evict_release_spt, if_pos rfl, hks]
    simp only [Kernel.with_swap_block_threads, Kernel.with_swap_table_threads]
    rw [hc.rel.spt, hc.entry, e16]
    rfl
  have hsw1 : k1.swap_table = bitmap_set km.swap_table s true := by
    rw [hk1, evict_release_swap_table, hks]
    rfl
  have hdata1 : k1.swap_block.data = b.data := by
    rw [hk1, hks]
    rfl
  have hsec : to_uint32 (s * FRAME_SECTORS) < 4294967296 := by
    unfold to_uint32; exact Nat.mod_lt _ (by norm_num)
  have hidx : ∀ m, m < FRAME_SECTORS →
      (to_uint32 (s * FRAME_SECTORS) + m) % 4294967296 = s * FRAME_SECTORS + m := by
    intro m hm
    simp only [to_uint32, FRAME_SECTORS] at *
    omega
  refine ⟨s, by rw [← hc.rel.swap_table]; exact hsl, hsne,
    by rw [← hc.rel.swap_table]; exact hsb,
    by rw [← hc.rel.swap_table]; exact hlow,
    by rw [hsw1, hc.rel.swap_table], hent1, ?_, ?_⟩
  · intro m j hm hj
    have := swap_out_loop_hit (km.ram f.kpage) PGSIZE 0 _ km.swap_block b m j hl hsec
      (by simp only [FRAME_SECTORS, PGSIZE] at *; omega) hj (by simp only [PGSIZE]; omega)
    rw [hidx m hm, Nat.zero_add, hc.rel.ram] at this
    rw [hdata1]
    exact this
  · intro hown hu
    have hcur : km.current = k.current := hc.rel.current
    have hk1cur : k1.current = f.owner := by
      rw [hk1, evict_release_current, hks, hown]
      exact hcur
    have hP1 : k1.cur.sup_page_table P.upage
        = some { P with swap_index := s, fte := none } := by
      unfold Kernel.cur
      have h2 := hent1
      rw [← hup] at h2
      rw [hk1cur]
      exact h2
    have hpd : (k1.threads k1.current).pagedir P.upage = none := by
      rw [hk1cur, hk1, evict_release_pagedir]
      unfold pagedir_clear_page
      rw [hkeyP, if_pos rfl]
    have hpool1 : k1.user_pool = f.kpage :: km.user_pool := by
      rw [hk1, evict_release_user_pool, hks]
      rfl
    obtain ⟨k2, hload, _, hQ, _, hram, hsw, htr⟩ :=
      @page_load_swapped fuel2 P.upage f.kpage km.user_pool k1
        { P with swap_index := s, fte := none }
        hu hkeyP hc.upage_ne hP1 rfl hsne
        (by rw [hsw1]; exact hsl)
        (by rw [hsw1]; simp [bitmap_set])
        hpool1 hpd
    refine ⟨k2, hload, htr, hQ, ?_, ?_⟩
    · intro m j hm hj
      have := swap_in_loop_hit k1.swap_block PGSIZE 0 _ (k1.ram f.kpage) (k2.ram f.kpage) m j
        hram hsec (by simp only [FRAME_SECTORS, PGSIZE] at *; omega) hj
        (by simp only [PGSIZE]; omega)
      rw [hidx m hm, Nat.zero_add] at this
      exact this
    · rw [hsw, hsw1, hc.rel.swap_table]
      cases hkt : k.swap_table with
      | mk cnt bits =>
        have hb : bits s = false := by
          have := hsb
          rw [hc.rel.swap_table, hkt] at this
          exact this
        simp only [bitmap_set]
        congr 1
        funext j
        by_cases hj : j = s
        · subst hj; simp [hb]
        · simp [hj]

/-- C15 on `mmap_two_pages_example`: the victim is the clean `MMAP` page at
0x10000000; it is given slot 0. -/
theorem evict_swaps_out_every_victim_witness :
    spt_keys_ok mmap_two_pages_example ∧
    swap_reachable mmap_two_pages_example.swap_table ∧
    (∃ i, i < mmap_two_pages_example.swap_table.bit_cnt ∧
      mmap_two_pages_example.swap_table.bits i = false) ∧
    evict_loop 3 mmap_two_pages_example
      = Res.ok ({ pinned := false, kpage := 100, spte := 0x10000000, owner := 1 },
          mmap_spte 0x10000000 0 0 4096 (some 100) NOT_IN_SWAP_PARTITION)
        ((evict_loop 3 mmap_two_pages_example).state_or mmap_two_pages_example) ∧
    evict 3 mmap_two_pages_example
      = Res.ok () ((evict 3 mmap_two_pages_example).state_or mmap_two_pages_example) ∧
    ∃ s, s < mmap_two_pages_example.swap_table.bit_cnt ∧ s ≠ NOT_IN_SWAP_PARTITION ∧
      mmap_two_pages_example.swap_table.bits s = false ∧
      (∀ j, j < s → mmap_two_pages_example.swap_table.bits j = true) ∧
      ((evict 3 mmap_two_pages_example).state_or mmap_two_pages_example).swap_table
        = bitmap_set mmap_two_pages_example.swap_table s true ∧
      (((evict 3 mmap_two_pages_example).state_or mmap_two_pages_example).threads
          1).sup_page_table 0x10000000
        = some { mmap_spte 0x10000000 0 0 4096 (some 100) NOT_IN_SWAP_PARTITION with
            swap_index := s, fte := none } ∧
      (∀ m j, m < FRAME_SECTORS → j < BLOCK_SECTOR_SIZE →
        ((evict 3 mmap_two_pages_example).state_or mmap_two_pages_example).swap_block.data
            (s * FRAME_SECTORS + m) j
          = mmap_two_pages_example.ram 100 (BLOCK_SECTOR_SIZE * m + j)) ∧
      ((1 : Nat) = mmap_two_pages_example.current → is_user_vaddr 0x10000000 = true →
        ∃ k2, page_load 3 0x10000000
            ((evict 3 mmap_two_pages_example).state_or mmap_two_pages_example)
            = Res.ok true k2 ∧
          k2.trace = ((evict 3 mmap_two_pages_example).state_or mmap_two_pages_example).trace ∧
          k2.cur.sup_page_table 0x10000000
            = some { mmap_spte 0x10000000 0 0 4096 (some 100) NOT_IN_SWAP_PARTITION with
                fte := some 100, swap_index := NOT_IN_SWAP_PARTITION } ∧
          (∀ m j, m < FRAME_SECTORS → j < BLOCK_SECTOR_SIZE →
            k2.ram 100 (BLOCK_SECTOR_SIZE * m + j)
              = ((evict 3 mmap_two_pages_example).state_or
                  mmap_two_pages_example).swap_block.data (s * FRAME_SECTORS + m) j) ∧
          k2.swap_table = mmap_two_pages_example.swap_table) :=
  have hkeys : spt_keys_ok mmap_two_pages_example := by
    intro tid key sp h
    simp only [mmap_two_pages_example, Kernel.with_ram_threads, Kernel.with_fs_threads,
      Kernel.with_frame_table_threads, Kernel.with_threads_threads] at h
    split at h
    · simp only [thread.empty] at h
      split at h
      · cases h; subst_vars; exact ⟨rfl, by decide⟩
      · split at h
        · cases h; subst_vars; exact ⟨rfl, by decide⟩
        · cases h
    · cases h
  ⟨hkeys, fun _ h => absurd h Bool.false_ne_true, ⟨0, by decide, rfl⟩, rfl, rfl,
    evict_swaps_out_every_victim 3 3 mmap_two_pages_example
      ((evict_loop 3 mmap_two_pages_example).state_or mmap_two_pages_example)
      ((evict 3 mmap_two_pages_example).state_or mmap_two_pages_example)
      { pinned := false, kpage := 100, spte := 0x10000000, owner := 1 }
      (mmap_spte 0x10000000 0 0 4096 (some 100) NOT_IN_SWAP_PARTITION)
      hkeys (fun _ h => absurd h Bool.false_ne_true) ⟨0, by decide, rfl⟩ rfl rfl⟩

end Pintos

namespace Pintos

/-! ## What leaves the descriptor lists alone -/

theorem fds_kept.refl (k : Kernel) : fds_kept k k := ⟨rfl, fun _ => rfl⟩

theorem fds_kept.trans {k k1 k2 : Kernel} (h1 : fds_kept k k1) (h2 : fds_kept k1 k2) :
    fds_kept k k2 :=
  ⟨h2.current.trans h1.current, fun tid => (h2.fd_list tid).trans (h1.fd_list tid)⟩

theorem fds_kept_with_thread (k : Kernel) (tid : Nat) (f : thread → thread)
    (h : ∀ t, (f t).fd_list = t.fd_list) : fds_kept k (k.with_thread tid f) := by
  refine ⟨rfl, fun i => ?_⟩
  simp only [Kernel.with_thread_threads]
  split
  · exact h _
  · rfl

theorem K.keeps_pure {α : Type} (a : α) : K.keeps_fds (pure a : K α) := by
  intro k b k1 h
  cases h
  exact fds_kept.refl k

theorem K.keeps_bind {α β : Type} {x : K α} {f : α → K β} (hx : K.keeps_fds x)
    (hf : ∀ a, K.keeps_fds (f a)) : K.keeps_fds (x >>= f) := by
  intro k b k2 h
  simp only [K.run_bind, K.seq_eq_ok] at h
  obtain ⟨a, k1, h1, h2⟩ := h
  exact (hx k a k1 h1).trans (hf a k1 b k2 h2)

theorem K.keeps_get : K.keeps_fds K.get := by
  intro k a k1 h
  cases h
  exact fds_kept.refl k

theorem K.keeps_modify {f : Kernel → Kernel} (h : ∀ k, fds_kept k (f k)) :
    K.keeps_fds (K.modify f) := by
  intro k a k1 hr
  cases hr
  exact h k

theorem K.keeps_panic {α : Type} (s : panic_site) : K.keeps_fds (K.panic s : K α) := by
  intro k a k1 h
  cases h

theorem K.keeps_no_fuel {α : Type} : K.keeps_fds (K.no_fuel : K α) := by
  intro k a k1 h
  cases h

theorem K.keeps_assert (c : Bool) (s : panic_site) : K.keeps_fds (K.assert c s) := by
  cases c
  · exact K.keeps_panic s
  · exact K.keeps_pure ()

theorem K.keeps_emit (e : event) : K.keeps_fds (K.emit e) :=
  K.keeps_modify (fun _ => ⟨rfl, fun _ => rfl⟩)

theorem page_get_spte_keeps (uaddr : Nat) : K.keeps_fds (page_get_spte uaddr) := by
  unfold page_get_spte
  exact K.keeps_bind (K.keeps_assert _ _) (fun _ => K.keeps_bind K.keeps_get
    (fun _ => K.keeps_pure _))

theorem file_write_at_keeps (file kpage size offset : Nat) :
    K.keeps_fds (file_write_at file kpage size offset) := by
  unfold file_write_at
  exact K.keeps_bind (K.keeps_emit _) (fun _ => K.keeps_bind K.keeps_get
    (fun _ => K.keeps_bind (K.keeps_modify (fun _ => ⟨rfl, fun _ => rfl⟩))
      (fun _ => K.keeps_pure _)))

theorem file_read_at_keeps (file kpage size offset : Nat) :
    K.keeps_fds (file_read_at file kpage size offset) := by
  unfold file_read_at
  exact K.keeps_bind (K.keeps_emit _) (fun _ => K.keeps_bind K.keeps_get
    (fun _ => K.keeps_bind (K.keeps_modify (fun _ => ⟨rfl, fun _ => rfl⟩))
      (fun _ => K.keeps_pure _)))

theorem zero_tail_keeps (kpage start : Nat) : K.keeps_fds (zero_tail kpage start) :=
  K.keeps_modify (fun _ => ⟨rfl, fun _ => rfl⟩)

theorem write_back_keeps (owner : Nat) (sp : spte) : K.keeps_fds (write_back owner sp) := by
  unfold write_back
  refine K.keeps_bind K.keeps_get (fun k0 => ?_)
  split
  · split
    · exact K.keeps_panic _
    · exact K.keeps_bind (file_write_at_keeps _ _ _ _) (fun _ => K.keeps_pure _)
  · split
    · exact K.keeps_panic _
    · split
      · exact K.keeps_panic _
      · exact K.keeps_bind (file_write_at_keeps _ _ _ _) (fun _ => K.keeps_pure _)
  · exact K.keeps_pure _

theorem evict_keeps (fuel : Nat) : K.keeps_fds (evict fuel) := by
  intro k a k1 h
  obtain ⟨f, sp, km, s, ks, _, hloop, hswap, rfl⟩ := evict_inv h
  have hc := evict_loop_chosen _ _ _ _ _ hloop
  have hso := swap_out_swap_only hswap
  refine ⟨?_, fun tid => ?_⟩
  · rw [evict_release_current, hso.current]
    exact hc.rel.current
  · rw [evict_release_fd_list, hso.threads]
    exact hc.rel.fd_list tid

theorem palloc_get_page_keeps (flags : palloc_flags) : K.keeps_fds (palloc_get_page flags) := by
  intro k a k1 h
  unfold palloc_get_page at h
  split at h
  · cases h; exact fds_kept.refl k
  · cases h; exact ⟨rfl, fun _ => rfl⟩

theorem frame_alloc_page_keeps (fuel : Nat) (flags : palloc_flags) :
    ∀ n, K.keeps_fds (frame_alloc_page fuel flags n) := by
  intro n
  induction n with
  | zero => exact K.keeps_no_fuel
  | succ n ih =>
    unfold frame_alloc_page
    refine K.keeps_bind (palloc_get_page_keeps flags) (fun r => ?_)
    split
    · exact K.keeps_pure _
    · exact K.keeps_bind (evict_keeps fuel) (fun _ => ih)

theorem pagedir_set_page_keeps (tid upage kpage : Nat) (w : Bool) :
    K.keeps_fds (pagedir_set_page tid upage kpage w) := by
  unfold pagedir_set_page
  exact K.keeps_bind K.keeps_get (fun _ => K.keeps_bind (K.keeps_assert _ _)
    (fun _ => K.keeps_modify (fun k => fds_kept_with_thread k _ _ (fun _ => rfl))))

theorem frame_alloc_keeps (fuel key : Nat) (flags : palloc_flags) (w : Bool) :
    K.keeps_fds (frame_alloc fuel key flags w) := by
  unfold frame_alloc
  refine K.keeps_bind K.keeps_get (fun k0 => ?_)
  split
  · exact K.keeps_panic _
  · refine K.keeps_bind (K.keeps_assert _ _) (fun _ => K.keeps_bind (K.keeps_assert _ _)
      (fun _ => K.keeps_bind (frame_alloc_page_keeps _ _ _) (fun _ =>
        K.keeps_bind (K.keeps_modify (fun _ => ⟨rfl, fun _ => rfl⟩)) (fun _ =>
          K.keeps_bind (K.keeps_modify (fun k => fds_kept_with_thread k _ _ (fun _ => rfl)))
            (fun _ => K.keeps_bind (pagedir_set_page_keeps _ _ _ _)
              (fun _ => K.keeps_pure _))))))

theorem set_pinned_keeps (h : Nat) (v : Bool) : K.keeps_fds (set_pinned h v) :=
  K.keeps_modify (fun _ => ⟨rfl, fun _ => rfl⟩)

theorem frame_unpin_addr_keeps (uaddr : Nat) : K.keeps_fds (frame_unpin_addr uaddr) := by
  unfold frame_unpin_addr
  refine K.keeps_bind (page_get_spte_keeps _) (fun r => ?_)
  split
  · exact K.keeps_panic _
  · split
    · exact K.keeps_panic _
    · exact set_pinned_keeps _ _

theorem swap_in_keeps (kpage s : Nat) : K.keeps_fds (swap_in kpage s) := by
  intro k a k1 h
  obtain ⟨_, page, _, rfl⟩ := swap_in_inv h
  exact ⟨rfl, fun _ => rfl⟩

theorem swap_test_index_keeps (s : Nat) : K.keeps_fds (swap_test_index s) := by
  intro k a k1 h
  obtain ⟨_, _, rfl⟩ := swap_test_index_inv h
  exact fds_kept.refl k

theorem load_zero_page_keeps (fuel key : Nat) (sp : spte) :
    K.keeps_fds (load_zero_page fuel key sp) := by
  unfold load_zero_page
  exact K.keeps_bind (K.keeps_assert _ _) (fun _ => K.keeps_bind (frame_alloc_keeps _ _ _ _)
    (fun _ => frame_unpin_addr_keeps _))

theorem load_file_page_keeps (fuel key : Nat) (sp : spte) :
    K.keeps_fds (load_file_page fuel key sp) := by
  unfold load_file_page
  exact K.keeps_bind (frame_alloc_keeps _ _ _ _) (fun _ =>
    K.keeps_bind (file_read_at_keeps _ _ _ _) (fun _ => K.keeps_bind (K.keeps_assert _ _)
      (fun _ => zero_tail_keeps _ _)))

theorem load_mmap_page_keeps (fuel key : Nat) (sp : spte) :
    K.keeps_fds (load_mmap_page fuel key sp) := by
  unfold load_mmap_page
  refine K.keeps_bind (frame_alloc_keeps _ _ _ _) (fun _ => K.keeps_bind K.keeps_get
    (fun k0 => ?_))
  split
  · exact K.keeps_panic _
  · exact K.keeps_bind (file_read_at_keeps _ _ _ _) (fun _ => K.keeps_bind (K.keeps_assert _ _)
      (fun _ => zero_tail_keeps _ _))

theorem load_swap_page_keeps (fuel key : Nat) (sp : spte) :
    K.keeps_fds (load_swap_page fuel key sp) := by
  unfold load_swap_page
  exact K.keeps_bind (swap_test_index_keeps _) (fun _ => K.keeps_bind (K.keeps_assert _ _)
    (fun _ => K.keeps_bind (frame_alloc_keeps _ _ _ _) (fun _ =>
      K.keeps_bind (swap_in_keeps _ _) (fun _ =>
        K.keeps_modify (fun k => fds_kept_with_thread k _ _ (fun _ => rfl))))))

theorem page_load_keeps (fuel uaddr : Nat) : K.keeps_fds (page_load fuel uaddr) := by
  unfold page_load
  refine K.keeps_bind (page_get_spte_keeps _) (fun r => ?_)
  split
  · exact K.keeps_pure _
  · split
    · exact K.keeps_bind (load_swap_page_keeps _ _ _) (fun _ => K.keeps_pure _)
    · dsimp only
      split
      · exact K.keeps_bind (load_zero_page_keeps _ _ _) (fun _ => K.keeps_pure _)
      · exact K.keeps_bind (load_file_page_keeps _ _ _) (fun _ => K.keeps_pure _)
      · exact K.keeps_bind (load_mmap_page_keeps _ _ _) (fun _ => K.keeps_pure _)

theorem frame_pin_addr_keeps (fuel uaddr : Nat) : K.keeps_fds (frame_pin_addr fuel uaddr) := by
  unfold frame_pin_addr
  refine K.keeps_bind (page_get_spte_keeps _) (fun r => ?_)
  split
  · exact K.keeps_panic _
  · refine K.keeps_bind ?_ (fun _ => K.keeps_bind K.keeps_get (fun k0 => ?_))
    · split
      · exact K.keeps_bind (page_load_keeps _ _) (fun _ => K.keeps_pure _)
      · exact K.keeps_pure _
    · split
      · exact K.keeps_panic _
      · split
        · exact K.keeps_panic _
        · exact set_pinned_keeps _ _

theorem pin_loop_keeps (fuel : Nat) (continues : Nat → Bool) :
    ∀ n uaddr, K.keeps_fds (pin_loop fuel continues n uaddr) := by
  intro n
  induction n with
  | zero => intro uaddr; exact K.keeps_no_fuel
  | succ n ih =>
    intro uaddr
    unfold pin_loop
    split
    · exact K.keeps_bind (frame_pin_addr_keeps _ _) (fun _ => ih _)
    · exact K.keeps_pure _

theorem unpin_loop_keeps (continues : Nat → Bool) :
    ∀ n uaddr, K.keeps_fds (unpin_loop continues n uaddr) := by
  intro n
  induction n with
  | zero => intro uaddr; exact K.keeps_no_fuel
  | succ n ih =>
    intro uaddr
    unfold unpin_loop
    split
    · exact K.keeps_bind (frame_unpin_addr_keeps _) (fun _ => ih _)
    · exact K.keeps_pure _

theorem syscall_exit_keeps {α : Type} (status : Int) :
    K.keeps_fds (syscall_exit status : K α) := by
  intro k a k1 h
  unfold syscall_exit thread_exit at h
  simp [K.seq] at h

theorem kill_on_bad_uaddr_keeps (uaddr : Nat) : K.keeps_fds (kill_on_bad_uaddr uaddr) := by
  unfold kill_on_bad_uaddr
  refine K.keeps_bind (K.keeps_emit _) (fun _ => ?_)
  split
  · exact syscall_exit_keeps _
  · refine K.keeps_bind (page_get_spte_keeps _) (fun r => ?_)
    split
    · exact syscall_exit_keeps _
    · exact K.keeps_pure _

theorem filesys_open_keeps (name : Nat) : K.keeps_fds (filesys_open name) := by
  unfold filesys_open
  refine K.keeps_bind (K.keeps_emit _) (fun _ => K.keeps_bind K.keeps_get (fun k0 => ?_))
  split
  · exact K.keeps_pure _
  · exact K.keeps_bind (K.keeps_modify (fun _ => ⟨rfl, fun _ => rfl⟩)) (fun _ => K.keeps_pure _)

end Pintos

namespace Pintos

/-! ## The descriptor numbers `open` hands out -/

/-- What `open` did when it returned: the descriptor lists are those of the
call up to the point where the new descriptor is appended, numbered from the
back of the list. -/
theorem sys_open_inv {fuel file : Nat} {fd : Int} {k k1 : Kernel}
    (h : sys_open fuel file k = Res.ok fd k1) :
    ∃ km f, fds_kept k km ∧
      ((fd = ERROR ∧ k1 = km) ∨
        (((km.cur.fd_list.getLast? = none ∧ fd = FILENO_START) ∨
            ∃ d, km.cur.fd_list.getLast? = some d ∧ fd = d.fileno + 1) ∧
          k1 = km.with_thread km.current (fun t =>
            { t with fd_list := t.fd_list ++ [{ fileno := fd, file := f }] }))) := by
  unfold sys_open at h
  simp only [K.run_bind, K.seq_eq_ok, K.get_eq_ok] at h
  obtain ⟨_, ka, h1, _, _, ⟨rfl, rfl⟩, _, kb, h2, f, kc, h3, _, kd, h4, h5⟩ := h
  have hk : fds_kept k kd :=
    ((kill_on_bad_uaddr_keeps _ _ _ _ h1).trans (pin_loop_keeps _ _ _ _ _ _ _ h2)).trans
      ((filesys_open_keeps _ _ _ _ h3).trans (unpin_loop_keeps _ _ _ _ _ _ h4))
  refine ⟨kd, f, hk, ?_⟩
  by_cases hf : f = 0
  · left
    simp only [hf, if_true, K.pure_eq_ok] at h5
    exact ⟨h5.1.symm, h5.2.symm⟩
  · right
    simp only [hf, if_false, K.run_bind, K.seq_eq_ok, K.get_eq_ok, K.modify_eq_ok,
      K.pure_eq_ok] at h5
    obtain ⟨_, _, ⟨rfl, rfl⟩, _, _, hmod, hfd, rfl⟩ := h5
    cases hl : kd.cur.fd_list.getLast? with
    | none =>
      simp only [hl] at hfd hmod
      exact ⟨Or.inl ⟨rfl, hfd.symm⟩, by rw [← hmod, ← hfd]⟩
    | some d =>
      simp only [hl] at hfd hmod
      exact ⟨Or.inr ⟨d, rfl, hfd.symm⟩, by rw [← hmod, ← hfd]⟩

/-- What `close` did when it returned. -/
theorem close_inv {fd : Int} {k k1 : Kernel} (h : close fd k = Res.ok () k1) :
    k1.current = k.current ∧
      ((k.cur.fd_list.find? (fun d => decide (d.fileno = fd)) = none ∧
          k1.cur.fd_list = k.cur.fd_list) ∨
        ∃ d, k.cur.fd_list.find? (fun d => decide (d.fileno = fd)) = some d ∧
          k1.cur.fd_list = k.cur.fd_list.erase d) := by
  unfold close get_fildes at h
  simp only [K.run_bind, K.seq_eq_ok, K.get_eq_ok, K.pure_eq_ok] at h
  obtain ⟨r, _, ⟨_, _, ⟨rfl, rfl⟩, rfl, rfl⟩, h⟩ := h
  cases hr : k.cur.fd_list.find? (fun d => decide (d.fileno = fd)) with
  | none =>
    simp only [hr, K.pure_eq_ok] at h
    obtain ⟨_, rfl⟩ := h
    exact ⟨rfl, Or.inl ⟨rfl, rfl⟩⟩
  | some d =>
    simp only [hr, K.run_bind, K.seq_eq_ok, K.emit, K.modify_eq_ok] at h
    obtain ⟨_, _, rfl, rfl⟩ := h
    refine ⟨rfl, Or.inr ⟨d, rfl, ?_⟩⟩
    simp [Kernel.cur]

/-- In a list of descriptors in increasing order of number, erasing the
descriptor found for a number removes the descriptors of that number. -/
theorem erase_found_eq_filter (fd : Int) :
    ∀ (l : List file_descriptor) (d : file_descriptor),
      (l.map file_descriptor.fileno).Pairwise (fun a b => a < b) →
      l.find? (fun d => decide (d.fileno = fd)) = some d →
      l.erase d = l.filter (fun e => decide (e.fileno ≠ fd)) := by
  intro l
  induction l with
  | nil => intro d _ h; cases h
  | cons a l ih =>
    intro d hp h
    simp only [List.map_cons, List.pairwise_cons] at hp
    obtain ⟨ha, hl⟩ := hp
    by_cases hafd : a.fileno = fd
    · have hd : d = a := by
        simp only [List.find?_cons, hafd, decide_True] at h
        cases h; rfl
      subst hd
      have hfil : l.filter (fun e => decide (e.fileno ≠ fd)) = l := by
        rw [List.filter_eq_self]
        intro e he
        have := ha e.fileno (List.mem_map.mpr ⟨e, he, rfl⟩)
        simp only [decide_eq_true_eq]
        omega
      simp only [List.erase_cons_head, List.filter_cons, hafd, ne_eq, not_true_eq_false,
        decide_False]
      simpa using hfil.symm
    · have h2 : l.find? (fun d => decide (d.fileno = fd)) = some d := by
        simpa [List.find?_cons, hafd] using h
      have hdfd : d.fileno = fd := by
        have := List.find?_some h2
        simpa using this
      have hne : a ≠ d := by
        intro e
        rw [e] at hafd
        exact hafd hdfd
      rw [List.erase_cons_tail (by simpa using hne), ih d hl h2]
      simp [List.filter_cons, hafd]

/-- The last of a list in increasing order is above every other member. -/
theorem le_getLast_of_pairwise :
    ∀ (l : List Int) (last : Int), l.Pairwise (fun a b => a < b) → l.getLast? = some last →
      ∀ n, n ∈ l → n ≤ last := by
  intro l
  induction l with
  | nil => intro last _ h; cases h
  | cons a l ih =>
    intro last hp h n hn
    simp only [List.pairwise_cons] at hp
    cases l with
    | nil =>
      simp only [List.getLast?_singleton, Option.some.injEq] at h
      simp only [List.mem_singleton] at hn
      omega
    | cons b l =>
      have h2 : (b :: l).getLast? = some last := by
        simpa [List.getLast?_cons_cons] using h
      rcases List.mem_cons.mp hn with rfl | hn2
      · have h3 := ih last hp.2 h2 b (List.mem_cons_self _ _)
        have h4 := hp.1 b (List.mem_cons_self _ _)
        omega
      · exact ih last hp.2 h2 n hn2

theorem getLast?_map_fileno (l : List file_descriptor) :
    (l.map file_descriptor.fileno).getLast? = l.getLast?.map file_descriptor.fileno := by
  simp [List.getLast?_eq_getElem?]

/-- What a successful `open` adds to a list in increasing order. -/
theorem sys_open_step {fuel file : Nat} {fd : Int} {k k1 : Kernel} (hk : fds_increasing k)
    (h : sys_open fuel file k = Res.ok fd k1) :
    k1.current = k.current ∧ fds_increasing k1 ∧
      ((fd = ERROR ∧ fd_numbers k1 = fd_numbers k) ∨
        ((∀ n, n ∈ fd_numbers k → n < fd) ∧ (fd_numbers k = [] → fd = FILENO_START) ∧
          (∀ last, (fd_numbers k).getLast? = some last → fd = last + 1) ∧
          fd_numbers k1 = fd_numbers k ++ [fd])) := by
  obtain ⟨km, f, hkm, hcase⟩ := sys_open_inv h
  have hlist : km.cur.fd_list = k.cur.fd_list := by
    unfold Kernel.cur
    rw [hkm.current, hkm.fd_list]
  have hnum : fd_numbers km = fd_numbers k := by
    unfold fd_numbers
    rw [hlist]
  rcases hcase with ⟨hfd, rfl⟩ | ⟨hnext, rfl⟩
  · refine ⟨hkm.current, ?_, Or.inl ⟨hfd, hnum⟩⟩
    unfold fds_increasing
    rw [hnum]
    exact hk
  · have hnum1 : fd_numbers (km.with_thread km.current (fun t =>
        { t with fd_list := t.fd_list ++ [{ fileno := fd, file := f }] }))
        = fd_numbers k ++ [fd] := by
      unfold fd_numbers
      simp [Kernel.cur, hkm.current, hkm.fd_list]
    have hlast : (fd_numbers k).getLast? = km.cur.fd_list.getLast?.map file_descriptor.fileno := by
      unfold fd_numbers
      rw [getLast?_map_fileno, hlist]
    have habove : ∀ n, n ∈ fd_numbers k → n < fd := by
      intro n hn
      rcases hnext with ⟨hnone, _⟩ | ⟨d, hd, hfd⟩
      · rw [hnone] at hlast
        have : fd_numbers k = [] := by
          cases hfn : fd_numbers k with
          | nil => rfl
          | cons a l =>
            rw [hfn] at hlast
            simp [List.getLast?_eq_getElem?] at hlast
        rw [this] at hn
        cases hn
      · rw [hd] at hlast
        have := le_getLast_of_pairwise _ _ hk.1 hlast n hn
        simp only [Option.map_some'] at this
        omega
    refine ⟨hkm.current, ?_, Or.inr ⟨habove, ?_, ?_, hnum1⟩⟩
    · unfold fds_increasing
      rw [hnum1]
      constructor
      · rw [List.pairwise_append]
        refine ⟨hk.1, List.pairwise_singleton _ _, ?_⟩
        intro a ha b hb
        simp only [List.mem_singleton] at hb
        rw [hb]
        exact habove a ha
      · intro n hn
        rcases List.mem_append.mp hn with hn | hn
        · exact hk.2 n hn
        · simp only [List.mem_singleton] at hn
          rw [hn]
          rcases hnext with ⟨_, hfd⟩ | ⟨d, hd, hfd⟩
          · rw [hfd]
          · rw [hd] at hlast
            have hmem : d.fileno ∈ fd_numbers k := by
              have := List.mem_of_getLast?_eq_some hlast
              simpa using this
            have := hk.2 _ hmem
            omega
    · intro hempty
      rcases hnext with ⟨_, hfd⟩ | ⟨d, hd, _⟩
      · exact hfd
      · rw [hd, hempty] at hlast
        simp at hlast
    · intro last hl
      rcases hnext with ⟨hnone, _⟩ | ⟨d, hd, hfd⟩
      · rw [hnone, hl] at hlast
        simp at hlast
      · rw [hd, hl] at hlast
        simp only [Option.map_some', Option.some.injEq] at hlast
        rw [hfd, hlast]

/-- What `close` removes from a list in increasing order. -/
theorem close_step {fd : Int} {k k1 : Kernel} (hk : fds_increasing k)
    (h : close fd k = Res.ok () k1) :
    k1.current = k.current ∧ fds_increasing k1 ∧
      k1.cur.fd_list = k.cur.fd_list.filter (fun d => decide (d.fileno ≠ fd)) := by
  obtain ⟨hcur, hcase⟩ := close_inv h
  have hfil : k1.cur.fd_list = k.cur.fd_list.filter (fun d => decide (d.fileno ≠ fd)) := by
    rcases hcase with ⟨hnone, hl⟩ | ⟨d, hd, hl⟩
    · rw [hl, eq_comm, List.filter_eq_self]
      intro e he
      have := List.find?_eq_none.mp hnone e he
      simpa using this
    · rw [hl]
      exact erase_found_eq_filter fd _ d hk.1 hd
  refine ⟨hcur, ?_, hfil⟩
  have hsub : (fd_numbers k1).Sublist (fd_numbers k) := by
    unfold fd_numbers
    rw [hfil]
    exact (List.filter_sublist _).map _
  exact ⟨hk.1.sublist hsub, fun n hn => hk.2 n (hsub.subset hn)⟩

/-- Along a sequence of `open` and `close` calls the same process runs and
its descriptors stay in increasing order. -/
theorem fd_calls_increasing {k0 k : Kernel} (h0 : fds_increasing k0) (hseq : fd_calls k0 k) :
    k.current = k0.current ∧ fds_increasing k := by
  induction hseq with
  | refl => exact ⟨rfl, h0⟩
  | sys_open fuel file fd _ hstep ih =>
    obtain ⟨h1, h2, _⟩ := sys_open_step ih.2 hstep
    exact ⟨h1.trans ih.1, h2⟩
  | close fd _ hstep ih =>
    obtain ⟨h1, h2, _⟩ := close_step ih.2 hstep
    exact ⟨h1.trans ih.1, h2⟩

end Pintos

namespace Pintos

/-- C14, as the code has it: along every sequence of `open` and `close` calls
of a process that starts with no descriptor open, the open descriptors are
listed in strictly increasing order of number, from 2 on.  An `open` that
does not fail returns a number above that of every descriptor open at that
moment: 2 when none is open (so the first successful `open` returns 2), else
one more than the number of the last descriptor of the list, and the new
descriptor joins the end of the list.  The number may have been returned
before: only the descriptors still open count.  `close` removes the
descriptor of the given number and leaves every other descriptor, number
included, as it is. -/
theorem open_numbers_exceed_open_descriptors (k0 k : Kernel) (h0 : k0.cur.fd_list = [])
    (hseq : fd_calls k0 k) :
    k.current = k0.current ∧ fds_increasing k ∧
    (∀ fuel file fd k1, sys_open fuel file k = Res.ok fd k1 →
      (fd = ERROR ∧ fd_numbers k1 = fd_numbers k) ∨
        ((∀ n, n ∈ fd_numbers k → n < fd) ∧ (fd_numbers k = [] → fd = FILENO_START) ∧
          (∀ last, (fd_numbers k).getLast? = some last → fd = last + 1) ∧
          fd_numbers k1 = fd_numbers k ++ [fd])) ∧
    (∀ fd k1, close fd k = Res.ok () k1 →
      k1.cur.fd_list = k.cur.fd_list.filter (fun d => decide (d.fileno ≠ fd))) := by
  have hinc0 : fds_increasing k0 := by
    unfold fds_increasing fd_numbers
    rw [h0]
    exact ⟨List.Pairwise.nil, fun _ h => by cases h⟩
  obtain ⟨hcur, hinc⟩ := fd_calls_increasing hinc0 hseq
  refine ⟨hcur, hinc, ?_, ?_⟩
  · intro fuel file fd k1 h
    exact (sys_open_step hinc h).2.2
  · intro fd k1 h
    exact (close_step hinc h).2.2

/-- C14 on `open_example`: after two `open` calls, which return 2 and 3, and
`close (3)`, descriptor 2 is the only one open, and by the theorem the next
`open` that does not fail returns 3. -/
theorem open_numbers_exceed_open_descriptors_witness :
    open_example.cur.fd_list = [] ∧
    sys_open 3 0x10000000 open_example = Res.ok 2 open_once_example ∧
    sys_open 3 0x10000000 open_once_example = Res.ok 3 open_twice_example ∧
    close 3 open_twice_example = Res.ok () open_closed_example ∧
    fd_calls open_example open_closed_example ∧
    fd_numbers open_closed_example = [2] ∧
    (open_closed_example.current = open_example.current ∧
      fds_increasing open_closed_example ∧
      (∀ fuel file fd k1, sys_open fuel file open_closed_example = Res.ok fd k1 →
        (fd = ERROR ∧ fd_numbers k1 = fd_numbers open_closed_example) ∨
          ((∀ n, n ∈ fd_numbers open_closed_example → n < fd) ∧
            (fd_numbers open_closed_example = [] → fd = FILENO_START) ∧
            (∀ last, (fd_numbers open_closed_example).getLast? = some last → fd = last + 1) ∧
            fd_numbers k1 = fd_numbers open_closed_example ++ [fd])) ∧
      (∀ fd k1, close fd open_closed_example = Res.ok () k1 →
        k1.cur.fd_list
          = open_closed_example.cur.fd_list.filter (fun d => decide (d.fileno ≠ fd)))) :=
  ⟨rfl, rfl, rfl, rfl,
    fd_calls.close 3
      (fd_calls.sys_open 3 0x10000000 3
        (fd_calls.sys_open 3 0x10000000 2 (fd_calls.refl open_example) rfl) rfl) rfl,
    rfl,
    open_numbers_exceed_open_descriptors open_example open_closed_example rfl
      (fd_calls.close 3
        (fd_calls.sys_open 3 0x10000000 3
          (fd_calls.sys_open 3 0x10000000 2 (fd_calls.refl open_example) rfl) rfl) rfl)⟩

end Pintos
